import Mathlib

/-!
# OGR GMT vector layer (`ogr/ogrsf_frmts/gmt/ogrgmtlayer.cpp`)

A shallow embedding of `OGRGmtLayer`: the line reader, the header parser run by the
constructor, the feature assembler `GetNextRawFeature` with its two lookahead helpers,
and the writer (`CompleteHeader`, `ICreateFeature`, `WriteGeometry`, `CreateField`),
followed by theorems about them.

Conventions of the embedding.

* A C string is a `List Char` (`Str`); the terminating NUL is implicit.
* The backing file is a byte sequence with a cursor (`VSILFILE`).
* Coordinates range over a linearly ordered type `α` standing for the finite `double`
  values; the text form of a number is not fixed here but supplied by `Env`
  (`OGRMakeWktCoordinate`, `CPLsscanf`, `CPLAtofM`).
* A field value is carried as the text `GetFieldAsString` yields on write and
  `SetField` receives on read.
-/

namespace Gmt

/-- A C string without its terminating NUL. -/
abbrev Str := List Char

/-! ## Character and string helpers of the C library and of CPL -/

/-- C `isspace` in the "C" locale: space, `\t`, `\n`, `\v`, `\f`, `\r`. -/
def isspace (c : Char) : Bool :=
  c == ' ' || c == '\t' || c == '\n' || c == Char.ofNat 11 || c == Char.ofNat 12 || c == '\r'

/-- ASCII lower-casing, as used by the case-insensitive comparisons `EQUAL` and
`STARTS_WITH_CI`. -/
def toLowerAscii (c : Char) : Char :=
  if 'A' ≤ c ∧ c ≤ 'Z' then Char.ofNat (c.toNat + 32) else c

/-- `STARTS_WITH(a, b)`: `b` is a prefix of `a`. -/
def STARTS_WITH : Str → Str → Bool
  | _, [] => true
  | [], _ :: _ => false
  | a :: as, b :: bs => a == b && STARTS_WITH as bs

/-- `STARTS_WITH_CI(a, b)`: `b` is a prefix of `a`, ignoring ASCII case. -/
def STARTS_WITH_CI (a b : Str) : Bool :=
  STARTS_WITH (a.map toLowerAscii) (b.map toLowerAscii)

/-- `EQUAL(a, b)`: equality ignoring ASCII case. -/
def EQUAL (a b : Str) : Bool :=
  a.map toLowerAscii == b.map toLowerAscii

/-- `strstr(s, pat) != nullptr`: `pat` occurs in `s`. -/
def strstr : Str → Str → Bool
  | [], pat => pat.isEmpty
  | c :: cs, pat => STARTS_WITH (c :: cs) pat || strstr cs pat

/-- `strchr(s, c) != nullptr` for a character `c` other than NUL. -/
def strchr (s : Str) (c : Char) : Bool :=
  s.contains c

/-- The C string held by a buffer: the characters before the first NUL. -/
def cstr (s : Str) : Str :=
  s.takeWhile (fun c => c != Char.ofNat 0)

/-- Modelled from the spec: `CPLEscapeString(.., CPLES_BackslashQuotable)` of
`port/cpl_string.cpp`, the "quote-and-backslash" escaping of the writer: NUL, newline,
double quote and backslash become `\0`, `\n`, `\"` and `\\`; every other character is
copied. -/
def CPLEscapeString : Str → Str
  | [] => []
  | c :: cs =>
    (if c == Char.ofNat 0 then ['\\', '0']
     else if c == '\n' then ['\\', 'n']
     else if c == '"' then ['\\', '"']
     else if c == '\\' then ['\\', '\\']
     else [c]) ++ CPLEscapeString cs

/-- The output buffer of `CPLUnescapeString(.., CPLES_BackslashQuotable)`: a backslash
makes the next character literal, `\n` and `\0` standing for newline and NUL; a
trailing lone backslash is dropped. -/
def unescapeBuf : Str → Str
  | [] => []
  | ['\\'] => []
  | '\\' :: c :: cs =>
    (if c == 'n' then '\n' else if c == '0' then Char.ofNat 0 else c) :: unescapeBuf cs
  | c :: cs => c :: unescapeBuf cs

/-- Modelled from the spec: `CPLUnescapeString(.., CPLES_BackslashQuotable)` of
`port/cpl_string.cpp`, the inverse of the backslash escaping; its result is used as a
C string, so it ends at the first NUL produced. -/
def CPLUnescapeString (s : Str) : Str :=
  cstr (unescapeBuf s)

/-- Inner and outer loop of `CSLTokenizeString2` run as one pass over the input:
`bInString` is the quoting state, `tok` the token being built, and `bLiteral` tells
that the character at hand was reached by the extra `++pszString` taken after a
backslash inside quotes, so it is copied without being examined. A delimiter outside
quotes ends the token; with `bHonourStrings` a double quote toggles the quoting state
and is not copied, and inside quotes a backslash before a quote or a backslash is
dropped. A token is kept when it is not empty or `bAllowEmpty` holds. -/
def tokenizeLoop (delims : Str) (bHonourStrings bAllowEmpty : Bool) :
    Str → Bool → Bool → Str → List Str
  | [], _, _, tok => if !tok.isEmpty || bAllowEmpty then [tok] else []
  | c :: cs, bInString, bLiteral, tok =>
    if bLiteral then
      tokenizeLoop delims bHonourStrings bAllowEmpty cs bInString false (tok ++ [c])
    else if !bInString && strchr delims c then
      (if !tok.isEmpty || bAllowEmpty then [tok] else []) ++
        (if cs.isEmpty then []
         else tokenizeLoop delims bHonourStrings bAllowEmpty cs false false [])
    else if bHonourStrings && c == '"' then
      tokenizeLoop delims bHonourStrings bAllowEmpty cs (!bInString) false tok
    else if bInString && c == '\\' &&
        (cs.head? == some '"' || cs.head? == some '\\') then
      tokenizeLoop delims bHonourStrings bAllowEmpty cs bInString true tok
    else
      tokenizeLoop delims bHonourStrings bAllowEmpty cs bInString false (tok ++ [c])

/-- Modelled from the spec: `CSLTokenizeStringComplex(s, delims, bHonourStrings,
bAllowEmptyTokens)` of `port/cpl_string.cpp`, the "pipe-delimited, quote-escaped"
tokenizer. After the pass a final empty token is added when empty tokens are allowed,
some token was found and the input ends with a delimiter. -/
def CSLTokenizeStringComplex (s delims : Str) (bHonourStrings bAllowEmpty : Bool) :
    List Str :=
  let toks :=
    if s.isEmpty then [] else tokenizeLoop delims bHonourStrings bAllowEmpty s false false []
  if bAllowEmpty && !toks.isEmpty && (match s.getLast? with
      | some c => strchr delims c
      | none => false) then toks ++ [[]] else toks

/-- Modelled from the spec: C `atoi`: optional white space, an optional sign, then the
longest run of decimal digits (0 when there is none). -/
def atoi (s : Str) : Int :=
  let s1 := s.dropWhile isspace
  let neg := s1.head? == some '-'
  let s2 := if s1.head? == some '-' || s1.head? == some '+' then s1.drop 1 else s1
  let n : Nat := (s2.takeWhile Char.isDigit).foldl (fun acc c => 10 * acc + (c.toNat - 48)) 0
  if neg then - (n : Int) else (n : Int)

/-! ## The backing file -/

/-- The `VSIFPrintfL` call sites of the layer, in the order of the source:
`"#%s\n"`, `"# @N%s\n"`, `"# @T%s\n"` and `"# FEATURE_DATA\n"` in `CompleteHeader`;
`">\n"` and `"# @D%s\n"` in `ICreateFeature`; `">\n"`, `"# @P\n"` and `"# @H\n"` in the
loop over sub-geometries of `WriteGeometry`, `">\n"` before a vertex list and
`"%s\n"` for a vertex. -/
inductive PrintfSite
  | geomMarker | fieldNames | fieldTypes | featureData
  | featureAngle | fieldData
  | ringAngle | ringOuter | ringHole | leafAngle | vertexLine
deriving DecidableEq, Repr

/-- Modelled from the spec: the VSI file handle, "one open file handle per layer": the
bytes of the file, the cursor, the number of bytes the device still accepts (`none`:
no limit), which is how an "I/O failure while writing" arises, and the record of the
texts written through the handle, each with the call site that wrote it. -/
structure VSILFILE where
  data : Str
  pos : Nat
  quota : Option Nat
  written : List (PrintfSite × Str)
deriving DecidableEq, Repr

/-- `VSIFSeekL(fp, off, SEEK_SET)`. -/
def VSIFSeekL (fp : VSILFILE) (off : Nat) : VSILFILE :=
  { fp with pos := off }

/-- `VSIFTellL(fp)`. -/
def VSIFTellL (fp : VSILFILE) : Nat :=
  fp.pos

/-- The bytes of the file after `s` has been stored at offset `pos`. -/
def storeAt (data : Str) (pos : Nat) (s : Str) : Str :=
  data.take pos ++ s ++ data.drop (pos + s.length)

/-- Modelled from the spec: `VSIFPrintfL(fp, ...)` at call site `site` with the
formatted text `s`: the text is stored at the cursor, which moves past it, and its
length is returned; when the device does not accept that many bytes nothing is
stored and 0 is returned. -/
def VSIFPrintfL (fp : VSILFILE) (site : PrintfSite) (s : Str) : Nat × VSILFILE :=
  match fp.quota with
  | none =>
    (s.length, { fp with
      data := storeAt fp.data fp.pos s
      pos := fp.pos + s.length
      written := fp.written ++ [(site, s)] })
  | some q =>
    if s.length ≤ q then
      (s.length, { data := storeAt fp.data fp.pos s, pos := fp.pos + s.length,
                   quota := some (q - s.length), written := fp.written ++ [(site, s)] })
    else (0, fp)

/-- Modelled from the spec: `CPLReadLineL(fp)`, "returns the next newline-terminated
record from the backing stream, or signals end-of-stream": the bytes from the cursor
up to the next newline, which is consumed and not returned; `none` at end of file. -/
def CPLReadLineL (fp : VSILFILE) : Option Str × VSILFILE :=
  if fp.pos < fp.data.length then
    let rest := fp.data.drop fp.pos
    let line := rest.takeWhile (fun c => c != '\n')
    let adv := if line.length < rest.length then line.length + 1 else line.length
    (some line, { fp with pos := fp.pos + adv })
  else (none, fp)

/-! ## Geometries, features and the schema -/

/-- `OGRwkbGeometryType` after `wkbFlatten`, restricted to the kinds of the format. -/
inductive OGRwkbGeometryType
  | wkbUnknown | wkbPoint | wkbLineString | wkbPolygon
  | wkbMultiPoint | wkbMultiLineString | wkbMultiPolygon
deriving DecidableEq, Repr

export OGRwkbGeometryType (wkbUnknown wkbPoint wkbLineString wkbPolygon wkbMultiPoint
  wkbMultiLineString wkbMultiPolygon)

/-- `OGRFieldType`. -/
inductive OGRFieldType
  | OFTInteger | OFTIntegerList | OFTReal | OFTRealList | OFTString | OFTStringList
  | OFTWideString | OFTWideStringList | OFTBinary | OFTDate | OFTTime | OFTDateTime
  | OFTInteger64 | OFTInteger64List
deriving DecidableEq, Repr

export OGRFieldType (OFTInteger OFTIntegerList OFTReal OFTRealList OFTString OFTStringList
  OFTWideString OFTWideStringList OFTBinary OFTDate OFTTime OFTDateTime OFTInteger64
  OFTInteger64List)

/-- `OGRErr`, restricted to the two values the layer returns. -/
inductive OGRErr
  | OGRERR_NONE | OGRERR_FAILURE
deriving DecidableEq, Repr

export OGRErr (OGRERR_NONE OGRERR_FAILURE)

/-- One vertex; a vertex of a 2D geometry carries the `z` that `OGR_G_GetZ` reports
for it, 0.0. -/
structure Vertex (α : Type) where
  x : α
  y : α
  z : α
deriving DecidableEq, Repr

/-- `OGRPoint`: possibly empty, with its 3D flag. -/
structure OGRPoint (α : Type) where
  coord : Option (Vertex α)
  is3D : Bool
deriving DecidableEq, Repr

/-- `OGRLineString` and `OGRLinearRing`: the vertices in order and the 3D flag. -/
structure OGRLineString (α : Type) where
  pts : List (Vertex α)
  is3D : Bool
deriving DecidableEq, Repr

/-- `OGRPolygon`: its rings, the exterior ring first. -/
structure OGRPolygon (α : Type) where
  rings : List (OGRLineString α)
deriving DecidableEq, Repr

/-- `OGRGeometry`: "a tagged variant over Point, LineString, Polygon, MultiPoint,
MultiLineString, MultiPolygon". -/
inductive OGRGeometry (α : Type)
  | point (p : OGRPoint α)
  | lineString (l : OGRLineString α)
  | polygon (p : OGRPolygon α)
  | multiPoint (ps : List (OGRPoint α))
  | multiLineString (ls : List (OGRLineString α))
  | multiPolygon (ps : List (OGRPolygon α))
deriving DecidableEq, Repr

/-- `wkbFlatten(poGeom->getGeometryType())`. -/
def OGRGeometry.getGeometryType {α : Type} : OGRGeometry α → OGRwkbGeometryType
  | .point _ => wkbPoint
  | .lineString _ => wkbLineString
  | .polygon _ => wkbPolygon
  | .multiPoint _ => wkbMultiPoint
  | .multiLineString _ => wkbMultiLineString
  | .multiPolygon _ => wkbMultiPolygon

/-- `OGRSpatialReference`, identified by the definition it was imported from. -/
inductive OGRSpatialReference
  | fromWkt (wkt : Str)
  | fromEPSG (code : Int)
  | fromProj4 (proj : Str)
deriving DecidableEq, Repr

/-- `OGRFieldDefn`: name and type. -/
structure OGRFieldDefn where
  name : Str
  type : OGRFieldType
deriving DecidableEq, Repr

/-- `OGRFeatureDefn`: layer name, geometry kind and the ordered fields. -/
structure OGRFeatureDefn where
  name : Str
  geomType : OGRwkbGeometryType
  fields : List OGRFieldDefn
deriving DecidableEq, Repr

/-- `OGRFeature`: feature id, the geometry with the spatial reference assigned to it,
and one value per schema field, `none` for an unset field. -/
structure OGRFeature (α : Type) where
  nFID : Int
  poGeom : Option (OGRGeometry α)
  poSRS : Option OGRSpatialReference
  fields : List (Option Str)
deriving DecidableEq, Repr

/-- `poFeature->GetFieldAsString(iField)`: the text of the value, empty when unset. -/
def OGRFeature.GetFieldAsString {α : Type} (f : OGRFeature α) (iField : Nat) : Str :=
  (f.fields.getD iField none).getD []

/-- `poFeature->SetField(iField, pszValue)`. -/
def OGRFeature.SetField {α : Type} (f : OGRFeature α) (iField : Nat) (v : Str) :
    OGRFeature α :=
  { f with fields := f.fields.set iField (some v) }

/-- Modelled from the spec: `OGREnvelope`, "four doubles (min/max per axis)". -/
structure OGREnvelope (α : Type) where
  MinX : α
  MaxX : α
  MinY : α
  MaxY : α
deriving DecidableEq, Repr

/-- Modelled from the spec: `OGREnvelope::Merge(x, y)`, "each written vertex updates
the layer's running bounding box"; `none` is the envelope that is not yet initialised
(`IsInit()` false). -/
def OGREnvelope.Merge {α : Type} [LinearOrder α] (e : Option (OGREnvelope α)) (x y : α) :
    Option (OGREnvelope α) :=
  match e with
  | none => some ⟨x, x, y, y⟩
  | some b => some ⟨min b.MinX x, max b.MaxX x, min b.MinY y, max b.MaxY y⟩

/-- The collaborators outside the layer: formatting and scanning of numbers, the
way coordinate-system definitions are imported, and the `GMT_USE_TAB` configuration
option. -/
structure Env (α : Type) where
  /-- The `double` 0.0. -/
  dfZero : α
  /-- The text `OGRMakeWktCoordinate(szLine, x, y, z, nDim)` stores in `szLine`. -/
  OGRMakeWktCoordinate : α → α → α → Nat → Str
  /-- The values `CPLsscanf(line, "%lf %lf %lf", ..)` converts, in order. -/
  CPLsscanf : Str → List α
  /-- `CPLAtofM`. -/
  CPLAtofM : Str → α
  /-- Whether `importFromWkt` returns `OGRERR_NONE`. -/
  importFromWkt : Str → Bool
  /-- Whether `importFromEPSG` returns `OGRERR_NONE`. -/
  importFromEPSG : Int → Bool
  /-- Whether `importFromProj4` returns `OGRERR_NONE`. -/
  importFromProj4 : Str → Bool
  /-- `CPLTestBool(CPLGetConfigOption("GMT_USE_TAB", "FALSE"))`. -/
  GMT_USE_TAB : Bool
  /-- `CPLGetBasenameSafe`. -/
  CPLGetBasenameSafe : Str → Str

/-! ## The layer -/

/-- The members of `OGRGmtLayer`. `papszKeyedValues` is `none` for `nullptr`;
`sRegion` is `none` while the envelope is not initialised. -/
structure OGRGmtLayer (α : Type) where
  poFeatureDefn : OGRFeatureDefn
  iNextFID : Nat
  bUpdate : Bool
  bHeaderComplete : Bool
  bRegionComplete : Bool
  sRegion : Option (OGREnvelope α)
  nRegionOffset : Nat
  m_fp : VSILFILE
  m_poSRS : Option OGRSpatialReference
  osLine : Str
  papszKeyedValues : Option (List Str)
  bValidFile : Bool
  m_nFeaturesRead : Nat
deriving DecidableEq, Repr

/-- The character `s[i]` of a C string, NUL at its end. -/
def charAt (s : Str) (i : Nat) : Char :=
  s.getD i (Char.ofNat 0)

/-- `CPLStringList::StealList()`: `nullptr` when nothing was added. -/
def StealList (l : List Str) : Option (List Str) :=
  if l.isEmpty then none else some l

/-- The inner `for (; iValEnd < osLine.length(); iValEnd++)` of `ReadLine`; the result
is the final `iValEnd`. The first argument bounds the number of iterations. -/
def scanValueEnd (osLine : Str) : Nat → Nat → Bool → Nat
  | 0, iValEnd, _ => iValEnd
  | fuel + 1, iValEnd, bInQuotes =>
    if iValEnd < osLine.length then
      if !bInQuotes && isspace (charAt osLine iValEnd) then iValEnd
      else if bInQuotes && iValEnd < osLine.length - 1 && charAt osLine iValEnd == '\\' then
        scanValueEnd osLine fuel (iValEnd + 1 + 1) bInQuotes
      else if charAt osLine iValEnd == '"' then
        scanValueEnd osLine fuel (iValEnd + 1) (!bInQuotes)
      else scanValueEnd osLine fuel (iValEnd + 1) bInQuotes
    else iValEnd

/-- The outer `for (size_t i = 0; i < osLine.length(); i++)` of `ReadLine`, from index
`i` on; the result is the list of strings added to `aosKeyedValues`. The first
argument bounds the number of iterations. -/
def scanKeyedValues (osLine : Str) : Nat → Nat → List Str
  | 0, _ => []
  | fuel + 1, i =>
    if i < osLine.length then
      if charAt osLine i == '@' && i + 2 ≤ osLine.length then
        let iValEnd := scanValueEnd osLine osLine.length (i + 2) false
        let osValue := (osLine.drop (i + 2)).take (iValEnd - i - 2)
        let osKeyValue := (osLine.drop (i + 1)).take 1 ++ CPLUnescapeString osValue
        osKeyValue :: scanKeyedValues osLine fuel (iValEnd + 1)
      else scanKeyedValues osLine fuel (i + 1)
    else []

/-- The keyed values `ReadLine` leaves in `papszKeyedValues` for the line read. -/
def lineKeyedValues (osLine : Str) : Option (List Str) :=
  if charAt osLine 0 != '#' || !osLine.contains '@' then none
  else StealList (scanKeyedValues osLine osLine.length 0)

/-- `OGRGmtLayer::ReadLine()`. The record comes as a `const char *`, so the assignment
`osLine = pszLine` takes the C string it holds: the bytes before the first NUL. -/
def ReadLine {α : Type} (L : OGRGmtLayer α) : Bool × OGRGmtLayer α :=
  match CPLReadLineL L.m_fp with
  | (none, fp) => (false, { L with osLine := [], papszKeyedValues := none, m_fp := fp })
  | (some pszLine, fp) =>
    (true, { L with
      osLine := cstr pszLine
      papszKeyedValues := lineKeyedValues (cstr pszLine)
      m_fp := fp })

/-- `OGRGmtLayer::ResetReading()`. -/
def ResetReading {α : Type} (L : OGRGmtLayer α) : OGRGmtLayer α :=
  if L.iNextFID == 0 then L
  else (ReadLine { L with iNextFID := 0, m_fp := VSIFSeekL L.m_fp 0 }).2

/-- The `while (ReadLine() && osLine[0] == '#')` loop of `ScanAheadForHole`: the flag
is true when a line whose first keyed value has key `H` was reached (the
`return true`) and false when the loop ended; the layer is the state at that moment.
The first argument bounds the number of lines read, `none` meaning it was too small. -/
def scanHoleLoop {α : Type} : Nat → OGRGmtLayer α → Option (Bool × OGRGmtLayer α)
  | 0, _ => none
  | fuel + 1, L =>
    let r := ReadLine L
    if r.1 && charAt r.2.osLine 0 == '#' then
      if (match r.2.papszKeyedValues with
          | some kv => charAt (kv.getD 0 []) 0 == 'H'
          | none => false) then some (true, r.2)
      else scanHoleLoop fuel r.2
    else some (false, r.2)

/-- `OGRGmtLayer::ScanAheadForHole()`. -/
def ScanAheadForHole {α : Type} (L : OGRGmtLayer α) : Option (Bool × OGRGmtLayer α) :=
  let osSavedLine := L.osLine
  let nSavedLocation := VSIFTellL L.m_fp
  match scanHoleLoop (L.m_fp.data.length + 1) L with
  | none => none
  | some (true, L1) => some (true, L1)
  | some (false, L1) =>
    some (false, { L1 with m_fp := VSIFSeekL L1.m_fp nSavedLocation, osLine := osSavedLine })

/-- `OGRGmtLayer::NextIsFeature()`. -/
def NextIsFeature {α : Type} (L : OGRGmtLayer α) : Bool × OGRGmtLayer α :=
  let osSavedLine := L.osLine
  let nSavedLocation := VSIFTellL L.m_fp
  let L1 := (ReadLine L).2
  let bReturn := charAt L1.osLine 0 == '#' && strstr L1.osLine "@D".data
  (bReturn, { L1 with m_fp := VSIFSeekL L1.m_fp nSavedLocation, osLine := osSavedLine })

/-! ### Geometry construction used by the feature assembler -/

/-- `new OGRLinearRing()`, `new OGRLineString()`. -/
def OGRLineString.empty {α : Type} : OGRLineString α := ⟨[], false⟩

/-- `poLS->addPoint(dfX, dfY, dfZ)` when `nDim == 3`, `poLS->addPoint(dfX, dfY)`
otherwise. -/
def OGRLineString.addPoint {α : Type} (env : Env α) (l : OGRLineString α) (nDim : Nat)
    (dfX dfY dfZ : α) : OGRLineString α :=
  if nDim == 3 then ⟨l.pts ++ [⟨dfX, dfY, dfZ⟩], true⟩
  else ⟨l.pts ++ [⟨dfX, dfY, env.dfZero⟩], l.is3D⟩

/-- The ring a vertex goes to, `getExteriorRing()` when there is no interior ring and
the last interior ring otherwise, receives the vertex. -/
def OGRPolygon.addPoint {α : Type} (env : Env α) (p : OGRPolygon α) (nDim : Nat)
    (dfX dfY dfZ : α) : OGRPolygon α :=
  ⟨p.rings.modifyLast (fun r => r.addPoint env nDim dfX dfY dfZ)⟩

/-- `poPoly->addRingDirectly(new OGRLinearRing())`. -/
def OGRPolygon.addRing {α : Type} (p : OGRPolygon α) : OGRPolygon α :=
  ⟨p.rings ++ [OGRLineString.empty]⟩

/-- `setX`, `setY` and, when `nDim == 3`, `setZ` on a point. -/
def OGRPoint.setXYZ {α : Type} (env : Env α) (p : OGRPoint α) (nDim : Nat)
    (dfX dfY dfZ : α) : OGRPoint α :=
  if nDim == 3 then ⟨some ⟨dfX, dfY, dfZ⟩, true⟩
  else
    ⟨some ⟨dfX, dfY, match p.coord with
      | some v => v.z
      | none => env.dfZero⟩, p.is3D⟩

/-- The `switch (poFeatureDefn->GetGeomType())` creating the geometry on the first
vertex line. -/
def newGeometry {α : Type} (eType : OGRwkbGeometryType) : OGRGeometry α :=
  match eType with
  | wkbLineString => .lineString OGRLineString.empty
  | wkbPolygon => .polygon ⟨[OGRLineString.empty]⟩
  | wkbMultiPolygon => .multiPolygon [⟨[OGRLineString.empty]⟩]
  | wkbMultiPoint => .multiPoint []
  | wkbMultiLineString => .multiLineString [OGRLineString.empty]
  | wkbPoint => .point ⟨none, false⟩
  | wkbUnknown => .point ⟨none, false⟩

/-- The `switch (wkbFlatten(poGeom->getGeometryType()))` storing a vertex; for a
multipoint it reaches `default:` and stores nothing. -/
def storeVertex {α : Type} (env : Env α) (g : OGRGeometry α) (nDim : Nat)
    (dfX dfY dfZ : α) : OGRGeometry α :=
  match g with
  | .point p => .point (p.setXYZ env nDim dfX dfY dfZ)
  | .lineString l => .lineString (l.addPoint env nDim dfX dfY dfZ)
  | .polygon p => .polygon (p.addPoint env nDim dfX dfY dfZ)
  | .multiPolygon ps => .multiPolygon (ps.modifyLast (fun p => p.addPoint env nDim dfX dfY dfZ))
  | .multiLineString ls =>
    .multiLineString (ls.modifyLast (fun l => l.addPoint env nDim dfX dfY dfZ))
  | .multiPoint ps => .multiPoint ps

/-- The local state of `GetNextRawFeature` together with the layer. -/
structure Assembly (α : Type) where
  layer : OGRGmtLayer α
  osFieldData : Str
  poGeom : Option (OGRGeometry α)
deriving DecidableEq, Repr

/-- The branch `osLine[0] == '>'` of the loop body; the flag tells that the loop is
left by `break`. -/
def onSeparator {α : Type} (s : Assembly α) : Option (Bool × Assembly α) :=
  match s.poGeom with
  | some (.multiPolygon ps) =>
    match ScanAheadForHole s.layer with
    | none => none
    | some (true, L1) =>
      some (false, { s with
        layer := L1
        poGeom := some (.multiPolygon (ps.modifyLast OGRPolygon.addRing)) })
    | some (false, L1) =>
      let r := NextIsFeature L1
      if !r.1 then
        some (false, { s with
          layer := r.2
          poGeom := some (.multiPolygon (ps ++ [⟨[OGRLineString.empty]⟩])) })
      else some (true, { s with layer := r.2 })
  | some (.polygon p) =>
    match ScanAheadForHole s.layer with
    | none => none
    | some (true, L1) => some (false, { s with layer := L1, poGeom := some (.polygon p.addRing) })
    | some (false, L1) => some (true, { s with layer := L1 })
  | some (.multiLineString ls) =>
    let r := NextIsFeature s.layer
    if !r.1 then
      some (false, { s with
        layer := r.2
        poGeom := some (.multiLineString (ls ++ [OGRLineString.empty])) })
    else some (true, { s with layer := r.2 })
  | some _ => some (true, s)
  | none =>
    if s.layer.poFeatureDefn.geomType == wkbUnknown then
      some (false, { s with
        layer := { s.layer with
          poFeatureDefn := { s.layer.poFeatureDefn with geomType := wkbLineString } } })
    else some (false, s)

/-- The branch `osLine[0] == '#'` of the loop body: every keyed value with key `D`
replaces `osFieldData`. -/
def onComment {α : Type} (s : Assembly α) : Assembly α :=
  let osFieldData := (s.layer.papszKeyedValues.getD []).foldl
    (fun fd kv => if charAt kv 0 == 'D' then kv.drop 1 else fd) s.osFieldData
  { s with osFieldData := osFieldData }

/-- The last branch of the loop body, "Parse point line". -/
def onVertexLine {α : Type} (env : Env α) (s : Assembly α) : Assembly α :=
  let vals := (env.CPLsscanf s.layer.osLine).take 3
  let nDim := vals.length
  let dfX := vals.getD 0 env.dfZero
  let dfY := vals.getD 1 env.dfZero
  let dfZ := vals.getD 2 env.dfZero
  if nDim ≥ 2 then
    let g := match s.poGeom with
      | some g => g
      | none => newGeometry s.layer.poFeatureDefn.geomType
    { s with poGeom := some (storeVertex env g nDim dfX dfY dfZ) }
  else s

/-- One pass through the body of the `for (; true; ReadLine())` loop of
`GetNextRawFeature` for a non-empty current line, up to the test for a point
geometry that closes the body; the flag tells that the loop is left by `break`. -/
def loopBody {α : Type} (env : Env α) (s : Assembly α) : Option (Bool × Assembly α) :=
  if charAt s.layer.osLine 0 == '>' then onSeparator s
  else if charAt s.layer.osLine 0 == '#' then some (false, onComment s)
  else some (false, onVertexLine env s)

/-- The `for (; true; ReadLine())` loop of `GetNextRawFeature`; the result is the
state in which the loop is left. The first argument bounds the number of iterations,
`none` meaning it was too small. -/
def assembleLoop {α : Type} (env : Env α) : Nat → Assembly α → Option (Assembly α)
  | 0, _ => none
  | fuel + 1, s =>
    if s.layer.osLine.length == 0 then some s
    else
      match loopBody env s with
      | none => none
      | some (true, s1) => some s1
      | some (false, s1) =>
        match s1.poGeom with
        | some (.point _) => some { s1 with layer := (ReadLine s1.layer).2 }
        | _ => assembleLoop env fuel { s1 with layer := (ReadLine s1.layer).2 }

/-- The loop `for (iField = 0; papszFD[iField] != nullptr; iField++)` that stores the
tokens, leaving it when `iField >= GetFieldCount()`. -/
def setFieldValues {α : Type} (nFieldCount : Nat) :
    List Str → Nat → OGRFeature α → OGRFeature α
  | [], _, f => f
  | tok :: toks, iField, f =>
    if iField ≥ nFieldCount then f
    else setFieldValues nFieldCount toks (iField + 1) (f.SetField iField tok)

/-- `OGRGmtLayer::GetNextRawFeature()`: the feature returned (`none` for `nullptr`)
and the layer afterwards; the outer `none` means that the iteration bound was too
small. -/
def GetNextRawFeature {α : Type} (env : Env α) (L : OGRGmtLayer α) :
    Option (Option (OGRFeature α) × OGRGmtLayer α) :=
  match assembleLoop env (L.m_fp.data.length + 2) ⟨L, [], none⟩ with
  | none => none
  | some s =>
    match s.poGeom with
    | none => some (none, s.layer)
    | some g =>
      let nFieldCount := s.layer.poFeatureDefn.fields.length
      let poFeature : OGRFeature α :=
        { nFID := (s.layer.iNextFID : Int), poGeom := some g, poSRS := s.layer.m_poSRS,
          fields := List.replicate nFieldCount none }
      let papszFD := CSLTokenizeStringComplex s.osFieldData "|".data true true
      some (some (setFieldValues nFieldCount papszFD 0 poFeature),
        { s.layer with
          iNextFID := s.layer.iNextFID + 1
          m_nFeaturesRead := s.layer.m_nFeaturesRead + 1 })

/-! ### The constructor: header parsing -/

/-- The strings collected from the header by the constructor. -/
structure HeaderVars where
  osFieldNames : Str
  osFieldTypes : Str
  osGeometryType : Str
  osRegion : Str
  osWKT : Str
  osProj4 : Str
  osEPSG : Str
deriving DecidableEq, Repr

/-- The body of the loop over `papszKeyedValues` in the constructor, for one entry. -/
def applyKeyedValue (h : HeaderVars) (kv : Str) : HeaderVars :=
  let h := if charAt kv 0 == 'N' then { h with osFieldNames := kv.drop 1 } else h
  let h := if charAt kv 0 == 'T' then { h with osFieldTypes := kv.drop 1 } else h
  let h := if charAt kv 0 == 'G' then { h with osGeometryType := kv.drop 1 } else h
  let h := if charAt kv 0 == 'R' then { h with osRegion := kv.drop 1 } else h
  if charAt kv 0 == 'J' && charAt kv 1 != Char.ofNat 0 && charAt kv 2 != Char.ofNat 0 then
    let osArg := kv.drop 2
    let osArg :=
      if charAt osArg 0 == '"' && osArg.length ≥ 2 && osArg.getLast? == some '"' then
        CPLUnescapeString ((osArg.drop 1).take (osArg.length - 2))
      else osArg
    let h := if charAt kv 1 == 'e' then { h with osEPSG := osArg } else h
    let h := if charAt kv 1 == 'p' then { h with osProj4 := osArg } else h
    if charAt kv 1 == 'w' then { h with osWKT := osArg } else h
  else h

/-- The `while (ReadLine() && osLine[0] == '#')` loop of the constructor. The first
argument bounds the number of lines read, `none` meaning it was too small. -/
def headerLoop {α : Type} :
    Nat → OGRGmtLayer α → HeaderVars → Nat → Option (OGRGmtLayer α × HeaderVars)
  | 0, _, _, _ => none
  | fuel + 1, L, h, nStartOfLine =>
    let r := ReadLine L
    if r.1 && charAt r.2.osLine 0 == '#' then
      if strstr r.2.osLine "FEATURE_DATA".data then
        some ((ReadLine { r.2 with bHeaderComplete := true }).2, h)
      else
        let L1 :=
          if STARTS_WITH_CI r.2.osLine "# REGION_STUB ".data then
            { r.2 with nRegionOffset := nStartOfLine }
          else r.2
        headerLoop fuel L1 ((L1.papszKeyedValues.getD []).foldl applyKeyedValue h)
          (VSIFTellL L1.m_fp)
    else some (r.2, h)

/-- The coordinate system chosen by the constructor: WKT, else EPSG, else PROJ. -/
def headerSRS {α : Type} (env : Env α) (h : HeaderVars) : Option OGRSpatialReference :=
  if h.osWKT.length > 0 then
    if env.importFromWkt h.osWKT then some (.fromWkt h.osWKT) else none
  else if h.osEPSG.length > 0 then
    if env.importFromEPSG (atoi h.osEPSG) then some (.fromEPSG (atoi h.osEPSG)) else none
  else if h.osProj4.length > 0 then
    if env.importFromProj4 h.osProj4 then some (.fromProj4 h.osProj4) else none
  else none

/-- The geometry kind set from `osGeometryType`, `eType` when no name matches. -/
def headerGeomType (osGeometryType : Str) (eType : OGRwkbGeometryType) :
    OGRwkbGeometryType :=
  if osGeometryType == "POINT".data then wkbPoint
  else if osGeometryType == "MULTIPOINT".data then wkbMultiPoint
  else if osGeometryType == "LINESTRING".data then wkbLineString
  else if osGeometryType == "MULTILINESTRING".data then wkbMultiLineString
  else if osGeometryType == "POLYGON".data then wkbPolygon
  else if osGeometryType == "MULTIPOLYGON".data then wkbMultiPolygon
  else eType

/-- The region read from `osRegion`: the envelope and `bRegionComplete`. -/
def headerRegion {α : Type} (env : Env α) (osRegion : Str) :
    Option (OGREnvelope α) × Bool :=
  if osRegion.length > 0 then
    let papszTokens := CSLTokenizeStringComplex osRegion "/".data false false
    (if papszTokens.length == 4 then
        some ⟨env.CPLAtofM (papszTokens.getD 0 []), env.CPLAtofM (papszTokens.getD 1 []),
              env.CPLAtofM (papszTokens.getD 2 []), env.CPLAtofM (papszTokens.getD 3 [])⟩
      else none, true)
  else (none, false)

/-- `CPLString().Printf("Field_%d", n)`. -/
def fieldNameOf (n : Nat) : Str :=
  "Field_".data ++ (Nat.toDigits 10 n)

/-- The field built by one pass of the loop `for (iField = 0; iField < nFieldCount;
iField++)` of the constructor. -/
def headerField (papszFN papszFT : List Str) (iField : Nat) : OGRFieldDefn :=
  { name := if iField < papszFN.length then papszFN.getD iField [] else fieldNameOf (iField + 1),
    type :=
      if iField < papszFT.length then
        if EQUAL (papszFT.getD iField []) "integer".data then OFTInteger
        else if EQUAL (papszFT.getD iField []) "double".data then OFTReal
        else if EQUAL (papszFT.getD iField []) "datetime".data then OFTDateTime
        else OFTString
      else OFTString }

/-- The fields read from `osFieldNames` and `osFieldTypes`. -/
def headerFields (osFieldNames osFieldTypes : Str) : List OGRFieldDefn :=
  if osFieldNames.length > 0 || osFieldTypes.length > 0 then
    let papszFN := CSLTokenizeStringComplex osFieldNames "|".data true true
    let papszFT := CSLTokenizeStringComplex osFieldTypes "|".data true true
    (List.range (max papszFN.length papszFT.length)).map (headerField papszFN papszFT)
  else []

/-- The layer as the member initialisers of the constructor leave it, with the
feature definition created; `fp` is the handle after `fp ? fp : VSIFOpenL(..)`. -/
def initialLayer {α : Type} (env : Env α) (pszFilename : Str) (fp : VSILFILE)
    (bUpdateIn : Bool) : OGRGmtLayer α :=
  { poFeatureDefn := ⟨env.CPLGetBasenameSafe pszFilename, wkbUnknown, []⟩, iNextFID := 0,
    bUpdate := bUpdateIn, bHeaderComplete := !bUpdateIn, bRegionComplete := false,
    sRegion := none, nRegionOffset := 0, m_fp := fp, m_poSRS := none, osLine := [],
    papszKeyedValues := none, bValidFile := false, m_nFeaturesRead := 0 }

/-- "Read the header": the seek to the start of the file and the loop over the header
lines, with the strings collected; `none` means that the bound on the loop was too
small. -/
def readHeader {α : Type} (L : OGRGmtLayer α) : Option (OGRGmtLayer α × HeaderVars) :=
  headerLoop (L.m_fp.data.length + 1) { L with m_fp := VSIFSeekL L.m_fp 0 }
    ⟨[], [], [], [], [], [], []⟩ 0

/-- The part of the constructor that follows the loop over the header lines:
coordinate system, geometry kind, region and fields are set from the strings
collected. -/
def applyHeader {α : Type} (env : Env α) (L : OGRGmtLayer α) (h : HeaderVars) :
    OGRGmtLayer α :=
  let region := headerRegion env h.osRegion
  { L with
    m_poSRS := headerSRS env h
    poFeatureDefn :=
      { L.poFeatureDefn with
        geomType := headerGeomType h.osGeometryType L.poFeatureDefn.geomType
        fields := L.poFeatureDefn.fields ++ headerFields h.osFieldNames h.osFieldTypes }
    sRegion := if region.2 then region.1 else L.sRegion
    bRegionComplete := if region.2 then true else L.bRegionComplete
    bValidFile := true }

/-- `OGRGmtLayer::OGRGmtLayer(poDS, pszFilename, fp, poSRS, bUpdateIn)`, where `fp` is
the handle after `fp ? fp : VSIFOpenL(..)`, `none` when the file could not be opened.
The outer `none` means that the bound on the header loop was too small. -/
def OGRGmtLayer.new {α : Type} (env : Env α) (pszFilename : Str) (fp : Option VSILFILE)
    (poSRS : Option OGRSpatialReference) (bUpdateIn : Bool) : Option (OGRGmtLayer α) :=
  match fp with
  | none =>
    some { initialLayer env pszFilename ⟨[], 0, none, []⟩ bUpdateIn with
      poFeatureDefn := ⟨[], wkbUnknown, []⟩ }
  | some fp =>
    if !STARTS_WITH pszFilename "/vsistdout".data then
      match readHeader (initialLayer env pszFilename fp bUpdateIn) with
      | none => none
      | some (L, h) => some (applyHeader env L h)
    else
      some { initialLayer env pszFilename fp bUpdateIn with m_poSRS := poSRS, bValidFile := true }

/-! ### The writer -/

/-- A `VSIFPrintfL(m_fp, ..)` of the layer whose result is not examined. -/
def emit {α : Type} (L : OGRGmtLayer α) (site : PrintfSite) (s : Str) : OGRGmtLayer α :=
  { L with m_fp := (VSIFPrintfL L.m_fp site s).2 }

/-- The marker text chosen by the `switch` of `CompleteHeader`. -/
def geomMarker : OGRwkbGeometryType → Str
  | wkbPoint => " @GPOINT".data
  | wkbLineString => " @GLINESTRING".data
  | wkbPolygon => " @GPOLYGON".data
  | wkbMultiPoint => " @GMULTIPOINT".data
  | wkbMultiLineString => " @GMULTILINESTRING".data
  | wkbMultiPolygon => " @GMULTIPOLYGON".data
  | wkbUnknown => []

/-- The type word chosen by the `switch` on the field type in `CompleteHeader`. -/
def fieldTypeWord : OGRFieldType → Str
  | OFTInteger => "integer".data
  | OFTReal => "double".data
  | OFTDateTime => "datetime".data
  | _ => "string".data

/-- The first part of `CompleteHeader`: "If we do not already have a geometry type,
try to work one out and write it now." -/
def completeGeomType {α : Type} (L : OGRGmtLayer α) (poThisGeom : Option (OGRGeometry α)) :
    OGRGmtLayer α :=
  match poThisGeom with
  | some g =>
    if L.poFeatureDefn.geomType == wkbUnknown then
      emit { L with poFeatureDefn := { L.poFeatureDefn with geomType := g.getGeometryType } }
        .geomMarker ("#".data ++ geomMarker g.getGeometryType ++ "\n".data)
    else L
  | none => L

/-- The second part of `CompleteHeader`: "Prepare and write the field names and
types." -/
def completeFields {α : Type} (L : OGRGmtLayer α) : OGRGmtLayer α :=
  let osFieldNames := List.intercalate "|".data (L.poFeatureDefn.fields.map (fun fd => fd.name))
  let osFieldTypes :=
    List.intercalate "|".data (L.poFeatureDefn.fields.map (fun fd => fieldTypeWord fd.type))
  if L.poFeatureDefn.fields.length > 0 then
    emit (emit L .fieldNames ("# @N".data ++ osFieldNames ++ "\n".data))
      .fieldTypes ("# @T".data ++ osFieldTypes ++ "\n".data)
  else L

/-- `OGRGmtLayer::CompleteHeader(poThisGeom)`. -/
def CompleteHeader {α : Type} (L : OGRGmtLayer α) (poThisGeom : Option (OGRGeometry α)) :
    OGRErr × OGRGmtLayer α :=
  let L3 := emit (completeFields (completeGeomType L poThisGeom)) .featureData
    "# FEATURE_DATA\n".data
  (OGRERR_NONE, { L3 with bHeaderComplete := true, bRegionComplete := true })

/-- The text added to `osFieldData` for one field of `ICreateFeature`, without the
`|` that separates it from the field before. -/
def encodeFieldValue (eFType : OGRFieldType) (pszRawValue : Str) : Str :=
  let pszRawValue :=
    if eFType == OFTInteger || eFType == OFTReal then pszRawValue.dropWhile (fun c => c == ' ')
    else pszRawValue
  if strchr pszRawValue ' ' || strchr pszRawValue '|' || strchr pszRawValue '\t' ||
      strchr pszRawValue '\n' then
    "\"".data ++ CPLEscapeString pszRawValue ++ "\"".data
  else pszRawValue

/-- The `osFieldData` built by the loop over the fields in `ICreateFeature`. -/
def encodeFields {α : Type} (defn : OGRFeatureDefn) (poFeature : OGRFeature α) : Str :=
  List.intercalate "|".data
    ((List.range defn.fields.length).map (fun iField =>
      encodeFieldValue ((defn.fields.getD iField ⟨[], OFTString⟩).type)
        (poFeature.GetFieldAsString iField)))

/-- The text of a vertex line without its newline: `szLine` after
`OGRMakeWktCoordinate` and, when `GMT_USE_TAB` is set, the replacement of spaces by
tabs. -/
def vertexText {α : Type} (env : Env α) (nDim : Nat) (v : Vertex α) : Str :=
  if env.GMT_USE_TAB then
    (env.OGRMakeWktCoordinate v.x v.y v.z nDim).map (fun c => if c == ' ' then '\t' else c)
  else env.OGRMakeWktCoordinate v.x v.y v.z nDim

/-- One pass of the loop "Dump vertices" of `WriteGeometry`: the envelope is merged,
the line is printed; the number is what `VSIFPrintfL` returns. -/
def writeVertex {α : Type} [LinearOrder α] (env : Env α) (nDim : Nat) (L : OGRGmtLayer α)
    (v : Vertex α) : Nat × OGRGmtLayer α :=
  let r := VSIFPrintfL L.m_fp .vertexLine (vertexText env nDim v ++ "\n".data)
  (r.1, { L with sRegion := OGREnvelope.Merge L.sRegion v.x v.y, m_fp := r.2 })

/-- The loop "Dump vertices" of `WriteGeometry` over the vertices of a leaf. -/
def writeVertices {α : Type} [LinearOrder α] (env : Env α) (nDim : Nat) :
    OGRGmtLayer α → List (Vertex α) → OGRErr × OGRGmtLayer α
  | L, [] => (OGRERR_NONE, L)
  | L, v :: vs =>
    if (writeVertex env nDim L v).1 < 1 then (OGRERR_FAILURE, (writeVertex env nDim L v).2)
    else writeVertices env nDim (writeVertex env nDim L v).2 vs

/-- `WriteGeometry` on a geometry without sub-geometries: `bPoint` tells whether its
type is `wkbPoint`, `pts` are its `OGR_G_GetPointCount` vertices and `nDim` is
`OGR_G_GetCoordinateDimension`. -/
def writeLeaf {α : Type} [LinearOrder α] (env : Env α) (L : OGRGmtLayer α) (bPoint : Bool)
    (pts : List (Vertex α)) (nDim : Nat) (bHaveAngle : Bool) : OGRErr × OGRGmtLayer α :=
  let L1 := if !bPoint && !bHaveAngle then emit L .leafAngle ">\n".data else L
  writeVertices env nDim L1 pts

/-- The part of the body of the loop over sub-geometries that precedes the recursive
call: when `hGeom` is a polygon, the `>` line if `bHaveAngle` is false, then `# @P`
for the first ring and `# @H` for a later one. -/
def beforeChild {α : Type} (bPolygon : Bool) (L : OGRGmtLayer α) (iGeom : Nat)
    (bHaveAngle : Bool) : OGRGmtLayer α :=
  if bPolygon then
    let La := if !bHaveAngle then emit L .ringAngle ">\n".data else L
    if iGeom == 0 then emit La .ringOuter "# @P\n".data else emit La .ringHole "# @H\n".data
  else L

/-- The loop `for (iGeom = 0; iGeom < OGR_G_GetGeometryCount(hGeom) && eErr ==
OGRERR_NONE; iGeom++)` of `WriteGeometry` over the sub-geometries still to be written;
`bPolygon` tells whether `hGeom` is a polygon and `writeChild` is the recursive call
on a sub-geometry. -/
def writeChildren {α χ : Type} (writeChild : OGRGmtLayer α → χ → Bool → OGRErr × OGRGmtLayer α)
    (bPolygon : Bool) :
    OGRGmtLayer α → List χ → Nat → Bool → OGRErr → OGRErr × OGRGmtLayer α
  | L, [], _, _, eErr => (eErr, L)
  | L, c :: cs, iGeom, bHaveAngle, eErr =>
    if eErr == OGRERR_NONE then
      let r := writeChild (beforeChild bPolygon L iGeom bHaveAngle) c
        (if bPolygon then true else bHaveAngle)
      writeChildren writeChild bPolygon r.2 cs (iGeom + 1) false r.1
    else (eErr, L)

/-- `OGR_G_GetCoordinateDimension`. -/
def coordDim (is3D : Bool) : Nat :=
  if is3D then 3 else 2

/-- `WriteGeometry` on a line string or a ring. -/
def writeLineString {α : Type} [LinearOrder α] (env : Env α) (L : OGRGmtLayer α)
    (l : OGRLineString α) (bHaveAngle : Bool) : OGRErr × OGRGmtLayer α :=
  writeLeaf env L false l.pts (coordDim l.is3D) bHaveAngle

/-- `WriteGeometry` on a point. -/
def writePoint {α : Type} [LinearOrder α] (env : Env α) (L : OGRGmtLayer α)
    (p : OGRPoint α) (bHaveAngle : Bool) : OGRErr × OGRGmtLayer α :=
  writeLeaf env L true p.coord.toList (coordDim p.is3D) bHaveAngle

/-- `WriteGeometry` on a polygon. -/
def writePolygon {α : Type} [LinearOrder α] (env : Env α) (L : OGRGmtLayer α)
    (p : OGRPolygon α) (bHaveAngle : Bool) : OGRErr × OGRGmtLayer α :=
  if p.rings.length > 0 then
    writeChildren (writeLineString env) true L p.rings 0 bHaveAngle OGRERR_NONE
  else writeLeaf env L false [] 2 bHaveAngle

/-- `OGRGmtLayer::WriteGeometry(hGeom, bHaveAngle)`, its recursion unfolded along the
kinds of geometry: a geometry with sub-geometries runs the loop over them, any other
one is written as a leaf. -/
def WriteGeometry {α : Type} [LinearOrder α] (env : Env α) (L : OGRGmtLayer α)
    (hGeom : OGRGeometry α) (bHaveAngle : Bool) : OGRErr × OGRGmtLayer α :=
  match hGeom with
  | .point p => writePoint env L p bHaveAngle
  | .lineString l => writeLineString env L l bHaveAngle
  | .polygon p => writePolygon env L p bHaveAngle
  | .multiPoint ps =>
    if ps.length > 0 then
      writeChildren (writePoint env) false L ps 0 bHaveAngle OGRERR_NONE
    else writeLeaf env L false [] 2 bHaveAngle
  | .multiLineString ls =>
    if ls.length > 0 then
      writeChildren (writeLineString env) false L ls 0 bHaveAngle OGRERR_NONE
    else writeLeaf env L false [] 2 bHaveAngle
  | .multiPolygon ps =>
    if ps.length > 0 then
      writeChildren (writePolygon env) false L ps 0 bHaveAngle OGRERR_NONE
    else writeLeaf env L false [] 2 bHaveAngle

/-- The part of `ICreateFeature` that follows the test for a missing geometry, "Write
out the feature": the geometry kind is fixed if still undetermined, then come the
`>` line unless the layer kind is point, the `# @D` line if there are fields, and the
geometry. -/
def writeFeature {α : Type} [LinearOrder α] (env : Env α) (L : OGRGmtLayer α)
    (poFeature : OGRFeature α) (poGeom : OGRGeometry α) : OGRErr × OGRGmtLayer α :=
  let L1 :=
    if L.poFeatureDefn.geomType == wkbUnknown then
      { L with poFeatureDefn := { L.poFeatureDefn with geomType := poGeom.getGeometryType } }
    else L
  let L2 :=
    if L1.poFeatureDefn.geomType != wkbPoint then emit L1 .featureAngle ">\n".data else L1
  let L3 :=
    if L2.poFeatureDefn.fields.length > 0 then
      emit L2 .fieldData
        ("# @D".data ++ encodeFields L2.poFeatureDefn poFeature ++ "\n".data)
    else L2
  WriteGeometry env L3 poGeom true

/-- `OGRGmtLayer::ICreateFeature(poFeature)`. -/
def ICreateFeature {α : Type} [LinearOrder α] (env : Env α) (L : OGRGmtLayer α)
    (poFeature : OGRFeature α) : OGRErr × OGRGmtLayer α :=
  if !L.bUpdate then (OGRERR_FAILURE, L)
  else
    let r := if !L.bHeaderComplete then CompleteHeader L poFeature.poGeom else (OGRERR_NONE, L)
    if r.1 != OGRERR_NONE then r
    else
      match poFeature.poGeom with
      | none => (OGRERR_FAILURE, r.2)
      | some poGeom => writeFeature env r.2 poFeature poGeom

/-- The outcome of `IGetExtent`: the layer's own envelope, or the call of the generic
`OGRLayer::IGetExtent`, which scans the features. -/
inductive ExtentResult (α : Type)
  | own (psExtent : OGREnvelope α)
  | generic
deriving DecidableEq, Repr

/-- `OGRGmtLayer::IGetExtent(iGeomField, psExtent, bForce)`; `own` comes with
`OGRERR_NONE`. -/
def IGetExtent {α : Type} (L : OGRGmtLayer α) : ExtentResult α :=
  match L.bRegionComplete, L.sRegion with
  | true, some sRegion => .own sRegion
  | _, _ => .generic

/-- The capability names tested by `TestCapability`. -/
inductive Capability
  | OLCRandomRead | OLCSequentialWrite | OLCFastSpatialFilter | OLCFastGetExtent
  | OLCCreateField | OLCZGeometries | other
deriving DecidableEq, Repr

/-- `OGRGmtLayer::TestCapability(pszCap)`. -/
def TestCapability {α : Type} (L : OGRGmtLayer α) : Capability → Bool
  | .OLCRandomRead => false
  | .OLCSequentialWrite => true
  | .OLCFastSpatialFilter => false
  | .OLCFastGetExtent => L.bRegionComplete
  | .OLCCreateField => true
  | .OLCZGeometries => true
  | .other => false

/-- `OGRGmtLayer::CreateField(poField, bApproxOK)`. In the two branches taken when
approximation is allowed the modified copy `oModDef` is built but `poField` itself is
what `AddFieldDefn` receives. -/
def CreateField {α : Type} (L : OGRGmtLayer α) (poField : OGRFieldDefn) (bApproxOK : Bool) :
    OGRErr × OGRGmtLayer α :=
  let added : OGRGmtLayer α :=
    { L with poFeatureDefn := { L.poFeatureDefn with fields := L.poFeatureDefn.fields ++ [poField] } }
  if !L.bUpdate then (OGRERR_FAILURE, L)
  else if L.bHeaderComplete then (OGRERR_FAILURE, L)
  else
    match poField.type with
    | OFTInteger => (OGRERR_NONE, added)
    | OFTReal => (OGRERR_NONE, added)
    | OFTString => (OGRERR_NONE, added)
    | OFTDateTime => (OGRERR_NONE, added)
    | _ =>
      if !bApproxOK then (OGRERR_FAILURE, L)
      else if poField.type == OFTDate || poField.type == OFTTime then (OGRERR_NONE, added)
      else (OGRERR_NONE, added)

/-! ## A concrete environment: integral coordinates in decimal notation -/

/-- Decimal text of an integer. -/
def fmtInt (n : Int) : Str :=
  if n < 0 then '-' :: Nat.toDigits 10 n.natAbs else Nat.toDigits 10 n.natAbs

/-- The value of a run of decimal digits. -/
def digitsValue (s : Str) : Nat :=
  s.foldl (fun acc c => 10 * acc + (c.toNat - 48)) 0

/-- Reads one integer at the head of the text, after white space: the value and the
text that follows it, `none` when no digit is found. -/
def scanInt (s : Str) : Option (Int × Str) :=
  let s1 := s.dropWhile isspace
  let neg := s1.head? == some '-'
  let s2 := if neg then s1.drop 1 else s1
  let ds := s2.takeWhile Char.isDigit
  if ds.isEmpty then none
  else some (if neg then - (digitsValue ds : Int) else (digitsValue ds : Int), s2.dropWhile Char.isDigit)

/-- Reads up to `n` integers separated by white space. -/
def scanInts : Nat → Str → List Int
  | 0, _ => []
  | n + 1, s =>
    match scanInt s with
    | none => []
    | some (v, rest) => v :: scanInts n rest

/-- The environment in which the numbers are integers written in decimal, every
coordinate-system definition is accepted and `GMT_USE_TAB` is off. -/
def intEnv : Env Int where
  dfZero := 0
  OGRMakeWktCoordinate := fun x y z nDim =>
    if nDim == 3 then fmtInt x ++ " ".data ++ fmtInt y ++ " ".data ++ fmtInt z
    else fmtInt x ++ " ".data ++ fmtInt y
  CPLsscanf := scanInts 3
  CPLAtofM := fun s => ((scanInt s).map (fun r => r.1)).getD 0
  importFromWkt := fun _ => true
  importFromEPSG := fun _ => true
  importFromProj4 := fun _ => true
  GMT_USE_TAB := false
  CPLGetBasenameSafe := fun s => s

/-! ## Sequences of calls -/

/-- A call of the write interface of the layer. -/
inductive WriteOp (α : Type)
  | createFeature (poFeature : OGRFeature α)
  | createField (poField : OGRFieldDefn) (bApproxOK : Bool)
deriving DecidableEq, Repr

/-- The result of one call of the write interface. -/
def applyOp {α : Type} [LinearOrder α] (env : Env α) (L : OGRGmtLayer α) :
    WriteOp α → OGRErr × OGRGmtLayer α
  | .createFeature poFeature => ICreateFeature env L poFeature
  | .createField poField bApproxOK => CreateField L poField bApproxOK

/-- The layer after a sequence of calls of the write interface. -/
def runOps {α : Type} [LinearOrder α] (env : Env α) (L : OGRGmtLayer α)
    (ops : List (WriteOp α)) : OGRGmtLayer α :=
  ops.foldl (fun L op => (applyOp env L op).2) L

/-- The call sites that write the field-names line, the field-types line and the
`# FEATURE_DATA` sentinel. -/
def PrintfSite.isHeaderLine : PrintfSite → Bool
  | .fieldNames => true
  | .fieldTypes => true
  | .featureData => true
  | _ => false

/-- The records of the writes made between layer state `L` and the later state `L1`. -/
def writtenSince {α : Type} (L L1 : OGRGmtLayer α) : List (PrintfSite × Str) :=
  L1.m_fp.written.drop L.m_fp.written.length

/-- The number of writes made from call site `site` among the given records. -/
def countSite (site : PrintfSite) (w : List (PrintfSite × Str)) : Nat :=
  w.countP (fun e => e.1 == site)

/-! ## The text a call of the writer produces -/

/-- The bytes of a sequence of lines, each ended by a newline. -/
def unlines (ls : List Str) : Str :=
  (ls.map (fun l => l ++ "\n".data)).flatten

/-- The lines of the vertices of a leaf. -/
def vertexLines {α : Type} (env : Env α) (nDim : Nat) (pts : List (Vertex α)) : List Str :=
  pts.map (vertexText env nDim)

/-- The lines `writeLeaf` writes. -/
def leafLines {α : Type} (env : Env α) (bPoint : Bool) (pts : List (Vertex α)) (nDim : Nat)
    (bHaveAngle : Bool) : List Str :=
  (if !bPoint && !bHaveAngle then [">".data] else []) ++ vertexLines env nDim pts

/-- The lines `beforeChild` writes. -/
def beforeChildLines (bPolygon : Bool) (iGeom : Nat) (bHaveAngle : Bool) : List Str :=
  if bPolygon then
    (if !bHaveAngle then [">".data] else []) ++ [if iGeom == 0 then "# @P".data else "# @H".data]
  else []

/-- The lines `writeChildren` writes when no write fails, `childLines` giving the lines
of a sub-geometry. -/
def childrenLines {χ : Type} (childLines : χ → Bool → List Str) (bPolygon : Bool) :
    List χ → Nat → Bool → List Str
  | [], _, _ => []
  | c :: cs, iGeom, bHaveAngle =>
    beforeChildLines bPolygon iGeom bHaveAngle ++
      childLines c (if bPolygon then true else bHaveAngle) ++
      childrenLines childLines bPolygon cs (iGeom + 1) false

/-- The lines `writeLineString` writes. -/
def lineStringLines {α : Type} (env : Env α) (l : OGRLineString α) (bHaveAngle : Bool) :
    List Str :=
  leafLines env false l.pts (coordDim l.is3D) bHaveAngle

/-- The lines `writePoint` writes. -/
def pointLines {α : Type} (env : Env α) (p : OGRPoint α) (bHaveAngle : Bool) : List Str :=
  leafLines env true p.coord.toList (coordDim p.is3D) bHaveAngle

/-- The lines `writePolygon` writes. -/
def polygonLines {α : Type} (env : Env α) (p : OGRPolygon α) (bHaveAngle : Bool) : List Str :=
  if p.rings.length > 0 then childrenLines (lineStringLines env) true p.rings 0 bHaveAngle
  else leafLines env false [] 2 bHaveAngle

/-- The lines `WriteGeometry` writes when no write fails. -/
def geometryLines {α : Type} (env : Env α) (hGeom : OGRGeometry α) (bHaveAngle : Bool) :
    List Str :=
  match hGeom with
  | .point p => pointLines env p bHaveAngle
  | .lineString l => lineStringLines env l bHaveAngle
  | .polygon p => polygonLines env p bHaveAngle
  | .multiPoint ps =>
    if ps.length > 0 then childrenLines (pointLines env) false ps 0 bHaveAngle
    else leafLines env false [] 2 bHaveAngle
  | .multiLineString ls =>
    if ls.length > 0 then childrenLines (lineStringLines env) false ls 0 bHaveAngle
    else leafLines env false [] 2 bHaveAngle
  | .multiPolygon ps =>
    if ps.length > 0 then childrenLines (polygonLines env) false ps 0 bHaveAngle
    else leafLines env false [] 2 bHaveAngle

/-- The vertices of a geometry in the order `WriteGeometry` visits them. -/
def OGRGeometry.vertices {α : Type} : OGRGeometry α → List (Vertex α)
  | .point p => p.coord.toList
  | .lineString l => l.pts
  | .polygon p => (p.rings.map (fun r => r.pts)).flatten
  | .multiPoint ps => (ps.map (fun p => p.coord.toList)).flatten
  | .multiLineString ls => (ls.map (fun l => l.pts)).flatten
  | .multiPolygon ps => (ps.map (fun p => (p.rings.map (fun r => r.pts)).flatten)).flatten

/-- The envelope after the vertices have been merged into it one by one. -/
def mergeVertices {α : Type} [LinearOrder α] (e : Option (OGREnvelope α))
    (vs : List (Vertex α)) : Option (OGREnvelope α) :=
  vs.foldl (fun e v => OGREnvelope.Merge e v.x v.y) e

/-- The lines `CompleteHeader` writes for a layer with feature definition `defn` when
called with `poThisGeom`. -/
def headerLines {α : Type} (defn : OGRFeatureDefn) (poThisGeom : Option (OGRGeometry α)) :
    List Str :=
  (match poThisGeom with
    | some g =>
      if defn.geomType == wkbUnknown then ["#".data ++ geomMarker g.getGeometryType] else []
    | none => []) ++
  (if defn.fields.length > 0 then
      ["# @N".data ++ List.intercalate "|".data (defn.fields.map (fun fd => fd.name)),
       "# @T".data ++ List.intercalate "|".data (defn.fields.map (fun fd => fieldTypeWord fd.type))]
    else []) ++
  ["# FEATURE_DATA".data]

/-- The lines `ICreateFeature` writes after the header for a feature with geometry
`poGeom`, on a layer whose feature definition is `defn`. -/
def featureLines {α : Type} (env : Env α) (defn : OGRFeatureDefn) (poFeature : OGRFeature α)
    (poGeom : OGRGeometry α) : List Str :=
  (if defn.geomType != wkbPoint then [">".data] else []) ++
  (if defn.fields.length > 0 then ["# @D".data ++ encodeFields defn poFeature] else []) ++
  geometryLines env poGeom true

/-! ## Predicates relating two states of the layer -/

/-- The record of writes grows by entries all of whose call sites satisfy `P`. -/
def Emits {α : Type} (P : PrintfSite → Prop) (L L1 : OGRGmtLayer α) : Prop :=
  ∃ new, L1.m_fp.written = L.m_fp.written ++ new ∧ ∀ e ∈ new, P e.1

/-- What the functions of the writer keep: the update flag, the two completion
flags, the schema with the geometry kind, and the next feature id; the record of
writes only grows, by entries from call sites satisfying `P`, and the envelope only
by merging vertices. -/
structure WriterFrame {α : Type} [LinearOrder α] (P : PrintfSite → Prop)
    (L L1 : OGRGmtLayer α) : Prop where
  emits : Emits P L L1
  bUpdate : L1.bUpdate = L.bUpdate
  bHeaderComplete : L1.bHeaderComplete = L.bHeaderComplete
  bRegionComplete : L1.bRegionComplete = L.bRegionComplete
  poFeatureDefn : L1.poFeatureDefn = L.poFeatureDefn
  iNextFID : L1.iNextFID = L.iNextFID
  sRegion : ∃ vs, L1.sRegion = mergeVertices L.sRegion vs

/-- The call sites of `WriteGeometry`. -/
def PrintfSite.isGeometryLine : PrintfSite → Bool
  | .ringAngle => true
  | .ringOuter => true
  | .ringHole => true
  | .leafAngle => true
  | .vertexLine => true
  | _ => false

/-- Between `L` and `L1` exactly `lines` were written, none of the writes failing: the
cursor moved past them and, if it stood at the end of the file, they were appended;
everything but the file and the envelope is as in `L`. -/
structure Wrote {α : Type} (L L1 : OGRGmtLayer α) (lines : List Str) : Prop where
  quota : L1.m_fp.quota = none
  pos : L1.m_fp.pos = L.m_fp.pos + (unlines lines).length
  data : L.m_fp.pos = L.m_fp.data.length → L1.m_fp.data = L.m_fp.data ++ unlines lines
  bUpdate : L1.bUpdate = L.bUpdate
  bHeaderComplete : L1.bHeaderComplete = L.bHeaderComplete
  bRegionComplete : L1.bRegionComplete = L.bRegionComplete
  poFeatureDefn : L1.poFeatureDefn = L.poFeatureDefn
  iNextFID : L1.iNextFID = L.iNextFID

/-- The record of writes grows by entries whose call sites form, in order, a sublist
of `sites`. -/
def EmitsSub {α : Type} (sites : List PrintfSite) (L L1 : OGRGmtLayer α) : Prop :=
  ∃ new, L1.m_fp.written = L.m_fp.written ++ new ∧ (new.map Prod.fst).Sublist sites

/-- The feature definition after `CompleteHeader`, and after the geometry kind has been
fixed in `ICreateFeature`: an undetermined geometry kind is set from the geometry
given, everything else is kept. -/
def completedDefn {α : Type} (defn : OGRFeatureDefn) (g : Option (OGRGeometry α)) :
    OGRFeatureDefn :=
  match g with
  | some g =>
    if defn.geomType == wkbUnknown then { defn with geomType := g.getGeometryType } else defn
  | none => defn

/-- The call sites of `ICreateFeature` after header completion and of `WriteGeometry`. -/
def PrintfSite.isFeatureLine : PrintfSite → Bool
  | .featureAngle => true
  | .fieldData => true
  | site => site.isGeometryLine

/-! ## Successful writes and sample inputs -/

/-- The layer after the features have been written by successive calls of
`ICreateFeature` all of which returned `OGRERR_NONE`; `none` if one did not. -/
def createFeatures {α : Type} [LinearOrder α] (env : Env α) :
    OGRGmtLayer α → List (OGRFeature α) → Option (OGRGmtLayer α)
  | L, [] => some L
  | L, f :: fs =>
    if (ICreateFeature env L f).1 == OGRERR_NONE then createFeatures env (ICreateFeature env L f).2 fs
    else none

/-- The vertices of the geometry of a feature, none for a feature without geometry. -/
def OGRFeature.vertices {α : Type} (f : OGRFeature α) : List (Vertex α) :=
  match f.poGeom with
  | some g => g.vertices
  | none => []

/-- A file holding `text`, just opened on a device that accepts every write. -/
def openFile (text : String) : VSILFILE :=
  ⟨text.data, 0, none, []⟩

/-- The layer before the constructor has run, used where the constructor yields no
layer. -/
def blankLayer {α : Type} : OGRGmtLayer α :=
  { poFeatureDefn := ⟨[], wkbUnknown, []⟩, iNextFID := 0, bUpdate := false,
    bHeaderComplete := true, bRegionComplete := false, sRegion := none, nRegionOffset := 0,
    m_fp := ⟨[], 0, none, []⟩, m_poSRS := none, osLine := [], papszKeyedValues := none,
    bValidFile := false, m_nFeaturesRead := 0 }

/-- The layer the constructor yields in `intEnv` for a file named `a.gmt` holding
`text`. -/
def openLayer (text : String) (bUpdate : Bool) : OGRGmtLayer Int :=
  (OGRGmtLayer.new intEnv "a.gmt".data (some (openFile text)) none bUpdate).getD blankLayer

/-- A feature to be written: a geometry and the texts of its field values. -/
def mkFeature (g : OGRGeometry Int) (values : List String) : OGRFeature Int :=
  ⟨-1, some g, none, values.map (fun s => some s.data)⟩

/-- A 2D vertex list. -/
def mkLine (l : List (Int × Int)) : OGRLineString Int :=
  ⟨l.map (fun p => ⟨p.1, p.2, 0⟩), false⟩

/-- A 2D point. -/
def mkPoint (x y : Int) : OGRPoint Int :=
  ⟨some ⟨x, y, 0⟩, false⟩

/-- The envelope `e` is the bounding box of the vertices `vs`: its four numbers are
the least and greatest `x` and the least and greatest `y` among them. -/
def IsBoundingBox {α : Type} [LinearOrder α] (e : OGREnvelope α) (vs : List (Vertex α)) :
    Prop :=
  IsLeast {a | ∃ v ∈ vs, v.x = a} e.MinX ∧ IsGreatest {a | ∃ v ∈ vs, v.x = a} e.MaxX ∧
  IsLeast {a | ∃ v ∈ vs, v.y = a} e.MinY ∧ IsGreatest {a | ∃ v ∈ vs, v.y = a} e.MaxY

/-- The envelope `e1` contains the envelope `e`. -/
def OGREnvelope.Contains {α : Type} [LinearOrder α] (e1 e : OGREnvelope α) : Prop :=
  e1.MinX ≤ e.MinX ∧ e.MaxX ≤ e1.MaxX ∧ e1.MinY ≤ e.MinY ∧ e.MaxY ≤ e1.MaxY

/-- Two polygon features, used as sample input. -/
def twoPolygons : List (OGRFeature Int) :=
  [mkFeature (.polygon ⟨[mkLine [(0, 0), (10, 0), (10, 5), (0, 0)]]⟩) [],
   mkFeature (.polygon ⟨[mkLine [(-3, 2), (4, 8), (-3, 2)]]⟩) []]

/-- The layer after `twoPolygons` have been written to a new, empty file. -/
def twoPolygonsWritten : OGRGmtLayer Int :=
  (createFeatures intEnv (openLayer "" true) twoPolygons).getD blankLayer

/-- What the reading functions keep: everything but the current line, the keyed
values and the cursor of the file; the geometry kind may only change from
undetermined to line string. -/
structure ReaderFrame {α : Type} (L L1 : OGRGmtLayer α) : Prop where
  name : L1.poFeatureDefn.name = L.poFeatureDefn.name
  fields : L1.poFeatureDefn.fields = L.poFeatureDefn.fields
  geomType : L1.poFeatureDefn.geomType = L.poFeatureDefn.geomType ∨
    (L.poFeatureDefn.geomType = wkbUnknown ∧ L1.poFeatureDefn.geomType = wkbLineString)
  iNextFID : L1.iNextFID = L.iNextFID
  bUpdate : L1.bUpdate = L.bUpdate
  bHeaderComplete : L1.bHeaderComplete = L.bHeaderComplete
  bRegionComplete : L1.bRegionComplete = L.bRegionComplete
  sRegion : L1.sRegion = L.sRegion
  nRegionOffset : L1.nRegionOffset = L.nRegionOffset
  m_poSRS : L1.m_poSRS = L.m_poSRS
  bValidFile : L1.bValidFile = L.bValidFile
  m_nFeaturesRead : L1.m_nFeaturesRead = L.m_nFeaturesRead
  data : L1.m_fp.data = L.m_fp.data
  quota : L1.m_fp.quota = L.m_fp.quota
  written : L1.m_fp.written = L.m_fp.written

/-- The number of bytes between the cursor and the end of the file. -/
def bytesLeft {α : Type} (L : OGRGmtLayer α) : Nat :=
  L.m_fp.data.length - L.m_fp.pos

/-- The lines of a text, `cur` being the part of the line at hand already passed. -/
def linesAux : Str → Str → List Str
  | [], cur => if cur.isEmpty then [] else [cur]
  | c :: cs, cur => if c == '\n' then cur :: linesAux cs [] else linesAux cs (cur ++ [c])

/-- The records of a text: every newline ends a record, and what follows the last
newline is a record of its own if it is not empty. -/
def fileRecords (data : Str) : List Str :=
  linesAux data []

/-- The lines of a text as `ReadLine` takes them: of every record the C string it
holds, that is, the bytes before its first NUL. -/
def fileLines (data : Str) : List Str :=
  (fileRecords data).map cstr

/-- The unread part of the file consists of the lines `ls`. -/
def AtLines (fp : VSILFILE) (ls : List Str) : Prop :=
  fileLines (fp.data.drop fp.pos) = ls

/-- The reader stands at the line `cur`: it is the current line, its keyed values are
in `papszKeyedValues` if it is a comment line, and the lines `rest` are still unread.
At end of file `cur` is empty and `rest` is empty. -/
def Cur {α : Type} (L : OGRGmtLayer α) (cur : Str) (rest : List Str) : Prop :=
  L.osLine = cur ∧ (charAt cur 0 = '#' → L.papszKeyedValues = lineKeyedValues cur) ∧
  AtLines L.m_fp rest

/-- The reader has moved from `L` to `L1`, where it stands at the line `cur` with the
lines `rest` unread; nothing else has changed, the feature definition included. -/
def Moved {α : Type} (L L1 : OGRGmtLayer α) (cur : Str) (rest : List Str) : Prop :=
  Cur L1 cur rest ∧ ReaderFrame L L1 ∧ L1.poFeatureDefn = L.poFeatureDefn

/-- Whether a geometry is a point. -/
def OGRGeometry.isPoint {α : Type} : OGRGeometry α → Bool
  | .point _ => true
  | _ => false

/-- The field data after the keyed values of a comment line have been looked at: the
value of the last `D` key, if there is one. -/
def fieldDataAfter (osFieldData : Str) (osLine : Str) : Str :=
  ((lineKeyedValues osLine).getD []).foldl
    (fun fd kv => if charAt kv 0 == 'D' then kv.drop 1 else fd) osFieldData

/-- The numbers `CPLsscanf` delivers to `GetNextRawFeature` for a line: at most three,
and the count `nDim`. -/
def scannedValues {α : Type} (env : Env α) (osLine : Str) : List α :=
  (env.CPLsscanf osLine).take 3

/-- The geometry after a vertex line with the numbers `vals` (two or three of them)
has been stored, `poGeom` being the geometry before and `eType` the layer kind. -/
def geometryAfterVertex {α : Type} (env : Env α) (eType : OGRwkbGeometryType)
    (poGeom : Option (OGRGeometry α)) (vals : List α) : OGRGeometry α :=
  storeVertex env (poGeom.getD (newGeometry eType)) vals.length
    (vals.getD 0 env.dfZero) (vals.getD 1 env.dfZero) (vals.getD 2 env.dfZero)

/-- A comment line that `ScanAheadForHole` takes for the marker of a hole: its first
keyed value has key `H`. -/
def isHoleComment (l : Str) : Bool :=
  charAt l 0 == '#' &&
    (match lineKeyedValues l with
     | some kv => charAt (kv.getD 0 []) 0 == 'H'
     | none => false)

/-- A line that `NextIsFeature` takes for the attribute line of a feature: it begins
with `#` and contains `@D`. -/
def isFeatureComment (l : Str) : Bool :=
  charAt l 0 == '#' && strstr l "@D".data

/-- The lines `ScanAheadForHole` skips on its way: comment lines that are not markers
of a hole. -/
def skippedByHoleScan (cs : List Str) : Prop :=
  ∀ c ∈ cs, charAt c 0 = '#' ∧ isHoleComment c = false

/-- No comment line lies ahead: the file is at its end or the next line does not begin
with `#`. -/
def noCommentAhead (rest : List Str) : Prop :=
  charAt (rest.headD []) 0 ≠ '#'

/-- The field types the `switch` of `CreateField` adds as they are: `OFTInteger`,
`OFTReal`, `OFTString` and `OFTDateTime`. -/
def OGRFieldType.isSupported : OGRFieldType → Bool
  | OFTInteger => true
  | OFTReal => true
  | OFTString => true
  | OFTDateTime => true
  | _ => false

/-- The layer with `poField` added at the end of the schema, `AddFieldDefn(poField)`. -/
def OGRGmtLayer.AddFieldDefn {α : Type} (L : OGRGmtLayer α) (poField : OGRFieldDefn) :
    OGRGmtLayer α :=
  { L with poFeatureDefn := { L.poFeatureDefn with fields := L.poFeatureDefn.fields ++ [poField] } }

/-- The results of `n` successive calls of `GetNextRawFeature`, in the order of the
calls, and the layer after the last; `none` means that the iteration bound of one of
the calls was too small. -/
def readCalls {α : Type} (env : Env α) :
    Nat → OGRGmtLayer α → Option (List (Option (OGRFeature α)) × OGRGmtLayer α)
  | 0, L => some ([], L)
  | n + 1, L =>
    match GetNextRawFeature env L with
    | none => none
    | some (r, L1) =>
      match readCalls env n L1 with
      | none => none
      | some (rs, L2) => some (r :: rs, L2)

/-- The features among the results of successive calls, in the order returned. -/
def featuresOf {α : Type} (rs : List (Option (OGRFeature α))) : List (OGRFeature α) :=
  rs.filterMap id

/-- A line of the leading run of header lines: it begins with `#` and does not contain
`FEATURE_DATA`. -/
def inHeaderRun (l : Str) : Bool :=
  charAt l 0 == '#' && !strstr l "FEATURE_DATA".data

/-- The sentinel: a line that begins with `#` and contains `FEATURE_DATA`. -/
def isSentinel (l : Str) : Bool :=
  charAt l 0 == '#' && strstr l "FEATURE_DATA".data

/-- The leading run of header lines of a file given by its lines. -/
def headerRun (ls : List Str) : List Str :=
  ls.takeWhile inHeaderRun

/-- The lines of a file from the first one at which the reader stands after
construction: what follows the leading run of header lines, without the sentinel if
that is what ends the run. -/
def bodyLines (ls : List Str) : List Str :=
  if isSentinel ((ls.dropWhile inHeaderRun).headD []) then (ls.dropWhile inHeaderRun).tail
  else ls.dropWhile inHeaderRun

/-- The strings the keyed values of the given lines leave in the variables of the
constructor, the lines taken in order and the keyed values of a line in order. -/
def headerVarsFrom (h : HeaderVars) (hdr : List Str) : HeaderVars :=
  hdr.foldl (fun h l => ((lineKeyedValues l).getD []).foldl applyKeyedValue h) h

/-- The strings the constructor collects from a file with the given bytes: those of the
keyed values of its leading run of header lines. -/
def headerVarsOfFile (data : Str) : HeaderVars :=
  headerVarsFrom ⟨[], [], [], [], [], [], []⟩ (headerRun (fileLines data))

/-- In the words of the specification: the length of the value that begins at the head
of the text, "the text running up to the first whitespace that is not inside double
quotes, a backslash inside quotes making the following character literal"; the flag
tells whether the scan is inside double quotes. -/
def valueLength : Str → Bool → Nat
  | [], _ => 0
  | c :: cs, bInQuotes =>
    if !bInQuotes && isspace c then 0
    else if bInQuotes && c == '\\' then
      match cs with
      | [] => 1
      | _ :: ds => 2 + valueLength ds bInQuotes
    else 1 + valueLength cs (if c == '"' then !bInQuotes else bInQuotes)

/-- In the words of the specification: the entries of a line scanned from left to right,
"each `@` met outside an earlier value and followed by at least one character yields one
entry whose key is the next character and whose value is the backslash-unescaped text"
of `valueLength`; the scan goes on after the whitespace that ends the value. The first
argument bounds the number of steps. -/
def keyedEntries : Nat → Str → List Str
  | 0, _ => []
  | _ + 1, [] => []
  | _ + 1, [_] => []
  | fuel + 1, c :: k :: rest =>
    if c == '@' then
      (k :: CPLUnescapeString (rest.take (valueLength rest false))) ::
        keyedEntries fuel (rest.drop (valueLength rest false + 1))
    else keyedEntries fuel (k :: rest)

/-- In the words of the specification: the keyed values of a line, "the empty list if the
line does not begin with `#` or contains no `@`", otherwise its entries in line
order. -/
def keyedValuesOfLine (osLine : Str) : List Str :=
  if charAt osLine 0 != '#' || !osLine.contains '@' then []
  else keyedEntries osLine.length osLine

/-- A vertex line: a line that is not empty, begins neither with `>` nor with `#`, and
from which `CPLsscanf` converts at least two numbers. -/
def isVertexLine {α : Type} (env : Env α) (l : Str) : Bool :=
  !l.isEmpty && charAt l 0 != '>' && charAt l 0 != '#' &&
    decide (2 ≤ (scannedValues env l).length)

/-- The point a vertex line holds: the first two numbers as `x` and `y` and, when there
are three, the third as `z` of a 3D point. -/
def pointOfLine {α : Type} (env : Env α) (l : Str) : OGRGeometry α :=
  if (scannedValues env l).length == 3 then
    .point ⟨some ⟨(scannedValues env l).getD 0 env.dfZero, (scannedValues env l).getD 1 env.dfZero,
      (scannedValues env l).getD 2 env.dfZero⟩, true⟩
  else
    .point ⟨some ⟨(scannedValues env l).getD 0 env.dfZero, (scannedValues env l).getD 1 env.dfZero,
      env.dfZero⟩, false⟩

/-- The attribute data in force after the given comment lines: the value of the last
`D` key among them, empty when there is none. -/
def fieldDataOf (comments : List Str) : Str :=
  comments.foldl fieldDataAfter []

/-- The values of the fields of a feature read with the given attribute data, in a
schema of `nFieldCount` fields: the tokens of the data by position, the fields beyond
the tokens being unset. -/
def fieldsOfData (nFieldCount : Nat) (osFieldData : Str) : List (Option Str) :=
  (List.range nFieldCount).map
    (fun i => (CSLTokenizeStringComplex osFieldData "|".data true true)[i]?)

/-- The lines of a body made of blocks, each block being comment lines followed by one
vertex line. -/
def blockLines (blocks : List (List Str × Str)) : List Str :=
  (blocks.map (fun b => b.1 ++ [b.2])).flatten

/-- The point features expected from the blocks of a point layer, the first with
feature id `fid`: each holds the point of its vertex line and the attribute data of the
comment lines before it. -/
def pointFeatures {α : Type} (env : Env α) (nFieldCount : Nat)
    (poSRS : Option OGRSpatialReference) : Nat → List (List Str × Str) → List (OGRFeature α)
  | _, [] => []
  | fid, b :: bs =>
    ⟨(fid : Int), some (pointOfLine env b.2), poSRS, fieldsOfData nFieldCount (fieldDataOf b.1)⟩ ::
      pointFeatures env nFieldCount poSRS (fid + 1) bs

/-- A point file with two fields and three features, used as sample input. -/
def threePointsText : String :=
  "# @VGMT1.0 @GPOINT\n# @Nname|n @Tstring|integer\n# FEATURE_DATA\n# @Da|1\n1 2\n3 4 5\n# c\n# @D\"x y\"|3\n6 7\n"

/-- The blocks of the body of `threePointsText`. -/
def threePointsBlocks : List (List Str × Str) :=
  [(["# @Da|1".data], "1 2".data), ([], "3 4 5".data),
   (["# c".data, "# @D\"x y\"|3".data], "6 7".data)]

/-- The layer obtained by opening again, read-only, the file that the layer `L` has
written, under the name `a.gmt`. -/
def reopen (L : OGRGmtLayer Int) : OGRGmtLayer Int :=
  (OGRGmtLayer.new intEnv "a.gmt".data (some ⟨L.m_fp.data, 0, none, []⟩) none false).getD
    blankLayer

/-- A new layer in update mode with the two string fields `s` and `t`, used as sample
input. -/
def twoStringFields : OGRGmtLayer Int :=
  (CreateField (CreateField (openLayer "" true) ⟨"s".data, OFTString⟩ false).2
    ⟨"t".data, OFTString⟩ false).2

/-- The field values read back, by the first call of `GetNextRawFeature` on the file
opened again, after one point feature with the given values has been written to
`twoStringFields`. -/
def fieldsReadBack (values : List String) : Option (List (Option Str)) :=
  match GetNextRawFeature intEnv
      (reopen (ICreateFeature intEnv twoStringFields (mkFeature (.point (mkPoint 1 2)) values)).2) with
  | some (some f, _) => some f.fields
  | _ => none

/-- The geometry after the vertex line `l` has been stored in the geometry `g`. -/
def storeLine {α : Type} (env : Env α) (g : OGRGeometry α) (l : Str) : OGRGeometry α :=
  storeVertex env g (scannedValues env l).length ((scannedValues env l).getD 0 env.dfZero)
    ((scannedValues env l).getD 1 env.dfZero) ((scannedValues env l).getD 2 env.dfZero)

/-- The ring or line string after the vertex of the vertex line `l` has been added. -/
def addLine {α : Type} (env : Env α) (r : OGRLineString α) (l : Str) : OGRLineString α :=
  r.addPoint env (scannedValues env l).length ((scannedValues env l).getD 0 env.dfZero)
    ((scannedValues env l).getD 1 env.dfZero) ((scannedValues env l).getD 2 env.dfZero)

/-- The ring or line string that holds the vertices of the given vertex lines. -/
def ringOfLines {α : Type} (env : Env α) (vs : List Str) : OGRLineString α :=
  vs.foldl (addLine env) OGRLineString.empty

/-- How the lines after the last vertex line of a multipolygon end the feature: the
file ends or a blank line comes; or a `>` line comes after which, past comment lines
none of which is the marker of a hole, no further comment line comes, the line right
after the `>` being an attribute line. -/
def endsMultiPolygon (fin : List Str) : Prop :=
  fin.headD [] = [] ∨
  ∃ sep cs rest, fin = sep :: (cs ++ rest) ∧ charAt sep 0 = '>' ∧ skippedByHoleScan cs ∧
    noCommentAhead rest ∧ isFeatureComment ((cs ++ rest).headD []) = true

/-- A multipolygon file whose one feature has two blocks of vertex lines, used as sample
input. -/
def twoBlocksText : String :=
  "# @VGMT1.0 @GMULTIPOLYGON\n# FEATURE_DATA\n>\n# @P\n0 0\n1 0\n1 1\n0 0\n>\n# @P\n5 5\n6 5\n6 6\n5 5\n"

/-- The layer the constructor yields for `text` read-only, after one call of
`GetNextRawFeature`. -/
def afterFirstRead (text : String) : OGRGmtLayer Int :=
  ((GetNextRawFeature intEnv (openLayer text false)).getD (none, blankLayer)).2

/-- The feature the first call of `GetNextRawFeature` returns on the layer the
constructor yields for `text` read-only; a feature without geometry stands for none. -/
def firstFeatureRead (text : String) : OGRFeature Int :=
  ((GetNextRawFeature intEnv (openLayer text false)).getD (none, blankLayer)).1.getD
    ⟨-1, none, none, []⟩

/-! ## The record of writes a call of the writer produces -/

/-- The writes of the loop "Dump vertices" when none fails. -/
def vertexTrace {α : Type} (env : Env α) (nDim : Nat) (pts : List (Vertex α)) :
    List (PrintfSite × Str) :=
  pts.map (fun v => (.vertexLine, vertexText env nDim v ++ "\n".data))

/-- The writes of `writeLeaf` when none fails. -/
def leafTrace {α : Type} (env : Env α) (bPoint : Bool) (pts : List (Vertex α)) (nDim : Nat)
    (bHaveAngle : Bool) : List (PrintfSite × Str) :=
  (if !bPoint && !bHaveAngle then [(.leafAngle, ">\n".data)] else []) ++ vertexTrace env nDim pts

/-- The writes of `beforeChild`. -/
def beforeChildTrace (bPolygon : Bool) (iGeom : Nat) (bHaveAngle : Bool) :
    List (PrintfSite × Str) :=
  if bPolygon then
    (if !bHaveAngle then [(.ringAngle, ">\n".data)] else []) ++
      [if iGeom == 0 then (.ringOuter, "# @P\n".data) else (.ringHole, "# @H\n".data)]
  else []

/-- The writes of `writeChildren` when none fails, `childTrace` giving the writes of a
sub-geometry. -/
def childrenTrace {χ : Type} (childTrace : χ → Bool → List (PrintfSite × Str))
    (bPolygon : Bool) : List χ → Nat → Bool → List (PrintfSite × Str)
  | [], _, _ => []
  | c :: cs, iGeom, bHaveAngle =>
    beforeChildTrace bPolygon iGeom bHaveAngle ++
      childTrace c (if bPolygon then true else bHaveAngle) ++
      childrenTrace childTrace bPolygon cs (iGeom + 1) false

/-- The writes of `writeLineString` when none fails. -/
def lineStringTrace {α : Type} (env : Env α) (l : OGRLineString α) (bHaveAngle : Bool) :
    List (PrintfSite × Str) :=
  leafTrace env false l.pts (coordDim l.is3D) bHaveAngle

/-- The writes of `writePoint` when none fails. -/
def pointTrace {α : Type} (env : Env α) (p : OGRPoint α) (bHaveAngle : Bool) :
    List (PrintfSite × Str) :=
  leafTrace env true p.coord.toList (coordDim p.is3D) bHaveAngle

/-- The writes of `writePolygon` when none fails. -/
def polygonTrace {α : Type} (env : Env α) (p : OGRPolygon α) (bHaveAngle : Bool) :
    List (PrintfSite × Str) :=
  if p.rings.length > 0 then childrenTrace (lineStringTrace env) true p.rings 0 bHaveAngle
  else leafTrace env false [] 2 bHaveAngle

/-- The writes of `WriteGeometry` when none fails. -/
def geometryTrace {α : Type} (env : Env α) (hGeom : OGRGeometry α) (bHaveAngle : Bool) :
    List (PrintfSite × Str) :=
  match hGeom with
  | .point p => pointTrace env p bHaveAngle
  | .lineString l => lineStringTrace env l bHaveAngle
  | .polygon p => polygonTrace env p bHaveAngle
  | .multiPoint ps =>
    if ps.length > 0 then childrenTrace (pointTrace env) false ps 0 bHaveAngle
    else leafTrace env false [] 2 bHaveAngle
  | .multiLineString ls =>
    if ls.length > 0 then childrenTrace (lineStringTrace env) false ls 0 bHaveAngle
    else leafTrace env false [] 2 bHaveAngle
  | .multiPolygon ps =>
    if ps.length > 0 then childrenTrace (polygonTrace env) false ps 0 bHaveAngle
    else leafTrace env false [] 2 bHaveAngle

/-- The writes of `CompleteHeader` when none fails, for a layer with feature definition
`defn` and the geometry `poThisGeom`. -/
def headerTrace {α : Type} (defn : OGRFeatureDefn) (poThisGeom : Option (OGRGeometry α)) :
    List (PrintfSite × Str) :=
  (match poThisGeom with
    | some g =>
      if defn.geomType == wkbUnknown then
        [(PrintfSite.geomMarker, "#".data ++ geomMarker g.getGeometryType ++ "\n".data)]
      else []
    | none => []) ++
  (if defn.fields.length > 0 then
      [(.fieldNames, "# @N".data ++
          List.intercalate "|".data (defn.fields.map (fun fd => fd.name)) ++ "\n".data),
       (.fieldTypes, "# @T".data ++
          List.intercalate "|".data (defn.fields.map (fun fd => fieldTypeWord fd.type)) ++
          "\n".data)]
    else []) ++
  [(.featureData, "# FEATURE_DATA\n".data)]

/-- The writes of `ICreateFeature` after the header when none fails, for a feature with
geometry `poGeom` on a layer whose feature definition, the kind fixed, is `defn`. -/
def featureTrace {α : Type} (env : Env α) (defn : OGRFeatureDefn) (poFeature : OGRFeature α)
    (poGeom : OGRGeometry α) : List (PrintfSite × Str) :=
  (if defn.geomType != wkbPoint then [(PrintfSite.featureAngle, ">\n".data)] else []) ++
  (if defn.fields.length > 0 then
    [(.fieldData, "# @D".data ++ encodeFields defn poFeature ++ "\n".data)] else []) ++
  geometryTrace env poGeom true

/-- Between `L` and `L1` exactly the writes `tr` were made, in this order. -/
def Traced {α : Type} (L L1 : OGRGmtLayer α) (tr : List (PrintfSite × Str)) : Prop :=
  L1.m_fp.quota = none ∧ L1.m_fp.written = L.m_fp.written ++ tr

/-- The writes for the rings of a polygon after the first: for each a `>` line, the
marker `# @H` and the vertex lines of the ring. -/
def holeTrace {α : Type} (env : Env α) (rs : List (OGRLineString α)) :
    List (PrintfSite × Str) :=
  (rs.map (fun r => [(PrintfSite.ringAngle, ">\n".data), (.ringHole, "# @H\n".data)] ++
    vertexTrace env (coordDim r.is3D) r.pts)).flatten

/-- A new, empty layer in update mode after `ICreateFeature` has been called with a
feature that has no geometry, used as sample input. -/
def afterNoGeometry : OGRGmtLayer Int :=
  (ICreateFeature intEnv (openLayer "" true) ⟨-1, none, none, []⟩).2

/-- The layer `afterNoGeometry` after a polygon feature has been written to it. -/
def polygonAfterNoGeometry : OGRGmtLayer Int :=
  (ICreateFeature intEnv afterNoGeometry
    (mkFeature (.polygon ⟨[mkLine [(0, 0), (1, 1), (0, 0)]]⟩) [])).2

/-- The outcome `r` of a writing function started on the layer `L` stems from a failed
write of a vertex line: there are a layer `Lf`, reached from `L` by successful writes
only, fewer of them vertex lines than there are vertices in `vs`, and a vertex `v` of
`vs` whose write on `Lf` returned less than 1; `r` holds the layer as that write left
it, with the file as it was in `Lf`. -/
def FailedAt {α : Type} [LinearOrder α] (env : Env α) (L : OGRGmtLayer α)
    (r : OGRErr × OGRGmtLayer α) (vs : List (Vertex α)) : Prop :=
  ∃ (Lf : OGRGmtLayer α) (nDim : Nat) (v : Vertex α) (pre : List (PrintfSite × Str)),
    v ∈ vs ∧ (writeVertex env nDim Lf v).1 < 1 ∧ r.2 = (writeVertex env nDim Lf v).2 ∧
    r.2.m_fp = Lf.m_fp ∧ Lf.m_fp.written = L.m_fp.written ++ pre ∧
    countSite .vertexLine pre < vs.length

/-- The two outcomes of a writing function started on `L` that is to write the
vertices `vs`: success, with one vertex line written for each vertex, or failure
stemming from a failed write of a vertex line. -/
def WriteOutcome {α : Type} [LinearOrder α] (env : Env α) (L : OGRGmtLayer α)
    (r : OGRErr × OGRGmtLayer α) (vs : List (Vertex α)) : Prop :=
  (r.1 = OGRERR_NONE ∧ ∃ new, r.2.m_fp.written = L.m_fp.written ++ new ∧
    countSite .vertexLine new = vs.length) ∨
  (r.1 = OGRERR_FAILURE ∧ FailedAt env L r vs)

/-- A new layer in update mode whose file is empty and on a device that accepts 36 more bytes. -/
def nearlyFull : OGRGmtLayer Int :=
  { openLayer "" true with m_fp := ⟨[], 0, some 36, []⟩ }

/-! ## The blocks of a feature -/

/-- The lines of a block: a `>` line, the comment lines of the block and its vertex
lines. -/
def blockText (b : List Str × List Str) : List Str :=
  ">".data :: b.1 ++ b.2

/-- The blocks of a polygon, each a pair of comment lines and vertex lines: one block
for each ring, with the comment `# @P` for the first ring and `# @H` for a later one;
a polygon without rings has one block without lines. -/
def polygonBlocks {α : Type} (env : Env α) (p : OGRPolygon α) : List (List Str × List Str) :=
  match p.rings with
  | [] => [([], [])]
  | r0 :: rs =>
    (["# @P".data], vertexLines env (coordDim r0.is3D) r0.pts) ::
      rs.map (fun r => (["# @H".data], vertexLines env (coordDim r.is3D) r.pts))

/-- The blocks of a geometry: one for a point, one for a line string with its vertex
lines, one for each ring of a polygon, one for a multipoint with the vertex lines of
all its points, one for each line string of a multi line string and the blocks of each
polygon of a multipolygon; a collection without members has one block without lines. -/
def geometryBlocks {α : Type} (env : Env α) : OGRGeometry α → List (List Str × List Str)
  | .point p => [([], vertexLines env (coordDim p.is3D) p.coord.toList)]
  | .lineString l => [([], vertexLines env (coordDim l.is3D) l.pts)]
  | .polygon p => polygonBlocks env p
  | .multiPoint ps =>
    [([], (ps.map (fun p => vertexLines env (coordDim p.is3D) p.coord.toList)).flatten)]
  | .multiLineString ls =>
    match ls with
    | [] => [([], [])]
    | _ :: _ => ls.map (fun l => ([], vertexLines env (coordDim l.is3D) l.pts))
  | .multiPolygon ps =>
    match ps with
    | [] => [([], [])]
    | _ :: _ => (ps.map (polygonBlocks env)).flatten

/-- The blocks of a feature with geometry `poGeom` on a layer with feature definition
`defn`: the blocks of the geometry, the `# @D` line, if the schema has fields, being
the first comment of the first block. -/
def featureBlocks {α : Type} (env : Env α) (defn : OGRFeatureDefn) (poFeature : OGRFeature α)
    (poGeom : OGRGeometry α) : List (List Str × List Str) :=
  match geometryBlocks env poGeom with
  | [] => []
  | b :: bs =>
    ((if defn.fields.length > 0 then ["# @D".data ++ encodeFields defn poFeature] else []) ++ b.1,
      b.2) :: bs

/-- A new layer in update mode after one point feature has been written to it, used
as sample input: its kind is point. -/
def onePointWritten : OGRGmtLayer Int :=
  (ICreateFeature intEnv (openLayer "" true) (mkFeature (.point (mkPoint 1 2)) [])).2

/-! ## A polygon written and read back -/

/-- A new layer in update mode after a multipoint feature of two points has been
written to it, used as sample input. -/
def multiPointWritten : OGRErr × OGRGmtLayer Int :=
  ICreateFeature intEnv (openLayer "" true) (mkFeature (.multiPoint [mkPoint 1 2, mkPoint 3 4]) [])

/-! ## The CRS name of `WCSDataset100::ExtractGridInfo` (`frmts/wcs/wcsdataset100.cpp`) -/

/-- `std::string::find(" ")`: the index of the first space, `none` for `npos`. -/
def findSpace (s : Str) : Option Nat :=
  if s.findIdx (fun c => c == ' ') < s.length then some (s.findIdx (fun c => c == ' ')) else none

/-- `std::string::resize(n)`: the first `n` characters, NUL characters being appended
when `n` exceeds the size. -/
def resize (s : Str) (n : Nat) : Str :=
  s.take n ++ List.replicate (n - s.length) (Char.ofNat 0)

/-- What `ExtractGridInfo` looks at in `m_oSRS` when it builds the CRS name: `IsEmpty()`,
`GetAuthorityName(nullptr)` and `GetAuthorityCode(nullptr)`. -/
structure SRSInfo where
  isEmpty : Bool
  authorityName : Option Str
  authorityCode : Option Str
deriving DecidableEq, Repr

/-- The block "We should try to use the services name for the CRS if possible" of
`ExtractGridInfo`: `osCRS` afterwards. `pszNativeCRSs` is the value found by the four
`CPLGetXMLValue` calls, `none` for `nullptr`. Under the test on the prefix the first
space has an index of at least 4, so `nDivider - 1` does not wrap. -/
def nativeCRSName (osCRS : Str) (pszNativeCRSs : Option Str) : Str :=
  match pszNativeCRSs with
  | some s =>
    if STARTS_WITH_CI s "EPSG:".data || STARTS_WITH_CI s "AUTO:".data ||
        STARTS_WITH_CI s "Image ".data || STARTS_WITH_CI s "Engineering ".data ||
        STARTS_WITH_CI s "OGC:".data then
      match findSpace s with
      | some nDivider => resize s (nDivider - 1)
      | none => s
    else osCRS
  | none => osCRS

/-- The block "Build CRS name to use" of `ExtractGridInfo`; `none` stands for
`return FALSE`. -/
def buildCRSName (m_oSRS : SRSInfo) (osCRS : Str) : Option Str :=
  if !m_oSRS.isEmpty && osCRS == [] then
    match m_oSRS.authorityName with
    | some pszAuth =>
      if EQUAL pszAuth "EPSG".data then
        match m_oSRS.authorityCode with
        | some code => some ("EPSG:".data ++ code)
        | none => none
      else some osCRS
    | none => some osCRS
  else some osCRS

/-- The part of `WCSDataset100::ExtractGridInfo` that sets `osCRS`, from the fallback
to the native CRS to the built CRS name: `osCRS` afterwards, `none` standing for
`return FALSE`. `pszProjOverride` is the `SRS` element of the service, `overrideOK`
tells whether `SetFromUserInput` accepts it, and `m_oSRS` is the coordinate system
held when the name is built. -/
def ExtractGridInfo_osCRS (osCRS : Str) (pszNativeCRSs pszProjOverride : Option Str)
    (overrideOK : Bool) (m_oSRS : SRSInfo) : Option Str :=
  let osCRS1 := nativeCRSName osCRS pszNativeCRSs
  match pszProjOverride with
  | some o =>
    if !overrideOK then none
    else
      buildCRSName m_oSRS
        (if STARTS_WITH_CI o "EPSG:".data || STARTS_WITH_CI o "AUTO:".data ||
            STARTS_WITH_CI o "OGC:".data || STARTS_WITH_CI o "Image ".data ||
            STARTS_WITH_CI o "Engineering ".data then o else osCRS1)
  | none => buildCRSName m_oSRS osCRS1

/-- The lines of the file that have not been read yet: those of the bytes from the
cursor on. -/
def unreadLines {α : Type} (L : OGRGmtLayer α) : List Str :=
  fileLines (L.m_fp.data.drop L.m_fp.pos)

/-- The leading run of lines that begin with `#`. -/
def commentRun (ls : List Str) : List Str :=
  ls.takeWhile (fun l => charAt l 0 == '#')

/-! ## The keyed-value scan of `ReadLine` with every access checked -/

/-- The character `osLine[i]` read inside the loops of `ReadLine`, which test
`i < osLine.length()` before: `none` when the index is not below the length. -/
def readAt (osLine : Str) (i : Nat) : Option Char :=
  if i < osLine.length then some (charAt osLine i) else none

/-- `osLine.substr(pos, n)`, which throws when `pos` exceeds the length: `none` then. -/
def substrChecked (osLine : Str) (pos n : Nat) : Option Str :=
  if pos ≤ osLine.length then some ((osLine.drop pos).take n) else none

/-- The inner loop of `ReadLine` as `scanValueEnd`, with every read of a character
checked; `none` when a read is out of range or when the bound on the number of
iterations is reached while the loop would go on. -/
def scanValueEndChecked (osLine : Str) : Nat → Nat → Bool → Option Nat
  | 0, iValEnd, _ => if iValEnd < osLine.length then none else some iValEnd
  | fuel + 1, iValEnd, bInQuotes =>
    if iValEnd < osLine.length then
      match readAt osLine iValEnd with
      | none => none
      | some c =>
        if !bInQuotes && isspace c then some iValEnd
        else if bInQuotes && iValEnd < osLine.length - 1 && c == '\\' then
          scanValueEndChecked osLine fuel (iValEnd + 1 + 1) bInQuotes
        else if c == '"' then scanValueEndChecked osLine fuel (iValEnd + 1) (!bInQuotes)
        else scanValueEndChecked osLine fuel (iValEnd + 1) bInQuotes
    else some iValEnd

/-- The outer loop of `ReadLine` as `scanKeyedValues`, with every read of a character
and every `substr` checked, and with the test that the end of the value is neither
before its start nor past the end of the line; `none` when a check fails or when the
bound on the number of iterations is reached while the loop would go on. -/
def scanKeyedValuesChecked (osLine : Str) : Nat → Nat → Option (List Str)
  | 0, i => if i < osLine.length then none else some []
  | fuel + 1, i =>
    if i < osLine.length then
      match readAt osLine i with
      | none => none
      | some c =>
        if c == '@' && i + 2 ≤ osLine.length then
          match scanValueEndChecked osLine osLine.length (i + 2) false with
          | none => none
          | some iValEnd =>
            if iValEnd < i + 2 || osLine.length < iValEnd then none
            else
              match substrChecked osLine (i + 2) (iValEnd - i - 2),
                  substrChecked osLine (i + 1) 1 with
              | some osValue, some osKey =>
                (scanKeyedValuesChecked osLine fuel (iValEnd + 1)).map
                  (fun rest => (osKey ++ CPLUnescapeString osValue) :: rest)
              | _, _ => none
        else scanKeyedValuesChecked osLine fuel (i + 1)
    else some []

/-- The keyed values `ReadLine` leaves for the line read, as `lineKeyedValues`, with
the checked scan; the outer `none` tells that a check failed. -/
def lineKeyedValuesChecked (osLine : Str) : Option (Option (List Str)) :=
  if charAt osLine 0 != '#' || !osLine.contains '@' then some none
  else (scanKeyedValuesChecked osLine osLine.length 0).map StealList

/-! ## The members of a multi line string in the file -/

/-- The lines of the line strings of a feature after the first, each given by its `>`
line and its vertex lines. -/
def memberLines (bs : List (Str × List Str)) : List Str :=
  bs.flatMap (fun b => b.1 :: b.2)

/-- The number of passes of the loop of `GetNextRawFeature` over `memberLines bs`: one
for each `>` line and one for each vertex line. -/
def memberSteps (bs : List (Str × List Str)) : Nat :=
  (bs.map (fun b => b.2.length + 1)).sum

/-- How the lines after the last vertex line of a multi line string end the feature:
the file ends or a blank line comes; or a `>` line comes whose next line is an
attribute line. -/
def endsMultiLine (fin : List Str) : Prop :=
  fin.headD [] = [] ∨
  ∃ sep rest, fin = sep :: rest ∧ charAt sep 0 = '>' ∧ isFeatureComment (rest.headD []) = true

/-- A multi line string file with two features, the first of three blocks of vertex
lines, used as sample input. -/
def threeMembersText : String :=
  "# @VGMT1.0 @GMULTILINESTRING\n# @Nn\n# FEATURE_DATA\n>\n# @Da\n0 0\n1 1\n>\n2 2\n3 3\n>\n4 4\n5 5\n>\n# @Db\n6 6\n7 7\n"

/-! ## Files whose geometry kind is not given by the header -/

/-- The layer with its geometry kind set to line string, as the first `>` line of a file
without a kind in its header leaves it. -/
def asLineStrings {α : Type} (L : OGRGmtLayer α) : OGRGmtLayer α :=
  { L with poFeatureDefn := { L.poFeatureDefn with geomType := wkbLineString } }

/-- A file without a geometry kind in its header whose body begins with a `>` line, used
as sample input. -/
def separatorFirstText : String :=
  "# @VGMT1.0\n# FEATURE_DATA\n>\n1 2\n3 4\n>\n5 6\n"

/-- A file without a geometry kind in its header whose body begins with a vertex line,
used as sample input. -/
def vertexFirstText : String :=
  "# @VGMT1.0\n# FEATURE_DATA\n1 2\n>\n3 4\n5 6\n"

/-! ## A reader whose lookahead also restores the keyed values

The variant of `GetNextRawFeature` in which `NextIsFeature`, and `ScanAheadForHole`
when it returns false, put `papszKeyedValues` back as well. -/

/-- The variant of `NextIsFeature` that also restores the keyed values. -/
def NextIsFeatureRestoring {α : Type} (L : OGRGmtLayer α) : Bool × OGRGmtLayer α :=
  let r := NextIsFeature L
  (r.1, { r.2 with papszKeyedValues := L.papszKeyedValues })

/-- The variant of `ScanAheadForHole` that also restores the keyed values when it
returns false. -/
def ScanAheadForHoleRestoring {α : Type} (L : OGRGmtLayer α) :
    Option (Bool × OGRGmtLayer α) :=
  match ScanAheadForHole L with
  | none => none
  | some (true, L1) => some (true, L1)
  | some (false, L1) => some (false, { L1 with papszKeyedValues := L.papszKeyedValues })

/-- The variant of `onSeparator` that uses the restoring lookahead functions. -/
def onSeparatorRestoring {α : Type} (s : Assembly α) : Option (Bool × Assembly α) :=
  match s.poGeom with
  | some (.multiPolygon ps) =>
    match ScanAheadForHoleRestoring s.layer with
    | none => none
    | some (true, L1) =>
      some (false, { s with
        layer := L1
        poGeom := some (.multiPolygon (ps.modifyLast OGRPolygon.addRing)) })
    | some (false, L1) =>
      let r := NextIsFeatureRestoring L1
      if !r.1 then
        some (false, { s with
          layer := r.2
          poGeom := some (.multiPolygon (ps ++ [⟨[OGRLineString.empty]⟩])) })
      else some (true, { s with layer := r.2 })
  | some (.polygon p) =>
    match ScanAheadForHoleRestoring s.layer with
    | none => none
    | some (true, L1) => some (false, { s with layer := L1, poGeom := some (.polygon p.addRing) })
    | some (false, L1) => some (true, { s with layer := L1 })
  | some (.multiLineString ls) =>
    let r := NextIsFeatureRestoring s.layer
    if !r.1 then
      some (false, { s with
        layer := r.2
        poGeom := some (.multiLineString (ls ++ [OGRLineString.empty])) })
    else some (true, { s with layer := r.2 })
  | some _ => some (true, s)
  | none =>
    if s.layer.poFeatureDefn.geomType == wkbUnknown then
      some (false, { s with
        layer := { s.layer with
          poFeatureDefn := { s.layer.poFeatureDefn with geomType := wkbLineString } } })
    else some (false, s)

/-- The variant of `loopBody` that uses the restoring lookahead functions. -/
def loopBodyRestoring {α : Type} (env : Env α) (s : Assembly α) :
    Option (Bool × Assembly α) :=
  if charAt s.layer.osLine 0 == '>' then onSeparatorRestoring s
  else if charAt s.layer.osLine 0 == '#' then some (false, onComment s)
  else some (false, onVertexLine env s)

/-- The variant of `assembleLoop` that uses the restoring lookahead functions. -/
def assembleLoopRestoring {α : Type} (env : Env α) : Nat → Assembly α → Option (Assembly α)
  | 0, _ => none
  | fuel + 1, s =>
    if s.layer.osLine.length == 0 then some s
    else
      match loopBodyRestoring env s with
      | none => none
      | some (true, s1) => some s1
      | some (false, s1) =>
        match s1.poGeom with
        | some (.point _) => some { s1 with layer := (ReadLine s1.layer).2 }
        | _ => assembleLoopRestoring env fuel { s1 with layer := (ReadLine s1.layer).2 }

/-- The variant of `GetNextRawFeature` that uses the restoring lookahead functions. -/
def GetNextRawFeatureRestoring {α : Type} (env : Env α) (L : OGRGmtLayer α) :
    Option (Option (OGRFeature α) × OGRGmtLayer α) :=
  match assembleLoopRestoring env (L.m_fp.data.length + 2) ⟨L, [], none⟩ with
  | none => none
  | some s =>
    match s.poGeom with
    | none => some (none, s.layer)
    | some g =>
      let nFieldCount := s.layer.poFeatureDefn.fields.length
      let poFeature : OGRFeature α :=
        { nFID := (s.layer.iNextFID : Int), poGeom := some g, poSRS := s.layer.m_poSRS,
          fields := List.replicate nFieldCount none }
      let papszFD := CSLTokenizeStringComplex s.osFieldData "|".data true true
      some (some (setFieldValues nFieldCount papszFD 0 poFeature),
        { s.layer with
          iNextFID := s.layer.iNextFID + 1
          m_nFeaturesRead := s.layer.m_nFeaturesRead + 1 })

/-- The layer with its keyed values put aside. -/
def withoutKeyedValues {α : Type} (L : OGRGmtLayer α) : OGRGmtLayer α :=
  { L with papszKeyedValues := none }

/-- The state of the loop with the keyed values of its layer put aside. -/
def Assembly.withoutKeyedValues {α : Type} (s : Assembly α) : Assembly α :=
  { s with layer := Gmt.withoutKeyedValues s.layer }

/-! ## Field names that survive the header -/

/-- A text that the header keeps as one token: it is not empty and holds no white space,
no `|`, no double quote, no backslash and no NUL. -/
def isPlainName (n : Str) : Bool :=
  !n.isEmpty &&
    n.all (fun c => !isspace c && c != '|' && c != '"' && c != '\\' && c != Char.ofNat 0)

/-- The four field types the header has a word for. -/
def OGRFieldType.hasWord : OGRFieldType → Bool
  | OFTInteger => true
  | OFTReal => true
  | OFTString => true
  | OFTDateTime => true
  | _ => false

/-- The text of the `# @N` line `CompleteHeader` writes for the given fields. -/
def fieldNamesLine (fields : List OGRFieldDefn) : Str :=
  "# @N".data ++ List.intercalate "|".data (fields.map (fun fd => fd.name))

/-- A new layer in update mode with one string field named `my field`, its header
written, used as sample input. -/
def spacedNameWritten : OGRGmtLayer Int :=
  (CompleteHeader (CreateField (openLayer "" true) ⟨"my field".data, OFTString⟩ false).2 none).2

/-- A new layer in update mode with four fields, one of each type the header has a word
for, used as sample input. -/
def fourFields : OGRGmtLayer Int :=
  { openLayer "" true with
    poFeatureDefn := ⟨"a".data, wkbUnknown,
      [⟨"id".data, OFTInteger⟩, ⟨"height".data, OFTReal⟩, ⟨"name".data, OFTString⟩,
       ⟨"seen@".data, OFTDateTime⟩]⟩ }

/-! ## Reading again after `ResetReading` -/

/-- The keyed values of the leading run of header lines of a file, in the order in which
the constructor meets them: line by line, and those of a line from left to right. -/
def headerKeyedValues (data : Str) : List Str :=
  (headerRun (fileLines data)).flatMap (fun l => (lineKeyedValues l).getD [])

/-- The value of the last keyed value with key `k`: that keyed value without its
key. -/
def lastValueOf (k : Char) : List Str → Option Str
  | [] => none
  | kv :: kvs =>
    match lastValueOf k kvs with
    | some v => some v
    | none => if charAt kv 0 == k then some (kv.drop 1) else none

/-- The argument of a keyed value `J`: the text after the two key characters, taken
without its double quotes and unescaped when it begins and ends with a double
quote. -/
def srsArgument (kv : Str) : Str :=
  if charAt (kv.drop 2) 0 == '"' && (kv.drop 2).length ≥ 2 &&
      (kv.drop 2).getLast? == some '"' then
    CPLUnescapeString (((kv.drop 2).drop 1).take ((kv.drop 2).length - 2))
  else kv.drop 2

/-- The argument of the last keyed value `J` whose second character is `c` and which
holds at least one character after it. -/
def lastSRSOf (c : Char) : List Str → Option Str
  | [] => none
  | kv :: kvs =>
    match lastSRSOf c kvs with
    | some v => some v
    | none =>
      if charAt kv 0 == 'J' && charAt kv 1 == c && charAt kv 2 != Char.ofNat 0 then
        some (srsArgument kv)
      else none

/-- The leading run of header lines of the file ends at a sentinel line, which is where
the constructor sets `bHeaderComplete`. -/
def headerHasSentinel (data : Str) : Bool :=
  isSentinel (((fileLines data).dropWhile inHeaderRun).headD [])

/-- A point file with a complete header that declares no region, used as sample
input. -/
def noRegionText : String :=
  "# @VGMT1.0 @GPOINT\n# FEATURE_DATA\n"

/-- The layer after a point has been written to the file `noRegionText` opened in
update mode. -/
def noRegionWritten : OGRGmtLayer Int :=
  (createFeatures intEnv (openLayer noRegionText true)
    [mkFeature (.point (mkPoint 1 2)) []]).getD blankLayer

/-! ## The lines of the body before its first vertex line -/

/-- The bytes of a file whose first record holds a NUL byte between two `G` keys, used as
sample input. -/
def nulHeaderData : Str :=
  "# @GPOINT".data ++ Char.ofNat 0 :: " @GPOLYGON\n# FEATURE_DATA\n1 2\n".data

/-! # Theorems -/


/-! ## The writer: what a call adds to the record of writes and what it keeps -/

theorem Emits.emitsNone {α : Type} (P : PrintfSite → Prop) (L : OGRGmtLayer α) : Emits P L L :=
  ⟨[], by simp, by simp⟩

theorem Emits.emitsThen {α : Type} {P : PrintfSite → Prop} {L L1 L2 : OGRGmtLayer α}
    (h1 : Emits P L L1) (h2 : Emits P L1 L2) : Emits P L L2 := by
  obtain ⟨n1, e1, p1⟩ := h1
  obtain ⟨n2, e2, p2⟩ := h2
  refine ⟨n1 ++ n2, by rw [e2, e1, List.append_assoc], ?_⟩
  intro e he
  rcases List.mem_append.mp he with h | h
  · exact p1 e h
  · exact p2 e h

theorem VSIFPrintfL_written (fp : VSILFILE) (site : PrintfSite) (s : Str) :
    (VSIFPrintfL fp site s).2.written = fp.written ∨
    (VSIFPrintfL fp site s).2.written = fp.written ++ [(site, s)] := by
  unfold VSIFPrintfL
  cases fp.quota with
  | none => right; rfl
  | some q =>
    by_cases h : s.length ≤ q
    · right; simp [h]
    · left; simp [h]

theorem mergeVertices_append {α : Type} [LinearOrder α] (e : Option (OGREnvelope α))
    (a b : List (Vertex α)) :
    mergeVertices e (a ++ b) = mergeVertices (mergeVertices e a) b := by
  simp [mergeVertices, List.foldl_append]

theorem WriterFrame.frameSame {α : Type} [LinearOrder α] (P : PrintfSite → Prop)
    (L : OGRGmtLayer α) : WriterFrame P L L :=
  ⟨Emits.emitsNone P L, rfl, rfl, rfl, rfl, rfl, [], rfl⟩

theorem WriterFrame.frameThen {α : Type} [LinearOrder α] {P : PrintfSite → Prop}
    {L L1 L2 : OGRGmtLayer α}
    (h1 : WriterFrame P L L1) (h2 : WriterFrame P L1 L2) : WriterFrame P L L2 := by
  obtain ⟨v1, e1⟩ := h1.sRegion
  obtain ⟨v2, e2⟩ := h2.sRegion
  exact ⟨h1.emits.emitsThen h2.emits, h2.bUpdate.trans h1.bUpdate,
    h2.bHeaderComplete.trans h1.bHeaderComplete, h2.bRegionComplete.trans h1.bRegionComplete,
    h2.poFeatureDefn.trans h1.poFeatureDefn, h2.iNextFID.trans h1.iNextFID,
    v1 ++ v2, by rw [e2, e1, mergeVertices_append]⟩

theorem emit_frame {α : Type} [LinearOrder α] {P : PrintfSite → Prop} (L : OGRGmtLayer α)
    (site : PrintfSite) (s : Str) (h : P site) : WriterFrame P L (emit L site s) := by
  refine ⟨?_, rfl, rfl, rfl, rfl, rfl, [], rfl⟩
  rcases VSIFPrintfL_written L.m_fp site s with h1 | h1
  · exact ⟨[], by simp [emit, h1], by simp⟩
  · exact ⟨[(site, s)], by simp [emit, h1], by simpa using h⟩

theorem writeVertex_frame {α : Type} [LinearOrder α] {P : PrintfSite → Prop} (env : Env α)
    (nDim : Nat) (hP : P .vertexLine) (L : OGRGmtLayer α) (v : Vertex α) :
    WriterFrame P L (writeVertex env nDim L v).2 := by
  have h := emit_frame (P := P) L .vertexLine (vertexText env nDim v ++ "\n".data) hP
  exact ⟨h.emits, rfl, rfl, rfl, rfl, rfl, [v], rfl⟩

theorem writeVertices_frame {α : Type} [LinearOrder α] {P : PrintfSite → Prop} (env : Env α)
    (nDim : Nat) (hP : P .vertexLine) (pts : List (Vertex α)) :
    ∀ L : OGRGmtLayer α, WriterFrame P L (writeVertices env nDim L pts).2 := by
  induction pts with
  | nil => intro L; exact WriterFrame.frameSame P L
  | cons v vs ih =>
    intro L
    simp only [writeVertices]
    split
    · exact writeVertex_frame env nDim hP L v
    · exact (writeVertex_frame env nDim hP L v).frameThen (ih _)

theorem writeLeaf_frame {α : Type} [LinearOrder α] {P : PrintfSite → Prop} (env : Env α)
    (hP1 : P .vertexLine) (hP2 : P .leafAngle) (L : OGRGmtLayer α) (bPoint : Bool)
    (pts : List (Vertex α)) (nDim : Nat) (bHaveAngle : Bool) :
    WriterFrame P L (writeLeaf env L bPoint pts nDim bHaveAngle).2 := by
  unfold writeLeaf
  split
  · exact (emit_frame L _ _ hP2).frameThen (writeVertices_frame env nDim hP1 pts _)
  · exact writeVertices_frame env nDim hP1 pts _

theorem beforeChild_frame {α : Type} [LinearOrder α] {P : PrintfSite → Prop}
    (hP1 : P .ringAngle) (hP2 : P .ringOuter) (hP3 : P .ringHole) (bPolygon : Bool)
    (L : OGRGmtLayer α) (iGeom : Nat) (bHaveAngle : Bool) :
    WriterFrame P L (beforeChild bPolygon L iGeom bHaveAngle) := by
  unfold beforeChild
  cases bPolygon with
  | false => exact WriterFrame.frameSame P L
  | true =>
    have ha : WriterFrame P L
        (if (!bHaveAngle) = true then emit L .ringAngle ">\n".data else L) := by
      split
      · exact emit_frame L _ _ hP1
      · exact WriterFrame.frameSame P L
    simp only [if_true]
    split
    · exact ha.frameThen (emit_frame _ _ _ hP2)
    · exact ha.frameThen (emit_frame _ _ _ hP3)

theorem writeChildren_frame {α χ : Type} [LinearOrder α] {P : PrintfSite → Prop}
    (writeChild : OGRGmtLayer α → χ → Bool → OGRErr × OGRGmtLayer α) (bPolygon : Bool)
    (hchild : ∀ L c b, WriterFrame P L (writeChild L c b).2)
    (hP1 : P .ringAngle) (hP2 : P .ringOuter) (hP3 : P .ringHole) (cs : List χ) :
    ∀ (L : OGRGmtLayer α) (iGeom : Nat) (bHaveAngle : Bool) (eErr : OGRErr),
      WriterFrame P L (writeChildren writeChild bPolygon L cs iGeom bHaveAngle eErr).2 := by
  induction cs with
  | nil => intro L _ _ _; exact WriterFrame.frameSame P L
  | cons c cs ih =>
    intro L iGeom bHaveAngle eErr
    simp only [writeChildren]
    split
    · exact ((beforeChild_frame hP1 hP2 hP3 bPolygon L iGeom bHaveAngle).frameThen
        (hchild _ _ _)).frameThen (ih _ _ _ _)
    · exact WriterFrame.frameSame P L

theorem WriteGeometry_frame {α : Type} [LinearOrder α] {P : PrintfSite → Prop} (env : Env α)
    (hP : ∀ site, site.isGeometryLine = true → P site)
    (L : OGRGmtLayer α) (hGeom : OGRGeometry α) (bHaveAngle : Bool) :
    WriterFrame P L (WriteGeometry env L hGeom bHaveAngle).2 := by
  have hv := hP .vertexLine rfl
  have hl := hP .leafAngle rfl
  have ha := hP .ringAngle rfl
  have ho := hP .ringOuter rfl
  have hh := hP .ringHole rfl
  have hline : ∀ (L : OGRGmtLayer α) (l : OGRLineString α) (b : Bool),
      WriterFrame P L (writeLineString env L l b).2 :=
    fun L l b => writeLeaf_frame env hv hl L false l.pts _ b
  have hpoint : ∀ (L : OGRGmtLayer α) (p : OGRPoint α) (b : Bool),
      WriterFrame P L (writePoint env L p b).2 :=
    fun L p b => writeLeaf_frame env hv hl L true _ _ b
  have hpoly : ∀ (L : OGRGmtLayer α) (p : OGRPolygon α) (b : Bool),
      WriterFrame P L (writePolygon env L p b).2 := by
    intro L p b
    unfold writePolygon
    split
    · exact writeChildren_frame _ _ hline ha ho hh _ _ _ _ _
    · exact writeLeaf_frame env hv hl L false _ _ b
  cases hGeom with
  | point p => exact hpoint L p bHaveAngle
  | lineString l => exact hline L l bHaveAngle
  | polygon p => exact hpoly L p bHaveAngle
  | multiPoint ps =>
    simp only [WriteGeometry]
    split
    · exact writeChildren_frame _ _ hpoint ha ho hh _ _ _ _ _
    · exact writeLeaf_frame env hv hl L false _ _ _
  | multiLineString ls =>
    simp only [WriteGeometry]
    split
    · exact writeChildren_frame _ _ hline ha ho hh _ _ _ _ _
    · exact writeLeaf_frame env hv hl L false _ _ _
  | multiPolygon ps =>
    simp only [WriteGeometry]
    split
    · exact writeChildren_frame _ _ hpoly ha ho hh _ _ _ _ _
    · exact writeLeaf_frame env hv hl L false _ _ _


/-! ## The writer on a device that accepts every write -/

theorem unlines_append (a b : List Str) : unlines (a ++ b) = unlines a ++ unlines b := by
  simp [unlines]

theorem unlines_singleton (l : Str) : unlines [l] = l ++ "\n".data := by
  simp [unlines]

@[simp] theorem unlines_nil : unlines [] = [] := rfl

theorem storeAt_end (data s : Str) : storeAt data data.length s = data ++ s := by
  simp [storeAt]

theorem Wrote.wroteNone {α : Type} (L : OGRGmtLayer α) (h : L.m_fp.quota = none) : Wrote L L [] :=
  ⟨h, by simp, by simp, rfl, rfl, rfl, rfl, rfl⟩

theorem Wrote.wroteThen {α : Type} {L L1 L2 : OGRGmtLayer α} {a b : List Str}
    (h1 : Wrote L L1 a) (h2 : Wrote L1 L2 b) : Wrote L L2 (a ++ b) := by
  refine ⟨h2.quota, ?_, ?_, h2.bUpdate.trans h1.bUpdate,
    h2.bHeaderComplete.trans h1.bHeaderComplete, h2.bRegionComplete.trans h1.bRegionComplete,
    h2.poFeatureDefn.trans h1.poFeatureDefn, h2.iNextFID.trans h1.iNextFID⟩
  · rw [h2.pos, h1.pos, unlines_append, List.length_append]; omega
  · intro hp
    have e1 := h1.data hp
    have hp1 : L1.m_fp.pos = L1.m_fp.data.length := by
      rw [h1.pos, e1, List.length_append, hp]
    rw [h2.data hp1, e1, unlines_append, List.append_assoc]

theorem Wrote.cast {α : Type} {L L1 : OGRGmtLayer α} {a b : List Str}
    (h : Wrote L L1 a) (e : a = b) : Wrote L L1 b := e ▸ h

theorem VSIFPrintfL_noquota (fp : VSILFILE) (site : PrintfSite) (s : Str)
    (h : fp.quota = none) :
    VSIFPrintfL fp site s =
      (s.length, { fp with data := storeAt fp.data fp.pos s, pos := fp.pos + s.length,
                           written := fp.written ++ [(site, s)] }) := by
  unfold VSIFPrintfL
  rw [h]

theorem emit_wrote {α : Type} (L : OGRGmtLayer α) (site : PrintfSite) (l : Str)
    (h : L.m_fp.quota = none) : Wrote L (emit L site (l ++ "\n".data)) [l] := by
  have e := VSIFPrintfL_noquota L.m_fp site (l ++ "\n".data) h
  refine ⟨?_, ?_, ?_, rfl, rfl, rfl, rfl, rfl⟩
  · simp [emit, e, h]
  · simp [emit, e, unlines_singleton]
  · intro hp
    simp [emit, e, unlines_singleton, hp, storeAt_end]

theorem writeVertex_wrote {α : Type} [LinearOrder α] (env : Env α) (nDim : Nat)
    (L : OGRGmtLayer α) (v : Vertex α) (h : L.m_fp.quota = none) :
    ¬ (writeVertex env nDim L v).1 < 1 ∧
    Wrote L (writeVertex env nDim L v).2 [vertexText env nDim v] ∧
    (writeVertex env nDim L v).2.sRegion = OGREnvelope.Merge L.sRegion v.x v.y := by
  have e := VSIFPrintfL_noquota L.m_fp .vertexLine (vertexText env nDim v ++ "\n".data) h
  have w := emit_wrote L .vertexLine (vertexText env nDim v) h
  refine ⟨?_, ⟨?_, ?_, ?_, rfl, rfl, rfl, rfl, rfl⟩, rfl⟩
  · simp [writeVertex, e]
  · exact w.quota
  · exact w.pos
  · exact w.data

theorem writeVertices_wrote {α : Type} [LinearOrder α] (env : Env α) (nDim : Nat)
    (pts : List (Vertex α)) :
    ∀ L : OGRGmtLayer α, L.m_fp.quota = none →
      (writeVertices env nDim L pts).1 = OGRERR_NONE ∧
      Wrote L (writeVertices env nDim L pts).2 (vertexLines env nDim pts) ∧
      (writeVertices env nDim L pts).2.sRegion = mergeVertices L.sRegion pts := by
  induction pts with
  | nil => intro L h; exact ⟨rfl, Wrote.wroteNone L h, rfl⟩
  | cons v vs ih =>
    intro L h
    obtain ⟨h1, h2, h3⟩ := writeVertex_wrote env nDim L v h
    obtain ⟨i1, i2, i3⟩ := ih (writeVertex env nDim L v).2 h2.quota
    simp only [writeVertices, if_neg h1]
    refine ⟨i1, (h2.wroteThen i2).cast (by simp [vertexLines]), ?_⟩
    rw [i3, h3]; rfl

theorem writeLeaf_wrote {α : Type} [LinearOrder α] (env : Env α) (L : OGRGmtLayer α)
    (bPoint : Bool) (pts : List (Vertex α)) (nDim : Nat) (bHaveAngle : Bool)
    (h : L.m_fp.quota = none) :
    (writeLeaf env L bPoint pts nDim bHaveAngle).1 = OGRERR_NONE ∧
    Wrote L (writeLeaf env L bPoint pts nDim bHaveAngle).2
      (leafLines env bPoint pts nDim bHaveAngle) ∧
    (writeLeaf env L bPoint pts nDim bHaveAngle).2.sRegion = mergeVertices L.sRegion pts := by
  unfold writeLeaf leafLines
  by_cases hc : (!bPoint && !bHaveAngle) = true
  · simp only [hc, if_true]
    have w := emit_wrote L .leafAngle ">".data h
    obtain ⟨i1, i2, i3⟩ := writeVertices_wrote env nDim pts _ w.quota
    exact ⟨i1, w.wroteThen i2, i3⟩
  · simp only [hc, if_false, Bool.false_eq_true, List.nil_append]
    exact writeVertices_wrote env nDim pts L h

theorem beforeChild_wrote {α : Type} (bPolygon : Bool) (L : OGRGmtLayer α) (iGeom : Nat)
    (bHaveAngle : Bool) (h : L.m_fp.quota = none) :
    Wrote L (beforeChild bPolygon L iGeom bHaveAngle)
      (beforeChildLines bPolygon iGeom bHaveAngle) ∧
    (beforeChild bPolygon L iGeom bHaveAngle).sRegion = L.sRegion := by
  unfold beforeChild beforeChildLines
  cases bPolygon with
  | false => exact ⟨Wrote.wroteNone L h, rfl⟩
  | true =>
    simp only [if_true]
    cases bHaveAngle with
    | true =>
      by_cases hi : (iGeom == 0) = true
      · simp only [hi, if_true]
        exact ⟨(emit_wrote L .ringOuter "# @P".data h).cast (by simp), rfl⟩
      · simp only [hi, if_false, Bool.false_eq_true]
        exact ⟨(emit_wrote L .ringHole "# @H".data h).cast (by simp), rfl⟩
    | false =>
      have w := emit_wrote L .ringAngle ">".data h
      by_cases hi : (iGeom == 0) = true
      · simp only [hi, if_true]
        exact ⟨(w.wroteThen (emit_wrote _ .ringOuter "# @P".data w.quota)).cast (by simp), rfl⟩
      · simp only [hi, if_false, Bool.false_eq_true]
        exact ⟨(w.wroteThen (emit_wrote _ .ringHole "# @H".data w.quota)).cast (by simp), rfl⟩

theorem writeChildren_wrote {α χ : Type} [LinearOrder α]
    (writeChild : OGRGmtLayer α → χ → Bool → OGRErr × OGRGmtLayer α)
    (childLines : χ → Bool → List Str) (childVertices : χ → List (Vertex α))
    (bPolygon : Bool)
    (hchild : ∀ (L : OGRGmtLayer α) c b, L.m_fp.quota = none →
      (writeChild L c b).1 = OGRERR_NONE ∧ Wrote L (writeChild L c b).2 (childLines c b) ∧
      (writeChild L c b).2.sRegion = mergeVertices L.sRegion (childVertices c))
    (cs : List χ) :
    ∀ (L : OGRGmtLayer α) (iGeom : Nat) (bHaveAngle : Bool), L.m_fp.quota = none →
      (writeChildren writeChild bPolygon L cs iGeom bHaveAngle OGRERR_NONE).1 = OGRERR_NONE ∧
      Wrote L (writeChildren writeChild bPolygon L cs iGeom bHaveAngle OGRERR_NONE).2
        (childrenLines childLines bPolygon cs iGeom bHaveAngle) ∧
      (writeChildren writeChild bPolygon L cs iGeom bHaveAngle OGRERR_NONE).2.sRegion =
        mergeVertices L.sRegion (cs.map childVertices).flatten := by
  induction cs with
  | nil => intro L _ _ h; exact ⟨rfl, Wrote.wroteNone L h, rfl⟩
  | cons c cs ih =>
    intro L iGeom bHaveAngle h
    obtain ⟨b1, b2⟩ := beforeChild_wrote bPolygon L iGeom bHaveAngle h
    obtain ⟨c1, c2, c3⟩ := hchild (beforeChild bPolygon L iGeom bHaveAngle) c
      (if bPolygon then true else bHaveAngle) b1.quota
    obtain ⟨i1, i2, i3⟩ := ih (writeChild (beforeChild bPolygon L iGeom bHaveAngle) c
      (if bPolygon then true else bHaveAngle)).2 (iGeom + 1) false c2.quota
    simp only [writeChildren, beq_self_eq_true, if_true]
    rw [c1]
    refine ⟨i1, ((b1.wroteThen c2).wroteThen i2).cast (by simp [childrenLines]), ?_⟩
    rw [i3, c3, b2]
    simp [mergeVertices, List.foldl_append]

theorem writeLineString_wrote {α : Type} [LinearOrder α] (env : Env α) (L : OGRGmtLayer α)
    (l : OGRLineString α) (b : Bool) (h : L.m_fp.quota = none) :
    (writeLineString env L l b).1 = OGRERR_NONE ∧
    Wrote L (writeLineString env L l b).2 (lineStringLines env l b) ∧
    (writeLineString env L l b).2.sRegion = mergeVertices L.sRegion l.pts :=
  writeLeaf_wrote env L false l.pts _ b h

theorem writePoint_wrote {α : Type} [LinearOrder α] (env : Env α) (L : OGRGmtLayer α)
    (p : OGRPoint α) (b : Bool) (h : L.m_fp.quota = none) :
    (writePoint env L p b).1 = OGRERR_NONE ∧
    Wrote L (writePoint env L p b).2 (pointLines env p b) ∧
    (writePoint env L p b).2.sRegion = mergeVertices L.sRegion p.coord.toList :=
  writeLeaf_wrote env L true _ _ b h

theorem writePolygon_wrote {α : Type} [LinearOrder α] (env : Env α) (L : OGRGmtLayer α)
    (p : OGRPolygon α) (b : Bool) (h : L.m_fp.quota = none) :
    (writePolygon env L p b).1 = OGRERR_NONE ∧
    Wrote L (writePolygon env L p b).2 (polygonLines env p b) ∧
    (writePolygon env L p b).2.sRegion =
      mergeVertices L.sRegion (p.rings.map (fun r => r.pts)).flatten := by
  unfold writePolygon polygonLines
  by_cases hc : p.rings.length > 0
  · simp only [hc, if_true]
    exact writeChildren_wrote _ _ _ true (fun L c b h => writeLineString_wrote env L c b h)
      p.rings L 0 b h
  · simp only [hc, if_false]
    have e : p.rings = [] := List.length_eq_zero.mp (by omega)
    have w := writeLeaf_wrote env L false [] 2 b h
    rw [e]
    exact w

/-- On a device that accepts every write `WriteGeometry` succeeds, writes the lines
of the geometry and merges its vertices into the envelope. -/
theorem WriteGeometry_wrote {α : Type} [LinearOrder α] (env : Env α) (L : OGRGmtLayer α)
    (g : OGRGeometry α) (b : Bool) (h : L.m_fp.quota = none) :
    (WriteGeometry env L g b).1 = OGRERR_NONE ∧
    Wrote L (WriteGeometry env L g b).2 (geometryLines env g b) ∧
    (WriteGeometry env L g b).2.sRegion = mergeVertices L.sRegion g.vertices := by
  cases g with
  | point p => exact writePoint_wrote env L p b h
  | lineString l => exact writeLineString_wrote env L l b h
  | polygon p => exact writePolygon_wrote env L p b h
  | multiPoint ps =>
    simp only [WriteGeometry, geometryLines, OGRGeometry.vertices]
    by_cases hc : ps.length > 0
    · simp only [hc, if_true]
      exact writeChildren_wrote _ _ _ false (fun L c b h => writePoint_wrote env L c b h)
        ps L 0 b h
    · simp only [hc, if_false]
      have e : ps = [] := List.length_eq_zero.mp (by omega)
      rw [e]
      exact writeLeaf_wrote env L false [] 2 b h
  | multiLineString ls =>
    simp only [WriteGeometry, geometryLines, OGRGeometry.vertices]
    by_cases hc : ls.length > 0
    · simp only [hc, if_true]
      exact writeChildren_wrote _ _ _ false (fun L c b h => writeLineString_wrote env L c b h)
        ls L 0 b h
    · simp only [hc, if_false]
      have e : ls = [] := List.length_eq_zero.mp (by omega)
      rw [e]
      exact writeLeaf_wrote env L false [] 2 b h
  | multiPolygon ps =>
    simp only [WriteGeometry, geometryLines, OGRGeometry.vertices]
    by_cases hc : ps.length > 0
    · simp only [hc, if_true]
      exact writeChildren_wrote _ _ _ false (fun L c b h => writePolygon_wrote env L c b h)
        ps L 0 b h
    · simp only [hc, if_false]
      have e : ps = [] := List.length_eq_zero.mp (by omega)
      rw [e]
      exact writeLeaf_wrote env L false [] 2 b h

/-! ## Header completion -/

theorem EmitsSub.subNone {α : Type} (L : OGRGmtLayer α) : EmitsSub [] L L :=
  ⟨[], by simp, by simp⟩

theorem EmitsSub.subThen {α : Type} {a b : List PrintfSite} {L L1 L2 : OGRGmtLayer α}
    (h1 : EmitsSub a L L1) (h2 : EmitsSub b L1 L2) : EmitsSub (a ++ b) L L2 := by
  obtain ⟨n1, e1, p1⟩ := h1
  obtain ⟨n2, e2, p2⟩ := h2
  refine ⟨n1 ++ n2, by rw [e2, e1, List.append_assoc], ?_⟩
  rw [List.map_append]
  exact p1.append p2

theorem EmitsSub.weaken {α : Type} {a b : List PrintfSite} {L L1 : OGRGmtLayer α}
    (h : EmitsSub a L L1) (hab : a.Sublist b) : EmitsSub b L L1 := by
  obtain ⟨n, e, p⟩ := h
  exact ⟨n, e, p.trans hab⟩

theorem emit_EmitsSub {α : Type} (L : OGRGmtLayer α) (site : PrintfSite) (s : Str) :
    EmitsSub [site] L (emit L site s) := by
  rcases VSIFPrintfL_written L.m_fp site s with h1 | h1
  · exact ⟨[], by simp [emit, h1], by simp⟩
  · exact ⟨[(site, s)], by simp [emit, h1], by simp⟩

theorem completeGeomType_spec {α : Type} (L : OGRGmtLayer α) (g : Option (OGRGeometry α)) :
    (completeGeomType L g).poFeatureDefn = completedDefn L.poFeatureDefn g ∧
    (completeGeomType L g).bUpdate = L.bUpdate ∧
    (completeGeomType L g).iNextFID = L.iNextFID ∧
    (completeGeomType L g).sRegion = L.sRegion ∧
    EmitsSub [.geomMarker] L (completeGeomType L g) := by
  cases g with
  | none => exact ⟨rfl, rfl, rfl, rfl, (EmitsSub.subNone L).weaken (by simp)⟩
  | some g =>
    dsimp only [completeGeomType, completedDefn]
    by_cases h : (L.poFeatureDefn.geomType == wkbUnknown) = true
    · rw [if_pos h, if_pos h]
      refine ⟨rfl, rfl, rfl, rfl, ?_⟩
      obtain ⟨n, e, p⟩ := emit_EmitsSub
        { L with poFeatureDefn := { L.poFeatureDefn with geomType := g.getGeometryType } }
        .geomMarker ("#".data ++ geomMarker g.getGeometryType ++ "\n".data)
      exact ⟨n, e, p⟩
    · rw [if_neg h, if_neg h]
      exact ⟨rfl, rfl, rfl, rfl, (EmitsSub.subNone L).weaken (by simp)⟩

theorem completeFields_spec {α : Type} (L : OGRGmtLayer α) :
    (completeFields L).poFeatureDefn = L.poFeatureDefn ∧
    (completeFields L).bUpdate = L.bUpdate ∧
    (completeFields L).iNextFID = L.iNextFID ∧
    (completeFields L).sRegion = L.sRegion ∧
    EmitsSub [.fieldNames, .fieldTypes] L (completeFields L) := by
  unfold completeFields
  by_cases h : L.poFeatureDefn.fields.length > 0
  · rw [if_pos h]
    exact ⟨rfl, rfl, rfl, rfl, (emit_EmitsSub L _ _).subThen (emit_EmitsSub _ _ _)⟩
  · rw [if_neg h]
    exact ⟨rfl, rfl, rfl, rfl, (EmitsSub.subNone L).weaken (by simp)⟩

/-- What `CompleteHeader` does to the layer: it returns success, sets both completion
flags, keeps the fields, fixes an undetermined geometry kind from the geometry given,
and writes at most one line from each of its four call sites. -/
theorem CompleteHeader_spec {α : Type} (L : OGRGmtLayer α) (g : Option (OGRGeometry α)) :
    (CompleteHeader L g).1 = OGRERR_NONE ∧
    (CompleteHeader L g).2.bHeaderComplete = true ∧
    (CompleteHeader L g).2.bRegionComplete = true ∧
    (CompleteHeader L g).2.bUpdate = L.bUpdate ∧
    (CompleteHeader L g).2.iNextFID = L.iNextFID ∧
    (CompleteHeader L g).2.sRegion = L.sRegion ∧
    (CompleteHeader L g).2.poFeatureDefn = completedDefn L.poFeatureDefn g ∧
    EmitsSub [.geomMarker, .fieldNames, .fieldTypes, .featureData] L (CompleteHeader L g).2 := by
  obtain ⟨a1, a2, a3, a4, a5⟩ := completeGeomType_spec L g
  obtain ⟨b1, b2, b3, b4, b5⟩ := completeFields_spec (completeGeomType L g)
  refine ⟨rfl, rfl, rfl, ?_, ?_, ?_, ?_, ?_⟩
  · exact b2.trans a2
  · exact b3.trans a3
  · exact b4.trans a4
  · exact b1.trans a1
  · obtain ⟨n, e, p⟩ := (a5.subThen b5).subThen
      (emit_EmitsSub (completeFields (completeGeomType L g)) .featureData "# FEATURE_DATA\n".data)
    exact ⟨n, e, p⟩


/-! ## `ICreateFeature` -/

theorem feature_not_header (site : PrintfSite) (h : site.isFeatureLine = true) :
    site.isHeaderLine = false := by
  cases site <;> first | rfl | cases h

theorem geometry_is_feature (site : PrintfSite) (h : site.isGeometryLine = true) :
    site.isFeatureLine = true := by
  cases site <;> first | rfl | cases h

/-- What `writeFeature` keeps and which call sites it writes from. -/
theorem writeFeature_frame {α : Type} [LinearOrder α] (env : Env α) (L : OGRGmtLayer α)
    (f : OGRFeature α) (g : OGRGeometry α) :
    Emits (fun site => site.isFeatureLine = true) L (writeFeature env L f g).2 ∧
    (writeFeature env L f g).2.bUpdate = L.bUpdate ∧
    (writeFeature env L f g).2.bHeaderComplete = L.bHeaderComplete ∧
    (writeFeature env L f g).2.bRegionComplete = L.bRegionComplete ∧
    (writeFeature env L f g).2.iNextFID = L.iNextFID ∧
    (writeFeature env L f g).2.poFeatureDefn = completedDefn L.poFeatureDefn (some g) ∧
    ∃ vs, (writeFeature env L f g).2.sRegion = mergeVertices L.sRegion vs := by
  let P : PrintfSite → Prop := fun site => site.isFeatureLine = true
  let L1 : OGRGmtLayer α :=
    if L.poFeatureDefn.geomType == wkbUnknown then
      { L with poFeatureDefn := { L.poFeatureDefn with geomType := g.getGeometryType } }
    else L
  let L2 := if L1.poFeatureDefn.geomType != wkbPoint then emit L1 .featureAngle ">\n".data else L1
  let L3 :=
    if L2.poFeatureDefn.fields.length > 0 then
      emit L2 .fieldData ("# @D".data ++ encodeFields L2.poFeatureDefn f ++ "\n".data)
    else L2
  have e : writeFeature env L f g = WriteGeometry env L3 g true := rfl
  have h1 : Emits P L L1 ∧ L1.bUpdate = L.bUpdate ∧ L1.bHeaderComplete = L.bHeaderComplete ∧
      L1.bRegionComplete = L.bRegionComplete ∧ L1.iNextFID = L.iNextFID ∧
      L1.poFeatureDefn = completedDefn L.poFeatureDefn (some g) ∧ L1.sRegion = L.sRegion := by
    by_cases hk : (L.poFeatureDefn.geomType == wkbUnknown) = true
    · have e1 : L1 =
          { L with poFeatureDefn := { L.poFeatureDefn with geomType := g.getGeometryType } } :=
        if_pos hk
      rw [e1]
      dsimp only [completedDefn]
      rw [if_pos hk]
      exact ⟨⟨[], by simp, by simp⟩, rfl, rfl, rfl, rfl, rfl, rfl⟩
    · have e1 : L1 = L := if_neg hk
      rw [e1]
      dsimp only [completedDefn]
      rw [if_neg hk]
      exact ⟨Emits.emitsNone P L, rfl, rfl, rfl, rfl, rfl, rfl⟩
  have h2 : WriterFrame P L1 L2 := by
    show WriterFrame P L1 (if _ then _ else _)
    split
    · exact emit_frame L1 _ _ rfl
    · exact WriterFrame.frameSame P L1
  have h3 : WriterFrame P L2 L3 := by
    show WriterFrame P L2 (if _ then _ else _)
    split
    · exact emit_frame L2 _ _ rfl
    · exact WriterFrame.frameSame P L2
  have h4 : WriterFrame P L3 (WriteGeometry env L3 g true).2 :=
    WriteGeometry_frame env (fun site hs => geometry_is_feature site hs) L3 g true
  have h := (h2.frameThen h3).frameThen h4
  rw [e]
  obtain ⟨vs, hvs⟩ := h.sRegion
  exact ⟨h1.1.emitsThen h.emits, h.bUpdate.trans h1.2.1, h.bHeaderComplete.trans h1.2.2.1,
    h.bRegionComplete.trans h1.2.2.2.1, h.iNextFID.trans h1.2.2.2.2.1,
    h.poFeatureDefn.trans h1.2.2.2.2.2.1, vs, by rw [hvs, h1.2.2.2.2.2.2]⟩

/-- The layer on which `writeFeature` starts writing: `L` with an undetermined
geometry kind fixed from the geometry. -/
theorem writeFeature_wrote {α : Type} [LinearOrder α] (env : Env α) (L : OGRGmtLayer α)
    (f : OGRFeature α) (g : OGRGeometry α) (h : L.m_fp.quota = none) :
    (writeFeature env L f g).1 = OGRERR_NONE ∧
    Wrote { L with poFeatureDefn := completedDefn L.poFeatureDefn (some g) }
      (writeFeature env L f g).2
      (featureLines env (completedDefn L.poFeatureDefn (some g)) f g) ∧
    (writeFeature env L f g).2.sRegion = mergeVertices L.sRegion g.vertices := by
  let L1 : OGRGmtLayer α := { L with poFeatureDefn := completedDefn L.poFeatureDefn (some g) }
  let L2 := if L1.poFeatureDefn.geomType != wkbPoint then emit L1 .featureAngle ">\n".data else L1
  let L3 :=
    if L2.poFeatureDefn.fields.length > 0 then
      emit L2 .fieldData ("# @D".data ++ encodeFields L2.poFeatureDefn f ++ "\n".data)
    else L2
  have e : writeFeature env L f g = WriteGeometry env L3 g true := by
    show WriteGeometry env _ g true = WriteGeometry env L3 g true
    congr 1
    dsimp only [L3, L2, L1, completedDefn]
    by_cases hk : (L.poFeatureDefn.geomType == wkbUnknown) = true
    · simp only [hk, if_true]
    · simp only [hk, if_false, Bool.false_eq_true]
  have q1 : L1.m_fp.quota = none := h
  have h2 : Wrote L1 L2 (if L1.poFeatureDefn.geomType != wkbPoint then [">".data] else []) ∧
      L2.sRegion = L.sRegion := by
    show Wrote L1 (if _ then _ else _) _ ∧ (if _ then _ else _ : OGRGmtLayer α).sRegion = _
    by_cases hk : (L1.poFeatureDefn.geomType != wkbPoint) = true
    · simp only [if_pos hk]
      exact ⟨(emit_wrote L1 .featureAngle ">".data q1).cast (by simp), rfl⟩
    · simp only [if_neg hk]
      exact ⟨Wrote.wroteNone L1 q1, trivial⟩
  have h3 : Wrote L2 L3 (if L1.poFeatureDefn.fields.length > 0
        then ["# @D".data ++ encodeFields L1.poFeatureDefn f] else []) ∧
      L3.sRegion = L.sRegion := by
    have ed : L2.poFeatureDefn = L1.poFeatureDefn := h2.1.poFeatureDefn
    show Wrote L2 (if _ then _ else _) _ ∧ (if _ then _ else _ : OGRGmtLayer α).sRegion = _
    rw [ed]
    by_cases hk : L1.poFeatureDefn.fields.length > 0
    · simp only [if_pos hk]
      exact ⟨(emit_wrote L2 .fieldData _ h2.1.quota).cast (by simp), h2.2⟩
    · simp only [if_neg hk]
      exact ⟨Wrote.wroteNone L2 h2.1.quota, h2.2⟩
  obtain ⟨g1, g2, g3⟩ := WriteGeometry_wrote env L3 g true h3.1.quota
  rw [e]
  refine ⟨g1, ((h2.1.wroteThen h3.1).wroteThen g2).cast ?_, by rw [g3, h3.2]⟩
  simp [featureLines, L1]


/-! ## Claims about rejected and accepted writes -/

/-- C2. On a layer opened read-only (`bUpdate` false) `ICreateFeature` and `CreateField`
return failure and leave the layer as it was: nothing is written to the file, and the
schema, the geometry kind, the header-complete flag, the bounding box and the next
feature id are unchanged. -/
theorem C2_readonly_rejects_writes {α : Type} [LinearOrder α] (env : Env α)
    (L : OGRGmtLayer α) (poFeature : OGRFeature α) (poField : OGRFieldDefn)
    (bApproxOK : Bool) (hro : L.bUpdate = false) :
    ICreateFeature env L poFeature = (OGRERR_FAILURE, L) ∧
    CreateField L poField bApproxOK = (OGRERR_FAILURE, L) := by
  constructor
  · simp [ICreateFeature, hro]
  · simp [CreateField, hro]

/-- C2, at a read-only layer opened on a file with one point feature. -/
theorem C2_readonly_rejects_writes_witness :
    (openLayer "# @GPOINT\n# FEATURE_DATA\n1 2\n" false).bUpdate = false ∧
    (ICreateFeature intEnv (openLayer "# @GPOINT\n# FEATURE_DATA\n1 2\n" false)
        (mkFeature (.point (mkPoint 3 4)) []) =
      (OGRERR_FAILURE, openLayer "# @GPOINT\n# FEATURE_DATA\n1 2\n" false) ∧
     CreateField (openLayer "# @GPOINT\n# FEATURE_DATA\n1 2\n" false) ⟨"name".data, OFTString⟩ true =
      (OGRERR_FAILURE, openLayer "# @GPOINT\n# FEATURE_DATA\n1 2\n" false)) :=
  ⟨by decide, C2_readonly_rejects_writes intEnv _ _ _ _ (by decide)⟩


/-! ## Header completion happens once -/

theorem countSite_append (site : PrintfSite) (a b : List (PrintfSite × Str)) :
    countSite site (a ++ b) = countSite site a + countSite site b := by
  simp [countSite]

theorem countSite_eq_count (site : PrintfSite) (w : List (PrintfSite × Str)) :
    countSite site w = (w.map Prod.fst).count site := by
  simp [countSite, List.count, List.countP_map, Function.comp_def]

theorem countSite_le_of_sublist (site : PrintfSite) (w : List (PrintfSite × Str))
    (sites : List PrintfSite) (h : (w.map Prod.fst).Sublist sites) :
    countSite site w ≤ sites.count site := by
  rw [countSite_eq_count]
  exact h.count_le site

theorem countSite_eq_zero (site : PrintfSite) (w : List (PrintfSite × Str))
    (h : ∀ e ∈ w, e.1 ≠ site) : countSite site w = 0 := by
  simp only [countSite, List.countP_eq_zero]
  intro e he
  simpa using h e he

theorem writtenSince_eq {α : Type} (L L1 : OGRGmtLayer α) (new : List (PrintfSite × Str))
    (h : L1.m_fp.written = L.m_fp.written ++ new) : writtenSince L L1 = new := by
  simp [writtenSince, h]

theorem CompleteHeader_fst {α : Type} (L : OGRGmtLayer α) (g : Option (OGRGeometry α)) :
    (CompleteHeader L g).1 = OGRERR_NONE := rfl

/-- The writes of one call of the write interface, as far as the header lines are
concerned: each of the three header lines is written at most once; one is written
only by `ICreateFeature` on a header that is incomplete; a complete header stays
complete, and a call that writes a header line leaves the header complete. -/
theorem applyOp_header {α : Type} [LinearOrder α] (env : Env α) (L : OGRGmtLayer α)
    (op : WriteOp α) :
    ∃ new, (applyOp env L op).2.m_fp.written = L.m_fp.written ++ new ∧
      (∀ site, site.isHeaderLine = true → countSite site new ≤ 1) ∧
      (L.bHeaderComplete = true →
        (applyOp env L op).2.bHeaderComplete = true ∧
        ∀ site, site.isHeaderLine = true → countSite site new = 0) ∧
      ((∃ site, site.isHeaderLine = true ∧ 0 < countSite site new) →
        (∃ f, op = .createFeature f) ∧ L.bHeaderComplete = false ∧
        (applyOp env L op).2.bHeaderComplete = true) := by
  have nothing : ∀ L1 : OGRGmtLayer α, L1 = L →
      ∃ new, L1.m_fp.written = L.m_fp.written ++ new ∧
      (∀ site, site.isHeaderLine = true → countSite site new ≤ 1) ∧
      (L.bHeaderComplete = true →
        L1.bHeaderComplete = true ∧
        ∀ site, site.isHeaderLine = true → countSite site new = 0) ∧
      ((∃ site, site.isHeaderLine = true ∧ 0 < countSite site new) →
        (∃ f, op = .createFeature f) ∧ L.bHeaderComplete = false ∧
        L1.bHeaderComplete = true) := by
    intro L1 e
    subst e
    refine ⟨[], by simp, by simp [countSite], fun h => ⟨h, by simp [countSite]⟩, ?_⟩
    rintro ⟨site, _, h⟩
    simp [countSite] at h
  cases op with
  | createField poField bApproxOK =>
    have hw : (CreateField L poField bApproxOK).2.m_fp.written = L.m_fp.written ∧
        (CreateField L poField bApproxOK).2.bHeaderComplete = L.bHeaderComplete := by
      unfold CreateField
      split
      · exact ⟨rfl, rfl⟩
      · split
        · exact ⟨rfl, rfl⟩
        · split <;> first | exact ⟨rfl, rfl⟩ | (split <;> first | exact ⟨rfl, rfl⟩ | (split <;> exact ⟨rfl, rfl⟩))
    refine ⟨[], by simpa [applyOp] using hw.1, by simp [countSite],
      fun h => ⟨by simpa [applyOp, hw.2] using h, by simp [countSite]⟩, ?_⟩
    rintro ⟨site, _, h⟩
    simp [countSite] at h
  | createFeature f =>
    rw [show applyOp env L (.createFeature f) = ICreateFeature env L f from rfl]
    by_cases hU : L.bUpdate = true
    · by_cases hH : L.bHeaderComplete = true
      · -- header complete: only feature lines
        cases hg : f.poGeom with
        | none =>
          have e : ICreateFeature env L f = (OGRERR_FAILURE, L) := by
            simp [ICreateFeature, hU, hH, hg]
          rw [e]
          exact nothing L rfl
        | some g =>
          have e : ICreateFeature env L f = writeFeature env L f g := by
            simp [ICreateFeature, hU, hH, hg]
          rw [e]
          obtain ⟨⟨new, hn, hp⟩, _, w3, _⟩ := writeFeature_frame env L f g
          have hz : ∀ site, site.isHeaderLine = true → countSite site new = 0 := by
            intro site hs
            apply countSite_eq_zero
            intro e he hne
            have := hp e he
            rw [hne] at this
            have := feature_not_header site this
            rw [hs] at this
            cases this
          refine ⟨new, hn, fun site hs => by rw [hz site hs]; exact Nat.zero_le _,
            fun _ => ⟨by rw [w3]; exact hH, hz⟩, ?_⟩
          rintro ⟨site, hs, h⟩
          rw [hz site hs] at h
          exact absurd h (Nat.lt_irrefl 0)
      · -- header incomplete: the header, then the feature lines
        have hH' : L.bHeaderComplete = false := by simpa using hH
        obtain ⟨c1, c2, _, _, _, _, _, ⟨hdr, hh, hsub⟩⟩ := CompleteHeader_spec L f.poGeom
        have hc : ∀ site, countSite site hdr ≤ 1 := by
          intro site
          refine (countSite_le_of_sublist site hdr _ hsub).trans ?_
          cases site <;> decide
        cases hg : f.poGeom with
        | none =>
          have e : ICreateFeature env L f = (OGRERR_FAILURE, (CompleteHeader L f.poGeom).2) := by
            simp [ICreateFeature, hU, hH', CompleteHeader_fst, hg]
          rw [e]
          exact ⟨hdr, hh, fun site _ => hc site, fun h => absurd h hH,
            fun _ => ⟨⟨f, rfl⟩, hH', c2⟩⟩
        | some g =>
          have e : ICreateFeature env L f =
              writeFeature env (CompleteHeader L f.poGeom).2 f g := by
            simp [ICreateFeature, hU, hH', CompleteHeader_fst, hg]
          rw [e]
          obtain ⟨⟨new, hn, hp⟩, _, w3, _⟩ :=
            writeFeature_frame env (CompleteHeader L f.poGeom).2 f g
          have hz : ∀ site, site.isHeaderLine = true → countSite site new = 0 := by
            intro site hs
            apply countSite_eq_zero
            intro e he hne
            have := hp e he
            rw [hne] at this
            have := feature_not_header site this
            rw [hs] at this
            cases this
          refine ⟨hdr ++ new, by rw [hn, hh, List.append_assoc], ?_, fun h => absurd h hH,
            fun _ => ⟨⟨f, rfl⟩, hH', by rw [w3]; exact c2⟩⟩
          intro site hs
          rw [countSite_append, hz site hs]
          exact hc site
    · have e : ICreateFeature env L f = (OGRERR_FAILURE, L) := by
        simp [ICreateFeature, hU]
      rw [e]
      exact nothing L rfl


/-- The writes of a sequence of calls, as far as the header lines are concerned. -/
theorem runOps_header {α : Type} [LinearOrder α] (env : Env α) (ops : List (WriteOp α)) :
    ∀ L : OGRGmtLayer α,
    ∃ new, (runOps env L ops).m_fp.written = L.m_fp.written ++ new ∧
      (∀ site, site.isHeaderLine = true → countSite site new ≤ 1) ∧
      (L.bHeaderComplete = true →
        (runOps env L ops).bHeaderComplete = true ∧
        ∀ site, site.isHeaderLine = true → countSite site new = 0) := by
  induction ops with
  | nil =>
    intro L
    exact ⟨[], by simp [runOps], by simp [countSite], fun h => ⟨h, by simp [countSite]⟩⟩
  | cons op ops ih =>
    intro L
    obtain ⟨n1, e1, a1, b1, c1⟩ := applyOp_header env L op
    obtain ⟨n2, e2, a2, b2⟩ := ih (applyOp env L op).2
    have er : runOps env L (op :: ops) = runOps env (applyOp env L op).2 ops := rfl
    rw [er]
    refine ⟨n1 ++ n2, by rw [e2, e1, List.append_assoc], ?_, ?_⟩
    · intro site hs
      rw [countSite_append]
      by_cases hz : countSite site n1 = 0
      · rw [hz, Nat.zero_add]
        exact a2 site hs
      · have hflag := (c1 ⟨site, hs, Nat.pos_of_ne_zero hz⟩).2.2
        rw [(b2 hflag).2 site hs]
        exact a1 site hs
    · intro hH
      obtain ⟨f1, z1⟩ := b1 hH
      obtain ⟨f2, z2⟩ := b2 f1
      refine ⟨f2, fun site hs => ?_⟩
      rw [countSite_append, z1 site hs, z2 site hs]

/-- C3. Over any sequence of `ICreateFeature` and `CreateField` calls the
`# FEATURE_DATA` sentinel, the `# @N` line and the `# @T` line are each written at
most once; a call that writes one of them is an `ICreateFeature` call that found the
header incomplete, and it leaves the header complete; and a header-complete flag
that is set is still set after the whole sequence, so that such a call happens at
most once. -/
theorem C3_header_lines_written_once {α : Type} [LinearOrder α] (env : Env α)
    (L : OGRGmtLayer α) (ops : List (WriteOp α)) (op : WriteOp α) :
    (countSite .featureData (writtenSince L (runOps env L ops)) ≤ 1 ∧
     countSite .fieldNames (writtenSince L (runOps env L ops)) ≤ 1 ∧
     countSite .fieldTypes (writtenSince L (runOps env L ops)) ≤ 1) ∧
    ((0 < countSite .featureData (writtenSince L (applyOp env L op).2) ∨
      0 < countSite .fieldNames (writtenSince L (applyOp env L op).2) ∨
      0 < countSite .fieldTypes (writtenSince L (applyOp env L op).2)) →
      (∃ poFeature, op = .createFeature poFeature) ∧ L.bHeaderComplete = false ∧
      (applyOp env L op).2.bHeaderComplete = true) ∧
    (L.bHeaderComplete = true → (runOps env L ops).bHeaderComplete = true) := by
  obtain ⟨new, e, a, b⟩ := runOps_header env ops L
  obtain ⟨n1, e1, _, _, c1⟩ := applyOp_header env L op
  rw [writtenSince_eq _ _ new e, writtenSince_eq _ _ n1 e1]
  refine ⟨⟨a _ rfl, a _ rfl, a _ rfl⟩, ?_, fun h => (b h).1⟩
  intro h
  rcases h with h | h | h
  · exact c1 ⟨.featureData, rfl, h⟩
  · exact c1 ⟨.fieldNames, rfl, h⟩
  · exact c1 ⟨.fieldTypes, rfl, h⟩


/-! ## `ICreateFeature` on a device that accepts every write -/

theorem getGeometryType_ne_unknown {α : Type} (g : OGRGeometry α) :
    g.getGeometryType ≠ wkbUnknown := by
  cases g <;> simp [OGRGeometry.getGeometryType]

theorem completedDefn_idem {α : Type} (defn : OGRFeatureDefn) (g : OGRGeometry α) :
    completedDefn (completedDefn defn (some g)) (some g) = completedDefn defn (some g) := by
  unfold completedDefn
  by_cases h : (defn.geomType == wkbUnknown) = true
  · have hn : ((g.getGeometryType == wkbUnknown) = true) = False := by
      simpa using getGeometryType_ne_unknown g
    simp [h, hn]
  · simp [h]

theorem completedDefn_of_known {α : Type} (defn : OGRFeatureDefn) (g : Option (OGRGeometry α))
    (h : defn.geomType ≠ wkbUnknown) : completedDefn defn g = defn := by
  cases g with
  | none => rfl
  | some g => simp [completedDefn, h]

theorem completedDefn_fields {α : Type} (defn : OGRFeatureDefn) (g : Option (OGRGeometry α)) :
    (completedDefn defn g).fields = defn.fields := by
  cases g with
  | none => rfl
  | some g => unfold completedDefn; dsimp only; split <;> rfl

theorem completeGeomType_wrote {α : Type} (L : OGRGmtLayer α) (g : Option (OGRGeometry α))
    (hq : L.m_fp.quota = none) :
    Wrote { L with poFeatureDefn := completedDefn L.poFeatureDefn g } (completeGeomType L g)
      (match g with
        | some g =>
          if L.poFeatureDefn.geomType == wkbUnknown then ["#".data ++ geomMarker g.getGeometryType]
          else []
        | none => []) := by
  cases g with
  | none => exact Wrote.wroteNone L hq
  | some g =>
    dsimp only [completeGeomType, completedDefn]
    by_cases h : (L.poFeatureDefn.geomType == wkbUnknown) = true
    · simp only [if_pos h]
      exact (emit_wrote
        { L with poFeatureDefn := { L.poFeatureDefn with geomType := g.getGeometryType } }
        .geomMarker ("#".data ++ geomMarker g.getGeometryType) hq).cast rfl
    · simp only [if_neg h]
      exact Wrote.wroteNone L hq

theorem completeFields_wrote {α : Type} (L : OGRGmtLayer α) (hq : L.m_fp.quota = none) :
    Wrote L (completeFields L)
      (if L.poFeatureDefn.fields.length > 0 then
        ["# @N".data ++ List.intercalate "|".data (L.poFeatureDefn.fields.map (fun fd => fd.name)),
         "# @T".data ++
           List.intercalate "|".data (L.poFeatureDefn.fields.map (fun fd => fieldTypeWord fd.type))]
      else []) := by
  unfold completeFields
  by_cases h : L.poFeatureDefn.fields.length > 0
  · simp only [if_pos h]
    have w1 := emit_wrote L .fieldNames
      ("# @N".data ++ List.intercalate "|".data (L.poFeatureDefn.fields.map (fun fd => fd.name))) hq
    have w2 := emit_wrote _ .fieldTypes
      ("# @T".data ++
        List.intercalate "|".data (L.poFeatureDefn.fields.map (fun fd => fieldTypeWord fd.type)))
      w1.quota
    exact (w1.wroteThen w2).cast rfl
  · simp only [if_neg h]
    exact Wrote.wroteNone L hq

/-- On a device that accepts every write `CompleteHeader` writes the header lines. -/
theorem CompleteHeader_wrote {α : Type} (L : OGRGmtLayer α) (g : Option (OGRGeometry α))
    (hq : L.m_fp.quota = none) :
    Wrote { L with poFeatureDefn := completedDefn L.poFeatureDefn g, bHeaderComplete := true,
                   bRegionComplete := true }
      (CompleteHeader L g).2 (headerLines L.poFeatureDefn g) := by
  have w1 := completeGeomType_wrote L g hq
  have w2 := completeFields_wrote (completeGeomType L g) w1.quota
  have w3 := emit_wrote (completeFields (completeGeomType L g)) .featureData
    "# FEATURE_DATA".data w2.quota
  have w := (w1.wroteThen w2).wroteThen w3
  have ed : (completeGeomType L g).poFeatureDefn.fields = L.poFeatureDefn.fields := by
    rw [w1.poFeatureDefn]
    exact completedDefn_fields _ _
  refine ⟨w.quota, ?_, ?_, w.bUpdate, rfl, rfl, w.poFeatureDefn, w.iNextFID⟩
  · have := w.pos
    simp only [headerLines]
    rw [ed] at this
    cases g <;> exact this
  · have := w.data
    simp only [headerLines]
    rw [ed] at this
    cases g <;> exact this

/-- On a device that accepts every write, `ICreateFeature` on an update-mode layer
succeeds for every feature that has a geometry; it writes the header lines if the
header was incomplete, then the lines of the feature, and merges the vertices of the
geometry into the envelope. -/
theorem ICreateFeature_wrote {α : Type} [LinearOrder α] (env : Env α) (L : OGRGmtLayer α)
    (f : OGRFeature α) (g : OGRGeometry α) (hU : L.bUpdate = true) (hg : f.poGeom = some g)
    (hq : L.m_fp.quota = none) :
    (ICreateFeature env L f).1 = OGRERR_NONE ∧
    Wrote { L with poFeatureDefn := completedDefn L.poFeatureDefn (some g),
                   bHeaderComplete := true,
                   bRegionComplete := if L.bHeaderComplete then L.bRegionComplete else true }
      (ICreateFeature env L f).2
      ((if L.bHeaderComplete then [] else headerLines L.poFeatureDefn (some g)) ++
        featureLines env (completedDefn L.poFeatureDefn (some g)) f g) ∧
    (ICreateFeature env L f).2.sRegion = mergeVertices L.sRegion g.vertices := by
  by_cases hH : L.bHeaderComplete = true
  · have e : ICreateFeature env L f = writeFeature env L f g := by
      simp [ICreateFeature, hU, hH, hg]
    obtain ⟨a, b, c⟩ := writeFeature_wrote env L f g hq
    rw [e]
    refine ⟨a, ?_, c⟩
    simp only [hH, if_true, List.nil_append]
    exact ⟨b.quota, b.pos, b.data, b.bUpdate, b.bHeaderComplete.trans hH, b.bRegionComplete,
      b.poFeatureDefn, b.iNextFID⟩
  · have hH' : L.bHeaderComplete = false := by simpa using hH
    have e : ICreateFeature env L f = writeFeature env (CompleteHeader L (some g)).2 f g := by
      simp [ICreateFeature, hU, hH', CompleteHeader_fst, hg]
    have wh := CompleteHeader_wrote L (some g) hq
    obtain ⟨a, b, c⟩ := writeFeature_wrote env (CompleteHeader L (some g)).2 f g wh.quota
    have ed : (CompleteHeader L (some g)).2.poFeatureDefn =
        completedDefn L.poFeatureDefn (some g) := wh.poFeatureDefn
    rw [ed, completedDefn_idem] at b
    rw [e]
    refine ⟨a, ?_, by rw [c, (CompleteHeader_spec L (some g)).2.2.2.2.2.1]⟩
    simp only [hH', Bool.false_eq_true, if_false]
    have hp : (CompleteHeader L (some g)).2.m_fp.pos = L.m_fp.pos +
        (unlines (headerLines L.poFeatureDefn (some g))).length := wh.pos
    refine ⟨b.quota, ?_, ?_, b.bUpdate.trans wh.bUpdate, b.bHeaderComplete.trans wh.bHeaderComplete,
      b.bRegionComplete.trans wh.bRegionComplete, b.poFeatureDefn, b.iNextFID.trans wh.iNextFID⟩
    · show _ = L.m_fp.pos + _
      have hb : (writeFeature env (CompleteHeader L (some g)).2 f g).2.m_fp.pos =
          (CompleteHeader L (some g)).2.m_fp.pos +
            (unlines (featureLines env (completedDefn L.poFeatureDefn (some g)) f g)).length :=
        b.pos
      rw [hb, hp, unlines_append, List.length_append]
      omega
    · intro hpos
      show _ = L.m_fp.data ++ _
      have d1 := wh.data hpos
      have hpos1 : (CompleteHeader L (some g)).2.m_fp.pos =
          (CompleteHeader L (some g)).2.m_fp.data.length := by
        rw [hp, d1, List.length_append, hpos]
      have := b.data hpos1
      rw [this, d1, unlines_append, List.append_assoc]


/-- C10, refuted as stated: a line-string feature offered to an update-mode layer of
kind POINT is accepted, `ICreateFeature` returns `OGRERR_NONE`. -/
theorem C10_counterexample :
    (openLayer "# @GPOINT\n" true).bUpdate = true ∧
    (openLayer "# @GPOINT\n" true).poFeatureDefn.geomType = wkbPoint ∧
    (mkFeature (.lineString (mkLine [(0, 0), (1, 1)])) []).poGeom.map
      OGRGeometry.getGeometryType = some wkbLineString ∧
    (ICreateFeature intEnv (openLayer "# @GPOINT\n" true)
      (mkFeature (.lineString (mkLine [(0, 0), (1, 1)])) [])).1 = OGRERR_NONE := by
  decide

/-- C10, amended. `ICreateFeature` does not compare the kind of the geometry with the
kind of the layer: on an update-mode layer whose geometry kind is determined, and on
a device that accepts every write, it returns success for every feature that has a
geometry, whatever the kind of that geometry, and leaves the kind of the layer
unchanged. -/
theorem C10_kind_not_checked {α : Type} [LinearOrder α] (env : Env α) (L : OGRGmtLayer α)
    (poFeature : OGRFeature α) (poGeom : OGRGeometry α) (hU : L.bUpdate = true)
    (hK : L.poFeatureDefn.geomType ≠ wkbUnknown) (hg : poFeature.poGeom = some poGeom)
    (hq : L.m_fp.quota = none) :
    (ICreateFeature env L poFeature).1 = OGRERR_NONE ∧
    (ICreateFeature env L poFeature).2.poFeatureDefn.geomType = L.poFeatureDefn.geomType := by
  obtain ⟨a, b, _⟩ := ICreateFeature_wrote env L poFeature poGeom hU hg hq
  refine ⟨a, ?_⟩
  rw [b.poFeatureDefn]
  show (completedDefn L.poFeatureDefn (some poGeom)).geomType = _
  rw [completedDefn_of_known _ _ hK]

/-- C10 amended, at a line-string feature offered to a layer of kind POINT. -/
theorem C10_kind_not_checked_witness :
    (openLayer "# @GPOINT\n" true).bUpdate = true ∧
    (openLayer "# @GPOINT\n" true).poFeatureDefn.geomType ≠ wkbUnknown ∧
    (mkFeature (.lineString (mkLine [(0, 0), (1, 1)])) []).poGeom =
      some (.lineString (mkLine [(0, 0), (1, 1)])) ∧
    (openLayer "# @GPOINT\n" true).m_fp.quota = none ∧
    (ICreateFeature intEnv (openLayer "# @GPOINT\n" true)
      (mkFeature (.lineString (mkLine [(0, 0), (1, 1)])) [])).1 = OGRERR_NONE ∧
    (ICreateFeature intEnv (openLayer "# @GPOINT\n" true)
      (mkFeature (.lineString (mkLine [(0, 0), (1, 1)])) [])).2.poFeatureDefn.geomType =
      (openLayer "# @GPOINT\n" true).poFeatureDefn.geomType :=
  ⟨by decide, by decide, rfl, by decide,
    C10_kind_not_checked intEnv (openLayer "# @GPOINT\n" true)
      (mkFeature (.lineString (mkLine [(0, 0), (1, 1)])) [])
      (.lineString (mkLine [(0, 0), (1, 1)])) (by decide) (by decide) rfl (by decide)⟩


/-! ## The envelope maintained by the writer -/

theorem mergeVertices_some_bounds {α : Type} [LinearOrder α] (vs : List (Vertex α)) :
    ∀ (p : List (Vertex α)) (e : OGREnvelope α), IsBoundingBox e p →
      ∃ e1, mergeVertices (some e) vs = some e1 ∧ IsBoundingBox e1 (p ++ vs) := by
  induction vs with
  | nil => intro p e h; exact ⟨e, rfl, by simpa using h⟩
  | cons v vs ih =>
    intro p e h
    obtain ⟨⟨⟨a1, ha1, ea1⟩, la⟩, ⟨⟨a2, ha2, ea2⟩, ga⟩, ⟨⟨a3, ha3, ea3⟩, lb⟩,
      ⟨⟨a4, ha4, ea4⟩, gb⟩⟩ := h
    have hstep : IsBoundingBox
        (⟨min e.MinX v.x, max e.MaxX v.x, min e.MinY v.y, max e.MaxY v.y⟩ : OGREnvelope α)
        (p ++ [v]) := by
      refine ⟨⟨?_, ?_⟩, ⟨?_, ?_⟩, ⟨?_, ?_⟩, ⟨?_, ?_⟩⟩
      · rcases min_choice e.MinX v.x with h | h
        · exact ⟨a1, by simp [ha1], by rw [h]; exact ea1⟩
        · exact ⟨v, by simp, by rw [h]⟩
      · rintro a ⟨w, hw, rfl⟩
        rcases List.mem_append.mp hw with hw | hw
        · exact (min_le_left _ _).trans (la ⟨w, hw, rfl⟩)
        · have : w = v := by simpa using hw
          subst this
          exact min_le_right _ _
      · rcases max_choice e.MaxX v.x with h | h
        · exact ⟨a2, by simp [ha2], by rw [h]; exact ea2⟩
        · exact ⟨v, by simp, by rw [h]⟩
      · rintro a ⟨w, hw, rfl⟩
        rcases List.mem_append.mp hw with hw | hw
        · exact (ga ⟨w, hw, rfl⟩).trans (le_max_left _ _)
        · have : w = v := by simpa using hw
          subst this
          exact le_max_right _ _
      · rcases min_choice e.MinY v.y with h | h
        · exact ⟨a3, by simp [ha3], by rw [h]; exact ea3⟩
        · exact ⟨v, by simp, by rw [h]⟩
      · rintro a ⟨w, hw, rfl⟩
        rcases List.mem_append.mp hw with hw | hw
        · exact (min_le_left _ _).trans (lb ⟨w, hw, rfl⟩)
        · have : w = v := by simpa using hw
          subst this
          exact min_le_right _ _
      · rcases max_choice e.MaxY v.y with h | h
        · exact ⟨a4, by simp [ha4], by rw [h]; exact ea4⟩
        · exact ⟨v, by simp, by rw [h]⟩
      · rintro a ⟨w, hw, rfl⟩
        rcases List.mem_append.mp hw with hw | hw
        · exact (gb ⟨w, hw, rfl⟩).trans (le_max_left _ _)
        · have : w = v := by simpa using hw
          subst this
          exact le_max_right _ _
    obtain ⟨e1, h1, h2⟩ := ih (p ++ [v]) _ hstep
    refine ⟨e1, h1, ?_⟩
    simpa using h2

/-- Merging a non-empty list of vertices into the uninitialised envelope gives their
bounding box. -/
theorem mergeVertices_none_bounds {α : Type} [LinearOrder α] (vs : List (Vertex α))
    (hne : vs ≠ []) : ∃ e, mergeVertices none vs = some e ∧ IsBoundingBox e vs := by
  cases vs with
  | nil => exact absurd rfl hne
  | cons v vs =>
    have h0 : IsBoundingBox (⟨v.x, v.x, v.y, v.y⟩ : OGREnvelope α) [v] := by
      refine ⟨⟨⟨v, by simp, rfl⟩, ?_⟩, ⟨⟨v, by simp, rfl⟩, ?_⟩, ⟨⟨v, by simp, rfl⟩, ?_⟩,
        ⟨⟨v, by simp, rfl⟩, ?_⟩⟩ <;>
      · rintro a ⟨w, hw, rfl⟩
        have : w = v := by simpa using hw
        rw [this]
    obtain ⟨e1, h1, h2⟩ := mergeVertices_some_bounds vs [v] _ h0
    exact ⟨e1, h1, by simpa using h2⟩

/-- Merging vertices into an initialised envelope gives an envelope that contains
it. -/
theorem mergeVertices_contains {α : Type} [LinearOrder α] (vs : List (Vertex α)) :
    ∀ e : OGREnvelope α, ∃ e1, mergeVertices (some e) vs = some e1 ∧ e1.Contains e := by
  induction vs with
  | nil => intro e; exact ⟨e, rfl, le_refl _, le_refl _, le_refl _, le_refl _⟩
  | cons v vs ih =>
    intro e
    obtain ⟨e1, h1, c1, c2, c3, c4⟩ :=
      ih (⟨min e.MinX v.x, max e.MaxX v.x, min e.MinY v.y, max e.MaxY v.y⟩ : OGREnvelope α)
    exact ⟨e1, h1, c1.trans (min_le_left _ _), (le_max_left _ _).trans c2,
      c3.trans (min_le_left _ _), (le_max_left _ _).trans c4⟩

theorem writeVertices_ok_sRegion {α : Type} [LinearOrder α] (env : Env α) (nDim : Nat)
    (pts : List (Vertex α)) :
    ∀ L : OGRGmtLayer α, (writeVertices env nDim L pts).1 = OGRERR_NONE →
      (writeVertices env nDim L pts).2.sRegion = mergeVertices L.sRegion pts := by
  induction pts with
  | nil => intro L _; rfl
  | cons v vs ih =>
    intro L h
    simp only [writeVertices] at h ⊢
    by_cases hc : (writeVertex env nDim L v).1 < 1
    · rw [if_pos hc] at h
      cases h
    · rw [if_neg hc] at h ⊢
      rw [ih _ h]
      rfl

theorem writeLeaf_ok_sRegion {α : Type} [LinearOrder α] (env : Env α) (L : OGRGmtLayer α)
    (bPoint : Bool) (pts : List (Vertex α)) (nDim : Nat) (bHaveAngle : Bool)
    (h : (writeLeaf env L bPoint pts nDim bHaveAngle).1 = OGRERR_NONE) :
    (writeLeaf env L bPoint pts nDim bHaveAngle).2.sRegion = mergeVertices L.sRegion pts := by
  unfold writeLeaf at h ⊢
  by_cases hc : (!bPoint && !bHaveAngle) = true
  · rw [if_pos hc] at h ⊢
    exact writeVertices_ok_sRegion env nDim pts _ h
  · rw [if_neg hc] at h ⊢
    exact writeVertices_ok_sRegion env nDim pts _ h

theorem beforeChild_sRegion {α : Type} (bPolygon : Bool) (L : OGRGmtLayer α) (iGeom : Nat)
    (bHaveAngle : Bool) : (beforeChild bPolygon L iGeom bHaveAngle).sRegion = L.sRegion := by
  unfold beforeChild
  cases bPolygon <;> cases bHaveAngle <;> simp only [if_true, if_false, Bool.false_eq_true] <;>
    first | rfl | (split <;> rfl)

theorem writeChildren_ok {α χ : Type}
    (writeChild : OGRGmtLayer α → χ → Bool → OGRErr × OGRGmtLayer α) (bPolygon : Bool)
    (cs : List χ) :
    ∀ (L : OGRGmtLayer α) (iGeom : Nat) (bHaveAngle : Bool) (eErr : OGRErr),
      (writeChildren writeChild bPolygon L cs iGeom bHaveAngle eErr).1 = OGRERR_NONE →
      eErr = OGRERR_NONE := by
  induction cs with
  | nil => intro L _ _ eErr h; exact h
  | cons c cs _ =>
    intro L iGeom bHaveAngle eErr h
    cases eErr with
    | OGRERR_NONE => rfl
    | OGRERR_FAILURE => simp [writeChildren] at h

theorem writeChildren_ok_sRegion {α χ : Type} [LinearOrder α]
    (writeChild : OGRGmtLayer α → χ → Bool → OGRErr × OGRGmtLayer α)
    (childVertices : χ → List (Vertex α)) (bPolygon : Bool)
    (hchild : ∀ (L : OGRGmtLayer α) c b, (writeChild L c b).1 = OGRERR_NONE →
      (writeChild L c b).2.sRegion = mergeVertices L.sRegion (childVertices c))
    (cs : List χ) :
    ∀ (L : OGRGmtLayer α) (iGeom : Nat) (bHaveAngle : Bool),
      (writeChildren writeChild bPolygon L cs iGeom bHaveAngle OGRERR_NONE).1 = OGRERR_NONE →
      (writeChildren writeChild bPolygon L cs iGeom bHaveAngle OGRERR_NONE).2.sRegion =
        mergeVertices L.sRegion (cs.map childVertices).flatten := by
  induction cs with
  | nil => intro L _ _ _; rfl
  | cons c cs ih =>
    intro L iGeom bHaveAngle h
    simp only [writeChildren, beq_self_eq_true, if_true] at h ⊢
    have hc := writeChildren_ok writeChild bPolygon cs _ _ _ _ h
    rw [hc] at h ⊢
    rw [ih _ _ _ h, hchild _ _ _ hc, beforeChild_sRegion]
    simp [mergeVertices, List.foldl_append]

theorem writePolygon_ok_sRegion {α : Type} [LinearOrder α] (env : Env α) (L : OGRGmtLayer α)
    (p : OGRPolygon α) (b : Bool) (h : (writePolygon env L p b).1 = OGRERR_NONE) :
    (writePolygon env L p b).2.sRegion =
      mergeVertices L.sRegion (p.rings.map (fun r => r.pts)).flatten := by
  unfold writePolygon at h ⊢
  by_cases hc : p.rings.length > 0
  · rw [if_pos hc] at h ⊢
    exact writeChildren_ok_sRegion _ _ true
      (fun L c b h => writeLeaf_ok_sRegion env L false c.pts _ b h) p.rings L 0 b h
  · rw [if_neg hc] at h ⊢
    have e : p.rings = [] := List.length_eq_zero.mp (by omega)
    rw [e]
    exact writeLeaf_ok_sRegion env L false [] 2 b h

/-- A `WriteGeometry` that returns success has merged every vertex of the geometry
into the envelope. -/
theorem WriteGeometry_ok_sRegion {α : Type} [LinearOrder α] (env : Env α) (L : OGRGmtLayer α)
    (g : OGRGeometry α) (b : Bool) (h : (WriteGeometry env L g b).1 = OGRERR_NONE) :
    (WriteGeometry env L g b).2.sRegion = mergeVertices L.sRegion g.vertices := by
  cases g with
  | point p => exact writeLeaf_ok_sRegion env L true _ _ b h
  | lineString l => exact writeLeaf_ok_sRegion env L false l.pts _ b h
  | polygon p => exact writePolygon_ok_sRegion env L p b h
  | multiPoint ps =>
    simp only [WriteGeometry, OGRGeometry.vertices] at h ⊢
    by_cases hc : ps.length > 0
    · rw [if_pos hc] at h ⊢
      exact writeChildren_ok_sRegion (writePoint env) (fun p => p.coord.toList) false
        (fun L c b h => writeLeaf_ok_sRegion env L true c.coord.toList _ b h) ps L 0 b h
    · rw [if_neg hc] at h ⊢
      have e : ps = [] := List.length_eq_zero.mp (by omega)
      rw [e]
      exact writeLeaf_ok_sRegion env L false [] 2 b h
  | multiLineString ls =>
    simp only [WriteGeometry, OGRGeometry.vertices] at h ⊢
    by_cases hc : ls.length > 0
    · rw [if_pos hc] at h ⊢
      exact writeChildren_ok_sRegion _ _ false
        (fun L c b h => writeLeaf_ok_sRegion env L false c.pts _ b h) ls L 0 b h
    · rw [if_neg hc] at h ⊢
      have e : ls = [] := List.length_eq_zero.mp (by omega)
      rw [e]
      exact writeLeaf_ok_sRegion env L false [] 2 b h
  | multiPolygon ps =>
    simp only [WriteGeometry, OGRGeometry.vertices] at h ⊢
    by_cases hc : ps.length > 0
    · rw [if_pos hc] at h ⊢
      exact writeChildren_ok_sRegion _ _ false
        (fun L c b h => writePolygon_ok_sRegion env L c b h) ps L 0 b h
    · rw [if_neg hc] at h ⊢
      have e : ps = [] := List.length_eq_zero.mp (by omega)
      rw [e]
      exact writeLeaf_ok_sRegion env L false [] 2 b h


theorem writeFeature_ok_sRegion {α : Type} [LinearOrder α] (env : Env α) (L : OGRGmtLayer α)
    (f : OGRFeature α) (g : OGRGeometry α) (h : (writeFeature env L f g).1 = OGRERR_NONE) :
    (writeFeature env L f g).2.sRegion = mergeVertices L.sRegion g.vertices := by
  unfold writeFeature at h ⊢
  rw [WriteGeometry_ok_sRegion env _ g true h]
  congr 1
  split <;> split <;> split <;> rfl

/-- Every call of `ICreateFeature` leaves an envelope obtained from the former one by
merging vertices. -/
theorem ICreateFeature_sRegion {α : Type} [LinearOrder α] (env : Env α) (L : OGRGmtLayer α)
    (f : OGRFeature α) :
    ∃ vs, (ICreateFeature env L f).2.sRegion = mergeVertices L.sRegion vs := by
  by_cases hU : L.bUpdate = true
  · by_cases hH : L.bHeaderComplete = true
    · cases hg : f.poGeom with
      | none =>
        have e : ICreateFeature env L f = (OGRERR_FAILURE, L) := by
          simp [ICreateFeature, hU, hH, hg]
        rw [e]; exact ⟨[], rfl⟩
      | some g =>
        have e : ICreateFeature env L f = writeFeature env L f g := by
          simp [ICreateFeature, hU, hH, hg]
        rw [e]
        exact (writeFeature_frame env L f g).2.2.2.2.2.2
    · have hH' : L.bHeaderComplete = false := by simpa using hH
      have c6 := (CompleteHeader_spec L f.poGeom).2.2.2.2.2.1
      cases hg : f.poGeom with
      | none =>
        have e : ICreateFeature env L f = (OGRERR_FAILURE, (CompleteHeader L f.poGeom).2) := by
          simp [ICreateFeature, hU, hH', CompleteHeader_fst, hg]
        rw [e]; exact ⟨[], c6⟩
      | some g =>
        have e : ICreateFeature env L f = writeFeature env (CompleteHeader L f.poGeom).2 f g := by
          simp [ICreateFeature, hU, hH', CompleteHeader_fst, hg]
        rw [e]
        obtain ⟨vs, hvs⟩ := (writeFeature_frame env (CompleteHeader L f.poGeom).2 f g).2.2.2.2.2.2
        exact ⟨vs, by rw [hvs, c6]⟩
  · have e : ICreateFeature env L f = (OGRERR_FAILURE, L) := by
      simp [ICreateFeature, hU]
    rw [e]; exact ⟨[], rfl⟩

/-- A call of `ICreateFeature` that returns success has merged every vertex of the
feature into the envelope, has left the header complete, and has marked the envelope
complete if it found the header incomplete. -/
theorem ICreateFeature_ok {α : Type} [LinearOrder α] (env : Env α) (L : OGRGmtLayer α)
    (f : OGRFeature α) (h : (ICreateFeature env L f).1 = OGRERR_NONE) :
    (ICreateFeature env L f).2.sRegion = mergeVertices L.sRegion f.vertices ∧
    (ICreateFeature env L f).2.bHeaderComplete = true ∧
    (L.bHeaderComplete = false ∨ L.bRegionComplete = true →
      (ICreateFeature env L f).2.bRegionComplete = true) := by
  by_cases hU : L.bUpdate = true
  · cases hg : f.poGeom with
    | none =>
      exfalso
      by_cases hH : L.bHeaderComplete = true
      · simp [ICreateFeature, hU, hH, hg] at h
      · simp [ICreateFeature, hU, hH, hg, CompleteHeader_fst] at h
    | some g =>
      have hv : f.vertices = g.vertices := by simp [OGRFeature.vertices, hg]
      rw [hv]
      by_cases hH : L.bHeaderComplete = true
      · have e : ICreateFeature env L f = writeFeature env L f g := by
          simp [ICreateFeature, hU, hH, hg]
        rw [e] at h ⊢
        obtain ⟨_, _, w3, w4, _⟩ := writeFeature_frame env L f g
        refine ⟨writeFeature_ok_sRegion env L f g h, by rw [w3]; exact hH, fun hc => ?_⟩
        rw [w4]
        rcases hc with hc | hc
        · rw [hH] at hc; cases hc
        · exact hc
      · have hH' : L.bHeaderComplete = false := by simpa using hH
        have e : ICreateFeature env L f = writeFeature env (CompleteHeader L f.poGeom).2 f g := by
          simp [ICreateFeature, hU, hH', CompleteHeader_fst, hg]
        rw [e] at h ⊢
        obtain ⟨_, c2, c3, _, _, c6, _⟩ := CompleteHeader_spec L f.poGeom
        obtain ⟨_, _, w3, w4, _⟩ := writeFeature_frame env (CompleteHeader L f.poGeom).2 f g
        refine ⟨by rw [writeFeature_ok_sRegion env _ f g h, c6], by rw [w3]; exact c2,
          fun _ => by rw [w4]; exact c3⟩
  · simp [ICreateFeature, hU] at h

theorem createFeatures_ok {α : Type} [LinearOrder α] (env : Env α)
    (fs : List (OGRFeature α)) :
    ∀ (L L1 : OGRGmtLayer α), createFeatures env L fs = some L1 →
      L1.sRegion = mergeVertices L.sRegion (fs.map OGRFeature.vertices).flatten ∧
      ((L.bHeaderComplete = false ∨ L.bRegionComplete = true) → fs ≠ [] →
        L1.bRegionComplete = true) := by
  induction fs with
  | nil =>
    intro L L1 h
    simp only [createFeatures, Option.some.injEq] at h
    subst h
    exact ⟨rfl, fun _ hne => absurd rfl hne⟩
  | cons f fs ih =>
    intro L L1 h
    simp only [createFeatures] at h
    by_cases hc : (ICreateFeature env L f).1 = OGRERR_NONE
    · rw [hc] at h
      simp only [beq_self_eq_true, if_true] at h
      obtain ⟨a1, _, a3⟩ := ICreateFeature_ok env L f hc
      obtain ⟨b1, b2⟩ := ih _ _ h
      refine ⟨?_, fun hL _ => ?_⟩
      · rw [b1, a1]
        simp [mergeVertices, List.foldl_append]
      · have hr := a3 hL
        cases fs with
        | nil =>
          simp only [createFeatures, Option.some.injEq] at h
          rw [← h]; exact hr
        | cons f2 fs2 => exact b2 (Or.inr hr) (by simp)
    · have : ((ICreateFeature env L f).1 == OGRERR_NONE) = false := by simpa using hc
      rw [this] at h
      simp at h

/-! ## The reader: what a call keeps, and why its loops end -/

theorem ReaderFrame.keepSame {α : Type} (L : OGRGmtLayer α) : ReaderFrame L L :=
  ⟨rfl, rfl, Or.inl rfl, rfl, rfl, rfl, rfl, rfl, rfl, rfl, rfl, rfl, rfl, rfl, rfl⟩

theorem ReaderFrame.keepThen {α : Type} {L L1 L2 : OGRGmtLayer α}
    (h1 : ReaderFrame L L1) (h2 : ReaderFrame L1 L2) : ReaderFrame L L2 := by
  refine ⟨h2.name.trans h1.name, h2.fields.trans h1.fields, ?_, h2.iNextFID.trans h1.iNextFID,
    h2.bUpdate.trans h1.bUpdate, h2.bHeaderComplete.trans h1.bHeaderComplete,
    h2.bRegionComplete.trans h1.bRegionComplete, h2.sRegion.trans h1.sRegion,
    h2.nRegionOffset.trans h1.nRegionOffset, h2.m_poSRS.trans h1.m_poSRS,
    h2.bValidFile.trans h1.bValidFile, h2.m_nFeaturesRead.trans h1.m_nFeaturesRead,
    h2.data.trans h1.data, h2.quota.trans h1.quota, h2.written.trans h1.written⟩
  rcases h1.geomType with a | ⟨a, b⟩
  · rcases h2.geomType with c | ⟨c, d⟩
    · exact Or.inl (c.trans a)
    · exact Or.inr ⟨a ▸ c, d⟩
  · rcases h2.geomType with c | ⟨c, d⟩
    · exact Or.inr ⟨a, c.trans b⟩
    · exact Or.inr ⟨a, d⟩

/-- A frame in which the geometry kind is kept as well. -/
theorem ReaderFrame.geomType_of_known {α : Type} {L L1 : OGRGmtLayer α}
    (h : ReaderFrame L L1) (hk : L.poFeatureDefn.geomType ≠ wkbUnknown) :
    L1.poFeatureDefn.geomType = L.poFeatureDefn.geomType := by
  rcases h.geomType with a | ⟨a, _⟩
  · exact a
  · exact absurd a hk

theorem CPLReadLineL_frame (fp : VSILFILE) :
    (CPLReadLineL fp).2.data = fp.data ∧ (CPLReadLineL fp).2.quota = fp.quota ∧
    (CPLReadLineL fp).2.written = fp.written ∧ fp.pos ≤ (CPLReadLineL fp).2.pos ∧
    (CPLReadLineL fp).2.pos ≤ max fp.pos fp.data.length ∧
    ((CPLReadLineL fp).1 = none → (CPLReadLineL fp).2 = fp ∧ fp.data.length ≤ fp.pos) ∧
    ((CPLReadLineL fp).1 ≠ none → fp.pos < (CPLReadLineL fp).2.pos) := by
  unfold CPLReadLineL
  by_cases h : fp.pos < fp.data.length
  · rw [if_pos h]
    dsimp only
    have hlen : (List.takeWhile (fun c => c != '\n') (List.drop fp.pos fp.data)).length ≤
        (List.drop fp.pos fp.data).length := (List.takeWhile_sublist _).length_le
    have hd : (List.drop fp.pos fp.data).length = fp.data.length - fp.pos := List.length_drop _ _
    refine ⟨rfl, rfl, rfl, Nat.le_add_right _ _, ?_, fun hc => (by cases hc), fun _ => ?_⟩
    · split <;> (rw [Nat.max_def]; split <;> omega)
    · split
      · omega
      · have : 0 < (List.takeWhile (fun c => c != '\n') (List.drop fp.pos fp.data)).length := by
          omega
        omega
  · rw [if_neg h]
    exact ⟨rfl, rfl, rfl, le_refl _, le_max_left _ _, fun _ => ⟨rfl, by omega⟩,
      fun hc => absurd rfl hc⟩

/-- `ReadLine` keeps the layer but for the line, the keyed values and the cursor;
the cursor does not move back; at end of file it returns false with an empty line and
otherwise returns true and moves the cursor forward. -/
theorem ReadLine_frame {α : Type} (L : OGRGmtLayer α) :
    ReaderFrame L (ReadLine L).2 ∧
    (ReadLine L).2.poFeatureDefn = L.poFeatureDefn ∧
    (ReadLine L).2.papszKeyedValues = lineKeyedValues (ReadLine L).2.osLine ∧
    L.m_fp.pos ≤ (ReadLine L).2.m_fp.pos ∧
    (ReadLine L).2.m_fp.pos ≤ max L.m_fp.pos L.m_fp.data.length ∧
    ((ReadLine L).1 = false →
      (ReadLine L).2.osLine = [] ∧ (ReadLine L).2.m_fp = L.m_fp ∧
      L.m_fp.data.length ≤ L.m_fp.pos) ∧
    ((ReadLine L).1 = true → L.m_fp.pos < (ReadLine L).2.m_fp.pos) := by
  obtain ⟨a, b, c, d, e, f, g⟩ := CPLReadLineL_frame L.m_fp
  unfold ReadLine
  cases hr : CPLReadLineL L.m_fp with
  | mk line fp =>
    rw [hr] at a b c d e f g
    cases line with
    | none =>
      obtain ⟨f1, f2⟩ := f rfl
      refine ⟨⟨rfl, rfl, Or.inl rfl, rfl, rfl, rfl, rfl, rfl, rfl, rfl, rfl, rfl, a, b, c⟩,
        rfl, rfl, d, e, fun _ => ⟨rfl, f1, f2⟩, fun h => by cases h⟩
    | some line =>
      refine ⟨⟨rfl, rfl, Or.inl rfl, rfl, rfl, rfl, rfl, rfl, rfl, rfl, rfl, rfl, a, b, c⟩,
        rfl, rfl, d, e, fun h => (by cases h), fun _ => g (by simp)⟩

theorem lineKeyedValues_nil : lineKeyedValues [] = none := by
  decide

/-- The loop of `ScanAheadForHole` ends when it may read one line more than there are
bytes left; it keeps the layer but for the line, the keyed values and the cursor,
which does not move back nor past the end of the file. -/
theorem scanHoleLoop_total {α : Type} (fuel : Nat) :
    ∀ L : OGRGmtLayer α, bytesLeft L + 1 ≤ fuel →
      ∃ b L1, scanHoleLoop fuel L = some (b, L1) ∧ ReaderFrame L L1 ∧
        L1.poFeatureDefn = L.poFeatureDefn ∧ L.m_fp.pos ≤ L1.m_fp.pos ∧
        L1.m_fp.pos ≤ max L.m_fp.pos L.m_fp.data.length ∧
        (b = true → charAt L1.osLine 0 = '#' ∧
          L1.papszKeyedValues = lineKeyedValues L1.osLine) := by
  induction fuel with
  | zero => intro L h; omega
  | succ n ih =>
    intro L h
    obtain ⟨f1, f2, f3, f4, f5, f6, f7⟩ := ReadLine_frame L
    simp only [scanHoleLoop]
    by_cases hc : ((ReadLine L).1 && charAt (ReadLine L).2.osLine 0 == '#') = true
    · rw [if_pos hc]
      split
      · exact ⟨true, _, rfl, f1, f2, f4, f5, fun _ => ⟨(by simpa using hc : _ ∧ _).2, f3⟩⟩
      · have hr : (ReadLine L).1 = true := by
          simp only [Bool.and_eq_true] at hc
          exact hc.1
        have hlt := f7 hr
        have hb : bytesLeft (ReadLine L).2 + 1 ≤ n := by
          unfold bytesLeft at h ⊢
          rw [f1.data]
          omega
        obtain ⟨b, L1, e1, e2, e3, e4, e5, e6⟩ := ih (ReadLine L).2 hb
        refine ⟨b, L1, e1, f1.keepThen e2, e3.trans f2, f4.trans e4, ?_, e6⟩
        rw [f1.data] at e5
        exact e5.trans (max_le (f5) (le_max_right _ _))
    · rw [if_neg hc]
      exact ⟨false, _, rfl, f1, f2, f4, f5, fun h => by cases h⟩


theorem VSILFILE.seek_back (fp fp1 : VSILFILE) (hd : fp1.data = fp.data)
    (hq : fp1.quota = fp.quota) (hw : fp1.written = fp.written) :
    VSIFSeekL fp1 (VSIFTellL fp) = fp := by
  cases fp; cases fp1
  simp only [VSIFSeekL, VSIFTellL] at *
  simp [hd, hq, hw]

/-- `ScanAheadForHole` always returns; it keeps the layer but for the line, the keyed
values and the cursor. When it returns false the file handle and the current line are
as before the call; when it returns true the current line is a comment line whose
keyed values are in `papszKeyedValues`, and the cursor has not moved back. -/
theorem ScanAheadForHole_spec {α : Type} (L : OGRGmtLayer α) :
    ∃ b L1, ScanAheadForHole L = some (b, L1) ∧ ReaderFrame L L1 ∧
      L1.poFeatureDefn = L.poFeatureDefn ∧ L.m_fp.pos ≤ L1.m_fp.pos ∧
      L1.m_fp.pos ≤ max L.m_fp.pos L.m_fp.data.length ∧
      (b = false → L1.m_fp = L.m_fp ∧ L1.osLine = L.osLine) ∧
      (b = true → charAt L1.osLine 0 = '#' ∧
        L1.papszKeyedValues = lineKeyedValues L1.osLine) := by
  have hfuel : bytesLeft L + 1 ≤ L.m_fp.data.length + 1 := by
    unfold bytesLeft; omega
  obtain ⟨b, L1, e1, e2, e3, e4, e5, e6⟩ := scanHoleLoop_total (L.m_fp.data.length + 1) L hfuel
  unfold ScanAheadForHole
  simp only [e1]
  cases b with
  | true => exact ⟨true, L1, rfl, e2, e3, e4, e5, fun h => (by cases h), e6⟩
  | false =>
    have hs : VSIFSeekL L1.m_fp (VSIFTellL L.m_fp) = L.m_fp :=
      VSILFILE.seek_back _ _ e2.data e2.quota e2.written
    refine ⟨false, _, rfl, ?_, e3, ?_, ?_, fun _ => ⟨hs, rfl⟩, fun h => by cases h⟩
    · exact ⟨e2.name, e2.fields, e2.geomType, e2.iNextFID, e2.bUpdate, e2.bHeaderComplete,
        e2.bRegionComplete, e2.sRegion, e2.nRegionOffset, e2.m_poSRS, e2.bValidFile,
        e2.m_nFeaturesRead, by rw [hs], by rw [hs], by rw [hs]⟩
    · show L.m_fp.pos ≤ (VSIFSeekL L1.m_fp (VSIFTellL L.m_fp)).pos
      rw [hs]
    · show (VSIFSeekL L1.m_fp (VSIFTellL L.m_fp)).pos ≤ _
      rw [hs]
      exact le_max_left _ _

/-- `NextIsFeature` keeps the layer but for the keyed values: the file handle and the
current line are as before the call. It returns true exactly when the line that
follows begins with `#` and contains `@D`. -/
theorem NextIsFeature_spec {α : Type} (L : OGRGmtLayer α) :
    ReaderFrame L (NextIsFeature L).2 ∧
    (NextIsFeature L).2.poFeatureDefn = L.poFeatureDefn ∧
    (NextIsFeature L).2.m_fp = L.m_fp ∧ (NextIsFeature L).2.osLine = L.osLine ∧
    (NextIsFeature L).1 =
      (charAt (ReadLine L).2.osLine 0 == '#' && strstr (ReadLine L).2.osLine "@D".data) := by
  obtain ⟨f1, f2, _⟩ := ReadLine_frame L
  have hs : VSIFSeekL (ReadLine L).2.m_fp (VSIFTellL L.m_fp) = L.m_fp :=
    VSILFILE.seek_back _ _ f1.data f1.quota f1.written
  refine ⟨?_, f2, hs, rfl, rfl⟩
  exact ⟨f1.name, f1.fields, f1.geomType, f1.iNextFID, f1.bUpdate, f1.bHeaderComplete,
    f1.bRegionComplete, f1.sRegion, f1.nRegionOffset, f1.m_poSRS, f1.bValidFile,
    f1.m_nFeaturesRead, by show (VSIFSeekL _ _).data = _; rw [hs],
    by show (VSIFSeekL _ _).quota = _; rw [hs], by show (VSIFSeekL _ _).written = _; rw [hs]⟩

/-- The branch for a `>` line always yields a state; it keeps the layer but for the
line, the keyed values, the cursor, which does not move back, and the geometry kind
when it was undetermined; it leaves the field data alone, and a geometry that is
absent stays absent. -/
theorem onSeparator_spec {α : Type} (s : Assembly α) :
    ∃ b s1, onSeparator s = some (b, s1) ∧ ReaderFrame s.layer s1.layer ∧
      s.layer.m_fp.pos ≤ s1.layer.m_fp.pos ∧
      s1.layer.m_fp.pos ≤ max s.layer.m_fp.pos s.layer.m_fp.data.length ∧
      s1.osFieldData = s.osFieldData ∧ (s.poGeom = none ↔ s1.poGeom = none) ∧
      (s.poGeom ≠ none → s1.layer.poFeatureDefn = s.layer.poFeatureDefn) := by
  unfold onSeparator
  cases hg : s.poGeom with
  | none =>
    dsimp only
    split
    · rename_i hk
      refine ⟨false, _, rfl, ?_, le_refl _, le_max_left _ _, rfl, by simp [hg],
        fun h => absurd rfl h⟩
      exact ⟨rfl, rfl, Or.inr ⟨by simpa using hk, rfl⟩, rfl, rfl, rfl, rfl, rfl, rfl, rfl, rfl,
        rfl, rfl, rfl, rfl⟩
    · exact ⟨false, _, rfl, ReaderFrame.keepSame _, le_refl _, le_max_left _ _, rfl, by simp [hg],
        fun _ => rfl⟩
  | some g =>
    obtain ⟨f1, f2, f3, f4, _⟩ := NextIsFeature_spec s.layer
    cases g with
    | point p =>
      exact ⟨true, _, rfl, ReaderFrame.keepSame _, le_refl _, le_max_left _ _, rfl, by simp [hg],
        fun _ => rfl⟩
    | lineString l =>
      exact ⟨true, _, rfl, ReaderFrame.keepSame _, le_refl _, le_max_left _ _, rfl, by simp [hg],
        fun _ => rfl⟩
    | multiPoint ps =>
      exact ⟨true, _, rfl, ReaderFrame.keepSame _, le_refl _, le_max_left _ _, rfl, by simp [hg],
        fun _ => rfl⟩
    | polygon p =>
      obtain ⟨b, L1, e1, e2, e3, e4, e5, _⟩ := ScanAheadForHole_spec s.layer
      dsimp only
      rw [e1]
      cases b with
      | true => exact ⟨false, _, rfl, e2, e4, e5, rfl, by simp [hg], fun _ => e3⟩
      | false => exact ⟨true, _, rfl, e2, e4, e5, rfl, by simp [hg], fun _ => e3⟩
    | multiLineString ls =>
      dsimp only
      split
      · exact ⟨false, _, rfl, f1, by rw [f3], by rw [f3]; exact le_max_left _ _, rfl,
          by simp [hg], fun _ => f2⟩
      · exact ⟨true, _, rfl, f1, by rw [f3], by rw [f3]; exact le_max_left _ _, rfl,
          by simp [hg], fun _ => f2⟩
    | multiPolygon ps =>
      obtain ⟨b, L1, e1, e2, e3, e4, e5, _⟩ := ScanAheadForHole_spec s.layer
      dsimp only
      rw [e1]
      cases b with
      | true => exact ⟨false, _, rfl, e2, e4, e5, rfl, by simp [hg], fun _ => e3⟩
      | false =>
        obtain ⟨g1, g2, g3, g4, _⟩ := NextIsFeature_spec L1
        dsimp only
        split
        · exact ⟨false, _, rfl, e2.keepThen g1, by show _ ≤ (NextIsFeature L1).2.m_fp.pos; rw [g3]; exact e4,
            by show (NextIsFeature L1).2.m_fp.pos ≤ _; rw [g3]; exact e5, rfl, by simp [hg],
            fun _ => g2.trans e3⟩
        · exact ⟨true, _, rfl, e2.keepThen g1, by show _ ≤ (NextIsFeature L1).2.m_fp.pos; rw [g3]; exact e4,
            by show (NextIsFeature L1).2.m_fp.pos ≤ _; rw [g3]; exact e5, rfl, by simp [hg],
            fun _ => g2.trans e3⟩


theorem loopBody_spec {α : Type} (env : Env α) (s : Assembly α) :
    ∃ b s1, loopBody env s = some (b, s1) ∧ ReaderFrame s.layer s1.layer ∧
      s.layer.m_fp.pos ≤ s1.layer.m_fp.pos ∧
      s1.layer.m_fp.pos ≤ max s.layer.m_fp.pos s.layer.m_fp.data.length ∧
      (s.poGeom ≠ none → s1.layer.poFeatureDefn = s.layer.poFeatureDefn) := by
  unfold loopBody
  split
  · obtain ⟨b, s1, e1, e2, e3, e4, _, _, e7⟩ := onSeparator_spec s
    exact ⟨b, s1, e1, e2, e3, e4, e7⟩
  · split
    · exact ⟨false, _, rfl, ReaderFrame.keepSame _, le_refl _, le_max_left _ _, fun _ => rfl⟩
    · refine ⟨false, _, rfl, ?_, ?_, ?_, ?_⟩ <;> unfold onVertexLine <;> dsimp only <;> split
      · exact ReaderFrame.keepSame _
      · exact ReaderFrame.keepSame _
      · exact le_refl _
      · exact le_refl _
      · exact le_max_left _ _
      · exact le_max_left _ _
      · exact fun _ => rfl
      · exact fun _ => rfl

/-- The loop of `GetNextRawFeature` ends within the number of iterations
`GetNextRawFeature` allows, and it keeps the layer but for the line, the keyed
values, the cursor, and the geometry kind when it was undetermined. -/
theorem assembleLoop_total {α : Type} (env : Env α) (fuel : Nat) :
    ∀ s : Assembly α,
      (bytesLeft s.layer + 2 ≤ fuel ∨ (s.layer.osLine = [] ∧ 1 ≤ fuel)) →
      ∃ s1, assembleLoop env fuel s = some s1 ∧ ReaderFrame s.layer s1.layer := by
  induction fuel with
  | zero => intro s h; rcases h with h | ⟨_, h⟩ <;> omega
  | succ n ih =>
    intro s h
    simp only [assembleLoop]
    by_cases h0 : s.layer.osLine.length = 0
    · simp only [h0, beq_self_eq_true, if_true]
      exact ⟨s, rfl, ReaderFrame.keepSame _⟩
    · have hne : s.layer.osLine ≠ [] := fun hc => h0 (by rw [hc]; rfl)
      have hfuel : bytesLeft s.layer + 2 ≤ n + 1 := by
        rcases h with h | ⟨h, _⟩
        · exact h
        · exact absurd h hne
      have hb : (s.layer.osLine.length == 0) = false := by simpa using h0
      simp only [hb, Bool.false_eq_true, if_false]
      obtain ⟨b, s1, e1, e2, e3, e4, _⟩ := loopBody_spec env s
      rw [e1]
      cases b with
      | true => exact ⟨s1, rfl, e2⟩
      | false =>
        obtain ⟨f1, _, _, _, f5, f6, f7⟩ := ReadLine_frame s1.layer
        have hnext : ∃ s2, assembleLoop env n { s1 with layer := (ReadLine s1.layer).2 } = some s2 ∧
            ReaderFrame s1.layer s2.layer := by
          have hcond : bytesLeft (ReadLine s1.layer).2 + 2 ≤ n ∨
              ((ReadLine s1.layer).2.osLine = [] ∧ 1 ≤ n) := by
            cases hr : (ReadLine s1.layer).1 with
            | true =>
              left
              have h7 := f7 hr
              have h5 := f5
              unfold bytesLeft at hfuel ⊢
              rw [f1.data, e2.data]
              rw [e2.data, Nat.max_def] at h5
              split at h5 <;> omega
            | false =>
              right
              exact ⟨(f6 hr).1, by omega⟩
          obtain ⟨s2, g1, g2⟩ := ih { s1 with layer := (ReadLine s1.layer).2 } hcond
          exact ⟨s2, g1, f1.keepThen g2⟩
        obtain ⟨s2, g1, g2⟩ := hnext
        dsimp only
        split
        · exact ⟨_, rfl, e2.keepThen f1⟩
        · exact ⟨s2, g1, e2.keepThen g2⟩

theorem setFieldValues_frame {α : Type} (n : Nat) (toks : List Str) :
    ∀ (i : Nat) (f : OGRFeature α),
      (setFieldValues n toks i f).nFID = f.nFID ∧ (setFieldValues n toks i f).poGeom = f.poGeom ∧
      (setFieldValues n toks i f).poSRS = f.poSRS := by
  induction toks with
  | nil => intro i f; exact ⟨rfl, rfl, rfl⟩
  | cons t ts ih =>
    intro i f
    simp only [setFieldValues]
    split
    · exact ⟨rfl, rfl, rfl⟩
    · exact ih _ _

/-- `GetNextRawFeature` always returns. It keeps the layer but for the line, the keyed
values, the cursor, the geometry kind when it was undetermined, and the two
counters: a call that returns a feature gives it the next feature id and advances
both counters by one, a call that returns none leaves them alone. -/
theorem GetNextRawFeature_total {α : Type} (env : Env α) (L : OGRGmtLayer α) :
    ∃ r L1, GetNextRawFeature env L = some (r, L1) ∧
      ReaderFrame L { L1 with iNextFID := L.iNextFID, m_nFeaturesRead := L.m_nFeaturesRead } ∧
      (r = none → L1.iNextFID = L.iNextFID ∧ L1.m_nFeaturesRead = L.m_nFeaturesRead) ∧
      (∀ f, r = some f → f.nFID = (L.iNextFID : Int) ∧ L1.iNextFID = L.iNextFID + 1 ∧
        L1.m_nFeaturesRead = L.m_nFeaturesRead + 1 ∧ f.poGeom ≠ none ∧ f.poSRS = L.m_poSRS) := by
  have hfuel : bytesLeft (⟨L, [], none⟩ : Assembly α).layer + 2 ≤ L.m_fp.data.length + 2 ∨
      ((⟨L, [], none⟩ : Assembly α).layer.osLine = [] ∧ 1 ≤ L.m_fp.data.length + 2) := by
    left; unfold bytesLeft; dsimp only; omega
  obtain ⟨s1, e1, e2⟩ := assembleLoop_total env (L.m_fp.data.length + 2) ⟨L, [], none⟩ hfuel
  unfold GetNextRawFeature
  rw [e1]
  dsimp only
  cases hg : s1.poGeom with
  | none =>
    refine ⟨none, s1.layer, rfl, ?_, fun _ => ⟨e2.iNextFID, e2.m_nFeaturesRead⟩,
      fun f h => by cases h⟩
    exact ⟨e2.name, e2.fields, e2.geomType, rfl, e2.bUpdate, e2.bHeaderComplete,
      e2.bRegionComplete, e2.sRegion, e2.nRegionOffset, e2.m_poSRS, e2.bValidFile, rfl,
      e2.data, e2.quota, e2.written⟩
  | some g =>
    refine ⟨_, _, rfl, ?_, fun h => (by cases h), ?_⟩
    · exact ⟨e2.name, e2.fields, e2.geomType, rfl, e2.bUpdate, e2.bHeaderComplete,
        e2.bRegionComplete, e2.sRegion, e2.nRegionOffset, e2.m_poSRS, e2.bValidFile, rfl,
        e2.data, e2.quota, e2.written⟩
    · intro f hf
      simp only [Option.some.injEq] at hf
      subst hf
      obtain ⟨a, b, c⟩ := setFieldValues_frame (α := α) s1.layer.poFeatureDefn.fields.length
        (CSLTokenizeStringComplex s1.osFieldData "|".data true true) 0
        { nFID := (s1.layer.iNextFID : Int), poGeom := some g, poSRS := s1.layer.m_poSRS,
          fields := List.replicate s1.layer.poFeatureDefn.fields.length none }
      refine ⟨by rw [a]; simp [e2.iNextFID], ?_, ?_, by rw [b]; simp, by rw [c]; exact e2.m_poSRS⟩
      · show s1.layer.iNextFID + 1 = _
        rw [e2.iNextFID]
      · show s1.layer.m_nFeaturesRead + 1 = _
        rw [e2.m_nFeaturesRead]


/-! ## The geometry kind of the layer -/

theorem ICreateFeature_geomType {α : Type} [LinearOrder α] (env : Env α) (L : OGRGmtLayer α)
    (f : OGRFeature α) (hk : L.poFeatureDefn.geomType ≠ wkbUnknown) :
    (ICreateFeature env L f).2.poFeatureDefn = L.poFeatureDefn := by
  have c7 := (CompleteHeader_spec L f.poGeom).2.2.2.2.2.2.1
  rw [completedDefn_of_known _ _ hk] at c7
  by_cases hU : L.bUpdate = true
  · by_cases hH : L.bHeaderComplete = true
    · cases hg : f.poGeom with
      | none =>
        have e : ICreateFeature env L f = (OGRERR_FAILURE, L) := by
          simp [ICreateFeature, hU, hH, hg]
        rw [e]
      | some g =>
        have e : ICreateFeature env L f = writeFeature env L f g := by
          simp [ICreateFeature, hU, hH, hg]
        rw [e, (writeFeature_frame env L f g).2.2.2.2.2.1, completedDefn_of_known _ _ hk]
    · have hH' : L.bHeaderComplete = false := by simpa using hH
      cases hg : f.poGeom with
      | none =>
        have e : ICreateFeature env L f = (OGRERR_FAILURE, (CompleteHeader L f.poGeom).2) := by
          simp [ICreateFeature, hU, hH', CompleteHeader_fst, hg]
        rw [e]; exact c7
      | some g =>
        have e : ICreateFeature env L f = writeFeature env (CompleteHeader L f.poGeom).2 f g := by
          simp [ICreateFeature, hU, hH', CompleteHeader_fst, hg]
        rw [e, (writeFeature_frame env _ f g).2.2.2.2.2.1, c7, completedDefn_of_known _ _ hk]
  · have e : ICreateFeature env L f = (OGRERR_FAILURE, L) := by
      simp [ICreateFeature, hU]
    rw [e]

theorem CreateField_geomType {α : Type} (L : OGRGmtLayer α) (poField : OGRFieldDefn)
    (bApproxOK : Bool) :
    (CreateField L poField bApproxOK).2.poFeatureDefn.geomType = L.poFeatureDefn.geomType := by
  unfold CreateField
  split
  · rfl
  · split
    · rfl
    · split <;> first | rfl | (split <;> first | rfl | (split <;> rfl))

theorem ResetReading_frame {α : Type} (L : OGRGmtLayer α) :
    (ResetReading L).poFeatureDefn = L.poFeatureDefn := by
  unfold ResetReading
  split
  · rfl
  · exact (ReadLine_frame _).2.1

/-- C9. Once the geometry kind of the layer is determined, none of
`GetNextRawFeature` (which always returns), `ICreateFeature`, `CompleteHeader`,
`CreateField` and `ResetReading` changes it. -/
theorem C9_geometry_kind_immutable {α : Type} [LinearOrder α] (env : Env α)
    (L : OGRGmtLayer α) (poFeature : OGRFeature α) (poThisGeom : Option (OGRGeometry α))
    (poField : OGRFieldDefn) (bApproxOK : Bool)
    (hk : L.poFeatureDefn.geomType ≠ wkbUnknown) :
    (∃ r L1, GetNextRawFeature env L = some (r, L1) ∧
      L1.poFeatureDefn.geomType = L.poFeatureDefn.geomType) ∧
    (ICreateFeature env L poFeature).2.poFeatureDefn.geomType = L.poFeatureDefn.geomType ∧
    (CompleteHeader L poThisGeom).2.poFeatureDefn.geomType = L.poFeatureDefn.geomType ∧
    (CreateField L poField bApproxOK).2.poFeatureDefn.geomType = L.poFeatureDefn.geomType ∧
    (ResetReading L).poFeatureDefn.geomType = L.poFeatureDefn.geomType := by
  refine ⟨?_, ?_, ?_, CreateField_geomType L poField bApproxOK, ?_⟩
  · obtain ⟨r, L1, e, fr, _⟩ := GetNextRawFeature_total env L
    exact ⟨r, L1, e, fr.geomType_of_known hk⟩
  · rw [ICreateFeature_geomType env L poFeature hk]
  · rw [(CompleteHeader_spec L poThisGeom).2.2.2.2.2.2.1, completedDefn_of_known _ _ hk]
  · rw [ResetReading_frame]

/-- C9, at a layer of kind POLYGON opened for update on a file with one polygon. -/
theorem C9_geometry_kind_immutable_witness :
    (openLayer "# @GPOLYGON\n# FEATURE_DATA\n>\n# @P\n0 0\n1 0\n1 1\n0 0\n" true
      ).poFeatureDefn.geomType ≠ wkbUnknown ∧
    ((∃ r L1, GetNextRawFeature intEnv
        (openLayer "# @GPOLYGON\n# FEATURE_DATA\n>\n# @P\n0 0\n1 0\n1 1\n0 0\n" true) =
          some (r, L1) ∧
        L1.poFeatureDefn.geomType =
          (openLayer "# @GPOLYGON\n# FEATURE_DATA\n>\n# @P\n0 0\n1 0\n1 1\n0 0\n" true
            ).poFeatureDefn.geomType) ∧
      (ICreateFeature intEnv
        (openLayer "# @GPOLYGON\n# FEATURE_DATA\n>\n# @P\n0 0\n1 0\n1 1\n0 0\n" true)
        (mkFeature (.point (mkPoint 5 5)) [])).2.poFeatureDefn.geomType =
        (openLayer "# @GPOLYGON\n# FEATURE_DATA\n>\n# @P\n0 0\n1 0\n1 1\n0 0\n" true
          ).poFeatureDefn.geomType ∧
      (CompleteHeader
        (openLayer "# @GPOLYGON\n# FEATURE_DATA\n>\n# @P\n0 0\n1 0\n1 1\n0 0\n" true)
        (some (.point (mkPoint 5 5)))).2.poFeatureDefn.geomType =
        (openLayer "# @GPOLYGON\n# FEATURE_DATA\n>\n# @P\n0 0\n1 0\n1 1\n0 0\n" true
          ).poFeatureDefn.geomType ∧
      (CreateField
        (openLayer "# @GPOLYGON\n# FEATURE_DATA\n>\n# @P\n0 0\n1 0\n1 1\n0 0\n" true)
        ⟨"name".data, OFTString⟩ false).2.poFeatureDefn.geomType =
        (openLayer "# @GPOLYGON\n# FEATURE_DATA\n>\n# @P\n0 0\n1 0\n1 1\n0 0\n" true
          ).poFeatureDefn.geomType ∧
      (ResetReading
        (openLayer "# @GPOLYGON\n# FEATURE_DATA\n>\n# @P\n0 0\n1 0\n1 1\n0 0\n" true)
        ).poFeatureDefn.geomType =
        (openLayer "# @GPOLYGON\n# FEATURE_DATA\n>\n# @P\n0 0\n1 0\n1 1\n0 0\n" true
          ).poFeatureDefn.geomType) :=
  ⟨by decide, C9_geometry_kind_immutable intEnv _ _ _ _ _ (by decide)⟩


/-! ## The constructor -/

/-- The loop over the header lines ends when it may read one line more than there are
bytes left; it leaves the envelope and its completion flag alone. -/
theorem headerLoop_total {α : Type} (fuel : Nat) :
    ∀ (L : OGRGmtLayer α) (h : HeaderVars) (nStartOfLine : Nat), bytesLeft L + 1 ≤ fuel →
      ∃ L1 h1, headerLoop fuel L h nStartOfLine = some (L1, h1) ∧
        L1.sRegion = L.sRegion ∧ L1.bRegionComplete = L.bRegionComplete ∧
        L1.poFeatureDefn = L.poFeatureDefn ∧ L1.bUpdate = L.bUpdate ∧
        L1.iNextFID = L.iNextFID ∧ L1.m_poSRS = L.m_poSRS ∧
        L1.m_fp.data = L.m_fp.data := by
  induction fuel with
  | zero => intro L h n hf; omega
  | succ n ih =>
    intro L h nStart hf
    obtain ⟨f1, f2, _, _, _, _, f7⟩ := ReadLine_frame L
    simp only [headerLoop]
    by_cases hc : ((ReadLine L).1 && charAt (ReadLine L).2.osLine 0 == '#') = true
    · rw [if_pos hc]
      have hr : (ReadLine L).1 = true := by
        simp only [Bool.and_eq_true] at hc
        exact hc.1
      split
      · obtain ⟨g1, g2, _⟩ := ReadLine_frame { (ReadLine L).2 with bHeaderComplete := true }
        exact ⟨_, _, rfl, g1.sRegion.trans f1.sRegion, g1.bRegionComplete.trans f1.bRegionComplete,
          g2.trans f2, g1.bUpdate.trans f1.bUpdate, g1.iNextFID.trans f1.iNextFID,
          g1.m_poSRS.trans f1.m_poSRS, g1.data.trans f1.data⟩
      · have hlt := f7 hr
        have key : ∀ L1 : OGRGmtLayer α, L1.m_fp = (ReadLine L).2.m_fp →
            L1.sRegion = L.sRegion → L1.bRegionComplete = L.bRegionComplete →
            L1.poFeatureDefn = L.poFeatureDefn → L1.bUpdate = L.bUpdate →
            L1.iNextFID = L.iNextFID → L1.m_poSRS = L.m_poSRS →
            ∀ h1 n1, ∃ L2 h2, headerLoop n L1 h1 n1 = some (L2, h2) ∧
              L2.sRegion = L.sRegion ∧ L2.bRegionComplete = L.bRegionComplete ∧
              L2.poFeatureDefn = L.poFeatureDefn ∧ L2.bUpdate = L.bUpdate ∧
              L2.iNextFID = L.iNextFID ∧ L2.m_poSRS = L.m_poSRS ∧
              L2.m_fp.data = L.m_fp.data := by
          intro L1 e1 e2 e3 e4 e5 e6 e7 h1 n1
          have hb : bytesLeft L1 + 1 ≤ n := by
            unfold bytesLeft at hf ⊢
            rw [e1, f1.data]
            omega
          obtain ⟨L2, h2, a1, a2, a3, a4, a5, a6, a7, a8⟩ := ih L1 h1 n1 hb
          exact ⟨L2, h2, a1, a2.trans e2, a3.trans e3, a4.trans e4, a5.trans e5, a6.trans e6,
            a7.trans e7, by rw [a8, e1, f1.data]⟩
        split
        · exact key { (ReadLine L).2 with nRegionOffset := nStart } rfl f1.sRegion
            f1.bRegionComplete f2 f1.bUpdate f1.iNextFID f1.m_poSRS _ _
        · exact key (ReadLine L).2 rfl f1.sRegion f1.bRegionComplete f2 f1.bUpdate f1.iNextFID
            f1.m_poSRS _ _
    · rw [if_neg hc]
      exact ⟨_, _, rfl, f1.sRegion, f1.bRegionComplete, f2, f1.bUpdate, f1.iNextFID, f1.m_poSRS,
        f1.data⟩

/-- The header is always read to its end. -/
theorem readHeader_total {α : Type} (L : OGRGmtLayer α) :
    ∃ L1 h1, readHeader L = some (L1, h1) ∧
      L1.sRegion = L.sRegion ∧ L1.bRegionComplete = L.bRegionComplete ∧
      L1.poFeatureDefn = L.poFeatureDefn ∧ L1.bUpdate = L.bUpdate ∧
      L1.iNextFID = L.iNextFID ∧ L1.m_poSRS = L.m_poSRS ∧ L1.m_fp.data = L.m_fp.data := by
  have hb : bytesLeft { L with m_fp := VSIFSeekL L.m_fp 0 } + 1 ≤ L.m_fp.data.length + 1 := by
    unfold bytesLeft VSIFSeekL; dsimp only; omega
  exact headerLoop_total (L.m_fp.data.length + 1) { L with m_fp := VSIFSeekL L.m_fp 0 }
    ⟨[], [], [], [], [], [], []⟩ 0 hb

theorem tokenize_nil (delims : Str) (a b : Bool) : CSLTokenizeStringComplex [] delims a b = [] := by
  simp [CSLTokenizeStringComplex]

/-! ## Reading a file line by line -/

theorem unlines_cons (l : Str) (ls : List Str) :
    unlines (l :: ls) = l ++ '\n' :: unlines ls := by
  simp [unlines]

theorem takeWhile_not_newline (l rest : Str) (h : '\n' ∉ l) :
    List.takeWhile (fun c => c != '\n') (l ++ '\n' :: rest) = l := by
  induction l with
  | nil => simp
  | cons c cs ih =>
    have hc : (c != '\n') = true := by
      simp only [bne_iff_ne, ne_eq]
      exact fun e => h (by simp [e])
    have hcs : '\n' ∉ cs := fun e => h (by simp [e])
    rw [List.cons_append, List.takeWhile_cons, hc, if_pos rfl, ih hcs]

theorem linesAux_cons (c : Char) (cs cur : Str) :
    linesAux (c :: cs) cur =
      (cur ++ (c :: cs).takeWhile (fun c => c != '\n')) ::
        fileRecords ((c :: cs).drop (((c :: cs).takeWhile (fun c => c != '\n')).length + 1)) := by
  induction cs generalizing c cur with
  | nil =>
    by_cases h : c = '\n'
    · subst h; simp [linesAux, fileRecords]
    · simp [linesAux, fileRecords, h]
  | cons d ds ih =>
    by_cases h : c = '\n'
    · subst h; simp [linesAux, fileRecords]
    · have hc : (c != '\n') = true := by simpa using h
      rw [linesAux, if_neg (by simpa using h), ih d (cur ++ [c])]
      rw [List.takeWhile_cons (a := c), hc, if_pos rfl]
      simp

theorem fileRecords_cons (c : Char) (cs : Str) :
    fileRecords (c :: cs) =
      (c :: cs).takeWhile (fun c => c != '\n') ::
        fileRecords ((c :: cs).drop (((c :: cs).takeWhile (fun c => c != '\n')).length + 1)) := by
  have := linesAux_cons c cs []
  simpa [fileRecords] using this

theorem fileRecords_nil : fileRecords [] = [] := rfl

theorem fileLines_nil : fileLines [] = [] := rfl

theorem linesAux_length (s cur : Str) : (linesAux s cur).length ≤ s.length + 1 ∧
    (linesAux s []).length ≤ s.length := by
  induction s generalizing cur with
  | nil => simp [linesAux]; split <;> simp
  | cons c cs ih =>
    constructor
    · simp only [linesAux]
      split
      · have := (ih []).2; simp; omega
      · have := (ih (cur ++ [c])).1; simp; omega
    · simp only [linesAux]
      split
      · have := (ih []).2; simp; omega
      · have := (ih ([] ++ [c])).1; simp at this ⊢; omega

theorem fileLines_length (s : Str) : (fileLines s).length ≤ s.length := by
  unfold fileLines fileRecords
  rw [List.length_map]
  exact (linesAux_length s []).2

theorem fileRecords_line (l rest : Str) (h : '\n' ∉ l) :
    fileRecords (l ++ '\n' :: rest) = l :: fileRecords rest := by
  have key : ∀ cur, linesAux (l ++ '\n' :: rest) cur = (cur ++ l) :: fileRecords rest := by
    induction l with
    | nil => intro cur; simp [linesAux, fileRecords]
    | cons c cs ih =>
      intro cur
      have hc : c ≠ '\n' := fun e => h (by simp [e])
      have hcs : '\n' ∉ cs := fun e => h (by simp [e])
      rw [List.cons_append, linesAux, if_neg (by simpa using hc), ih hcs]
      simp
  simpa [fileRecords] using key []

theorem fileRecords_unlines (ls : List Str) (h : ∀ l ∈ ls, '\n' ∉ l) :
    fileRecords (unlines ls) = ls := by
  induction ls with
  | nil => rfl
  | cons l ls ih =>
    rw [unlines_cons, fileRecords_line l _ (h l (by simp)), ih (fun x hx => h x (by simp [hx]))]

theorem cstr_of_no_nul (v : Str) (h : Char.ofNat 0 ∉ v) : cstr v = v := by
  unfold cstr
  rw [List.takeWhile_eq_self_iff]
  intro c hc
  simp only [bne_iff_ne, ne_eq]
  intro e
  exact h (e ▸ hc)

/-- The lines of a text written line by line are the lines written, when none of them
holds a newline or a NUL. -/
theorem fileLines_unlines (ls : List Str) (h : ∀ l ∈ ls, '\n' ∉ l ∧ Char.ofNat 0 ∉ l) :
    fileLines (unlines ls) = ls := by
  unfold fileLines
  rw [fileRecords_unlines ls (fun l hl => (h l hl).1)]
  induction ls with
  | nil => rfl
  | cons l ls ih =>
    rw [List.map_cons, cstr_of_no_nul l (h l (by simp)).2, ih (fun x hx => h x (by simp [hx]))]

theorem AtLines.length_le {fp : VSILFILE} {ls : List Str} (h : AtLines fp ls) :
    ls.length ≤ fp.data.length - fp.pos := by
  have h1 := fileLines_length (fp.data.drop fp.pos)
  rw [h, List.length_drop] at h1
  exact h1

/-- Reading a record when records are left: the first of them is returned and the
others remain. -/
theorem CPLReadLineL_cons (fp : VSILFILE) (l : Str) (ls : List Str)
    (h : fileRecords (fp.data.drop fp.pos) = l :: ls) :
    (CPLReadLineL fp).1 = some l ∧
      fileRecords ((CPLReadLineL fp).2.data.drop (CPLReadLineL fp).2.pos) = ls := by
  have hlen : (List.drop fp.pos fp.data).length = fp.data.length - fp.pos := List.length_drop _ _
  cases hd : List.drop fp.pos fp.data with
  | nil => rw [hd] at h; cases h
  | cons c cs =>
    have hpos : fp.pos < fp.data.length := by
      rw [hd] at hlen
      simp at hlen
      omega
    rw [hd, fileRecords_cons] at h
    injection h with h1 h2
    unfold CPLReadLineL
    rw [if_pos hpos]
    dsimp only
    rw [hd, h1]
    refine ⟨rfl, ?_⟩
    rw [← List.drop_drop, hd, ← h2, h1]
    have hle : l.length ≤ (c :: cs).length := by
      rw [← h1]; exact (List.takeWhile_sublist _).length_le
    split
    · rfl
    · have e : (c :: cs).length = l.length := by omega
      rw [List.drop_of_length_le (by omega), List.drop_of_length_le (by omega)]

/-- Reading a record when none is left: end of file. -/
theorem CPLReadLineL_nil (fp : VSILFILE) (h : fileRecords (fp.data.drop fp.pos) = []) :
    CPLReadLineL fp = (none, fp) := by
  have : fp.data.length ≤ fp.pos := by
    cases hd : List.drop fp.pos fp.data with
    | nil =>
      have := congrArg List.length hd
      simp at this
      omega
    | cons c cs => rw [hd, fileRecords_cons] at h; cases h
  unfold CPLReadLineL
  rw [if_neg (by omega)]

/-- `ReadLine` moves the reader to the next line: the first unread line becomes the
current line, and at end of file the current line becomes empty. -/
theorem ReadLine_Cur {α : Type} (L : OGRGmtLayer α) (rest : List Str)
    (h : AtLines L.m_fp rest) :
    Cur (ReadLine L).2 (rest.headD []) rest.tail ∧ ReaderFrame L (ReadLine L).2 ∧
    (ReadLine L).2.poFeatureDefn = L.poFeatureDefn ∧
    (ReadLine L).1 = !rest.isEmpty := by
  obtain ⟨f1, f2, f3, _⟩ := ReadLine_frame L
  unfold AtLines fileLines at h
  cases hrec : fileRecords (L.m_fp.data.drop L.m_fp.pos) with
  | nil =>
    rw [hrec] at h
    simp only [List.map_nil] at h
    subst h
    have e := CPLReadLineL_nil L.m_fp hrec
    have er : ReadLine L = (false, { L with osLine := [], papszKeyedValues := none }) := by
      unfold ReadLine
      rw [e]
    refine ⟨?_, f1, f2, by rw [er]; rfl⟩
    rw [er]
    refine ⟨rfl, fun _ => lineKeyedValues_nil.symm, ?_⟩
    show fileLines (L.m_fp.data.drop L.m_fp.pos) = []
    unfold fileLines
    rw [hrec]
    rfl
  | cons r rs =>
    rw [hrec] at h
    simp only [List.map_cons] at h
    subst h
    obtain ⟨e1, e2⟩ := CPLReadLineL_cons L.m_fp r rs hrec
    have er : ReadLine L = (true, { L with
        osLine := cstr r
        papszKeyedValues := lineKeyedValues (cstr r)
        m_fp := (CPLReadLineL L.m_fp).2 }) := by
      unfold ReadLine
      cases hr : CPLReadLineL L.m_fp with
      | mk a b =>
        rw [hr] at e1
        dsimp only at e1
        subst e1
        rfl
    refine ⟨?_, f1, f2, by rw [er]; rfl⟩
    rw [er]
    refine ⟨rfl, fun _ => rfl, ?_⟩
    show fileLines ((CPLReadLineL L.m_fp).2.data.drop (CPLReadLineL L.m_fp).2.pos) = rs.map cstr
    unfold fileLines
    rw [e2]


/-! ## One pass through the loop of `GetNextRawFeature` -/

theorem Moved.same {α : Type} {L : OGRGmtLayer α} {cur : Str} {rest : List Str}
    (h : Cur L cur rest) : Moved L L cur rest :=
  ⟨h, ReaderFrame.keepSame L, rfl⟩

theorem Moved.andThen {α : Type} {L L1 L2 : OGRGmtLayer α} {c1 c2 : Str} {r1 r2 : List Str}
    (h1 : Moved L L1 c1 r1) (h2 : Moved L1 L2 c2 r2) : Moved L L2 c2 r2 :=
  ⟨h2.1, h1.2.1.keepThen h2.2.1, h2.2.2.trans h1.2.2⟩

/-- After `ReadLine` the reader stands at the first unread line. -/
theorem ReadLine_Moved {α : Type} (L : OGRGmtLayer α) (cur : Str) (rest : List Str)
    (h : Cur L cur rest) : Moved L (ReadLine L).2 (rest.headD []) rest.tail := by
  obtain ⟨a, b, c, _⟩ := ReadLine_Cur L rest h.2.2
  exact ⟨a, b, c⟩

theorem assembleLoop_succ {α : Type} (env : Env α) (n : Nat) (s : Assembly α)
    (h : s.layer.osLine ≠ []) :
    assembleLoop env (n + 1) s =
      match loopBody env s with
      | none => none
      | some (true, s1) => some s1
      | some (false, s1) =>
        match s1.poGeom with
        | some (.point _) => some { s1 with layer := (ReadLine s1.layer).2 }
        | _ => assembleLoop env n { s1 with layer := (ReadLine s1.layer).2 } := by
  have h0 : (s.layer.osLine.length == 0) = false := by
    cases hl : s.layer.osLine with
    | nil => exact absurd hl h
    | cons c cs => simp
  simp only [assembleLoop, h0, Bool.false_eq_true, if_false]

theorem assembleLoop_empty {α : Type} (env : Env α) (n : Nat) (s : Assembly α)
    (h : s.layer.osLine = []) : assembleLoop env (n + 1) s = some s := by
  simp [assembleLoop, h]

theorem charAt_ne_nil {cur : Str} {c : Char} (h : charAt cur 0 = c) (hc : c ≠ Char.ofNat 0) :
    cur ≠ [] := by
  intro e
  rw [e] at h
  exact hc h.symm

/-- A comment line: the field data takes the value of the last `D` key of the line, and
the reader moves to the next line. -/
theorem step_comment {α : Type} (env : Env α) (n : Nat) (L : OGRGmtLayer α) (fd : Str)
    (g : Option (OGRGeometry α)) (cur : Str) (rest : List Str)
    (hcur : Cur L cur rest) (hc : charAt cur 0 = '#')
    (hg : ∀ g0, g = some g0 → g0.isPoint = false) :
    ∃ L1, assembleLoop env (n + 1) ⟨L, fd, g⟩ =
        assembleLoop env n ⟨L1, fieldDataAfter fd cur, g⟩ ∧
      Moved L L1 (rest.headD []) rest.tail := by
  have hne : L.osLine ≠ [] := by
    rw [hcur.1]; exact charAt_ne_nil hc (by decide)
  have hb : loopBody env ⟨L, fd, g⟩ = some (false, ⟨L, fieldDataAfter fd cur, g⟩) := by
    have h1 : (charAt cur 0 == '>') = false := by rw [hc]; decide
    have h2 : (charAt cur 0 == '#') = true := by rw [hc]; decide
    simp only [loopBody, hcur.1, h1, h2, Bool.false_eq_true, if_false, if_true, onComment,
      fieldDataAfter, hcur.2.1 hc]
  refine ⟨(ReadLine L).2, ?_, ReadLine_Moved L cur rest hcur⟩
  rw [assembleLoop_succ env n _ hne, hb]
  dsimp only
  cases g with
  | none => rfl
  | some g0 =>
    have := hg g0 rfl
    cases g0 <;> first | rfl | cases this

/-- A vertex line that yields at least two numbers: the vertex is stored, in a
geometry created on the spot if there was none, and the reader moves to the next
line; the loop goes on unless the geometry is a point. -/
theorem step_vertex {α : Type} (env : Env α) (n : Nat) (L : OGRGmtLayer α) (fd : Str)
    (g : Option (OGRGeometry α)) (cur : Str) (rest : List Str)
    (hcur : Cur L cur rest) (hne : cur ≠ []) (h1 : charAt cur 0 ≠ '>')
    (h2 : charAt cur 0 ≠ '#') (hv : 2 ≤ (scannedValues env cur).length) :
    ∃ L1, assembleLoop env (n + 1) ⟨L, fd, g⟩ =
        (if (geometryAfterVertex env L.poFeatureDefn.geomType g (scannedValues env cur)).isPoint
          then some ⟨L1, fd,
            some (geometryAfterVertex env L.poFeatureDefn.geomType g (scannedValues env cur))⟩
          else assembleLoop env n ⟨L1, fd,
            some (geometryAfterVertex env L.poFeatureDefn.geomType g (scannedValues env cur))⟩) ∧
      Moved L L1 (rest.headD []) rest.tail := by
  have hne' : L.osLine ≠ [] := by rw [hcur.1]; exact hne
  have hb : loopBody env ⟨L, fd, g⟩ = some (false, ⟨L, fd,
      some (geometryAfterVertex env L.poFeatureDefn.geomType g (scannedValues env cur))⟩) := by
    have e1 : (charAt cur 0 == '>') = false := by simpa using h1
    have e2 : (charAt cur 0 == '#') = false := by simpa using h2
    have e3 : ((env.CPLsscanf cur).take 3).length ≥ 2 := hv
    simp only [loopBody, hcur.1, e1, e2, Bool.false_eq_true, if_false, onVertexLine, e3, if_true,
      geometryAfterVertex, scannedValues]
    cases g <;> rfl
  refine ⟨(ReadLine L).2, ?_, ReadLine_Moved L cur rest hcur⟩
  rw [assembleLoop_succ env n _ hne', hb]
  dsimp only
  cases hgeo : geometryAfterVertex env L.poFeatureDefn.geomType g (scannedValues env cur) <;> rfl

/-- A `>` line met before any geometry exists, in a layer whose geometry kind is
determined: nothing happens and the reader moves to the next line. -/
theorem step_separator_first {α : Type} (env : Env α) (n : Nat) (L : OGRGmtLayer α) (fd : Str)
    (cur : Str) (rest : List Str)
    (hcur : Cur L cur rest) (hc : charAt cur 0 = '>')
    (hk : L.poFeatureDefn.geomType ≠ wkbUnknown) :
    ∃ L1, assembleLoop env (n + 1) ⟨L, fd, none⟩ = assembleLoop env n ⟨L1, fd, none⟩ ∧
      Moved L L1 (rest.headD []) rest.tail := by
  have hne : L.osLine ≠ [] := by
    rw [hcur.1]; exact charAt_ne_nil hc (by decide)
  have hb : loopBody env ⟨L, fd, none⟩ = some (false, ⟨L, fd, none⟩) := by
    have h1 : (charAt cur 0 == '>') = true := by rw [hc]; decide
    have h2 : (L.poFeatureDefn.geomType == wkbUnknown) = false := by simpa using hk
    simp only [loopBody, hcur.1, h1, if_true, onSeparator, h2, Bool.false_eq_true, if_false]
  refine ⟨(ReadLine L).2, ?_, ReadLine_Moved L cur rest hcur⟩
  rw [assembleLoop_succ env n _ hne, hb]


/-! ## The two lookahead functions on a file seen as lines -/

theorem scanHoleLoop_lines {α : Type} (cs : List Str) (rest : List Str) :
    ∀ (fuel : Nat) (L : OGRGmtLayer α), cs.length + 1 ≤ fuel →
      AtLines L.m_fp (cs ++ rest) → skippedByHoleScan cs →
      (∀ h rest1, rest = h :: rest1 → isHoleComment h = true →
        ∃ L1, scanHoleLoop fuel L = some (true, L1) ∧ Moved L L1 h rest1) ∧
      (noCommentAhead rest → ∃ L1, scanHoleLoop fuel L = some (false, L1)) := by
  induction cs with
  | nil =>
    intro fuel L hf hat _
    obtain ⟨n, rfl⟩ : ∃ n, fuel = n + 1 := ⟨fuel - 1, by omega⟩
    obtain ⟨⟨c1, c2, c3⟩, c4, c5, c6⟩ := ReadLine_Cur L rest hat
    constructor
    · intro h rest1 hr hh
      subst hr
      have hh' := hh
      simp only [isHoleComment, Bool.and_eq_true, beq_iff_eq] at hh
      have hl : (ReadLine L).2.osLine = h := c1
      have hkv : (ReadLine L).2.papszKeyedValues = lineKeyedValues h := c2 hh.1
      refine ⟨(ReadLine L).2, ?_, ⟨c1, c2, c3⟩, c4, c5⟩
      simp only [scanHoleLoop, c6, hl, hh.1, hkv]
      have := hh.2
      simp only [List.isEmpty_cons, Bool.not_false, beq_self_eq_true, Bool.and_self, if_true]
      cases hk : lineKeyedValues h with
      | none => rw [hk] at this; cases this
      | some kv =>
        rw [hk] at this
        dsimp only at this ⊢
        rw [this]
        rfl
    · intro hno
      have hl : (ReadLine L).2.osLine = rest.headD [] := c1
      have : (charAt (ReadLine L).2.osLine 0 == '#') = false := by
        rw [hl]
        have h0 : charAt (rest.headD []) 0 ≠ '#' := hno
        simpa using h0
      exact ⟨(ReadLine L).2, by simp only [scanHoleLoop, this, Bool.and_false, Bool.false_eq_true, if_false]⟩
  | cons c cs ih =>
    intro fuel L hf hat hsk
    obtain ⟨n, rfl⟩ : ∃ n, fuel = n + 1 := ⟨fuel - 1, by omega⟩
    obtain ⟨⟨c1, c2, c3⟩, c4, c5, c6⟩ := ReadLine_Cur L (c :: cs ++ rest) hat
    have hc := hsk c (by simp)
    have hl : (ReadLine L).2.osLine = c := c1
    have hkv : (ReadLine L).2.papszKeyedValues = lineKeyedValues c := c2 hc.1
    have hstep : scanHoleLoop (n + 1) L = scanHoleLoop n (ReadLine L).2 := by
      have hnh := hc.2
      simp only [isHoleComment, hc.1, beq_self_eq_true, Bool.true_and] at hnh
      simp only [scanHoleLoop, c6, hl, hc.1, hkv]
      simp only [List.cons_append, List.isEmpty_cons, Bool.not_false, beq_self_eq_true,
        Bool.and_self, if_true]
      rw [hnh]
      simp
    obtain ⟨i1, i2⟩ := ih n (ReadLine L).2 (by simp at hf; omega) c3
      (fun x hx => hsk x (by simp [hx]))
    rw [hstep]
    constructor
    · intro h rest1 hr hh
      obtain ⟨L1, e1, e2⟩ := i1 h rest1 hr hh
      exact ⟨L1, e1, Moved.andThen ⟨⟨c1, c2, c3⟩, c4, c5⟩ e2⟩
    · exact i2

/-- `ScanAheadForHole` when, past comment lines that are not markers of a hole, the
marker of a hole comes: it returns true and the reader stands at that marker. -/
theorem ScanAheadForHole_hole {α : Type} (L : OGRGmtLayer α) (cs : List Str) (h : Str)
    (rest : List Str) (hat : AtLines L.m_fp (cs ++ h :: rest)) (hsk : skippedByHoleScan cs)
    (hh : isHoleComment h = true) :
    ∃ L1, ScanAheadForHole L = some (true, L1) ∧ Moved L L1 h rest := by
  have hlen := hat.length_le
  obtain ⟨L1, e1, e2⟩ := (scanHoleLoop_lines cs (h :: rest) (L.m_fp.data.length + 1) L
    (by simp at hlen; omega) hat hsk).1 h rest rfl hh
  exact ⟨L1, by simp only [ScanAheadForHole, e1], e2⟩

/-- `ScanAheadForHole` when, past comment lines that are not markers of a hole, no
comment line comes: it returns false and the reader stands where it stood. -/
theorem ScanAheadForHole_none {α : Type} (L : OGRGmtLayer α) (cur : Str) (cs rest : List Str)
    (hcur : Cur L cur (cs ++ rest)) (hc : charAt cur 0 ≠ '#') (hsk : skippedByHoleScan cs)
    (hno : noCommentAhead rest) :
    ∃ L1, ScanAheadForHole L = some (false, L1) ∧ Moved L L1 cur (cs ++ rest) := by
  have hlen := hcur.2.2.length_le
  obtain ⟨L0, e0⟩ := (scanHoleLoop_lines cs rest (L.m_fp.data.length + 1) L
    (by simp at hlen; omega) hcur.2.2 hsk).2 hno
  obtain ⟨b, L1, e1, e2, e3, _, _, e6, _⟩ := ScanAheadForHole_spec L
  have hb : b = false := by
    simp only [ScanAheadForHole, e0] at e1
    cases b with
    | false => rfl
    | true => simp at e1
  subst hb
  obtain ⟨m1, m2⟩ := e6 rfl
  refine ⟨L1, e1, ⟨?_, fun h => absurd h hc, ?_⟩, e2, e3⟩
  · rw [m2]; exact hcur.1
  · rw [m1]; exact hcur.2.2

/-- `NextIsFeature` on a file seen as lines: it tells whether the next line is an
attribute line, and the reader stands where it stood. -/
theorem NextIsFeature_lines {α : Type} (L : OGRGmtLayer α) (cur : Str) (rest : List Str)
    (hcur : Cur L cur rest) (hc : charAt cur 0 ≠ '#') :
    (NextIsFeature L).1 = isFeatureComment (rest.headD []) ∧
    Moved L (NextIsFeature L).2 cur rest := by
  obtain ⟨f1, f2, f3, f4, f5⟩ := NextIsFeature_spec L
  obtain ⟨⟨c1, _, _⟩, _⟩ := ReadLine_Cur L rest hcur.2.2
  refine ⟨?_, ⟨?_, fun h => absurd h hc, ?_⟩, f1, f2⟩
  · rw [f5, c1]; rfl
  · rw [f4]; exact hcur.1
  · rw [f3]; exact hcur.2.2


/-! ## Creating fields, and features without geometry -/

/-- After `ICreateFeature` on an update-mode layer the header is complete, whatever the
call returns. -/
theorem ICreateFeature_headerComplete {α : Type} [LinearOrder α] (env : Env α)
    (L : OGRGmtLayer α) (f : OGRFeature α) (hU : L.bUpdate = true) :
    (ICreateFeature env L f).2.bHeaderComplete = true := by
  by_cases hH : L.bHeaderComplete = true
  · cases hg : f.poGeom with
    | none =>
      have e : ICreateFeature env L f = (OGRERR_FAILURE, L) := by
        simp [ICreateFeature, hU, hH, hg]
      rw [e]; exact hH
    | some g =>
      have e : ICreateFeature env L f = writeFeature env L f g := by
        simp [ICreateFeature, hU, hH, hg]
      rw [e]; exact ((writeFeature_frame env L f g).2.2.1).trans hH
  · have hH' : L.bHeaderComplete = false := by simpa using hH
    have hc := (CompleteHeader_spec L f.poGeom).2.1
    cases hg : f.poGeom with
    | none =>
      have e : ICreateFeature env L f = (OGRERR_FAILURE, (CompleteHeader L none).2) := by
        simp [ICreateFeature, hU, hH', hg, CompleteHeader_fst]
      rw [e]; rw [hg] at hc; exact hc
    | some g =>
      have e : ICreateFeature env L f = writeFeature env (CompleteHeader L (some g)).2 f g := by
        simp [ICreateFeature, hU, hH', hg, CompleteHeader_fst]
      rw [e]; rw [hg] at hc
      exact ((writeFeature_frame env _ f g).2.2.1).trans hc

/-- C11. When the header-complete flag is set, and so in particular on the layer any call
of `ICreateFeature` on an update-mode layer leaves behind, `CreateField` returns failure
for every field definition and every value of the approximation flag, and the layer,
its schema included, is as it was. -/
theorem C11_no_field_after_header {α : Type} [LinearOrder α] (env : Env α)
    (L : OGRGmtLayer α) (poField : OGRFieldDefn) (bApproxOK : Bool)
    (h : L.bHeaderComplete = true ∨
      ∃ L0 f, L0.bUpdate = true ∧ L = (ICreateFeature env L0 f).2) :
    CreateField L poField bApproxOK = (OGRERR_FAILURE, L) := by
  have hH : L.bHeaderComplete = true := by
    rcases h with h | ⟨L0, f, hU, rfl⟩
    · exact h
    · exact ICreateFeature_headerComplete env L0 f hU
  unfold CreateField
  by_cases hU : L.bUpdate = true
  · simp [hU, hH]
  · simp [hU]

/-- C11, after a point feature has been written to a new file: a string field is
refused. -/
theorem C11_no_field_after_header_witness :
    (openLayer "" true).bUpdate = true ∧
    CreateField (ICreateFeature intEnv (openLayer "" true) (mkFeature (.point (mkPoint 1 2)) [])).2
        ⟨"name".data, OFTString⟩ true =
      (OGRERR_FAILURE,
        (ICreateFeature intEnv (openLayer "" true) (mkFeature (.point (mkPoint 1 2)) [])).2) :=
  ⟨by decide, C11_no_field_after_header intEnv _ _ _ (Or.inr ⟨_, _, by decide, rfl⟩)⟩

theorem emit_new {α : Type} (L : OGRGmtLayer α) (site : PrintfSite) (s : Str) :
    ∃ new, (emit L site s).m_fp.written = L.m_fp.written ++ new ∧ ∀ e ∈ new, e = (site, s) := by
  rcases VSIFPrintfL_written L.m_fp site s with h1 | h1
  · exact ⟨[], by simp [emit, h1], by simp⟩
  · exact ⟨[(site, s)], by simp [emit, h1], by simp⟩

/-- The writes of `CompleteHeader` called without a geometry: the field-names line,
the field-types line and the `# FEATURE_DATA` line, each with the text it begins
with. -/
theorem CompleteHeader_none_written {α : Type} (L : OGRGmtLayer α) :
    ∃ new, (CompleteHeader L none).2.m_fp.written = L.m_fp.written ++ new ∧
      ∀ e ∈ new, e.1.isHeaderLine = true ∧ e.1.isFeatureLine = false ∧ charAt e.2 0 = '#' ∧
        STARTS_WITH e.2 "# @D".data = false ∧ STARTS_WITH e.2 ">".data = false := by
  have hN : ∀ s : Str, ∀ e : PrintfSite × Str, e = (.fieldNames, "# @N".data ++ s) →
      e.1.isHeaderLine = true ∧ e.1.isFeatureLine = false ∧ charAt e.2 0 = '#' ∧
        STARTS_WITH e.2 "# @D".data = false ∧ STARTS_WITH e.2 ">".data = false := by
    intro s e he; subst he; exact ⟨rfl, rfl, rfl, rfl, rfl⟩
  have hT : ∀ s : Str, ∀ e : PrintfSite × Str, e = (.fieldTypes, "# @T".data ++ s) →
      e.1.isHeaderLine = true ∧ e.1.isFeatureLine = false ∧ charAt e.2 0 = '#' ∧
        STARTS_WITH e.2 "# @D".data = false ∧ STARTS_WITH e.2 ">".data = false := by
    intro s e he; subst he; exact ⟨rfl, rfl, rfl, rfl, rfl⟩
  have hF : ∀ e : PrintfSite × Str, e = (.featureData, "# FEATURE_DATA\n".data) →
      e.1.isHeaderLine = true ∧ e.1.isFeatureLine = false ∧ charAt e.2 0 = '#' ∧
        STARTS_WITH e.2 "# @D".data = false ∧ STARTS_WITH e.2 ">".data = false := by
    intro e he; subst he; exact ⟨rfl, rfl, rfl, rfl, rfl⟩
  have e0 : (CompleteHeader L none).2.m_fp =
      (emit (completeFields L) .featureData "# FEATURE_DATA\n".data).m_fp := rfl
  rw [e0]
  obtain ⟨n3, w3, p3⟩ := emit_new (completeFields L) .featureData "# FEATURE_DATA\n".data
  unfold completeFields at w3 ⊢
  by_cases hf : L.poFeatureDefn.fields.length > 0
  · rw [if_pos hf] at w3 ⊢
    obtain ⟨n1, w1, p1⟩ := emit_new L .fieldNames ("# @N".data ++
      List.intercalate "|".data (L.poFeatureDefn.fields.map (fun fd => fd.name)) ++ "\n".data)
    obtain ⟨n2, w2, p2⟩ := emit_new (emit L .fieldNames ("# @N".data ++
      List.intercalate "|".data (L.poFeatureDefn.fields.map (fun fd => fd.name)) ++ "\n".data))
      .fieldTypes ("# @T".data ++
      List.intercalate "|".data (L.poFeatureDefn.fields.map (fun fd => fieldTypeWord fd.type)) ++
        "\n".data)
    refine ⟨n1 ++ n2 ++ n3, ?_, ?_⟩
    · rw [w3, w2, w1]; simp
    · intro e he
      simp only [List.mem_append] at he
      rcases he with (he | he) | he
      · exact hN _ e (by rw [p1 e he, List.append_assoc])
      · exact hT _ e (by rw [p2 e he, List.append_assoc])
      · exact hF e (p3 e he)
  · rw [if_neg hf] at w3 ⊢
    exact ⟨n3, w3, fun e he => hF e (p3 e he)⟩

/-- C12. On an update-mode layer `ICreateFeature` returns failure for a feature without
geometry and writes nothing for it: the only lines it may write are those of the header
(when the header was not yet complete), each of which begins with `#` and none of which
is a `>` line, a `# @D` line or a vertex line; on a layer whose header is complete the
layer is left as it was. -/
theorem C12_no_geometry_rejected {α : Type} [LinearOrder α] (env : Env α)
    (L : OGRGmtLayer α) (f : OGRFeature α) (hU : L.bUpdate = true) (hg : f.poGeom = none) :
    (ICreateFeature env L f).1 = OGRERR_FAILURE ∧
    (∀ e ∈ writtenSince L (ICreateFeature env L f).2,
      e.1.isHeaderLine = true ∧ e.1.isFeatureLine = false ∧ charAt e.2 0 = '#' ∧
        STARTS_WITH e.2 "# @D".data = false ∧ STARTS_WITH e.2 ">".data = false) ∧
    (∀ site, site.isFeatureLine = true →
      countSite site (writtenSince L (ICreateFeature env L f).2) = 0) ∧
    (L.bHeaderComplete = true → (ICreateFeature env L f).2 = L) := by
  have main : (ICreateFeature env L f).1 = OGRERR_FAILURE ∧
      (∀ e ∈ writtenSince L (ICreateFeature env L f).2,
        e.1.isHeaderLine = true ∧ e.1.isFeatureLine = false ∧ charAt e.2 0 = '#' ∧
          STARTS_WITH e.2 "# @D".data = false ∧ STARTS_WITH e.2 ">".data = false) ∧
      (L.bHeaderComplete = true → (ICreateFeature env L f).2 = L) := by
    by_cases hH : L.bHeaderComplete = true
    · have e : ICreateFeature env L f = (OGRERR_FAILURE, L) := by
        simp [ICreateFeature, hU, hH, hg]
      rw [e]
      refine ⟨rfl, ?_, fun _ => rfl⟩
      intro x hx
      simp [writtenSince] at hx
    · have hH' : L.bHeaderComplete = false := by simpa using hH
      have e : ICreateFeature env L f = (OGRERR_FAILURE, (CompleteHeader L none).2) := by
        simp [ICreateFeature, hU, hH', hg, CompleteHeader_fst]
      rw [e]
      refine ⟨rfl, ?_, fun h => absurd h hH⟩
      obtain ⟨new, w, p⟩ := CompleteHeader_none_written L
      rw [writtenSince_eq L _ new w]
      exact p
  refine ⟨main.1, main.2.1, ?_, main.2.2⟩
  intro site hs
  apply countSite_eq_zero
  intro e he hsite
  have := (main.2.1 e he).2.1
  rw [hsite, hs] at this
  cases this

/-- C12, at a new file with one field: the feature is refused and only the three header
lines are written. -/
theorem C12_no_geometry_rejected_witness :
    ((CreateField (openLayer "" true) ⟨"name".data, OFTString⟩ false).2.bUpdate = true ∧
      (⟨-1, none, none, [some "x".data]⟩ : OGRFeature Int).poGeom = none) ∧
    ((ICreateFeature intEnv (CreateField (openLayer "" true) ⟨"name".data, OFTString⟩ false).2
        ⟨-1, none, none, [some "x".data]⟩).1 = OGRERR_FAILURE ∧
      (∀ e ∈ writtenSince (CreateField (openLayer "" true) ⟨"name".data, OFTString⟩ false).2
          (ICreateFeature intEnv (CreateField (openLayer "" true) ⟨"name".data, OFTString⟩ false).2
            ⟨-1, none, none, [some "x".data]⟩).2,
        e.1.isHeaderLine = true ∧ e.1.isFeatureLine = false ∧ charAt e.2 0 = '#' ∧
          STARTS_WITH e.2 "# @D".data = false ∧ STARTS_WITH e.2 ">".data = false) ∧
      (∀ site, site.isFeatureLine = true →
        countSite site
          (writtenSince (CreateField (openLayer "" true) ⟨"name".data, OFTString⟩ false).2
            (ICreateFeature intEnv
              (CreateField (openLayer "" true) ⟨"name".data, OFTString⟩ false).2
              ⟨-1, none, none, [some "x".data]⟩).2) = 0) ∧
      ((CreateField (openLayer "" true) ⟨"name".data, OFTString⟩ false).2.bHeaderComplete = true →
        (ICreateFeature intEnv (CreateField (openLayer "" true) ⟨"name".data, OFTString⟩ false).2
          ⟨-1, none, none, [some "x".data]⟩).2 =
        (CreateField (openLayer "" true) ⟨"name".data, OFTString⟩ false).2)) ∧
    (ICreateFeature intEnv (CreateField (openLayer "" true) ⟨"name".data, OFTString⟩ false).2
        ⟨-1, none, none, [some "x".data]⟩).2.m_fp.data =
      "# @Nname\n# @Tstring\n# FEATURE_DATA\n".data :=
  ⟨⟨by decide, rfl⟩, C12_no_geometry_rejected intEnv _ _ (by decide) rfl, by decide⟩

/-- C13. On an update-mode layer whose header is not complete: `CreateField` of a field
whose type is none of integer, double, string and datetime, approximation not being
permitted, returns failure and leaves the layer, its schema included, as it was; and
`CreateField` of a field of one of these four types succeeds, whatever the
approximation flag, the layer afterwards being the layer before with exactly that field
added at the end of the schema. -/
theorem C13_unsupported_type_rejected {α : Type} (L : OGRGmtLayer α) (poField : OGRFieldDefn)
    (bApproxOK : Bool) (hU : L.bUpdate = true) (hH : L.bHeaderComplete = false) :
    (poField.type.isSupported = false → CreateField L poField false = (OGRERR_FAILURE, L)) ∧
    (poField.type.isSupported = true →
      CreateField L poField bApproxOK = (OGRERR_NONE, L.AddFieldDefn poField) ∧
      (CreateField L poField bApproxOK).2.poFeatureDefn.fields =
        L.poFeatureDefn.fields ++ [poField]) := by
  constructor
  · intro hs
    unfold CreateField
    cases ht : poField.type <;> rw [ht] at hs <;>
      first | exact absurd hs (by decide) | simp [hU, hH]
  · intro hs
    have e : CreateField L poField bApproxOK = (OGRERR_NONE, L.AddFieldDefn poField) := by
      unfold CreateField
      cases ht : poField.type <;> rw [ht] at hs <;>
        first | exact absurd hs (by decide) | simp [hU, hH, OGRGmtLayer.AddFieldDefn]
    exact ⟨e, by rw [e]; rfl⟩

/-- C13, at a new file: a binary field is refused, an integer field is added. -/
theorem C13_unsupported_type_rejected_witness :
    ((openLayer "" true).bUpdate = true ∧ (openLayer "" true).bHeaderComplete = false) ∧
    (((⟨"blob".data, OFTBinary⟩ : OGRFieldDefn).type.isSupported = false →
        CreateField (openLayer "" true) ⟨"blob".data, OFTBinary⟩ false =
          (OGRERR_FAILURE, openLayer "" true)) ∧
      ((⟨"blob".data, OFTBinary⟩ : OGRFieldDefn).type.isSupported = true →
        CreateField (openLayer "" true) ⟨"blob".data, OFTBinary⟩ false =
          (OGRERR_NONE, (openLayer "" true).AddFieldDefn ⟨"blob".data, OFTBinary⟩) ∧
        (CreateField (openLayer "" true) ⟨"blob".data, OFTBinary⟩ false).2.poFeatureDefn.fields =
          (openLayer "" true).poFeatureDefn.fields ++ [⟨"blob".data, OFTBinary⟩])) ∧
    (CreateField (openLayer "" true) ⟨"n".data, OFTInteger⟩ false).2.poFeatureDefn.fields =
      [⟨"n".data, OFTInteger⟩] :=
  ⟨⟨by decide, by decide⟩,
    C13_unsupported_type_rejected (openLayer "" true) ⟨"blob".data, OFTBinary⟩ false
      (by decide) (by decide), by decide⟩

/-- C14. What `CreateField` does with a field of a type it does not store as it is when
approximation is permitted: it returns success and adds the field with the type it
came with. A date field stays a date field and a binary field a binary field; the
copies with the type changed to datetime and to string that the function prepares are
not the ones added. -/
theorem C14_approx_adds_unchanged :
    CreateField (openLayer "" true) ⟨"when".data, OFTDate⟩ true =
      (OGRERR_NONE, (openLayer "" true).AddFieldDefn ⟨"when".data, OFTDate⟩) ∧
    (CreateField (openLayer "" true) ⟨"when".data, OFTDate⟩ true).2.poFeatureDefn.fields =
      [⟨"when".data, OFTDate⟩] ∧
    (CreateField (openLayer "" true) ⟨"blob".data, OFTBinary⟩ true).2.poFeatureDefn.fields =
      [⟨"blob".data, OFTBinary⟩] := by
  decide

/-! ## Feature ids -/

/-- Successive calls of `GetNextRawFeature` all return; the `k`-th feature returned has
the id `k` places after the counter at the start, and the counter ends advanced by the
number of features returned. -/
theorem readCalls_ids {α : Type} (env : Env α) (n : Nat) :
    ∀ L : OGRGmtLayer α, ∃ rs Ln, readCalls env n L = some (rs, Ln) ∧ rs.length = n ∧
      (∀ k f, (featuresOf rs)[k]? = some f → f.nFID = ((L.iNextFID + k : Nat) : Int)) ∧
      Ln.iNextFID = L.iNextFID + (featuresOf rs).length := by
  induction n with
  | zero =>
    intro L
    exact ⟨[], L, rfl, rfl, fun k f h => by simp [featuresOf] at h, by simp [featuresOf]⟩
  | succ n ih =>
    intro L
    obtain ⟨r, L1, e, _, hn, hs⟩ := GetNextRawFeature_total env L
    obtain ⟨rs, Ln, e2, hl, hk, hc⟩ := ih L1
    refine ⟨r :: rs, Ln, by simp [readCalls, e, e2], by simp [hl], ?_, ?_⟩
    · intro k f hf
      cases r with
      | none =>
        have h1 := (hn rfl).1
        have : (featuresOf rs)[k]? = some f := by simpa [featuresOf] using hf
        rw [hk k f this, h1]
      | some f0 =>
        obtain ⟨a1, a2, _⟩ := hs f0 rfl
        cases k with
        | zero =>
          have : f0 = f := by simpa [featuresOf] using hf
          subst this
          simpa using a1
        | succ k =>
          have : (featuresOf rs)[k]? = some f := by simpa [featuresOf] using hf
          rw [hk k f this, a2]
          congr 1
          omega
    · cases r with
      | none =>
        have h1 := (hn rfl).1
        rw [hc, h1]
        simp [featuresOf]
      | some f0 =>
        obtain ⟨a1, a2, _⟩ := hs f0 rfl
        rw [hc, a2]
        simp [featuresOf]
        omega

/-- The layer the constructor yields has the feature-id counter at 0. -/
theorem new_iNextFID {α : Type} (env : Env α) (pszFilename : Str) (fp : Option VSILFILE)
    (poSRS : Option OGRSpatialReference) (bUpdateIn : Bool) (L : OGRGmtLayer α)
    (h : OGRGmtLayer.new env pszFilename fp poSRS bUpdateIn = some L) : L.iNextFID = 0 := by
  cases fp with
  | none =>
    simp only [OGRGmtLayer.new, Option.some.injEq] at h
    rw [← h]; rfl
  | some fp =>
    by_cases hn : STARTS_WITH pszFilename "/vsistdout".data = true
    · simp only [OGRGmtLayer.new, hn, Bool.not_true, Bool.false_eq_true, if_false,
        Option.some.injEq] at h
      rw [← h]; rfl
    · obtain ⟨L1, h1, e, _, _, _, _, e6, _⟩ :=
        readHeader_total (initialLayer env pszFilename fp bUpdateIn)
      have hn' : STARTS_WITH pszFilename "/vsistdout".data = false := by simpa using hn
      simp only [OGRGmtLayer.new, hn', Bool.not_false, if_true, e, Option.some.injEq] at h
      rw [← h]
      exact e6

/-- C15. On the layer the constructor yields, any number `n` of successive calls of
`GetNextRawFeature` all return; the `k`-th feature among their results (`k` = 0, 1,
2, ...) has feature id `k`; the counter afterwards equals the number of features
returned; and whenever a call returns none the counter is as before the call. -/
theorem C15_ids_consecutive_from_zero {α : Type} (env : Env α) (pszFilename : Str)
    (fp : Option VSILFILE) (poSRS : Option OGRSpatialReference) (bUpdateIn : Bool)
    (L : OGRGmtLayer α) (n : Nat)
    (hopen : OGRGmtLayer.new env pszFilename fp poSRS bUpdateIn = some L) :
    (∃ rs Ln, readCalls env n L = some (rs, Ln) ∧ rs.length = n ∧
      (∀ (k : Nat) f, (featuresOf rs)[k]? = some f → f.nFID = (k : Int)) ∧
      Ln.iNextFID = (featuresOf rs).length) ∧
    (∀ La Lb : OGRGmtLayer α, GetNextRawFeature env La = some (none, Lb) →
      Lb.iNextFID = La.iNextFID) := by
  have h0 := new_iNextFID env pszFilename fp poSRS bUpdateIn L hopen
  constructor
  · obtain ⟨rs, Ln, e, hl, hk, hc⟩ := readCalls_ids env n L
    refine ⟨rs, Ln, e, hl, ?_, by rw [hc, h0]; simp⟩
    intro k f hf
    rw [hk k f hf, h0]
    simp
  · intro La Lb h
    obtain ⟨r, L1, e, _, hn, _⟩ := GetNextRawFeature_total env La
    rw [e] at h
    simp only [Option.some.injEq, Prod.mk.injEq] at h
    obtain ⟨hr, hL⟩ := h
    subst hr; subst hL
    exact (hn rfl).1

/-- C15, at a file with three points: four calls return the features 0, 1 and 2 and
then none. -/
theorem C15_ids_consecutive_from_zero_witness :
    OGRGmtLayer.new intEnv "a.gmt".data
        (some (openFile "# @GPOINT\n# FEATURE_DATA\n1 2\n3 4\n5 6\n")) none false =
      some (openLayer "# @GPOINT\n# FEATURE_DATA\n1 2\n3 4\n5 6\n" false) ∧
    ((∃ rs Ln, readCalls intEnv 4 (openLayer "# @GPOINT\n# FEATURE_DATA\n1 2\n3 4\n5 6\n" false) =
          some (rs, Ln) ∧ rs.length = 4 ∧
        (∀ (k : Nat) f, (featuresOf rs)[k]? = some f → f.nFID = (k : Int)) ∧
        Ln.iNextFID = (featuresOf rs).length) ∧
      (∀ La Lb : OGRGmtLayer Int, GetNextRawFeature intEnv La = some (none, Lb) →
        Lb.iNextFID = La.iNextFID)) ∧
    ((readCalls intEnv 4 (openLayer "# @GPOINT\n# FEATURE_DATA\n1 2\n3 4\n5 6\n" false)).map
        (fun r => r.1.map (fun o => o.map (fun f => f.nFID)))) =
      some [some 0, some 1, some 2, none] :=
  ⟨by decide, C15_ids_consecutive_from_zero intEnv "a.gmt".data
      (some (openFile "# @GPOINT\n# FEATURE_DATA\n1 2\n3 4\n5 6\n")) none false _ 4 (by decide),
    by decide⟩

/-! ## The schema and the coordinate system read from the header -/

/-- For a file that is not `/vsistdout` the constructor reads the header and applies
it. -/
theorem new_eq_applyHeader {α : Type} (env : Env α) (pszFilename : Str) (fp : VSILFILE)
    (poSRS : Option OGRSpatialReference) (bUpdateIn : Bool)
    (hname : STARTS_WITH pszFilename "/vsistdout".data = false) :
    ∃ L1 h, readHeader (initialLayer env pszFilename fp bUpdateIn) = some (L1, h) ∧
      OGRGmtLayer.new env pszFilename (some fp) poSRS bUpdateIn = some (applyHeader env L1 h) ∧
      L1.poFeatureDefn = ⟨env.CPLGetBasenameSafe pszFilename, wkbUnknown, []⟩ := by
  obtain ⟨L1, h, e, _, _, e3, _⟩ := readHeader_total (initialLayer env pszFilename fp bUpdateIn)
  exact ⟨L1, h, e, by simp [OGRGmtLayer.new, hname, e], e3⟩

/-- The fields the constructor builds from the two strings: as many as the longer of
the two token lists, each the field `headerField` describes. -/
theorem headerFields_spec (osFieldNames osFieldTypes : Str) :
    headerFields osFieldNames osFieldTypes =
      (List.range (max (CSLTokenizeStringComplex osFieldNames "|".data true true).length
        (CSLTokenizeStringComplex osFieldTypes "|".data true true).length)).map
        (headerField (CSLTokenizeStringComplex osFieldNames "|".data true true)
          (CSLTokenizeStringComplex osFieldTypes "|".data true true)) := by
  unfold headerFields
  by_cases h : (decide (osFieldNames.length > 0) || decide (osFieldTypes.length > 0)) = true
  · rw [if_pos h]
  · rw [if_neg h]
    have h1 : osFieldNames = [] := by
      cases osFieldNames with
      | nil => rfl
      | cons c cs => simp at h
    have h2 : osFieldTypes = [] := by
      cases osFieldTypes with
      | nil => rfl
      | cons c cs => simp at h
    subst h1; subst h2
    simp [tokenize_nil]

/-- C16. The constructor always yields a layer for a file that is not `/vsistdout`. With
`n` the tokens of the field-names string collected from the header (the value of the
last `@N` key, split on `|`) and `t` the tokens of the field-types string (the value of
the last `@T` key, split on `|`), the schema of that layer has exactly
`max n.length t.length` fields; field `i` has the name `n[i]` when `i < n.length` and
`Field_<i+1>` otherwise; and it has the type integer, double or datetime when
`i < t.length` and `t[i]` is, ignoring case, the word `integer`, `double` or `datetime`,
and the type string in every other case. -/
theorem C16_fields_from_header {α : Type} (env : Env α) (pszFilename : Str) (fp : VSILFILE)
    (poSRS : Option OGRSpatialReference) (bUpdateIn : Bool)
    (hname : STARTS_WITH pszFilename "/vsistdout".data = false) :
    ∃ L1 h L, readHeader (initialLayer env pszFilename fp bUpdateIn) = some (L1, h) ∧
      OGRGmtLayer.new env pszFilename (some fp) poSRS bUpdateIn = some L ∧
      ∀ n t, n = CSLTokenizeStringComplex h.osFieldNames "|".data true true →
        t = CSLTokenizeStringComplex h.osFieldTypes "|".data true true →
        L.poFeatureDefn.fields.length = max n.length t.length ∧
        ∀ i, i < max n.length t.length →
          ∃ fd, L.poFeatureDefn.fields[i]? = some fd ∧
            fd.name = (if i < n.length then n.getD i [] else "Field_".data ++ Nat.toDigits 10 (i + 1)) ∧
            fd.type =
              (if i < t.length ∧ EQUAL (t.getD i []) "integer".data = true then OFTInteger
               else if i < t.length ∧ EQUAL (t.getD i []) "double".data = true then OFTReal
               else if i < t.length ∧ EQUAL (t.getD i []) "datetime".data = true then OFTDateTime
               else OFTString) := by
  obtain ⟨L1, h, e, e2, e3⟩ := new_eq_applyHeader env pszFilename fp poSRS bUpdateIn hname
  refine ⟨L1, h, applyHeader env L1 h, e, e2, ?_⟩
  intro n t hn ht
  have hf : (applyHeader env L1 h).poFeatureDefn.fields =
      (List.range (max n.length t.length)).map (headerField n t) := by
    show L1.poFeatureDefn.fields ++ headerFields h.osFieldNames h.osFieldTypes = _
    rw [e3, headerFields_spec, ← hn, ← ht]
    rfl
  rw [hf]
  refine ⟨by simp, ?_⟩
  intro i hi
  refine ⟨headerField n t i, by simp [hi], rfl, ?_⟩
  unfold headerField
  dsimp only
  by_cases hit : i < t.length
  · simp only [hit, if_true, true_and]
  · simp [hit]

/-- C16, at a header with three names and two types: the third field is a string field;
and at a header with types only the names are `Field_1` and `Field_2`. -/
theorem C16_fields_from_header_witness :
    STARTS_WITH "a.gmt".data "/vsistdout".data = false ∧
    (∃ L1 h L, readHeader (initialLayer intEnv "a.gmt".data
          (openFile "# @GPOINT @Na|b|c @Tinteger|DOUBLE\n# FEATURE_DATA\n") false) = some (L1, h) ∧
      OGRGmtLayer.new intEnv "a.gmt".data
        (some (openFile "# @GPOINT @Na|b|c @Tinteger|DOUBLE\n# FEATURE_DATA\n")) none false =
        some L ∧
      ∀ n t, n = CSLTokenizeStringComplex h.osFieldNames "|".data true true →
        t = CSLTokenizeStringComplex h.osFieldTypes "|".data true true →
        L.poFeatureDefn.fields.length = max n.length t.length ∧
        ∀ i, i < max n.length t.length →
          ∃ fd, L.poFeatureDefn.fields[i]? = some fd ∧
            fd.name = (if i < n.length then n.getD i [] else "Field_".data ++ Nat.toDigits 10 (i + 1)) ∧
            fd.type =
              (if i < t.length ∧ EQUAL (t.getD i []) "integer".data = true then OFTInteger
               else if i < t.length ∧ EQUAL (t.getD i []) "double".data = true then OFTReal
               else if i < t.length ∧ EQUAL (t.getD i []) "datetime".data = true then OFTDateTime
               else OFTString)) ∧
    (openLayer "# @GPOINT @Na|b|c @Tinteger|DOUBLE\n# FEATURE_DATA\n" false).poFeatureDefn.fields =
      [⟨"a".data, OFTInteger⟩, ⟨"b".data, OFTReal⟩, ⟨"c".data, OFTString⟩] ∧
    (openLayer "# @Tdatetime|x\n# FEATURE_DATA\n" false).poFeatureDefn.fields =
      [⟨"Field_1".data, OFTDateTime⟩, ⟨"Field_2".data, OFTString⟩] :=
  ⟨by decide, C16_fields_from_header intEnv "a.gmt".data _ none false (by decide), by decide,
    by decide⟩

/-! ## The header lines the constructor reads -/

/-- The loop over the header lines on a file seen as lines: the keyed values of the
lines of the leading run are applied in order, and the loop ends at the sentinel, which
it passes, or at the first line that is not a comment. -/
theorem headerLoop_lines {α : Type} (hdr rest : List Str) :
    ∀ (fuel : Nat) (L : OGRGmtLayer α) (h : HeaderVars) (nStartOfLine : Nat),
      hdr.length + 1 ≤ fuel → AtLines L.m_fp (hdr ++ rest) →
      (∀ l ∈ hdr, inHeaderRun l = true) → inHeaderRun (rest.headD []) = false →
      ∃ L1, headerLoop fuel L h nStartOfLine = some (L1, headerVarsFrom h hdr) ∧
        (isSentinel (rest.headD []) = true → Cur L1 (rest.tail.headD []) rest.tail.tail) ∧
        (isSentinel (rest.headD []) = false → Cur L1 (rest.headD []) rest.tail) := by
  induction hdr with
  | nil =>
    intro fuel L h n0 hf hat _ hr
    obtain ⟨n, rfl⟩ : ∃ n, fuel = n + 1 := ⟨fuel - 1, by omega⟩
    obtain ⟨⟨c1, c2, c3⟩, c4, c5, c6⟩ := ReadLine_Cur L rest hat
    have hl : (ReadLine L).2.osLine = rest.headD [] := c1
    by_cases hs : isSentinel (rest.headD []) = true
    · have hs' := hs
      simp only [isSentinel, Bool.and_eq_true, beq_iff_eq] at hs'
      have hne : rest ≠ [] := by
        intro e
        rw [e] at hs'
        exact absurd hs'.1 (by decide)
      have h6 : (ReadLine L).1 = true := by
        rw [c6]
        cases rest with
        | nil => exact absurd rfl hne
        | cons a b => rfl
      have hc : ((ReadLine L).1 && charAt (ReadLine L).2.osLine 0 == '#') = true := by
        rw [h6, hl, hs'.1]; rfl
      have hat2 : AtLines ({ (ReadLine L).2 with bHeaderComplete := true } : OGRGmtLayer α).m_fp
          rest.tail := c3
      obtain ⟨⟨d1, d2, d3⟩, _⟩ := ReadLine_Cur { (ReadLine L).2 with bHeaderComplete := true }
        rest.tail hat2
      refine ⟨(ReadLine { (ReadLine L).2 with bHeaderComplete := true }).2, ?_,
        fun _ => ⟨d1, d2, d3⟩, fun hn => absurd hs (by rw [hn]; decide)⟩
      have hstr : strstr (ReadLine L).2.osLine "FEATURE_DATA".data = true := by
        rw [hl]; exact hs'.2
      simp only [headerLoop]
      rw [if_pos hc, if_pos hstr]
      rfl
    · have hs0 : isSentinel (rest.headD []) = false := by simpa using hs
      have hc : ((ReadLine L).1 && charAt (ReadLine L).2.osLine 0 == '#') = false := by
        rw [hl]
        by_cases h1 : charAt (rest.headD []) 0 = '#'
        · exfalso
          simp only [inHeaderRun, h1, beq_self_eq_true, Bool.true_and, Bool.not_eq_false'] at hr
          simp only [isSentinel, h1, beq_self_eq_true, Bool.true_and] at hs0
          rw [hr] at hs0
          cases hs0
        · have : (charAt (rest.headD []) 0 == '#') = false := by simpa using h1
          rw [this, Bool.and_false]
      refine ⟨(ReadLine L).2, ?_, fun hn => absurd hn hs, fun _ => ⟨c1, c2, c3⟩⟩
      simp only [headerLoop]
      rw [if_neg (by rw [hc]; decide)]
      rfl
  | cons l hdr ih =>
    intro fuel L h n0 hf hat hall hr
    obtain ⟨n, rfl⟩ : ∃ n, fuel = n + 1 := ⟨fuel - 1, by omega⟩
    obtain ⟨⟨c1, c2, c3⟩, c4, c5, c6⟩ := ReadLine_Cur L (l :: hdr ++ rest) hat
    have hl : (ReadLine L).2.osLine = l := c1
    have hin := hall l (by simp)
    simp only [inHeaderRun, Bool.and_eq_true, beq_iff_eq, Bool.not_eq_true'] at hin
    have hkv : (ReadLine L).2.papszKeyedValues = lineKeyedValues l := c2 hin.1
    have hc : ((ReadLine L).1 && charAt (ReadLine L).2.osLine 0 == '#') = true := by
      rw [c6, hl, hin.1]; rfl
    have c3' : AtLines (ReadLine L).2.m_fp (hdr ++ rest) := c3
    have hall' : ∀ x ∈ hdr, inHeaderRun x = true := fun x hx => hall x (by simp [hx])
    have hfold : headerVarsFrom h (l :: hdr) =
        headerVarsFrom (((lineKeyedValues l).getD []).foldl applyKeyedValue h) hdr := rfl
    rw [hfold]
    have hstr : ¬ strstr (ReadLine L).2.osLine "FEATURE_DATA".data = true := by
      rw [hl, hin.2]; decide
    have step : ∀ L1 : OGRGmtLayer α, L1.m_fp = (ReadLine L).2.m_fp →
        L1.papszKeyedValues = lineKeyedValues l →
        ∃ L2, headerLoop n L1 ((L1.papszKeyedValues.getD []).foldl applyKeyedValue h)
            (VSIFTellL L1.m_fp) =
          some (L2, headerVarsFrom (((lineKeyedValues l).getD []).foldl applyKeyedValue h) hdr) ∧
          (isSentinel (rest.headD []) = true → Cur L2 (rest.tail.headD []) rest.tail.tail) ∧
          (isSentinel (rest.headD []) = false → Cur L2 (rest.headD []) rest.tail) := by
      intro L1 e1 e2
      rw [e2]
      exact ih n L1 _ _ (by simp at hf; omega) (by rw [e1]; exact c3') hall' hr
    simp only [headerLoop]
    rw [if_pos hc, if_neg hstr]
    by_cases hreg : STARTS_WITH_CI (ReadLine L).2.osLine "# REGION_STUB ".data = true
    · simp only [if_pos hreg]
      exact step _ rfl hkv
    · simp only [if_neg hreg]
      exact step _ rfl hkv

theorem headerRun_append (ls : List Str) : headerRun ls ++ ls.dropWhile inHeaderRun = ls :=
  List.takeWhile_append_dropWhile _ _

theorem dropWhile_head (ls : List Str) :
    inHeaderRun ((ls.dropWhile inHeaderRun).headD []) = false := by
  induction ls with
  | nil => decide
  | cons l ls ih =>
    by_cases h : inHeaderRun l = true
    · rw [List.dropWhile_cons_of_pos h]; exact ih
    · rw [List.dropWhile_cons_of_neg h]; simpa using h

/-- The header is read from the lines of the file: the strings collected are those of
the leading run of header lines, and the reader stands at the first body line. -/
theorem readHeader_lines {α : Type} (L : OGRGmtLayer α) :
    ∃ L1, readHeader L =
        some (L1, headerVarsFrom ⟨[], [], [], [], [], [], []⟩ (headerRun (fileLines L.m_fp.data))) ∧
      Cur L1 ((bodyLines (fileLines L.m_fp.data)).headD []) (bodyLines (fileLines L.m_fp.data)).tail := by
  have hat : AtLines ({ L with m_fp := VSIFSeekL L.m_fp 0 } : OGRGmtLayer α).m_fp
      (headerRun (fileLines L.m_fp.data) ++ (fileLines L.m_fp.data).dropWhile inHeaderRun) := by
    rw [headerRun_append]
    show fileLines (L.m_fp.data.drop 0) = _
    rfl
  have hlen : (headerRun (fileLines L.m_fp.data)).length + 1 ≤ L.m_fp.data.length + 1 := by
    have h1 : (headerRun (fileLines L.m_fp.data)).length ≤ (fileLines L.m_fp.data).length :=
      (List.takeWhile_sublist _).length_le
    have h2 := fileLines_length L.m_fp.data
    omega
  obtain ⟨L1, e, s1, s2⟩ := headerLoop_lines (headerRun (fileLines L.m_fp.data))
    ((fileLines L.m_fp.data).dropWhile inHeaderRun) (L.m_fp.data.length + 1)
    { L with m_fp := VSIFSeekL L.m_fp 0 } ⟨[], [], [], [], [], [], []⟩ 0 hlen hat
    (fun l hl => (List.mem_takeWhile_imp hl)) (dropWhile_head _)
  refine ⟨L1, e, ?_⟩
  unfold bodyLines
  by_cases hs : isSentinel (((fileLines L.m_fp.data).dropWhile inHeaderRun).headD []) = true
  · rw [if_pos hs]; exact s1 hs
  · rw [if_neg hs]; exact s2 (by simpa using hs)

/-- The layer the constructor yields for a file that is not `/vsistdout`, in terms of
the lines of the file: schema, geometry kind, region and coordinate system come from
the leading run of header lines, and the reader stands at the first body line. -/
theorem new_lines {α : Type} (env : Env α) (pszFilename : Str) (fp : VSILFILE)
    (poSRS : Option OGRSpatialReference) (bUpdateIn : Bool)
    (hname : STARTS_WITH pszFilename "/vsistdout".data = false) :
    ∃ L, OGRGmtLayer.new env pszFilename (some fp) poSRS bUpdateIn = some L ∧
      Cur L ((bodyLines (fileLines fp.data)).headD []) (bodyLines (fileLines fp.data)).tail ∧
      L.poFeatureDefn = ⟨env.CPLGetBasenameSafe pszFilename,
        headerGeomType (headerVarsOfFile fp.data).osGeometryType wkbUnknown,
        headerFields (headerVarsOfFile fp.data).osFieldNames
          (headerVarsOfFile fp.data).osFieldTypes⟩ ∧
      L.sRegion = (if (headerRegion env (headerVarsOfFile fp.data).osRegion).2
        then (headerRegion env (headerVarsOfFile fp.data).osRegion).1 else none) ∧
      L.bRegionComplete = (headerRegion env (headerVarsOfFile fp.data).osRegion).2 ∧
      L.m_poSRS = headerSRS env (headerVarsOfFile fp.data) ∧
      L.iNextFID = 0 ∧ L.bUpdate = bUpdateIn ∧ L.m_fp.data = fp.data := by
  obtain ⟨L1, h, e, t1, t2, t3, t4, t5, _, t7⟩ :=
    readHeader_total (initialLayer env pszFilename fp bUpdateIn)
  obtain ⟨L1', e', hcur⟩ := readHeader_lines (initialLayer env pszFilename fp bUpdateIn)
  rw [e] at e'
  simp only [Option.some.injEq, Prod.mk.injEq] at e'
  obtain ⟨eL, eh⟩ := e'
  subst eL
  have eh' : h = headerVarsOfFile fp.data := eh
  refine ⟨applyHeader env L1 h, by simp [OGRGmtLayer.new, hname, e], hcur, ?_, ?_, ?_, ?_, t5, t4,
    t7⟩
  · show OGRFeatureDefn.mk _ _ _ = _
    rw [t3, ← eh']
    rfl
  · show (if (headerRegion env h.osRegion).2 = true then _ else L1.sRegion) = _
    rw [t1, ← eh']
    rfl
  · show (if (headerRegion env h.osRegion).2 = true then true else L1.bRegionComplete) = _
    rw [t2, ← eh']
    show (if (headerRegion env h.osRegion).2 = true then true else false) = _
    cases (headerRegion env h.osRegion).2 <;> rfl
  · show headerSRS env h = _
    rw [eh']

/-- C18. For a file that is not `/vsistdout` the constructor yields a layer whose
schema, geometry kind, region and coordinate system are those the keyed values of the
leading run of header lines give: the lines from the top of the file that begin with
`#`, up to and without the first of them that contains `FEATURE_DATA`, a line being a
record of the file as `ReadLine` takes it, cut at its first NUL byte. The sentinel line
itself and every later line have no part in them: any other file with the same leading
run yields the same schema, geometry kind, region and coordinate system. The sentinel
is consumed: the current line after construction is the line after the sentinel or,
when the run is not ended by a sentinel, the first line that does not begin with `#`;
the lines after it are still unread. -/
theorem C18_header_run_only {α : Type} (env : Env α) (pszFilename : Str) (fp : VSILFILE)
    (poSRS : Option OGRSpatialReference) (bUpdateIn : Bool)
    (hname : STARTS_WITH pszFilename "/vsistdout".data = false) :
    ∃ L, OGRGmtLayer.new env pszFilename (some fp) poSRS bUpdateIn = some L ∧
      Cur L ((bodyLines (fileLines fp.data)).headD []) (bodyLines (fileLines fp.data)).tail ∧
      L.poFeatureDefn = ⟨env.CPLGetBasenameSafe pszFilename,
        headerGeomType (headerVarsOfFile fp.data).osGeometryType wkbUnknown,
        headerFields (headerVarsOfFile fp.data).osFieldNames
          (headerVarsOfFile fp.data).osFieldTypes⟩ ∧
      L.sRegion = (if (headerRegion env (headerVarsOfFile fp.data).osRegion).2
        then (headerRegion env (headerVarsOfFile fp.data).osRegion).1 else none) ∧
      L.bRegionComplete = (headerRegion env (headerVarsOfFile fp.data).osRegion).2 ∧
      L.m_poSRS = headerSRS env (headerVarsOfFile fp.data) ∧
      ∀ fp2 : VSILFILE, headerRun (fileLines fp2.data) = headerRun (fileLines fp.data) →
        ∃ L2, OGRGmtLayer.new env pszFilename (some fp2) poSRS bUpdateIn = some L2 ∧
          L2.poFeatureDefn = L.poFeatureDefn ∧ L2.sRegion = L.sRegion ∧
          L2.bRegionComplete = L.bRegionComplete ∧ L2.m_poSRS = L.m_poSRS := by
  obtain ⟨L, e, a1, a2, a3, a4, a5, _⟩ := new_lines env pszFilename fp poSRS bUpdateIn hname
  refine ⟨L, e, a1, a2, a3, a4, a5, ?_⟩
  intro fp2 hrun
  obtain ⟨L2, e2, _, b2, b3, b4, b5, _⟩ := new_lines env pszFilename fp2 poSRS bUpdateIn hname
  have hv : headerVarsOfFile fp2.data = headerVarsOfFile fp.data := by
    unfold headerVarsOfFile
    rw [hrun]
  rw [hv] at b2 b3 b4 b5
  exact ⟨L2, e2, b2.trans a2.symm, b3.trans a3.symm, b4.trans a4.symm, b5.trans a5.symm⟩

set_option maxRecDepth 100000 in
/-- C18, at a file whose sentinel line and whose line after the sentinel carry keyed
values: the kind is the one of the first line, the schema has the one field named there,
and the current line is the line after the sentinel; and at a file whose first record
holds a NUL byte before a second `G` key: the kind is the one named before the NUL. -/
theorem C18_header_run_only_witness :
    STARTS_WITH "a.gmt".data "/vsistdout".data = false ∧
    (∃ L, OGRGmtLayer.new intEnv "a.gmt".data
          (some (openFile "# @GPOINT @Na\n# FEATURE_DATA @GPOLYGON @Nb|c\n# @GLINESTRING @R0/1/0/1\n1 2\n"))
          none false = some L ∧
      Cur L ((bodyLines (fileLines (openFile
          "# @GPOINT @Na\n# FEATURE_DATA @GPOLYGON @Nb|c\n# @GLINESTRING @R0/1/0/1\n1 2\n").data)).headD [])
        (bodyLines (fileLines (openFile
          "# @GPOINT @Na\n# FEATURE_DATA @GPOLYGON @Nb|c\n# @GLINESTRING @R0/1/0/1\n1 2\n").data)).tail ∧
      L.poFeatureDefn = ⟨intEnv.CPLGetBasenameSafe "a.gmt".data,
        headerGeomType (headerVarsOfFile (openFile
          "# @GPOINT @Na\n# FEATURE_DATA @GPOLYGON @Nb|c\n# @GLINESTRING @R0/1/0/1\n1 2\n").data).osGeometryType
          wkbUnknown,
        headerFields (headerVarsOfFile (openFile
          "# @GPOINT @Na\n# FEATURE_DATA @GPOLYGON @Nb|c\n# @GLINESTRING @R0/1/0/1\n1 2\n").data).osFieldNames
          (headerVarsOfFile (openFile
          "# @GPOINT @Na\n# FEATURE_DATA @GPOLYGON @Nb|c\n# @GLINESTRING @R0/1/0/1\n1 2\n").data).osFieldTypes⟩ ∧
      L.sRegion = (if (headerRegion intEnv (headerVarsOfFile (openFile
          "# @GPOINT @Na\n# FEATURE_DATA @GPOLYGON @Nb|c\n# @GLINESTRING @R0/1/0/1\n1 2\n").data).osRegion).2
        then (headerRegion intEnv (headerVarsOfFile (openFile
          "# @GPOINT @Na\n# FEATURE_DATA @GPOLYGON @Nb|c\n# @GLINESTRING @R0/1/0/1\n1 2\n").data).osRegion).1
        else none) ∧
      L.bRegionComplete = (headerRegion intEnv (headerVarsOfFile (openFile
          "# @GPOINT @Na\n# FEATURE_DATA @GPOLYGON @Nb|c\n# @GLINESTRING @R0/1/0/1\n1 2\n").data).osRegion).2 ∧
      L.m_poSRS = headerSRS intEnv (headerVarsOfFile (openFile
          "# @GPOINT @Na\n# FEATURE_DATA @GPOLYGON @Nb|c\n# @GLINESTRING @R0/1/0/1\n1 2\n").data) ∧
      ∀ fp2 : VSILFILE, headerRun (fileLines fp2.data) = headerRun (fileLines (openFile
          "# @GPOINT @Na\n# FEATURE_DATA @GPOLYGON @Nb|c\n# @GLINESTRING @R0/1/0/1\n1 2\n").data) →
        ∃ L2, OGRGmtLayer.new intEnv "a.gmt".data (some fp2) none false = some L2 ∧
          L2.poFeatureDefn = L.poFeatureDefn ∧ L2.sRegion = L.sRegion ∧
          L2.bRegionComplete = L.bRegionComplete ∧ L2.m_poSRS = L.m_poSRS) ∧
    (openLayer "# @GPOINT @Na\n# FEATURE_DATA @GPOLYGON @Nb|c\n# @GLINESTRING @R0/1/0/1\n1 2\n"
        false).poFeatureDefn = ⟨"a.gmt".data, wkbPoint, [⟨"a".data, OFTString⟩]⟩ ∧
    (openLayer "# @GPOINT @Na\n# FEATURE_DATA @GPOLYGON @Nb|c\n# @GLINESTRING @R0/1/0/1\n1 2\n"
        false).osLine = "# @GLINESTRING @R0/1/0/1".data ∧
    (openLayer "# @GPOINT @Na\n# FEATURE_DATA @GPOLYGON @Nb|c\n# @GLINESTRING @R0/1/0/1\n1 2\n"
        false).sRegion = none ∧
    fileLines nulHeaderData = ["# @GPOINT".data, "# FEATURE_DATA".data, "1 2".data] ∧
    ((OGRGmtLayer.new intEnv "a.gmt".data (some ⟨nulHeaderData, 0, none, []⟩) none false).getD
      blankLayer).poFeatureDefn.geomType = wkbPoint :=
  ⟨by decide, C18_header_run_only intEnv "a.gmt".data _ none false (by decide), by decide,
    by decide, by decide, by decide, by decide⟩

/-! ## The keyed values of a line -/

theorem drop_eq_charAt_cons (s : Str) (i : Nat) (h : i < s.length) :
    s.drop i = charAt s i :: s.drop (i + 1) := by
  rw [List.drop_eq_getElem_cons h]
  simp [charAt, List.getElem?_eq_getElem h]

theorem valueLength_cons (c : Char) (cs : Str) (q : Bool) :
    valueLength (c :: cs) q =
      if (!q && isspace c) = true then 0
      else if (q && c == '\\') = true then
        match cs with
        | [] => 1
        | _ :: ds => 2 + valueLength ds q
      else 1 + valueLength cs (if c == '"' then !q else q) := by
  cases cs <;> rfl

theorem valueLength_nil (q : Bool) : valueLength [] q = 0 := rfl

/-- The inner loop of `ReadLine` stops where the value ends. -/
theorem scanValueEnd_eq (osLine : Str) (fuel : Nat) :
    ∀ (j : Nat) (q : Bool), osLine.length - j ≤ fuel → j ≤ osLine.length →
      scanValueEnd osLine fuel j q = j + valueLength (osLine.drop j) q := by
  induction fuel with
  | zero =>
    intro j q hf hj
    have : j = osLine.length := by omega
    subst this
    simp [scanValueEnd, valueLength]
  | succ n ih =>
    intro j q hf hj
    by_cases hlt : j < osLine.length
    · have hd := drop_eq_charAt_cons osLine j hlt
      rw [hd]
      simp only [scanValueEnd, if_pos hlt]
      by_cases h1 : (!q && isspace (charAt osLine j)) = true
      · rw [if_pos h1, valueLength_cons, if_pos h1]; rfl
      · rw [if_neg h1, valueLength_cons, if_neg h1]
        by_cases h2 : (q && charAt osLine j == '\\') = true
        · rw [if_pos h2]
          by_cases h3 : j < osLine.length - 1
          · have hlt2 : j + 1 < osLine.length := by omega
            have hd2 := drop_eq_charAt_cons osLine (j + 1) hlt2
            have hc : (q && decide (j < osLine.length - 1) && charAt osLine j == '\\') = true := by
              simp only [Bool.and_eq_true, beq_iff_eq] at h2
              simp [h2.1, h2.2, h3]
            rw [if_pos hc, hd2]
            dsimp only
            rw [ih (j + 1 + 1) q (by omega) (by omega)]
            omega
          · have hc : ¬ (q && decide (j < osLine.length - 1) && charAt osLine j == '\\') = true := by
              simp [h3]
            have hq : (charAt osLine j == '"') = false := by
              simp only [Bool.and_eq_true, beq_iff_eq] at h2
              rw [h2.2]; decide
            have hnil : osLine.drop (j + 1) = [] := List.drop_of_length_le (by omega)
            rw [if_neg hc, hq, hnil]
            simp only [Bool.false_eq_true, if_false]
            rw [ih (j + 1) q (by omega) (by omega), hnil, valueLength_nil]
        · rw [if_neg h2]
          have hc : ¬ (q && decide (j < osLine.length - 1) && charAt osLine j == '\\') = true := by
            intro hh
            apply h2
            simp only [Bool.and_eq_true, beq_iff_eq, decide_eq_true_eq] at hh ⊢
            exact ⟨hh.1.1, hh.2⟩
          rw [if_neg hc]
          by_cases h4 : (charAt osLine j == '"') = true
          · rw [if_pos h4, ih (j + 1) (!q) (by omega) (by omega)]
            simp only [h4, if_true]
            omega
          · rw [if_neg h4, ih (j + 1) q (by omega) (by omega)]
            simp only [h4, Bool.false_eq_true, if_false]
            omega
    · have : j = osLine.length := by omega
      subst this
      simp [scanValueEnd, valueLength]

/-- The outer loop of `ReadLine` yields the entries of the rest of the line. -/
theorem scanKeyedValues_eq (osLine : Str) (fuel : Nat) :
    ∀ i : Nat, scanKeyedValues osLine fuel i = keyedEntries fuel (osLine.drop i) := by
  induction fuel with
  | zero => intro i; rfl
  | succ n ih =>
    intro i
    by_cases hlt : i < osLine.length
    · have hd := drop_eq_charAt_cons osLine i hlt
      simp only [scanKeyedValues, if_pos hlt]
      by_cases hlt2 : i + 1 < osLine.length
      · have hd2 := drop_eq_charAt_cons osLine (i + 1) hlt2
        have hv := scanValueEnd_eq osLine osLine.length (i + 2) false (by omega) (by omega)
        have hk : (osLine.drop (i + 1)).take 1 = [charAt osLine (i + 1)] := by
          rw [hd2]; rfl
        by_cases hat : (charAt osLine i == '@') = true
        · have hc : (charAt osLine i == '@' && decide (i + 2 ≤ osLine.length)) = true := by
            simp only [hat, Bool.true_and, decide_eq_true_eq]; omega
          rw [if_pos hc, hv, hk, ih, hd, hd2]
          simp only [keyedEntries]
          rw [if_pos hat]
          have e1 : i + 2 + valueLength (List.drop (i + 2) osLine) false - i - 2 =
              valueLength (List.drop (i + 2) osLine) false := by omega
          have e2 : List.drop (i + 2 + valueLength (List.drop (i + 2) osLine) false + 1) osLine =
              List.drop (valueLength (List.drop (i + 2) osLine) false + 1)
                (List.drop (i + 1 + 1) osLine) := by
            rw [List.drop_drop]
            congr 1
          rw [e1, e2]
          rfl
        · have hc : ¬ (charAt osLine i == '@' && decide (i + 2 ≤ osLine.length)) = true := by
            simp only [Bool.and_eq_true, not_and]
            intro h; exact absurd h hat
          rw [if_neg hc, ih, hd, hd2]
          simp only [keyedEntries]
          rw [if_neg hat]
      · have hnil : osLine.drop (i + 1) = [] := List.drop_of_length_le (by omega)
        rw [hd, hnil]
        have hc : ¬ (charAt osLine i == '@' && decide (i + 2 ≤ osLine.length)) = true := by
          simp only [Bool.and_eq_true, decide_eq_true_eq, not_and]
          intro _; omega
        rw [if_neg hc, ih, hnil]
        cases n <;> rfl
    · have hnil : osLine.drop i = [] := List.drop_of_length_le (by omega)
      rw [hnil]
      simp only [scanKeyedValues, if_neg hlt]
      rfl

/-- The keyed values `ReadLine` stores for a line are those the specification
describes. -/
theorem lineKeyedValues_eq (osLine : Str) :
    (lineKeyedValues osLine).getD [] = keyedValuesOfLine osLine := by
  unfold lineKeyedValues keyedValuesOfLine
  by_cases h : (charAt osLine 0 != '#' || !osLine.contains '@') = true
  · rw [if_pos h, if_pos h]; rfl
  · rw [if_neg h, if_neg h, scanKeyedValues_eq]
    simp only [List.drop_zero, StealList]
    cases keyedEntries osLine.length osLine <;> rfl

/-- C19. When `ReadLine` reads a record, the line it takes is the text of the record,
the bytes before its first NUL (the whole record when it holds none), and the keyed
values it stores are a function of the text of that line alone, nothing of the layer
read from, its former keyed values included, entering: the empty list if the line does
not begin with `#` or contains no `@`; otherwise the entries found scanning from left to
right, each `@` met outside an earlier value and followed by at least one character
giving one entry, made of the next character as key and of the backslash-unescaped
text that runs from after the key up to the first whitespace not inside double quotes
(inside quotes a backslash makes the next character literal), in line order. -/
theorem C19_keyed_values_of_line {α : Type} (L : OGRGmtLayer α) (record : Str) (fp : VSILFILE)
    (h : CPLReadLineL L.m_fp = (some record, fp)) :
    (ReadLine L).1 = true ∧ (ReadLine L).2.osLine = cstr record ∧
    (Char.ofNat 0 ∉ record → (ReadLine L).2.osLine = record) ∧
    (ReadLine L).2.papszKeyedValues.getD [] = keyedValuesOfLine (ReadLine L).2.osLine := by
  have e : ReadLine L = (true, { L with
      osLine := cstr record
      papszKeyedValues := lineKeyedValues (cstr record)
      m_fp := fp }) := by
    unfold ReadLine
    rw [h]
  rw [e]
  exact ⟨rfl, rfl, fun hn => cstr_of_no_nul record hn, lineKeyedValues_eq (cstr record)⟩

/-- C19, at a layer that holds keyed values of an earlier line and reads a comment line
with a quoted value: the keyed values are the two entries of the line read. At a record
that holds a NUL the line is the text before it, and the `@` after it gives no entry. -/
theorem C19_keyed_values_of_line_witness :
    CPLReadLineL ({ (blankLayer : OGRGmtLayer Int) with
        papszKeyedValues := some ["Zold".data]
        m_fp := openFile "# @D\"a b\"|7 @Nq\n1 2\n" }).m_fp =
      (some "# @D\"a b\"|7 @Nq".data, ⟨"# @D\"a b\"|7 @Nq\n1 2\n".data, 16, none, []⟩) ∧
    ((ReadLine ({ (blankLayer : OGRGmtLayer Int) with
        papszKeyedValues := some ["Zold".data]
        m_fp := openFile "# @D\"a b\"|7 @Nq\n1 2\n" })).1 = true ∧
      (ReadLine ({ (blankLayer : OGRGmtLayer Int) with
        papszKeyedValues := some ["Zold".data]
        m_fp := openFile "# @D\"a b\"|7 @Nq\n1 2\n" })).2.osLine =
        cstr "# @D\"a b\"|7 @Nq".data ∧
      (Char.ofNat 0 ∉ "# @D\"a b\"|7 @Nq".data →
        (ReadLine ({ (blankLayer : OGRGmtLayer Int) with
          papszKeyedValues := some ["Zold".data]
          m_fp := openFile "# @D\"a b\"|7 @Nq\n1 2\n" })).2.osLine =
          "# @D\"a b\"|7 @Nq".data) ∧
      (ReadLine ({ (blankLayer : OGRGmtLayer Int) with
        papszKeyedValues := some ["Zold".data]
        m_fp := openFile "# @D\"a b\"|7 @Nq\n1 2\n" })).2.papszKeyedValues.getD [] =
        keyedValuesOfLine (ReadLine ({ (blankLayer : OGRGmtLayer Int) with
          papszKeyedValues := some ["Zold".data]
          m_fp := openFile "# @D\"a b\"|7 @Nq\n1 2\n" })).2.osLine) ∧
    keyedValuesOfLine "# @D\"a b\"|7 @Nq".data = ["D\"a b\"|7".data, "Nq".data] ∧
    keyedValuesOfLine "# @D\"a\\\" b\" @".data = ["D\"a\" b\"".data] ∧
    keyedValuesOfLine "1 2 @Nq".data = [] ∧
    (ReadLine ({ (blankLayer : OGRGmtLayer Int) with
        m_fp := ⟨"# @GPOINT".data ++ Char.ofNat 0 :: " @GPOLYGON\n1 2\n".data, 0, none, []⟩ })).2.osLine =
      "# @GPOINT".data ∧
    (ReadLine ({ (blankLayer : OGRGmtLayer Int) with
        m_fp := ⟨"# @GPOINT".data ++ Char.ofNat 0 :: " @GPOLYGON\n1 2\n".data, 0, none, []⟩
        })).2.papszKeyedValues = some ["GPOINT".data] :=
  ⟨by decide,
    C19_keyed_values_of_line _ "# @D\"a b\"|7 @Nq".data
      ⟨"# @D\"a b\"|7 @Nq\n1 2\n".data, 16, none, []⟩ (by decide),
    by decide, by decide, by decide, by decide, by decide⟩

/-! ## The values of the fields of a feature read -/

theorem setFieldValues_fields {α : Type} (n : Nat) (toks : List Str) :
    ∀ (i : Nat) (pre : List Str) (f : OGRFeature α), pre.length = i →
      f.fields = (List.range n).map (fun j => if j < i then (pre ++ toks)[j]? else none) →
      (setFieldValues n toks i f).fields = (List.range n).map (fun j => (pre ++ toks)[j]?) ∧
      (setFieldValues n toks i f).nFID = f.nFID ∧ (setFieldValues n toks i f).poGeom = f.poGeom ∧
      (setFieldValues n toks i f).poSRS = f.poSRS := by
  induction toks with
  | nil =>
    intro i pre f hp hf
    refine ⟨?_, rfl, rfl, rfl⟩
    show f.fields = _
    rw [hf]
    apply List.map_congr_left
    intro j _
    by_cases hj : j < i
    · rw [if_pos hj]
    · rw [if_neg hj]
      symm
      apply List.getElem?_eq_none
      simp; omega
  | cons tok toks ih =>
    intro i pre f hp hf
    by_cases hi : i ≥ n
    · have e : setFieldValues n (tok :: toks) i f = f := by simp [setFieldValues, hi]
      rw [e]
      refine ⟨?_, rfl, rfl, rfl⟩
      rw [hf]
      apply List.map_congr_left
      intro j hj
      have : j < i := by
        have := List.mem_range.mp hj
        omega
      rw [if_pos this]
    · have e : setFieldValues n (tok :: toks) i f =
          setFieldValues n toks (i + 1) (f.SetField i tok) := by simp [setFieldValues, hi]
      rw [e]
      have happ : pre ++ tok :: toks = (pre ++ [tok]) ++ toks := by simp
      rw [happ]
      have hset : (f.SetField i tok).fields =
          (List.range n).map (fun j => if j < i + 1 then ((pre ++ [tok]) ++ toks)[j]? else none) := by
        show f.fields.set i (some tok) = _
        rw [hf]
        apply List.ext_getElem?
        intro j
        rw [List.getElem?_set]
        simp only [List.length_map, List.length_range, List.getElem?_map]
        by_cases hji : i = j
        · subst hji
          have hin : i < n := by omega
          simp only [if_true, hin, List.getElem?_range hin, Option.map_some', Nat.lt_succ_self]
          rw [List.getElem?_append_left (by simp [hp])]
          rw [List.getElem?_append_right (by omega)]
          simp [hp]
        · rw [if_neg hji]
          by_cases hjn : j < n
          · simp only [List.getElem?_range hjn, Option.map_some', Option.some.injEq]
            by_cases hlt : j < i
            · rw [if_pos hlt, if_pos (by omega)]
              rw [List.getElem?_append_left (by omega), List.getElem?_append_left (by simp; omega),
                List.getElem?_append_left (by omega)]
            · rw [if_neg hlt, if_neg (by omega)]
          · rw [List.getElem?_eq_none (by simp; omega)]
            rfl
      obtain ⟨a, b, c, d⟩ := ih (i + 1) (pre ++ [tok]) (f.SetField i tok) (by simp [hp]) hset
      exact ⟨a, b, c, d⟩

/-- The feature `GetNextRawFeature` builds from the tokens of the attribute data: the
tokens by position, the fields beyond the tokens unset. -/
theorem setFieldValues_new {α : Type} (n : Nat) (fd : Str) (fid : Int)
    (g : Option (OGRGeometry α)) (srs : Option OGRSpatialReference) :
    setFieldValues n (CSLTokenizeStringComplex fd "|".data true true) 0
      ⟨fid, g, srs, List.replicate n none⟩ = ⟨fid, g, srs, fieldsOfData n fd⟩ := by
  obtain ⟨a, b, c, d⟩ := setFieldValues_fields (α := α) n
    (CSLTokenizeStringComplex fd "|".data true true) 0 [] ⟨fid, g, srs, List.replicate n none⟩ rfl
    (by
      show List.replicate n none = _
      apply List.ext_getElem?
      intro j
      by_cases hj : j < n
      · simp [List.getElem?_replicate, hj, List.getElem?_range hj]
      · rw [List.getElem?_eq_none (by simp; omega), List.getElem?_eq_none (by simp; omega)])
  cases hr : setFieldValues n (CSLTokenizeStringComplex fd "|".data true true) 0
    (⟨fid, g, srs, List.replicate n none⟩ : OGRFeature α) with
  | mk x1 x2 x3 x4 =>
    rw [hr] at a b c d
    simp only at a b c d
    subst b; subst c; subst d
    rw [a]
    rfl

/-! ## Reading a layer of points -/

theorem fieldDataAfter_foldl (cs : List Str) (c : Str) (fd : Str) :
    (c :: cs).foldl fieldDataAfter fd = cs.foldl fieldDataAfter (fieldDataAfter fd c) := rfl

theorem pointOfLine_eq {α : Type} (env : Env α) (l : Str)
    (hv : 2 ≤ (scannedValues env l).length) :
    geometryAfterVertex env wkbPoint none (scannedValues env l) = pointOfLine env l ∧
    (geometryAfterVertex env wkbPoint none (scannedValues env l)).isPoint = true := by
  have h3 : (scannedValues env l).length ≤ 3 := by
    unfold scannedValues
    simp only [List.length_take]
    omega
  unfold geometryAfterVertex pointOfLine
  by_cases h : (scannedValues env l).length = 3
  · simp [h, newGeometry, storeVertex, OGRPoint.setXYZ, OGRGeometry.isPoint]
  · have h2 : (scannedValues env l).length = 2 := by omega
    simp [h2, newGeometry, storeVertex, OGRPoint.setXYZ, OGRGeometry.isPoint]

/-- The loop of `GetNextRawFeature` in a point layer, standing at the first line of a
block: it passes the comment lines, stores the vertex and stops after the vertex line,
with the attribute data of the comment lines. -/
theorem assembleLoop_point {α : Type} (env : Env α) (v : Str) (rest : List Str)
    (hv : isVertexLine env v = true) :
    ∀ (cs : List Str) (fuel : Nat) (L : OGRGmtLayer α) (fd : Str), cs.length + 1 ≤ fuel →
      L.poFeatureDefn.geomType = wkbPoint →
      Cur L ((cs ++ v :: rest).headD []) (cs ++ v :: rest).tail →
      (∀ c ∈ cs, charAt c 0 = '#') →
      ∃ L1, assembleLoop env fuel ⟨L, fd, none⟩ =
          some ⟨L1, cs.foldl fieldDataAfter fd, some (pointOfLine env v)⟩ ∧
        Moved L L1 (rest.headD []) rest.tail := by
  simp only [isVertexLine, Bool.and_eq_true, Bool.not_eq_true', bne_iff_ne, ne_eq,
    decide_eq_true_eq] at hv
  obtain ⟨⟨⟨v1, v2⟩, v3⟩, v4⟩ := hv
  have vne : v ≠ [] := by
    intro e; rw [e] at v1; cases v1
  intro cs
  induction cs with
  | nil =>
    intro fuel L fd hf hk hcur _
    obtain ⟨n, rfl⟩ : ∃ n, fuel = n + 1 := ⟨fuel - 1, by omega⟩
    obtain ⟨L1, e, m⟩ := step_vertex env n L fd none v rest hcur vne v2 v3 v4
    rw [hk, (pointOfLine_eq env v v4).1] at e
    have hp : (pointOfLine env v).isPoint = true := by
      rw [← (pointOfLine_eq env v v4).1]; exact (pointOfLine_eq env v v4).2
    rw [if_pos hp] at e
    exact ⟨L1, e, m⟩
  | cons c cs ih =>
    intro fuel L fd hf hk hcur hall
    obtain ⟨n, rfl⟩ : ∃ n, fuel = n + 1 := ⟨fuel - 1, by omega⟩
    have hc : charAt c 0 = '#' := hall c (by simp)
    obtain ⟨L1, e, m⟩ := step_comment env n L fd none c (cs ++ v :: rest) hcur hc
      (fun g0 h => by cases h)
    have hk1 : L1.poFeatureDefn.geomType = wkbPoint := by rw [m.2.2]; exact hk
    obtain ⟨L2, e2, m2⟩ := ih n L1 (fieldDataAfter fd c) (by simp at hf; omega) hk1 m.1
      (fun x hx => hall x (by simp [hx]))
    exact ⟨L2, by rw [e, e2]; rfl, m.andThen m2⟩

/-- One call of `GetNextRawFeature` in a point layer, standing at the first line of a
block: the feature of the block is returned, and the reader stands at the first line
after the block. -/
theorem GetNextRawFeature_point {α : Type} (env : Env α) (L : OGRGmtLayer α) (cs : List Str)
    (v : Str) (rest : List Str) (hk : L.poFeatureDefn.geomType = wkbPoint)
    (hcur : Cur L ((cs ++ v :: rest).headD []) (cs ++ v :: rest).tail)
    (hcs : ∀ c ∈ cs, charAt c 0 = '#') (hv : isVertexLine env v = true) :
    ∃ L1, GetNextRawFeature env L =
        some (some ⟨(L.iNextFID : Int), some (pointOfLine env v), L.m_poSRS,
          fieldsOfData L.poFeatureDefn.fields.length (fieldDataOf cs)⟩, L1) ∧
      Cur L1 (rest.headD []) rest.tail ∧ L1.poFeatureDefn = L.poFeatureDefn ∧
      L1.m_poSRS = L.m_poSRS ∧ L1.iNextFID = L.iNextFID + 1 := by
  have hlen : cs.length + 1 ≤ L.m_fp.data.length + 2 := by
    have h1 := hcur.2.2.length_le
    have h2 : (cs ++ v :: rest).tail.length = cs.length + rest.length := by
      cases cs <;> simp
      omega
    omega
  obtain ⟨L1, e, m⟩ := assembleLoop_point env v rest hv cs (L.m_fp.data.length + 2) L [] hlen hk
    hcur hcs
  refine ⟨{ L1 with iNextFID := L1.iNextFID + 1, m_nFeaturesRead := L1.m_nFeaturesRead + 1 },
    ?_, m.1, m.2.2, m.2.1.m_poSRS, ?_⟩
  · unfold GetNextRawFeature
    rw [e]
    dsimp only
    rw [setFieldValues_new, m.2.2, m.2.1.iNextFID, m.2.1.m_poSRS]
    rfl
  · show L1.iNextFID + 1 = _
    rw [m.2.1.iNextFID]

/-- At end of file `GetNextRawFeature` returns none and leaves the layer as it is. -/
theorem GetNextRawFeature_eof {α : Type} (env : Env α) (L : OGRGmtLayer α)
    (h : L.osLine = []) : GetNextRawFeature env L = some (none, L) := by
  unfold GetNextRawFeature
  rw [assembleLoop_empty env _ ⟨L, [], none⟩ h]

theorem readCalls_step {α : Type} (env : Env α) (n : Nat) (L L1 L2 : OGRGmtLayer α)
    (r : Option (OGRFeature α)) (rs : List (Option (OGRFeature α)))
    (h1 : GetNextRawFeature env L = some (r, L1)) (h2 : readCalls env n L1 = some (rs, L2)) :
    readCalls env (n + 1) L = some (r :: rs, L2) := by
  simp [readCalls, h1, h2]

/-- Successive calls of `GetNextRawFeature` in a point layer whose body consists of
blocks: one feature for each block, then none. -/
theorem readCalls_points {α : Type} (env : Env α) :
    ∀ (blocks : List (List Str × Str)) (L : OGRGmtLayer α),
      L.poFeatureDefn.geomType = wkbPoint →
      Cur L ((blockLines blocks).headD []) (blockLines blocks).tail →
      (∀ b ∈ blocks, (∀ c ∈ b.1, charAt c 0 = '#') ∧ isVertexLine env b.2 = true) →
      ∃ Ln, readCalls env (blocks.length + 1) L =
        some ((pointFeatures env L.poFeatureDefn.fields.length L.m_poSRS L.iNextFID blocks).map
          some ++ [none], Ln) := by
  intro blocks
  induction blocks with
  | nil =>
    intro L _ hcur _
    have h : L.osLine = [] := hcur.1
    exact ⟨L, by simp [readCalls, GetNextRawFeature_eof env L h, pointFeatures]⟩
  | cons b bs ih =>
    intro L hk hcur hall
    have hb := hall b (by simp)
    have hl : blockLines (b :: bs) = b.1 ++ b.2 :: blockLines bs := by
      simp [blockLines]
    rw [hl] at hcur
    obtain ⟨L1, e, c1, c2, c3, c4⟩ := GetNextRawFeature_point env L b.1 b.2 (blockLines bs) hk hcur
      hb.1 hb.2
    obtain ⟨Ln, en⟩ := ih L1 (by rw [c2]; exact hk) c1 (fun x hx => hall x (by simp [hx]))
    rw [c2, c3, c4] at en
    exact ⟨Ln, readCalls_step env _ L L1 Ln _ _ e en⟩

/-- C20. In a layer whose kind is POINT and whose reader stands at the first line of a
body that, up to the end of the file, is made of `n` blocks, each block being `#`
comment lines (none, one or more) followed by one vertex line holding two or three
numbers, no line being empty: `n + 1` successive calls of `GetNextRawFeature` return
`n` features and then none; the `i`-th feature has the next feature id, a point
geometry with the numbers of the `i`-th vertex line as coordinates, and as field values
the tokens of the attribute data of the comment lines of its block, the value of the
last `@D` key before the vertex line. -/
theorem C20_point_layer_features {α : Type} (env : Env α) (L : OGRGmtLayer α)
    (blocks : List (List Str × Str)) (hk : L.poFeatureDefn.geomType = wkbPoint)
    (hcur : Cur L ((blockLines blocks).headD []) (blockLines blocks).tail)
    (hb : ∀ b ∈ blocks, (∀ c ∈ b.1, charAt c 0 = '#') ∧ isVertexLine env b.2 = true) :
    ∃ Ln, readCalls env (blocks.length + 1) L =
      some ((pointFeatures env L.poFeatureDefn.fields.length L.m_poSRS L.iNextFID blocks).map
        some ++ [none], Ln) :=
  readCalls_points env blocks L hk hcur hb

set_option maxRecDepth 100000 in
/-- C20, at a file with three points, the second without attribute line and 3D, the
third after two comment lines: four calls return the three features and then none. -/
theorem C20_point_layer_features_witness :
    ((openLayer threePointsText false).poFeatureDefn.geomType = wkbPoint ∧
      Cur (openLayer threePointsText false) ((blockLines threePointsBlocks).headD [])
        (blockLines threePointsBlocks).tail ∧
      (∀ b ∈ threePointsBlocks,
        (∀ c ∈ b.1, charAt c 0 = '#') ∧ isVertexLine intEnv b.2 = true)) ∧
    (∃ Ln, readCalls intEnv (threePointsBlocks.length + 1) (openLayer threePointsText false) =
      some ((pointFeatures intEnv (openLayer threePointsText false).poFeatureDefn.fields.length
        (openLayer threePointsText false).m_poSRS (openLayer threePointsText false).iNextFID
        threePointsBlocks).map some ++ [none], Ln)) ∧
    ((readCalls intEnv 4 (openLayer threePointsText false)).map (fun r => r.1)) =
      some [some ⟨0, some (.point ⟨some ⟨1, 2, 0⟩, false⟩), none, [some "a".data, some "1".data]⟩,
        some ⟨1, some (.point ⟨some ⟨3, 4, 5⟩, true⟩), none, [none, none]⟩,
        some ⟨2, some (.point ⟨some ⟨6, 7, 0⟩, false⟩), none, [some "x y".data, some "3".data]⟩,
        none] :=
  ⟨⟨by decide, ⟨by decide, by decide, by show fileLines _ = _; decide⟩, by decide⟩,
    C20_point_layer_features intEnv (openLayer threePointsText false) threePointsBlocks
      (by decide) ⟨by decide, by decide, by show fileLines _ = _; decide⟩ (by decide),
    by decide⟩

/-! ## Field values with a pipe, written and read back -/

set_option maxRecDepth 100000 in
/-- C8. What the code does with string values that contain a pipe, on a layer with two
string fields: the value `a|b` comes back as written, and so does the other field; the
value `a"|b` is written as `"a\"|b"` and comes back as `a`, the other field, written as
`z`, coming back as `b|z`. -/
theorem C8_pipe_with_quote_not_restored :
    ((ICreateFeature intEnv twoStringFields
        (mkFeature (.point (mkPoint 1 2)) ["a|b", "z"])).2.m_fp.data =
      "# @GPOINT\n# @Ns|t\n# @Tstring|string\n# FEATURE_DATA\n# @D\"a|b\"|z\n1 2\n".data ∧
      fieldsReadBack ["a|b", "z"] = some [some "a|b".data, some "z".data]) ∧
    ((ICreateFeature intEnv twoStringFields
        (mkFeature (.point (mkPoint 1 2)) ["a\"|b", "z"])).2.m_fp.data =
      "# @GPOINT\n# @Ns|t\n# @Tstring|string\n# FEATURE_DATA\n# @D\"a\\\"|b\"|z\n1 2\n".data ∧
      fieldsReadBack ["a\"|b", "z"] = some [some "a".data, some "b|z".data]) := by
  decide

/-! ## Runs of lines in the loop of `GetNextRawFeature` -/

theorem storeLine_isPoint {α : Type} (env : Env α) (g : OGRGeometry α) (l : Str) :
    (storeLine env g l).isPoint = g.isPoint := by
  cases g <;> rfl

theorem foldl_storeLine_isPoint {α : Type} (env : Env α) (vs : List Str) :
    ∀ g : OGRGeometry α, (vs.foldl (storeLine env) g).isPoint = g.isPoint := by
  induction vs with
  | nil => intro g; rfl
  | cons v vs ih => intro g; rw [List.foldl_cons, ih, storeLine_isPoint]

theorem isVertexLine_iff {α : Type} (env : Env α) (v : Str) (hv : isVertexLine env v = true) :
    v ≠ [] ∧ charAt v 0 ≠ '>' ∧ charAt v 0 ≠ '#' ∧ 2 ≤ (scannedValues env v).length := by
  simp only [isVertexLine, Bool.and_eq_true, Bool.not_eq_true', bne_iff_ne, ne_eq,
    decide_eq_true_eq] at hv
  obtain ⟨⟨⟨v1, v2⟩, v3⟩, v4⟩ := hv
  exact ⟨(by intro e; rw [e] at v1; cases v1), v2, v3, v4⟩

/-- A run of comment lines: the attribute data follows the `D` keys, the geometry is
kept, and the reader moves past the run. -/
theorem run_comments {α : Type} (env : Env α) (n : Nat) (g : Option (OGRGeometry α))
    (hg : ∀ g0, g = some g0 → g0.isPoint = false) (rest : List Str) :
    ∀ (cs : List Str) (L : OGRGmtLayer α) (fd : Str),
      Cur L ((cs ++ rest).headD []) (cs ++ rest).tail → (∀ c ∈ cs, charAt c 0 = '#') →
      ∃ L1, assembleLoop env (cs.length + n) ⟨L, fd, g⟩ =
          assembleLoop env n ⟨L1, cs.foldl fieldDataAfter fd, g⟩ ∧
        Moved L L1 (rest.headD []) rest.tail := by
  intro cs
  induction cs with
  | nil =>
    intro L fd hcur _
    exact ⟨L, by simp, Moved.same hcur⟩
  | cons c cs ih =>
    intro L fd hcur hall
    obtain ⟨L1, e, m⟩ := step_comment env (cs.length + n) L fd g c (cs ++ rest) hcur
      (hall c (by simp)) hg
    obtain ⟨L2, e2, m2⟩ := ih L1 (fieldDataAfter fd c) m.1 (fun x hx => hall x (by simp [hx]))
    refine ⟨L2, ?_, m.andThen m2⟩
    have : (c :: cs).length + n = cs.length + n + 1 := by simp; omega
    rw [this, e, e2]
    rfl

/-- A vertex line met when a geometry that is not a point exists: the vertex is stored
and the reader moves to the next line. -/
theorem step_vertex_some {α : Type} (env : Env α) (n : Nat) (L : OGRGmtLayer α) (fd : Str)
    (g : OGRGeometry α) (v : Str) (rest : List Str) (hcur : Cur L v rest)
    (hv : isVertexLine env v = true) (hg : g.isPoint = false) :
    ∃ L1, assembleLoop env (n + 1) ⟨L, fd, some g⟩ =
        assembleLoop env n ⟨L1, fd, some (storeLine env g v)⟩ ∧
      Moved L L1 (rest.headD []) rest.tail := by
  obtain ⟨v1, v2, v3, v4⟩ := isVertexLine_iff env v hv
  obtain ⟨L1, e, m⟩ := step_vertex env n L fd (some g) v rest hcur v1 v2 v3 v4
  have e0 : geometryAfterVertex env L.poFeatureDefn.geomType (some g) (scannedValues env v) =
      storeLine env g v := rfl
  rw [e0] at e
  have hp : ¬ (storeLine env g v).isPoint = true := by
    rw [storeLine_isPoint, hg]; decide
  rw [if_neg hp] at e
  exact ⟨L1, e, m⟩

/-- A run of vertex lines met when a geometry that is not a point exists. -/
theorem run_vertices {α : Type} (env : Env α) (n : Nat) (rest : List Str) :
    ∀ (vs : List Str) (L : OGRGmtLayer α) (fd : Str) (g : OGRGeometry α),
      Cur L ((vs ++ rest).headD []) (vs ++ rest).tail →
      (∀ v ∈ vs, isVertexLine env v = true) → g.isPoint = false →
      ∃ L1, assembleLoop env (vs.length + n) ⟨L, fd, some g⟩ =
          assembleLoop env n ⟨L1, fd, some (vs.foldl (storeLine env) g)⟩ ∧
        Moved L L1 (rest.headD []) rest.tail := by
  intro vs
  induction vs with
  | nil =>
    intro L fd g hcur _ _
    exact ⟨L, by simp, Moved.same hcur⟩
  | cons v vs ih =>
    intro L fd g hcur hall hg
    obtain ⟨L1, e, m⟩ := step_vertex_some env (vs.length + n) L fd g v (vs ++ rest) hcur
      (hall v (by simp)) hg
    obtain ⟨L2, e2, m2⟩ := ih L1 fd (storeLine env g v) m.1 (fun x hx => hall x (by simp [hx]))
      (by rw [storeLine_isPoint, hg])
    refine ⟨L2, ?_, m.andThen m2⟩
    have : (v :: vs).length + n = vs.length + n + 1 := by simp; omega
    rw [this, e, e2]
    rfl

/-- The first vertex line of a feature in a layer whose kind is not a point kind: the
geometry of the layer kind is created and the vertex stored. -/
theorem step_vertex_first {α : Type} (env : Env α) (n : Nat) (L : OGRGmtLayer α) (fd : Str)
    (v : Str) (rest : List Str) (hcur : Cur L v rest) (hv : isVertexLine env v = true)
    (hk : (newGeometry (α := α) L.poFeatureDefn.geomType).isPoint = false) :
    ∃ L1, assembleLoop env (n + 1) ⟨L, fd, none⟩ =
        assembleLoop env n
          ⟨L1, fd, some (storeLine env (newGeometry L.poFeatureDefn.geomType) v)⟩ ∧
      Moved L L1 (rest.headD []) rest.tail := by
  obtain ⟨v1, v2, v3, v4⟩ := isVertexLine_iff env v hv
  obtain ⟨L1, e, m⟩ := step_vertex env n L fd none v rest hcur v1 v2 v3 v4
  have e0 : geometryAfterVertex env L.poFeatureDefn.geomType none (scannedValues env v) =
      storeLine env (newGeometry L.poFeatureDefn.geomType) v := rfl
  rw [e0] at e
  have hp : ¬ (storeLine env (newGeometry L.poFeatureDefn.geomType) v).isPoint = true := by
    rw [storeLine_isPoint, hk]; decide
  rw [if_neg hp] at e
  exact ⟨L1, e, m⟩

/-- Lines that precede the first vertex line of a feature, comment lines and `>` lines,
in a layer whose kind is determined: the attribute data follows the `D` keys. -/
theorem run_before_geometry {α : Type} (env : Env α) (n : Nat) (rest : List Str) :
    ∀ (pre : List Str) (L : OGRGmtLayer α) (fd : Str),
      Cur L ((pre ++ rest).headD []) (pre ++ rest).tail →
      (∀ c ∈ pre, charAt c 0 = '#' ∨ charAt c 0 = '>') →
      L.poFeatureDefn.geomType ≠ wkbUnknown →
      ∃ L1, assembleLoop env (pre.length + n) ⟨L, fd, none⟩ =
          assembleLoop env n ⟨L1, pre.foldl fieldDataAfter fd, none⟩ ∧
        Moved L L1 (rest.headD []) rest.tail := by
  intro pre
  induction pre with
  | nil =>
    intro L fd hcur _ _
    exact ⟨L, by simp, Moved.same hcur⟩
  | cons c cs ih =>
    intro L fd hcur hall hk
    have hlen : (c :: cs).length + n = cs.length + n + 1 := by simp; omega
    rcases hall c (by simp) with hc | hc
    · obtain ⟨L1, e, m⟩ := step_comment env (cs.length + n) L fd none c (cs ++ rest) hcur hc
        (fun g0 h => by cases h)
      obtain ⟨L2, e2, m2⟩ := ih L1 (fieldDataAfter fd c) m.1 (fun x hx => hall x (by simp [hx]))
        (by rw [m.2.2]; exact hk)
      exact ⟨L2, by rw [hlen, e, e2]; rfl, m.andThen m2⟩
    · obtain ⟨L1, e, m⟩ := step_separator_first env (cs.length + n) L fd c (cs ++ rest) hcur hc hk
      obtain ⟨L2, e2, m2⟩ := ih L1 fd m.1 (fun x hx => hall x (by simp [hx]))
        (by rw [m.2.2]; exact hk)
      have hfd : fieldDataAfter fd c = fd := by
        unfold fieldDataAfter lineKeyedValues
        have : (charAt c 0 != '#') = true := by rw [hc]; decide
        simp [this]
      refine ⟨L2, ?_, m.andThen m2⟩
      rw [hlen, e, e2, List.foldl_cons, hfd]

/-! ## `>` lines met when a geometry exists -/

theorem loopBody_separator {α : Type} (env : Env α) (s : Assembly α) (sep : Str)
    (hl : s.layer.osLine = sep) (hs : charAt sep 0 = '>') :
    loopBody env s = onSeparator s := by
  have h1 : (charAt s.layer.osLine 0 == '>') = true := by rw [hl, hs]; decide
  simp only [loopBody, h1, if_true]

theorem sep_ne_nil {sep : Str} (hs : charAt sep 0 = '>') : sep ≠ [] :=
  charAt_ne_nil hs (by decide)

theorem sep_not_comment {sep : Str} (hs : charAt sep 0 = '>') : charAt sep 0 ≠ '#' := by
  rw [hs]; decide

/-- A `>` line in a multipolygon, followed, past comment lines that are not markers of
a hole, by the marker of a hole: a ring is added to the last polygon. -/
theorem step_sep_multipolygon_hole {α : Type} (env : Env α) (n : Nat) (L : OGRGmtLayer α)
    (fd : Str) (ps : List (OGRPolygon α)) (sep : Str) (cs : List Str) (h : Str)
    (rest : List Str) (hcur : Cur L sep (cs ++ h :: rest)) (hs : charAt sep 0 = '>')
    (hsk : skippedByHoleScan cs) (hh : isHoleComment h = true) :
    ∃ L1, assembleLoop env (n + 1) ⟨L, fd, some (.multiPolygon ps)⟩ =
        assembleLoop env n ⟨L1, fd, some (.multiPolygon (ps.modifyLast OGRPolygon.addRing))⟩ ∧
      Moved L L1 (rest.headD []) rest.tail := by
  obtain ⟨L0, e0, m0⟩ := ScanAheadForHole_hole L cs h rest hcur.2.2 hsk hh
  have hb : loopBody env ⟨L, fd, some (.multiPolygon ps)⟩ =
      some (false, ⟨L0, fd, some (.multiPolygon (ps.modifyLast OGRPolygon.addRing))⟩) := by
    rw [loopBody_separator env _ sep hcur.1 hs]
    simp only [onSeparator, e0]
  refine ⟨(ReadLine L0).2, ?_, m0.andThen (ReadLine_Moved L0 h rest m0.1)⟩
  rw [assembleLoop_succ env n _ (show L.osLine ≠ [] by rw [hcur.1]; exact sep_ne_nil hs), hb]

/-- A `>` line in a multipolygon after which no marker of a hole comes and whose next
line is not an attribute line: a new polygon is begun. -/
theorem step_sep_multipolygon_new {α : Type} (env : Env α) (n : Nat) (L : OGRGmtLayer α)
    (fd : Str) (ps : List (OGRPolygon α)) (sep : Str) (cs rest : List Str)
    (hcur : Cur L sep (cs ++ rest)) (hs : charAt sep 0 = '>')
    (hsk : skippedByHoleScan cs) (hno : noCommentAhead rest)
    (hnf : isFeatureComment ((cs ++ rest).headD []) = false) :
    ∃ L1, assembleLoop env (n + 1) ⟨L, fd, some (.multiPolygon ps)⟩ =
        assembleLoop env n
          ⟨L1, fd, some (.multiPolygon (ps ++ [⟨[OGRLineString.empty]⟩]))⟩ ∧
      Moved L L1 ((cs ++ rest).headD []) (cs ++ rest).tail := by
  obtain ⟨L0, e0, m0⟩ := ScanAheadForHole_none L sep cs rest hcur (sep_not_comment hs) hsk hno
  obtain ⟨f1, f2⟩ := NextIsFeature_lines L0 sep (cs ++ rest) m0.1 (sep_not_comment hs)
  have hb : loopBody env ⟨L, fd, some (.multiPolygon ps)⟩ =
      some (false, ⟨(NextIsFeature L0).2, fd,
        some (.multiPolygon (ps ++ [⟨[OGRLineString.empty]⟩]))⟩) := by
    rw [loopBody_separator env _ sep hcur.1 hs]
    simp only [onSeparator, e0, f1, hnf, Bool.not_false, if_true]
  refine ⟨(ReadLine (NextIsFeature L0).2).2, ?_,
    (m0.andThen f2).andThen (ReadLine_Moved _ sep (cs ++ rest) f2.1)⟩
  rw [assembleLoop_succ env n _ (show L.osLine ≠ [] by rw [hcur.1]; exact sep_ne_nil hs), hb]

/-- A `>` line in a multipolygon after which no marker of a hole comes and whose next
line is an attribute line: the feature is done, and the reader stays at the `>` line. -/
theorem step_sep_multipolygon_end {α : Type} (env : Env α) (n : Nat) (L : OGRGmtLayer α)
    (fd : Str) (ps : List (OGRPolygon α)) (sep : Str) (cs rest : List Str)
    (hcur : Cur L sep (cs ++ rest)) (hs : charAt sep 0 = '>')
    (hsk : skippedByHoleScan cs) (hno : noCommentAhead rest)
    (hf : isFeatureComment ((cs ++ rest).headD []) = true) :
    ∃ L1, assembleLoop env (n + 1) ⟨L, fd, some (.multiPolygon ps)⟩ =
        some ⟨L1, fd, some (.multiPolygon ps)⟩ ∧
      Moved L L1 sep (cs ++ rest) := by
  obtain ⟨L0, e0, m0⟩ := ScanAheadForHole_none L sep cs rest hcur (sep_not_comment hs) hsk hno
  obtain ⟨f1, f2⟩ := NextIsFeature_lines L0 sep (cs ++ rest) m0.1 (sep_not_comment hs)
  have hb : loopBody env ⟨L, fd, some (.multiPolygon ps)⟩ =
      some (true, ⟨(NextIsFeature L0).2, fd, some (.multiPolygon ps)⟩) := by
    rw [loopBody_separator env _ sep hcur.1 hs]
    simp only [onSeparator, e0, f1, hf, Bool.not_true, Bool.false_eq_true, if_false]
  refine ⟨(NextIsFeature L0).2, ?_, m0.andThen f2⟩
  rw [assembleLoop_succ env n _ (show L.osLine ≠ [] by rw [hcur.1]; exact sep_ne_nil hs), hb]

/-- A `>` line in a multi line string whose next line is not an attribute line: a new
line string is begun. -/
theorem step_sep_multiline_new {α : Type} (env : Env α) (n : Nat) (L : OGRGmtLayer α)
    (fd : Str) (ls : List (OGRLineString α)) (sep : Str) (rest : List Str)
    (hcur : Cur L sep rest) (hs : charAt sep 0 = '>')
    (hnf : isFeatureComment (rest.headD []) = false) :
    ∃ L1, assembleLoop env (n + 1) ⟨L, fd, some (.multiLineString ls)⟩ =
        assembleLoop env n ⟨L1, fd, some (.multiLineString (ls ++ [OGRLineString.empty]))⟩ ∧
      Moved L L1 (rest.headD []) rest.tail := by
  obtain ⟨f1, f2⟩ := NextIsFeature_lines L sep rest hcur (sep_not_comment hs)
  have hb : loopBody env ⟨L, fd, some (.multiLineString ls)⟩ =
      some (false, ⟨(NextIsFeature L).2, fd,
        some (.multiLineString (ls ++ [OGRLineString.empty]))⟩) := by
    rw [loopBody_separator env _ sep hcur.1 hs]
    simp only [onSeparator, f1, hnf, Bool.not_false, if_true]
  refine ⟨(ReadLine (NextIsFeature L).2).2, ?_, f2.andThen (ReadLine_Moved _ sep rest f2.1)⟩
  rw [assembleLoop_succ env n _ (show L.osLine ≠ [] by rw [hcur.1]; exact sep_ne_nil hs), hb]

/-- A `>` line in a multi line string whose next line is an attribute line: the
feature is done, and the reader stays at the `>` line. -/
theorem step_sep_multiline_end {α : Type} (env : Env α) (n : Nat) (L : OGRGmtLayer α)
    (fd : Str) (ls : List (OGRLineString α)) (sep : Str) (rest : List Str)
    (hcur : Cur L sep rest) (hs : charAt sep 0 = '>')
    (hf : isFeatureComment (rest.headD []) = true) :
    ∃ L1, assembleLoop env (n + 1) ⟨L, fd, some (.multiLineString ls)⟩ =
        some ⟨L1, fd, some (.multiLineString ls)⟩ ∧
      Moved L L1 sep rest := by
  obtain ⟨f1, f2⟩ := NextIsFeature_lines L sep rest hcur (sep_not_comment hs)
  have hb : loopBody env ⟨L, fd, some (.multiLineString ls)⟩ =
      some (true, ⟨(NextIsFeature L).2, fd, some (.multiLineString ls)⟩) := by
    rw [loopBody_separator env _ sep hcur.1 hs]
    simp only [onSeparator, f1, hf, Bool.not_true, Bool.false_eq_true, if_false]
  refine ⟨(NextIsFeature L).2, ?_, f2⟩
  rw [assembleLoop_succ env n _ (show L.osLine ≠ [] by rw [hcur.1]; exact sep_ne_nil hs), hb]

/-- A `>` line in a line string: the feature is done, and the reader stays at the `>`
line. -/
theorem step_sep_line_end {α : Type} (env : Env α) (n : Nat) (L : OGRGmtLayer α)
    (fd : Str) (l : OGRLineString α) (sep : Str) (hl : L.osLine = sep)
    (hs : charAt sep 0 = '>') :
    assembleLoop env (n + 1) ⟨L, fd, some (.lineString l)⟩ =
      some ⟨L, fd, some (.lineString l)⟩ := by
  have hb : loopBody env ⟨L, fd, some (.lineString l)⟩ =
      some (true, ⟨L, fd, some (.lineString l)⟩) := by
    rw [loopBody_separator env _ sep hl hs]
    simp only [onSeparator]
  rw [assembleLoop_succ env n _ (show L.osLine ≠ [] by rw [hl]; exact sep_ne_nil hs), hb]

/-! ## Where a run of vertex lines is stored -/

theorem foldl_storeLine_lineString {α : Type} (env : Env α) (vs : List Str) :
    ∀ l : OGRLineString α,
      vs.foldl (storeLine env) (.lineString l) = .lineString (vs.foldl (addLine env) l) := by
  induction vs with
  | nil => intro l; rfl
  | cons v vs ih => intro l; rw [List.foldl_cons, List.foldl_cons, ← ih]; rfl

theorem foldl_storeLine_multiLineString {α : Type} (env : Env α) (vs : List Str)
    (ls : List (OGRLineString α)) :
    ∀ l : OGRLineString α,
      vs.foldl (storeLine env) (.multiLineString (ls ++ [l])) =
        .multiLineString (ls ++ [vs.foldl (addLine env) l]) := by
  induction vs with
  | nil => intro l; rfl
  | cons v vs ih =>
    intro l
    rw [List.foldl_cons, List.foldl_cons, ← ih]
    congr 1
    simp only [storeLine, storeVertex, List.modifyLast_append_one, addLine]

theorem foldl_storeLine_multiPolygon {α : Type} (env : Env α) (vs : List Str)
    (ps : List (OGRPolygon α)) (rs : List (OGRLineString α)) :
    ∀ r : OGRLineString α,
      vs.foldl (storeLine env) (.multiPolygon (ps ++ [⟨rs ++ [r]⟩])) =
        .multiPolygon (ps ++ [⟨rs ++ [vs.foldl (addLine env) r]⟩]) := by
  induction vs with
  | nil => intro r; rfl
  | cons v vs ih =>
    intro r
    rw [List.foldl_cons, List.foldl_cons, ← ih]
    congr 1
    simp only [storeLine, storeVertex, OGRPolygon.addPoint, List.modifyLast_append_one, addLine]

/-- The result of `GetNextRawFeature` once its loop has ended with a geometry. -/
theorem GetNextRawFeature_of_loop {α : Type} (env : Env α) (L L1 : OGRGmtLayer α) (fd : Str)
    (g : OGRGeometry α)
    (h : assembleLoop env (L.m_fp.data.length + 2) ⟨L, [], none⟩ = some ⟨L1, fd, some g⟩) :
    GetNextRawFeature env L =
      some (some ⟨(L1.iNextFID : Int), some g, L1.m_poSRS,
          fieldsOfData L1.poFeatureDefn.fields.length fd⟩,
        { L1 with iNextFID := L1.iNextFID + 1, m_nFeaturesRead := L1.m_nFeaturesRead + 1 }) := by
  unfold GetNextRawFeature
  rw [h]
  dsimp only
  rw [setFieldValues_new]

/-! ## Two blocks of a multipolygon -/

theorem headD_append_cons (a : List Str) (x : Str) (b : List Str) :
    ((a ++ x :: b).headD [] = (a ++ [x]).headD []) ∧
    (a ++ x :: b).tail = (a ++ [x]).tail ++ b := by
  cases a <;> simp

/-- C5. In a layer of kind MULTIPOLYGON whose reader stands at the first of these lines:
comment and `>` lines, a first block of vertex lines, a `>` line, comment lines none of
which has `H` as the key of its first keyed value, a second block of vertex lines, and
then the end of the file, a blank line, or the `>` line and attribute line of a next
feature; the line right after the `>` between the blocks not being an `@D` attribute
comment. `GetNextRawFeature` returns one feature, with the next feature id, whose
geometry is a multipolygon of exactly two polygons, the first with the vertices of the
first block as its only ring and the second with those of the second block; the reader
then stands at the first line after the second block. -/
theorem C5_two_blocks_two_polygons {α : Type} (env : Env α) (L : OGRGmtLayer α)
    (pre : List Str) (v1 : Str) (vs1 : List Str) (sep : Str) (cs : List Str) (v2 : Str)
    (vs2 fin : List Str)
    (hk : L.poFeatureDefn.geomType = wkbMultiPolygon)
    (hcur : Cur L ((pre ++ v1 :: vs1 ++ sep :: cs ++ v2 :: vs2 ++ fin).headD [])
      (pre ++ v1 :: vs1 ++ sep :: cs ++ v2 :: vs2 ++ fin).tail)
    (hpre : ∀ c ∈ pre, charAt c 0 = '#' ∨ charAt c 0 = '>')
    (hv1 : ∀ v ∈ v1 :: vs1, isVertexLine env v = true)
    (hsep : charAt sep 0 = '>')
    (hcs : ∀ c ∈ cs, charAt c 0 = '#' ∧ isHoleComment c = false)
    (hnf : isFeatureComment ((cs ++ [v2]).headD []) = false)
    (hv2 : ∀ v ∈ v2 :: vs2, isVertexLine env v = true)
    (hfin : endsMultiPolygon fin) :
    ∃ f L1, GetNextRawFeature env L = some (some f, L1) ∧
      f.poGeom = some (.multiPolygon
        [⟨[ringOfLines env (v1 :: vs1)]⟩, ⟨[ringOfLines env (v2 :: vs2)]⟩]) ∧
      f.nFID = (L.iNextFID : Int) ∧ Cur L1 (fin.headD []) fin.tail := by
  -- the lines, grouped
  have hlines : pre ++ v1 :: vs1 ++ sep :: cs ++ v2 :: vs2 ++ fin =
      pre ++ (v1 :: (vs1 ++ (sep :: (cs ++ (v2 :: vs2 ++ fin))))) := by simp
  rw [hlines] at hcur
  -- fuel
  have hlen := hcur.2.2.length_le
  obtain ⟨m, hm⟩ : ∃ m, L.m_fp.data.length + 2 =
      pre.length + (1 + (vs1.length + (1 + (cs.length + (1 + (vs2.length + (m + 1))))))) := by
    refine ⟨L.m_fp.data.length + 2 -
      (pre.length + (1 + (vs1.length + (1 + (cs.length + (1 + (vs2.length + 1))))))), ?_⟩
    have : (pre ++ (v1 :: (vs1 ++ (sep :: (cs ++ (v2 :: vs2 ++ fin)))))).tail.length + 1 =
        (pre ++ (v1 :: (vs1 ++ (sep :: (cs ++ (v2 :: vs2 ++ fin)))))).length := by
      cases pre <;> simp
    simp only [List.length_append, List.length_cons] at this
    omega
  have hkU : L.poFeatureDefn.geomType ≠ wkbUnknown := by rw [hk]; decide
  -- lines before the first vertex
  obtain ⟨La, ea, ma⟩ := run_before_geometry env
    (1 + (vs1.length + (1 + (cs.length + (1 + (vs2.length + (m + 1)))))))
    (v1 :: (vs1 ++ (sep :: (cs ++ (v2 :: vs2 ++ fin))))) pre L [] hcur hpre hkU
  -- the first vertex
  have hka : La.poFeatureDefn.geomType = wkbMultiPolygon := by rw [ma.2.2]; exact hk
  obtain ⟨Lb, eb, mb⟩ := step_vertex_first env
    (vs1.length + (1 + (cs.length + (1 + (vs2.length + (m + 1))))))
    La (pre.foldl fieldDataAfter []) v1 (vs1 ++ (sep :: (cs ++ (v2 :: vs2 ++ fin)))) ma.1
    (hv1 v1 (by simp)) (by rw [hka]; rfl)
  rw [hka] at eb
  -- the rest of the first block
  obtain ⟨Lc, ec, mc⟩ := run_vertices env (1 + (cs.length + (1 + (vs2.length + (m + 1)))))
    (sep :: (cs ++ (v2 :: vs2 ++ fin))) vs1 Lb (pre.foldl fieldDataAfter [])
    (storeLine env (newGeometry wkbMultiPolygon) v1) mb.1
    (fun v hv => hv1 v (by simp [hv])) rfl
  have eg1 : vs1.foldl (storeLine env) (storeLine env (newGeometry wkbMultiPolygon) v1) =
      .multiPolygon [⟨[ringOfLines env (v1 :: vs1)]⟩] := by
    have := foldl_storeLine_multiPolygon env (v1 :: vs1) [] [] (OGRLineString.empty (α := α))
    simpa [ringOfLines, newGeometry] using this
  rw [eg1] at ec
  -- the `>` line between the blocks
  have hno : noCommentAhead (v2 :: vs2 ++ fin) := by
    have := (isVertexLine_iff env v2 (hv2 v2 (by simp))).2.2.1
    simpa [noCommentAhead] using this
  have hnf' : isFeatureComment ((cs ++ (v2 :: vs2 ++ fin)).headD []) = false := by
    cases cs with
    | nil => simpa using hnf
    | cons c cs => simpa using hnf
  have mc1 : Cur Lc sep (cs ++ (v2 :: vs2 ++ fin)) := mc.1
  obtain ⟨Ld, ed, md⟩ := step_sep_multipolygon_new env
    (cs.length + (1 + (vs2.length + (m + 1)))) Lc (pre.foldl fieldDataAfter [])
    [⟨[ringOfLines env (v1 :: vs1)]⟩] sep cs (v2 :: vs2 ++ fin) mc1 hsep hcs hno hnf'
  -- the comment lines after it
  obtain ⟨Le, ee, me⟩ := run_comments env (1 + (vs2.length + (m + 1)))
    (some (.multiPolygon ([⟨[ringOfLines env (v1 :: vs1)]⟩] ++ [⟨[OGRLineString.empty]⟩])))
    (fun g0 h => by cases h; rfl) (v2 :: vs2 ++ fin) cs Ld (pre.foldl fieldDataAfter []) md.1
    (fun c hc => (hcs c hc).1)
  -- the second block
  obtain ⟨Lf, ef, mf⟩ := run_vertices env (m + 1) fin (v2 :: vs2) Le
    (cs.foldl fieldDataAfter (pre.foldl fieldDataAfter []))
    (.multiPolygon ([⟨[ringOfLines env (v1 :: vs1)]⟩] ++ [⟨[OGRLineString.empty]⟩]))
    (by simpa using me.1) hv2 rfl
  have eg2 : (v2 :: vs2).foldl (storeLine env)
      (.multiPolygon ([⟨[ringOfLines env (v1 :: vs1)]⟩] ++ [⟨[OGRLineString.empty]⟩])) =
      .multiPolygon [⟨[ringOfLines env (v1 :: vs1)]⟩, ⟨[ringOfLines env (v2 :: vs2)]⟩] := by
    have := foldl_storeLine_multiPolygon env (v2 :: vs2) [⟨[ringOfLines env (v1 :: vs1)]⟩] []
      (OGRLineString.empty (α := α))
    simpa [ringOfLines] using this
  rw [eg2] at ef
  -- the whole run up to the end of the second block
  have hrun : assembleLoop env (L.m_fp.data.length + 2) ⟨L, [], none⟩ =
      assembleLoop env (m + 1) ⟨Lf, cs.foldl fieldDataAfter (pre.foldl fieldDataAfter []),
        some (.multiPolygon
          [⟨[ringOfLines env (v1 :: vs1)]⟩, ⟨[ringOfLines env (v2 :: vs2)]⟩])⟩ := by
    rw [hm, ea]
    rw [show 1 + (vs1.length + (1 + (cs.length + (1 + (vs2.length + (m + 1)))))) =
      vs1.length + (1 + (cs.length + (1 + (vs2.length + (m + 1))))) + 1 by omega, eb, ec]
    rw [show 1 + (cs.length + (1 + (vs2.length + (m + 1)))) =
      cs.length + (1 + (vs2.length + (m + 1))) + 1 by omega, ed, ee]
    rw [show 1 + (vs2.length + (m + 1)) = (v2 :: vs2).length + (m + 1) by simp; omega, ef]
  have mAll : Moved L Lf (fin.headD []) fin.tail :=
    ((((ma.andThen mb).andThen mc).andThen md).andThen me).andThen mf
  -- the end of the feature
  have hend : ∃ Lg, assembleLoop env (m + 1)
      ⟨Lf, cs.foldl fieldDataAfter (pre.foldl fieldDataAfter []),
        some (.multiPolygon
          [⟨[ringOfLines env (v1 :: vs1)]⟩, ⟨[ringOfLines env (v2 :: vs2)]⟩])⟩ =
      some ⟨Lg, cs.foldl fieldDataAfter (pre.foldl fieldDataAfter []),
        some (.multiPolygon
          [⟨[ringOfLines env (v1 :: vs1)]⟩, ⟨[ringOfLines env (v2 :: vs2)]⟩])⟩ ∧
      Moved L Lg (fin.headD []) fin.tail := by
    rcases hfin with h0 | ⟨sep2, cs2, rest2, hf, h1, h2, h3, h4⟩
    · refine ⟨Lf, assembleLoop_empty env m _ ?_, mAll⟩
      show Lf.osLine = []
      rw [mf.1.1, h0]
    · subst hf
      have c0 : Cur Lf sep2 (cs2 ++ rest2) := mf.1
      obtain ⟨Lg, eg, mg⟩ := step_sep_multipolygon_end env m Lf
        (cs.foldl fieldDataAfter (pre.foldl fieldDataAfter []))
        [⟨[ringOfLines env (v1 :: vs1)]⟩, ⟨[ringOfLines env (v2 :: vs2)]⟩] sep2 cs2 rest2 c0 h1 h2
        h3 h4
      exact ⟨Lg, eg, (((((ma.andThen mb).andThen mc).andThen md).andThen me).andThen mf).andThen mg⟩
  obtain ⟨Lg, eg, mg⟩ := hend
  have hall := GetNextRawFeature_of_loop env L Lg _ _ (hrun.trans eg)
  refine ⟨_, _, hall, rfl, ?_, mg.1⟩
  show (Lg.iNextFID : Int) = _
  rw [mg.2.1.iNextFID]

set_option maxRecDepth 100000 in
/-- C5, at a file with the blocks `0 0, 1 0, 1 1, 0 0` and `5 5, 6 5, 6 6, 5 5`, each
after a `>` line and a `# @P` line: one feature with two polygons. -/
theorem C5_two_blocks_two_polygons_witness :
    ((openLayer twoBlocksText false).poFeatureDefn.geomType = wkbMultiPolygon ∧
      Cur (openLayer twoBlocksText false)
        (([">".data, "# @P".data] ++ "0 0".data :: ["1 0".data, "1 1".data, "0 0".data] ++
          ">".data :: ["# @P".data] ++ "5 5".data :: ["6 5".data, "6 6".data, "5 5".data] ++
          []).headD [])
        ([">".data, "# @P".data] ++ "0 0".data :: ["1 0".data, "1 1".data, "0 0".data] ++
          ">".data :: ["# @P".data] ++ "5 5".data :: ["6 5".data, "6 6".data, "5 5".data] ++
          []).tail ∧
      (∀ c ∈ [">".data, "# @P".data], charAt c 0 = '#' ∨ charAt c 0 = '>') ∧
      (∀ v ∈ "0 0".data :: ["1 0".data, "1 1".data, "0 0".data], isVertexLine intEnv v = true) ∧
      charAt ">".data 0 = '>' ∧
      (∀ c ∈ ["# @P".data], charAt c 0 = '#' ∧ isHoleComment c = false) ∧
      isFeatureComment ((["# @P".data] ++ ["5 5".data]).headD []) = false ∧
      (∀ v ∈ "5 5".data :: ["6 5".data, "6 6".data, "5 5".data], isVertexLine intEnv v = true) ∧
      endsMultiPolygon []) ∧
    (∃ f L1, GetNextRawFeature intEnv (openLayer twoBlocksText false) = some (some f, L1) ∧
      f.poGeom = some (.multiPolygon
        [⟨[ringOfLines intEnv ("0 0".data :: ["1 0".data, "1 1".data, "0 0".data])]⟩,
         ⟨[ringOfLines intEnv ("5 5".data :: ["6 5".data, "6 6".data, "5 5".data])]⟩]) ∧
      f.nFID = ((openLayer twoBlocksText false).iNextFID : Int) ∧
      Cur L1 (([] : List Str).headD []) ([] : List Str).tail) ∧
    (ringOfLines intEnv ("0 0".data :: ["1 0".data, "1 1".data, "0 0".data]) =
        mkLine [(0, 0), (1, 0), (1, 1), (0, 0)] ∧
      ringOfLines intEnv ("5 5".data :: ["6 5".data, "6 6".data, "5 5".data]) =
        mkLine [(5, 5), (6, 5), (6, 6), (5, 5)]) :=
  ⟨⟨by decide, ⟨by decide, by decide, by show fileLines _ = _; decide⟩, by decide, by decide,
      by decide, by decide, by decide, by decide, Or.inl rfl⟩,
    C5_two_blocks_two_polygons intEnv (openLayer twoBlocksText false) [">".data, "# @P".data]
      "0 0".data ["1 0".data, "1 1".data, "0 0".data] ">".data ["# @P".data] "5 5".data
      ["6 5".data, "6 6".data, "5 5".data] [] (by decide)
      ⟨by decide, by decide, by show fileLines _ = _; decide⟩ (by decide) (by decide) (by decide)
      (by decide) (by decide) (by decide) (Or.inl rfl),
    by decide⟩

/-! ## Field values by position -/

set_option maxRecDepth 100000 in
/-- C22. What the code does with the vertex lines of a multipoint: the `switch` that
stores a vertex has no case for a multipoint, so a multipoint is left as it is by every
vertex line, whatever the numbers; on a file of kind MULTIPOINT with one feature of two
vertex lines `GetNextRawFeature` returns a feature whose multipoint has no point. -/
theorem C22_multipoint_vertices_dropped :
    (∀ (ps : List (OGRPoint Int)) (nDim : Nat) (x y z : Int),
      storeVertex intEnv (.multiPoint ps) nDim x y z = .multiPoint ps) ∧
    (openLayer "# @VGMT1.0 @GMULTIPOINT\n# FEATURE_DATA\n>\n1 2\n3 4\n" false).poFeatureDefn.geomType =
      wkbMultiPoint ∧
    (firstFeatureRead "# @VGMT1.0 @GMULTIPOINT\n# FEATURE_DATA\n>\n1 2\n3 4\n").poGeom =
      some (.multiPoint []) ∧
    (afterFirstRead "# @VGMT1.0 @GMULTIPOINT\n# FEATURE_DATA\n>\n1 2\n3 4\n").osLine = [] :=
  ⟨fun _ _ _ _ _ => rfl, by decide, by decide, by decide⟩

/-! ## The two lookahead functions and the position in the file -/

/-- C23. `NextIsFeature` leaves the file handle, its position included, and the
current line as they were before the call, for every state of the layer; and it returns
true exactly when the next line of the file, the first of the lines not yet read,
begins with `#` and contains `@D` (false at the end of the file). -/
theorem C23_next_is_feature_restores {α : Type} (L : OGRGmtLayer α) :
    (NextIsFeature L).2.m_fp.pos = L.m_fp.pos ∧ (NextIsFeature L).2.m_fp = L.m_fp ∧
    (NextIsFeature L).2.osLine = L.osLine ∧
    (NextIsFeature L).1 =
      isFeatureComment ((fileLines (L.m_fp.data.drop L.m_fp.pos)).headD []) ∧
    ((NextIsFeature L).1 = true ↔
      charAt ((fileLines (L.m_fp.data.drop L.m_fp.pos)).headD []) 0 = '#' ∧
      strstr ((fileLines (L.m_fp.data.drop L.m_fp.pos)).headD []) "@D".data = true) := by
  obtain ⟨_, _, f3, f4, f5⟩ := NextIsFeature_spec L
  have hat : AtLines L.m_fp (fileLines (L.m_fp.data.drop L.m_fp.pos)) := rfl
  obtain ⟨⟨c1, _, _⟩, _⟩ := ReadLine_Cur L _ hat
  have hr : (NextIsFeature L).1 =
      isFeatureComment ((fileLines (L.m_fp.data.drop L.m_fp.pos)).headD []) := by
    rw [f5, c1]; rfl
  refine ⟨by rw [f3], f3, f4, hr, ?_⟩
  rw [hr]
  simp [isFeatureComment]

/-- The loop of `ScanAheadForHole`, when it ends with true: the cursor has moved
forward and the current line is the marker of a hole. -/
theorem scanHoleLoop_true {α : Type} (fuel : Nat) :
    ∀ L L1 : OGRGmtLayer α, scanHoleLoop fuel L = some (true, L1) →
      L.m_fp.pos < L1.m_fp.pos ∧ isHoleComment L1.osLine = true := by
  induction fuel with
  | zero => intro L L1 h; simp [scanHoleLoop] at h
  | succ n ih =>
    intro L L1 h
    obtain ⟨f1, f2, f3, f4, f5, f6, f7⟩ := ReadLine_frame L
    simp only [scanHoleLoop] at h
    by_cases hc : ((ReadLine L).1 && charAt (ReadLine L).2.osLine 0 == '#') = true
    · rw [if_pos hc] at h
      have hc' := hc
      simp only [Bool.and_eq_true, beq_iff_eq] at hc'
      have hlt := f7 hc'.1
      split at h
      · rename_i hh
        simp only [Option.some.injEq, Prod.mk.injEq, true_and] at h
        subst h
        refine ⟨hlt, ?_⟩
        rw [f3] at hh
        simp only [isHoleComment, hc'.2, beq_self_eq_true, Bool.true_and]
        exact hh
      · obtain ⟨a, b⟩ := ih _ _ h
        exact ⟨by omega, b⟩
    · rw [if_neg hc] at h
      simp at h

/-- C24. `ScanAheadForHole` always returns. When it returns false, the file handle, its
position included, and the current line are exactly as they were before the call. When
it returns true they are not restored: the position has moved forward and the current
line is the comment line found, the one whose first keyed value has the key `H`. -/
theorem C24_scan_ahead_restores_on_false {α : Type} (L : OGRGmtLayer α) :
    ∃ b L1, ScanAheadForHole L = some (b, L1) ∧
      (b = false → L1.m_fp.pos = L.m_fp.pos ∧ L1.m_fp = L.m_fp ∧ L1.osLine = L.osLine) ∧
      (b = true → L.m_fp.pos < L1.m_fp.pos ∧ isHoleComment L1.osLine = true ∧
        L1.osLine ≠ [] ∧ charAt L1.osLine 0 = '#') := by
  obtain ⟨b, L1, e1, _, _, _, _, e6, e7⟩ := ScanAheadForHole_spec L
  refine ⟨b, L1, e1, fun hb => ⟨by rw [(e6 hb).1], (e6 hb).1, (e6 hb).2⟩, ?_⟩
  intro hb
  subst hb
  have h0 : scanHoleLoop (L.m_fp.data.length + 1) L = some (true, L1) := by
    unfold ScanAheadForHole at e1
    cases hs : scanHoleLoop (L.m_fp.data.length + 1) L with
    | none => rw [hs] at e1; simp at e1
    | some r =>
      obtain ⟨b2, L2⟩ := r
      rw [hs] at e1
      cases b2 with
      | true => simpa using e1
      | false => simp at e1
  obtain ⟨a, c⟩ := scanHoleLoop_true _ L L1 h0
  exact ⟨a, c, charAt_ne_nil (e7 rfl).1 (by decide), (e7 rfl).1⟩

set_option maxRecDepth 100000 in
/-- C24 fails as stated: the reader of a polygon file stands at the `>` line that
precedes the marker `# @H`, with the position 29; `ScanAheadForHole` returns true and
leaves the position at 34 and the current line `# @H`. -/
theorem C24_counterexample :
    (openLayer "# @GPOLYGON\n# FEATURE_DATA\n>\n# @H\n1 2\n" false).osLine = ">".data ∧
    (openLayer "# @GPOLYGON\n# FEATURE_DATA\n>\n# @H\n1 2\n" false).m_fp.pos = 29 ∧
    (ScanAheadForHole (openLayer "# @GPOLYGON\n# FEATURE_DATA\n>\n# @H\n1 2\n" false)).map
        (fun r => (r.1, r.2.osLine, r.2.m_fp.pos)) =
      some (true, "# @H".data, 34) := by
  decide

/-- C25. `IGetExtent` returns the layer's own envelope, without the generic scan of the
features, exactly when the envelope is flagged complete and is initialised; flagged
complete with an envelope that is not initialised, or not flagged, it calls the generic
scan. `TestCapability` reports the flag alone for `OLCFastGetExtent`, and
`CompleteHeader` and a non-empty `@R` header value set the flag whether or not the
envelope is initialised. -/
theorem C25_own_extent_when_initialised {α : Type} (env : Env α) (L : OGRGmtLayer α) :
    (∀ e, IGetExtent L = .own e ↔ L.bRegionComplete = true ∧ L.sRegion = some e) ∧
    (L.sRegion = none → IGetExtent L = .generic) ∧
    (L.bRegionComplete = false → IGetExtent L = .generic) ∧
    TestCapability L .OLCFastGetExtent = L.bRegionComplete ∧
    (∀ g, (CompleteHeader L g).2.bRegionComplete = true ∧
      (CompleteHeader L g).2.sRegion = L.sRegion) ∧
    (∀ osRegion : Str, osRegion ≠ [] → (headerRegion env osRegion).2 = true) := by
  refine ⟨?_, ?_, ?_, rfl, fun g => ⟨rfl, (CompleteHeader_spec L g).2.2.2.2.2.1⟩, ?_⟩
  · intro e
    unfold IGetExtent
    cases hb : L.bRegionComplete <;> cases hs : L.sRegion <;> simp
  · intro hs
    unfold IGetExtent
    rw [hs]
    cases L.bRegionComplete <;> rfl
  · intro hb
    unfold IGetExtent
    rw [hb]
  · intro r hr
    have : r.length > 0 := List.length_pos.mpr hr
    simp [headerRegion, this]

set_option maxRecDepth 100000 in
/-- C25 fails as stated: a header with `@R1/2/3` flags the envelope complete, and
`TestCapability` reports it, but the envelope is not initialised and `IGetExtent`
calls the generic scan; the same after `ICreateFeature` of a feature without geometry on
a new file. -/
theorem C25_counterexample :
    ((openLayer "# @GPOINT @R1/2/3\n# FEATURE_DATA\n4 5\n" false).bRegionComplete = true ∧
      TestCapability (openLayer "# @GPOINT @R1/2/3\n# FEATURE_DATA\n4 5\n" false)
        .OLCFastGetExtent = true ∧
      IGetExtent (openLayer "# @GPOINT @R1/2/3\n# FEATURE_DATA\n4 5\n" false) = .generic) ∧
    ((ICreateFeature intEnv (openLayer "" true) ⟨-1, none, none, []⟩).2.bRegionComplete = true ∧
      IGetExtent (ICreateFeature intEnv (openLayer "" true) ⟨-1, none, none, []⟩).2 = .generic) := by
  decide

/-! ## The record of writes on a device that accepts every write -/

theorem Traced.tracedNone {α : Type} (L : OGRGmtLayer α) (h : L.m_fp.quota = none) :
    Traced L L [] := ⟨h, by simp⟩

theorem Traced.tracedThen {α : Type} {L L1 L2 : OGRGmtLayer α} {a b : List (PrintfSite × Str)}
    (h1 : Traced L L1 a) (h2 : Traced L1 L2 b) : Traced L L2 (a ++ b) :=
  ⟨h2.1, by rw [h2.2, h1.2, List.append_assoc]⟩

theorem Traced.recast {α : Type} {L L1 : OGRGmtLayer α} {a b : List (PrintfSite × Str)}
    (h : Traced L L1 a) (e : a = b) : Traced L L1 b := e ▸ h

theorem emit_traced {α : Type} (L : OGRGmtLayer α) (site : PrintfSite) (s : Str)
    (h : L.m_fp.quota = none) : Traced L (emit L site s) [(site, s)] := by
  have e := VSIFPrintfL_noquota L.m_fp site s h
  constructor
  · simp [emit, e, h]
  · simp [emit, e]

theorem writeVertices_traced {α : Type} [LinearOrder α] (env : Env α) (nDim : Nat)
    (pts : List (Vertex α)) :
    ∀ L : OGRGmtLayer α, L.m_fp.quota = none →
      Traced L (writeVertices env nDim L pts).2 (vertexTrace env nDim pts) := by
  induction pts with
  | nil => intro L h; exact Traced.tracedNone L h
  | cons v vs ih =>
    intro L h
    obtain ⟨h1, h2, _⟩ := writeVertex_wrote env nDim L v h
    have t1 : Traced L (writeVertex env nDim L v).2
        [(.vertexLine, vertexText env nDim v ++ "\n".data)] :=
      emit_traced L .vertexLine _ h
    have t2 := ih (writeVertex env nDim L v).2 h2.quota
    simp only [writeVertices, if_neg h1]
    exact (t1.tracedThen t2).recast (by simp [vertexTrace])

theorem writeLeaf_traced {α : Type} [LinearOrder α] (env : Env α) (L : OGRGmtLayer α)
    (bPoint : Bool) (pts : List (Vertex α)) (nDim : Nat) (bHaveAngle : Bool)
    (h : L.m_fp.quota = none) :
    Traced L (writeLeaf env L bPoint pts nDim bHaveAngle).2
      (leafTrace env bPoint pts nDim bHaveAngle) := by
  unfold writeLeaf leafTrace
  by_cases hc : (!bPoint && !bHaveAngle) = true
  · simp only [hc, if_true]
    have w := emit_traced L .leafAngle ">\n".data h
    exact w.tracedThen (writeVertices_traced env nDim pts _ w.1)
  · simp only [hc, if_false, Bool.false_eq_true, List.nil_append]
    exact writeVertices_traced env nDim pts L h

theorem beforeChild_traced {α : Type} (bPolygon : Bool) (L : OGRGmtLayer α) (iGeom : Nat)
    (bHaveAngle : Bool) (h : L.m_fp.quota = none) :
    Traced L (beforeChild bPolygon L iGeom bHaveAngle)
      (beforeChildTrace bPolygon iGeom bHaveAngle) := by
  unfold beforeChild beforeChildTrace
  cases bPolygon with
  | false => exact Traced.tracedNone L h
  | true =>
    simp only [if_true]
    cases bHaveAngle with
    | true =>
      by_cases hi : (iGeom == 0) = true
      · simp only [hi, if_true]
        exact (emit_traced L .ringOuter "# @P\n".data h).recast (by simp)
      · simp only [hi, if_false, Bool.false_eq_true]
        exact (emit_traced L .ringHole "# @H\n".data h).recast (by simp)
    | false =>
      have w := emit_traced L .ringAngle ">\n".data h
      by_cases hi : (iGeom == 0) = true
      · simp only [hi, if_true]
        exact (w.tracedThen (emit_traced _ .ringOuter "# @P\n".data w.1)).recast (by simp)
      · simp only [hi, if_false, Bool.false_eq_true]
        exact (w.tracedThen (emit_traced _ .ringHole "# @H\n".data w.1)).recast (by simp)

theorem writeChildren_traced {α χ : Type}
    (writeChild : OGRGmtLayer α → χ → Bool → OGRErr × OGRGmtLayer α)
    (childTrace : χ → Bool → List (PrintfSite × Str)) (bPolygon : Bool)
    (hchild : ∀ (L : OGRGmtLayer α) c b, L.m_fp.quota = none →
      (writeChild L c b).1 = OGRERR_NONE ∧ Traced L (writeChild L c b).2 (childTrace c b))
    (cs : List χ) :
    ∀ (L : OGRGmtLayer α) (iGeom : Nat) (bHaveAngle : Bool), L.m_fp.quota = none →
      (writeChildren writeChild bPolygon L cs iGeom bHaveAngle OGRERR_NONE).1 = OGRERR_NONE ∧
      Traced L (writeChildren writeChild bPolygon L cs iGeom bHaveAngle OGRERR_NONE).2
        (childrenTrace childTrace bPolygon cs iGeom bHaveAngle) := by
  induction cs with
  | nil => intro L _ _ h; exact ⟨rfl, Traced.tracedNone L h⟩
  | cons c cs ih =>
    intro L iGeom bHaveAngle h
    have b1 := beforeChild_traced bPolygon L iGeom bHaveAngle h
    obtain ⟨c1, c2⟩ := hchild (beforeChild bPolygon L iGeom bHaveAngle) c
      (if bPolygon then true else bHaveAngle) b1.1
    obtain ⟨i1, i2⟩ := ih (writeChild (beforeChild bPolygon L iGeom bHaveAngle) c
      (if bPolygon then true else bHaveAngle)).2 (iGeom + 1) false c2.1
    simp only [writeChildren, beq_self_eq_true, if_true]
    rw [c1]
    exact ⟨i1, ((b1.tracedThen c2).tracedThen i2).recast (by simp [childrenTrace])⟩

theorem writeLineString_traced {α : Type} [LinearOrder α] (env : Env α) (L : OGRGmtLayer α)
    (l : OGRLineString α) (b : Bool) (h : L.m_fp.quota = none) :
    (writeLineString env L l b).1 = OGRERR_NONE ∧
    Traced L (writeLineString env L l b).2 (lineStringTrace env l b) :=
  ⟨(writeLineString_wrote env L l b h).1, writeLeaf_traced env L false l.pts _ b h⟩

theorem writePoint_traced {α : Type} [LinearOrder α] (env : Env α) (L : OGRGmtLayer α)
    (p : OGRPoint α) (b : Bool) (h : L.m_fp.quota = none) :
    (writePoint env L p b).1 = OGRERR_NONE ∧
    Traced L (writePoint env L p b).2 (pointTrace env p b) :=
  ⟨(writePoint_wrote env L p b h).1, writeLeaf_traced env L true _ _ b h⟩

theorem writePolygon_traced {α : Type} [LinearOrder α] (env : Env α) (L : OGRGmtLayer α)
    (p : OGRPolygon α) (b : Bool) (h : L.m_fp.quota = none) :
    (writePolygon env L p b).1 = OGRERR_NONE ∧
    Traced L (writePolygon env L p b).2 (polygonTrace env p b) := by
  refine ⟨(writePolygon_wrote env L p b h).1, ?_⟩
  unfold writePolygon polygonTrace
  by_cases hc : p.rings.length > 0
  · simp only [hc, if_true]
    exact (writeChildren_traced _ _ true (fun L c b h => writeLineString_traced env L c b h)
      p.rings L 0 b h).2
  · simp only [hc, if_false]
    exact writeLeaf_traced env L false [] 2 b h

/-- On a device that accepts every write the writes of `WriteGeometry` are those of
`geometryTrace`, in this order. -/
theorem WriteGeometry_traced {α : Type} [LinearOrder α] (env : Env α) (L : OGRGmtLayer α)
    (g : OGRGeometry α) (b : Bool) (h : L.m_fp.quota = none) :
    Traced L (WriteGeometry env L g b).2 (geometryTrace env g b) := by
  cases g with
  | point p => exact (writePoint_traced env L p b h).2
  | lineString l => exact (writeLineString_traced env L l b h).2
  | polygon p => exact (writePolygon_traced env L p b h).2
  | multiPoint ps =>
    simp only [WriteGeometry, geometryTrace]
    by_cases hc : ps.length > 0
    · simp only [hc, if_true]
      exact (writeChildren_traced _ _ false (fun L c b h => writePoint_traced env L c b h)
        ps L 0 b h).2
    · simp only [hc, if_false]
      exact writeLeaf_traced env L false [] 2 b h
  | multiLineString ls =>
    simp only [WriteGeometry, geometryTrace]
    by_cases hc : ls.length > 0
    · simp only [hc, if_true]
      exact (writeChildren_traced _ _ false (fun L c b h => writeLineString_traced env L c b h)
        ls L 0 b h).2
    · simp only [hc, if_false]
      exact writeLeaf_traced env L false [] 2 b h
  | multiPolygon ps =>
    simp only [WriteGeometry, geometryTrace]
    by_cases hc : ps.length > 0
    · simp only [hc, if_true]
      exact (writeChildren_traced _ _ false (fun L c b h => writePolygon_traced env L c b h)
        ps L 0 b h).2
    · simp only [hc, if_false]
      exact writeLeaf_traced env L false [] 2 b h

/-- On a device that accepts every write the writes of `CompleteHeader` are those of
`headerTrace`. -/
theorem CompleteHeader_traced {α : Type} (L : OGRGmtLayer α) (g : Option (OGRGeometry α))
    (h : L.m_fp.quota = none) :
    Traced L (CompleteHeader L g).2 (headerTrace L.poFeatureDefn g) := by
  have t1 : Traced L (completeGeomType L g)
      (match g with
        | some g =>
          if L.poFeatureDefn.geomType == wkbUnknown then
            [(PrintfSite.geomMarker, "#".data ++ geomMarker g.getGeometryType ++ "\n".data)]
          else []
        | none => []) := by
    cases g with
    | none => exact Traced.tracedNone L h
    | some g =>
      dsimp only [completeGeomType]
      by_cases hk : (L.poFeatureDefn.geomType == wkbUnknown) = true
      · rw [if_pos hk, if_pos hk]
        have := emit_traced
          { L with poFeatureDefn := { L.poFeatureDefn with geomType := g.getGeometryType } }
          .geomMarker ("#".data ++ geomMarker g.getGeometryType ++ "\n".data) h
        exact this
      · rw [if_neg hk, if_neg hk]
        exact Traced.tracedNone L h
  have hf : (completeGeomType L g).poFeatureDefn.fields = L.poFeatureDefn.fields := by
    rw [(completeGeomType_spec L g).1, completedDefn_fields]
  have t2 : Traced (completeGeomType L g) (completeFields (completeGeomType L g))
      (if L.poFeatureDefn.fields.length > 0 then
        [(.fieldNames, "# @N".data ++
            List.intercalate "|".data (L.poFeatureDefn.fields.map (fun fd => fd.name)) ++
            "\n".data),
         (.fieldTypes, "# @T".data ++
            List.intercalate "|".data
              (L.poFeatureDefn.fields.map (fun fd => fieldTypeWord fd.type)) ++ "\n".data)]
       else []) := by
    unfold completeFields
    rw [hf]
    by_cases hc : L.poFeatureDefn.fields.length > 0
    · rw [if_pos hc, if_pos hc]
      have w := emit_traced (completeGeomType L g) .fieldNames ("# @N".data ++
        List.intercalate "|".data (L.poFeatureDefn.fields.map (fun fd => fd.name)) ++ "\n".data)
        t1.1
      exact (w.tracedThen (emit_traced _ .fieldTypes _ w.1)).recast (by simp)
    · rw [if_neg hc, if_neg hc]
      exact Traced.tracedNone _ t1.1
  have t3 := emit_traced (completeFields (completeGeomType L g)) .featureData
    "# FEATURE_DATA\n".data t2.1
  have := (t1.tracedThen t2).tracedThen t3
  exact ⟨this.1, this.2⟩

theorem writeFeature_traced {α : Type} [LinearOrder α] (env : Env α) (L : OGRGmtLayer α)
    (f : OGRFeature α) (g : OGRGeometry α) (h : L.m_fp.quota = none) :
    Traced L (writeFeature env L f g).2
      (featureTrace env (completedDefn L.poFeatureDefn (some g)) f g) := by
  let L1 : OGRGmtLayer α := { L with poFeatureDefn := completedDefn L.poFeatureDefn (some g) }
  let L2 := if L1.poFeatureDefn.geomType != wkbPoint then emit L1 .featureAngle ">\n".data else L1
  let L3 :=
    if L2.poFeatureDefn.fields.length > 0 then
      emit L2 .fieldData ("# @D".data ++ encodeFields L2.poFeatureDefn f ++ "\n".data)
    else L2
  have e : writeFeature env L f g = WriteGeometry env L3 g true := by
    show WriteGeometry env _ g true = WriteGeometry env L3 g true
    congr 1
    dsimp only [L3, L2, L1, completedDefn]
    by_cases hk : (L.poFeatureDefn.geomType == wkbUnknown) = true
    · simp only [hk, if_true]
    · simp only [hk, if_false, Bool.false_eq_true]
  have q1 : L1.m_fp.quota = none := h
  have h2 : Traced L1 L2
      (if L1.poFeatureDefn.geomType != wkbPoint then [(PrintfSite.featureAngle, ">\n".data)]
       else []) ∧ L2.poFeatureDefn = L1.poFeatureDefn := by
    show Traced L1 (if _ then _ else _) _ ∧ (if _ then _ else _ : OGRGmtLayer α).poFeatureDefn = _
    by_cases hk : (L1.poFeatureDefn.geomType != wkbPoint) = true
    · simp only [if_pos hk]
      exact ⟨emit_traced L1 .featureAngle ">\n".data q1, rfl⟩
    · simp only [if_neg hk]
      exact ⟨Traced.tracedNone L1 q1, trivial⟩
  have h3 : Traced L2 L3 (if L1.poFeatureDefn.fields.length > 0
        then [(PrintfSite.fieldData, "# @D".data ++ encodeFields L1.poFeatureDefn f ++ "\n".data)]
        else []) := by
    show Traced L2 (if _ then _ else _) _
    rw [h2.2]
    by_cases hk : L1.poFeatureDefn.fields.length > 0
    · simp only [if_pos hk]
      exact emit_traced L2 .fieldData _ h2.1.1
    · simp only [if_neg hk]
      exact Traced.tracedNone L2 h2.1.1
  have g2 := WriteGeometry_traced env L3 g true h3.1
  rw [e]
  have all := (h2.1.tracedThen h3).tracedThen g2
  exact ⟨all.1, by rw [all.2]; simp [featureTrace, L1]⟩

/-- On a device that accepts every write, the writes of `ICreateFeature` on an
update-mode layer for a feature that has a geometry: those of the header if the header
was incomplete, then those of the feature. -/
theorem ICreateFeature_traced {α : Type} [LinearOrder α] (env : Env α) (L : OGRGmtLayer α)
    (f : OGRFeature α) (g : OGRGeometry α) (hU : L.bUpdate = true) (hg : f.poGeom = some g)
    (hq : L.m_fp.quota = none) :
    Traced L (ICreateFeature env L f).2
      ((if L.bHeaderComplete then [] else headerTrace L.poFeatureDefn (some g)) ++
        featureTrace env (completedDefn L.poFeatureDefn (some g)) f g) := by
  by_cases hH : L.bHeaderComplete = true
  · have e : ICreateFeature env L f = writeFeature env L f g := by
      simp [ICreateFeature, hU, hH, hg]
    rw [e]
    simp only [hH, if_true, List.nil_append]
    exact writeFeature_traced env L f g hq
  · have hH' : L.bHeaderComplete = false := by simpa using hH
    have e : ICreateFeature env L f = writeFeature env (CompleteHeader L (some g)).2 f g := by
      simp [ICreateFeature, hU, hH', CompleteHeader_fst, hg]
    have wh := CompleteHeader_traced L (some g) hq
    have b := writeFeature_traced env (CompleteHeader L (some g)).2 f g wh.1
    have ed : (CompleteHeader L (some g)).2.poFeatureDefn =
        completedDefn L.poFeatureDefn (some g) := (CompleteHeader_spec L (some g)).2.2.2.2.2.2.1
    rw [ed, completedDefn_idem] at b
    rw [e]
    simp only [hH', Bool.false_eq_true, if_false]
    exact wh.tracedThen b

/-! ## The lines of a polygon -/

theorem countSite_cons (site : PrintfSite) (e : PrintfSite × Str) (w : List (PrintfSite × Str)) :
    countSite site (e :: w) = (if e.1 = site then 1 else 0) + countSite site w := by
  unfold countSite
  rw [List.countP_cons]
  by_cases h : e.1 = site
  · simp [h]; omega
  · simp [h]

theorem countSite_nil (site : PrintfSite) : countSite site [] = 0 := rfl

theorem countSite_vertexTrace {α : Type} (env : Env α) (nDim : Nat) (pts : List (Vertex α))
    (site : PrintfSite) :
    countSite site (vertexTrace env nDim pts) = if site = .vertexLine then pts.length else 0 := by
  induction pts with
  | nil => simp [vertexTrace, countSite]
  | cons v vs ih =>
    have : vertexTrace env nDim (v :: vs) =
        (.vertexLine, vertexText env nDim v ++ "\n".data) :: vertexTrace env nDim vs := rfl
    rw [this, countSite_cons, ih]
    by_cases h : site = .vertexLine
    · subst h; simp; omega
    · have h2 : ¬ PrintfSite.vertexLine = site := fun e => h e.symm
      simp [h, h2]

theorem childrenTrace_holes {α : Type} (env : Env α) (rs : List (OGRLineString α)) :
    ∀ iGeom : Nat, iGeom ≠ 0 →
      childrenTrace (lineStringTrace env) true rs iGeom false = holeTrace env rs := by
  induction rs with
  | nil => intro i _; rfl
  | cons r rs ih =>
    intro i hi
    have hb : (i == 0) = false := by simpa using hi
    simp only [childrenTrace, beforeChildTrace, if_true, hb, Bool.not_false, Bool.false_eq_true,
      if_false, ih (i + 1) (by omega), holeTrace, List.map_cons, List.flatten_cons,
      lineStringTrace, leafTrace, Bool.not_true, Bool.and_false, List.nil_append]
    simp

/-- The writes for a polygon that has rings: a `>` line unless one has just been
written, the marker `# @P` and the vertex lines of the first ring, then for each
further ring a `>` line, the marker `# @H` and its vertex lines. -/
theorem polygonTrace_cons {α : Type} (env : Env α) (r0 : OGRLineString α)
    (rs : List (OGRLineString α)) (bHaveAngle : Bool) :
    polygonTrace env ⟨r0 :: rs⟩ bHaveAngle =
      (if bHaveAngle then [] else [(PrintfSite.ringAngle, ">\n".data)]) ++
      [(PrintfSite.ringOuter, "# @P\n".data)] ++ vertexTrace env (coordDim r0.is3D) r0.pts ++
      holeTrace env rs := by
  have h0 : (⟨r0 :: rs⟩ : OGRPolygon α).rings.length > 0 := by simp
  simp only [polygonTrace, h0, if_true, childrenTrace, beforeChildTrace, beq_self_eq_true,
    childrenTrace_holes env rs 1 (by decide), lineStringTrace, leafTrace, Bool.not_true,
    Bool.and_false, Bool.false_eq_true, if_false, List.nil_append]
  cases bHaveAngle <;> simp

theorem countSite_holeTrace {α : Type} (env : Env α) (rs : List (OGRLineString α)) :
    countSite .ringOuter (holeTrace env rs) = 0 ∧
    countSite .ringHole (holeTrace env rs) = rs.length ∧
    countSite .vertexLine (holeTrace env rs) = ((rs.map (fun r => r.pts)).flatten).length := by
  induction rs with
  | nil => exact ⟨rfl, rfl, rfl⟩
  | cons r rs ih =>
    have e : holeTrace env (r :: rs) =
        (PrintfSite.ringAngle, ">\n".data) :: (.ringHole, "# @H\n".data) ::
          (vertexTrace env (coordDim r.is3D) r.pts ++ holeTrace env rs) := by
      simp [holeTrace]
    rw [e]
    simp only [countSite_cons, countSite_append, countSite_vertexTrace, ih.1, ih.2.1, ih.2.2]
    refine ⟨by simp, by simp; omega, by simp⟩

/-- C27. On a device that accepts every write, `WriteGeometry` on a polygon with the
rings `r0, rs` succeeds and writes, in this order: a `>` line unless `bHaveAngle` is set,
the marker `# @P`, the vertex lines of `r0` in their order, and then for each ring of
`rs` in order a `>` line, the marker `# @H` and the vertex lines of that ring. So there
is exactly one `# @P` line, one `# @H` line for each ring after the first, and one
vertex line for each vertex. -/
theorem C27_polygon_markers {α : Type} [LinearOrder α] (env : Env α) (L : OGRGmtLayer α)
    (r0 : OGRLineString α) (rs : List (OGRLineString α)) (bHaveAngle : Bool)
    (hq : L.m_fp.quota = none) :
    (WriteGeometry env L (.polygon ⟨r0 :: rs⟩) bHaveAngle).1 = OGRERR_NONE ∧
    writtenSince L (WriteGeometry env L (.polygon ⟨r0 :: rs⟩) bHaveAngle).2 =
      (if bHaveAngle then [] else [(PrintfSite.ringAngle, ">\n".data)]) ++
      [(PrintfSite.ringOuter, "# @P\n".data)] ++ vertexTrace env (coordDim r0.is3D) r0.pts ++
      holeTrace env rs ∧
    countSite .ringOuter
      (writtenSince L (WriteGeometry env L (.polygon ⟨r0 :: rs⟩) bHaveAngle).2) = 1 ∧
    countSite .ringHole
      (writtenSince L (WriteGeometry env L (.polygon ⟨r0 :: rs⟩) bHaveAngle).2) = rs.length ∧
    countSite .vertexLine
      (writtenSince L (WriteGeometry env L (.polygon ⟨r0 :: rs⟩) bHaveAngle).2) =
      (OGRGeometry.polygon ⟨r0 :: rs⟩).vertices.length := by
  have t := WriteGeometry_traced env L (.polygon ⟨r0 :: rs⟩) bHaveAngle hq
  have w := writtenSince_eq L _ _ t.2
  have e : geometryTrace env (.polygon ⟨r0 :: rs⟩) bHaveAngle =
      polygonTrace env ⟨r0 :: rs⟩ bHaveAngle := rfl
  rw [e, polygonTrace_cons] at w
  obtain ⟨c1, c2, c3⟩ := countSite_holeTrace env rs
  refine ⟨(WriteGeometry_wrote env L _ bHaveAngle hq).1, w, ?_, ?_, ?_⟩
  · rw [w]
    simp only [countSite_append, countSite_cons, countSite_nil, countSite_vertexTrace, c1]
    cases bHaveAngle <;> simp [countSite_cons, countSite_nil]
  · rw [w]
    simp only [countSite_append, countSite_cons, countSite_nil, countSite_vertexTrace, c2]
    cases bHaveAngle <;> simp [countSite_cons, countSite_nil]
  · rw [w]
    simp only [countSite_append, countSite_cons, countSite_nil, countSite_vertexTrace, c3]
    cases bHaveAngle <;> simp [countSite_cons, countSite_nil, OGRGeometry.vertices]

set_option maxRecDepth 100000 in
/-- C27, at a polygon with an outer ring of four vertices and two holes of three,
written to a new file after the feature's `>` line. -/
theorem C27_polygon_markers_witness :
    (openLayer "" true).m_fp.quota = none ∧
    ((WriteGeometry intEnv (openLayer "" true)
        (.polygon ⟨mkLine [(0, 0), (9, 0), (9, 9), (0, 0)] ::
          [mkLine [(1, 1), (2, 1), (1, 1)], mkLine [(5, 5), (6, 5), (5, 5)]]⟩) true).1 =
        OGRERR_NONE ∧
      writtenSince (openLayer "" true) (WriteGeometry intEnv (openLayer "" true)
        (.polygon ⟨mkLine [(0, 0), (9, 0), (9, 9), (0, 0)] ::
          [mkLine [(1, 1), (2, 1), (1, 1)], mkLine [(5, 5), (6, 5), (5, 5)]]⟩) true).2 =
        (if true then [] else [(PrintfSite.ringAngle, ">\n".data)]) ++
        [(PrintfSite.ringOuter, "# @P\n".data)] ++
        vertexTrace intEnv (coordDim (mkLine [(0, 0), (9, 0), (9, 9), (0, 0)]).is3D)
          (mkLine [(0, 0), (9, 0), (9, 9), (0, 0)]).pts ++
        holeTrace intEnv [mkLine [(1, 1), (2, 1), (1, 1)], mkLine [(5, 5), (6, 5), (5, 5)]] ∧
      countSite .ringOuter (writtenSince (openLayer "" true) (WriteGeometry intEnv
        (openLayer "" true) (.polygon ⟨mkLine [(0, 0), (9, 0), (9, 9), (0, 0)] ::
          [mkLine [(1, 1), (2, 1), (1, 1)], mkLine [(5, 5), (6, 5), (5, 5)]]⟩) true).2) = 1 ∧
      countSite .ringHole (writtenSince (openLayer "" true) (WriteGeometry intEnv
        (openLayer "" true) (.polygon ⟨mkLine [(0, 0), (9, 0), (9, 9), (0, 0)] ::
          [mkLine [(1, 1), (2, 1), (1, 1)], mkLine [(5, 5), (6, 5), (5, 5)]]⟩) true).2) =
        [mkLine [(1, 1), (2, 1), (1, 1)], mkLine [(5, 5), (6, 5), (5, 5)]].length ∧
      countSite .vertexLine (writtenSince (openLayer "" true) (WriteGeometry intEnv
        (openLayer "" true) (.polygon ⟨mkLine [(0, 0), (9, 0), (9, 9), (0, 0)] ::
          [mkLine [(1, 1), (2, 1), (1, 1)], mkLine [(5, 5), (6, 5), (5, 5)]]⟩) true).2) =
        (OGRGeometry.polygon ⟨mkLine [(0, 0), (9, 0), (9, 9), (0, 0)] ::
          [mkLine [(1, 1), (2, 1), (1, 1)], mkLine [(5, 5), (6, 5), (5, 5)]]⟩).vertices.length) ∧
    (WriteGeometry intEnv (openLayer "" true)
        (.polygon ⟨mkLine [(0, 0), (9, 0), (9, 9), (0, 0)] ::
          [mkLine [(1, 1), (2, 1), (1, 1)], mkLine [(5, 5), (6, 5), (5, 5)]]⟩) true).2.m_fp.data =
      "# @P\n0 0\n9 0\n9 9\n0 0\n>\n# @H\n1 1\n2 1\n1 1\n>\n# @H\n5 5\n6 5\n5 5\n".data :=
  ⟨by decide, C27_polygon_markers intEnv (openLayer "" true) _ _ true (by decide), by decide⟩

/-! ## The attribute line and the geometry marker -/

theorem strchr_iff (s : Str) (c : Char) : strchr s c = true ↔ c ∈ s := by
  simp [strchr]

/-- The writes of `WriteGeometry` all come from its own call sites. -/
theorem geometryTrace_sites {α : Type} [LinearOrder α] (env : Env α) (g : OGRGeometry α)
    (b : Bool) : ∀ e ∈ geometryTrace env g b, e.1.isGeometryLine = true := by
  have t := WriteGeometry_traced env (blankLayer : OGRGmtLayer α) g b rfl
  obtain ⟨new, e, p⟩ := (WriteGeometry_frame (P := fun site => site.isGeometryLine = true) env
    (fun _ h => h) (blankLayer : OGRGmtLayer α) g b).emits
  rw [t.2] at e
  have := List.append_cancel_left e
  rw [this]
  exact p

theorem countSite_geometryTrace {α : Type} [LinearOrder α] (env : Env α) (g : OGRGeometry α)
    (b : Bool) (site : PrintfSite) (hs : site.isGeometryLine = false) :
    countSite site (geometryTrace env g b) = 0 := by
  apply countSite_eq_zero
  intro e he h
  have := geometryTrace_sites env g b e he
  rw [h, hs] at this
  cases this

theorem countSite_headerTrace {α : Type} (defn : OGRFeatureDefn) (g : Option (OGRGeometry α))
    (site : PrintfSite) (hs : site.isFeatureLine = true) :
    countSite site (headerTrace defn g) = 0 := by
  apply countSite_eq_zero
  intro e he h
  unfold headerTrace at he
  simp only [List.mem_append, List.mem_singleton] at he
  have key : e.1.isFeatureLine = false := by
    rcases he with (he | he) | he
    · cases g with
      | none => simp at he
      | some g0 =>
        dsimp only at he
        split at he
        · simp only [List.mem_singleton] at he; rw [he]; rfl
        · simp at he
    · split at he
      · simp only [List.mem_cons, List.mem_singleton, List.not_mem_nil, or_false] at he
        rcases he with he | he <;> (rw [he]; rfl)
      · simp at he
    · rw [he]; rfl
  rw [h, hs] at key
  cases key

/-- C28. On a device that accepts every write, `ICreateFeature` on an update-mode layer,
for a feature that has a geometry: if the schema has fields, exactly one `# @D` line is
written, after the header lines and the `>` line of the feature and before the lines
of the geometry, and it consists of `# @D`, the encoded values of the fields in schema
order joined by `|`, and the newline; if the schema has no field, no `# @D` line is
written. A value, with its leading spaces removed first when the field is integer or
double, is encoded as a double quote, the backslash-escaped value and a double quote
when it contains a space, a pipe, a tab or a newline, and as it is otherwise. -/
theorem C28_attribute_line {α : Type} [LinearOrder α] (env : Env α) (L : OGRGmtLayer α)
    (f : OGRFeature α) (g : OGRGeometry α) (hU : L.bUpdate = true) (hg : f.poGeom = some g)
    (hq : L.m_fp.quota = none) :
    (0 < L.poFeatureDefn.fields.length →
      countSite .fieldData (writtenSince L (ICreateFeature env L f).2) = 1 ∧
      writtenSince L (ICreateFeature env L f).2 =
        (if L.bHeaderComplete then [] else headerTrace L.poFeatureDefn (some g)) ++
        (if (completedDefn L.poFeatureDefn (some g)).geomType != wkbPoint
          then [(PrintfSite.featureAngle, ">\n".data)] else []) ++
        [(.fieldData, "# @D".data ++
          List.intercalate "|".data ((List.range L.poFeatureDefn.fields.length).map (fun i =>
            encodeFieldValue (L.poFeatureDefn.fields.getD i ⟨[], OFTString⟩).type
              (f.GetFieldAsString i))) ++ "\n".data)] ++
        geometryTrace env g true) ∧
    (L.poFeatureDefn.fields.length = 0 →
      countSite .fieldData (writtenSince L (ICreateFeature env L f).2) = 0) ∧
    (∀ (t : OGRFieldType) (v : Str),
      (t = OFTInteger ∨ t = OFTReal →
        encodeFieldValue t v = encodeFieldValue OFTString (v.dropWhile (fun c => c == ' '))) ∧
      (t ≠ OFTInteger → t ≠ OFTReal → encodeFieldValue t v = encodeFieldValue OFTString v) ∧
      (' ' ∈ v ∨ '|' ∈ v ∨ '\t' ∈ v ∨ '\n' ∈ v →
        encodeFieldValue OFTString v = "\"".data ++ CPLEscapeString v ++ "\"".data) ∧
      (' ' ∉ v → '|' ∉ v → '\t' ∉ v → '\n' ∉ v → encodeFieldValue OFTString v = v)) := by
  have t := ICreateFeature_traced env L f g hU hg hq
  have w := writtenSince_eq L _ _ t.2
  have hfields : (completedDefn L.poFeatureDefn (some g)).fields = L.poFeatureDefn.fields :=
    completedDefn_fields _ _
  have hgeo := countSite_geometryTrace env g true .fieldData rfl
  have hhdr : countSite .fieldData
      (if L.bHeaderComplete then [] else headerTrace L.poFeatureDefn (some g)) = 0 := by
    split
    · rfl
    · exact countSite_headerTrace _ _ _ rfl
  refine ⟨?_, ?_, ?_⟩
  · intro hn
    have hn' : (completedDefn L.poFeatureDefn (some g)).fields.length > 0 := by
      rw [hfields]; exact hn
    have e : writtenSince L (ICreateFeature env L f).2 =
        (if L.bHeaderComplete then [] else headerTrace L.poFeatureDefn (some g)) ++
        (if (completedDefn L.poFeatureDefn (some g)).geomType != wkbPoint
          then [(PrintfSite.featureAngle, ">\n".data)] else []) ++
        [(.fieldData, "# @D".data ++
          List.intercalate "|".data ((List.range L.poFeatureDefn.fields.length).map (fun i =>
            encodeFieldValue (L.poFeatureDefn.fields.getD i ⟨[], OFTString⟩).type
              (f.GetFieldAsString i))) ++ "\n".data)] ++
        geometryTrace env g true := by
      rw [w]
      simp only [featureTrace, encodeFields, hfields,
        if_pos (show L.poFeatureDefn.fields.length > 0 from hn), List.append_assoc]
    refine ⟨?_, e⟩
    rw [e]
    simp only [countSite_append, hhdr, hgeo, countSite_cons, countSite_nil]
    split <;> simp [countSite_cons, countSite_nil]
  · intro hn
    have hn' : ¬ (completedDefn L.poFeatureDefn (some g)).fields.length > 0 := by
      rw [hfields]; omega
    rw [w]
    simp only [featureTrace, hfields,
      if_neg (show ¬ L.poFeatureDefn.fields.length > 0 by omega), countSite_append, hhdr, hgeo,
      countSite_nil]
    split <;> simp [countSite_cons, countSite_nil]
  · intro t v
    refine ⟨?_, ?_, ?_, ?_⟩
    · intro ht
      rcases ht with ht | ht <;> subst ht <;> simp [encodeFieldValue]
    · intro h1 h2
      have : (t == OFTInteger || t == OFTReal) = false := by simp [h1, h2]
      simp [encodeFieldValue, this]
    · intro h
      have : (strchr v ' ' || strchr v '|' || strchr v '\t' || strchr v '\n') = true := by
        simp only [Bool.or_eq_true, strchr_iff]
        tauto
      simp only [encodeFieldValue]
      simp [this]
    · intro h1 h2 h3 h4
      have : (strchr v ' ' || strchr v '|' || strchr v '\t' || strchr v '\n') = false := by
        have e1 := (strchr_iff v ' ').not.mpr h1
        have e2 := (strchr_iff v '|').not.mpr h2
        have e3 := (strchr_iff v '\t').not.mpr h3
        have e4 := (strchr_iff v '\n').not.mpr h4
        simp only [Bool.not_eq_true] at e1 e2 e3 e4
        rw [e1, e2, e3, e4]; rfl
      simp only [encodeFieldValue]
      simp [this]

set_option maxRecDepth 100000 in
/-- C28, at a point feature with the values `a b` and `c` written to a new layer with
two string fields: one `# @D` line, with the first value quoted. -/
theorem C28_attribute_line_witness :
    twoStringFields.bUpdate = true ∧ twoStringFields.m_fp.quota = none ∧
    0 < twoStringFields.poFeatureDefn.fields.length ∧
    countSite .fieldData (writtenSince twoStringFields
      (ICreateFeature intEnv twoStringFields
        (mkFeature (.point (mkPoint 1 2)) ["a b", "c"])).2) = 1 ∧
    (ICreateFeature intEnv twoStringFields
        (mkFeature (.point (mkPoint 1 2)) ["a b", "c"])).2.m_fp.data =
      "# @GPOINT\n# @Ns|t\n# @Tstring|string\n# FEATURE_DATA\n# @D\"a b\"|c\n1 2\n".data :=
  ⟨by decide, by decide, by decide,
    ((C28_attribute_line intEnv twoStringFields (mkFeature (.point (mkPoint 1 2)) ["a b", "c"])
      (.point (mkPoint 1 2)) (by decide) rfl (by decide)).1 (by decide)).1, by decide⟩

/-! ## The geometry marker of the header -/

set_option maxRecDepth 100000 in
/-- C29 fails when the header is completed by a call whose feature has no geometry: on a
new layer in update mode, the first call, with a feature without geometry, writes the
sentinel `# FEATURE_DATA` and leaves the kind undetermined; the second call, with a
polygon, fixes the kind to polygon, and no marker line has been written at all. -/
theorem C29_counterexample :
    (openLayer "" true).bUpdate = true ∧
    (openLayer "" true).poFeatureDefn.geomType = wkbUnknown ∧
    afterNoGeometry.poFeatureDefn.geomType = wkbUnknown ∧
    afterNoGeometry.bHeaderComplete = true ∧
    polygonAfterNoGeometry.poFeatureDefn.geomType = wkbPolygon ∧
    countSite .geomMarker polygonAfterNoGeometry.m_fp.written = 0 ∧
    polygonAfterNoGeometry.m_fp.data = "# FEATURE_DATA\n>\n# @P\n0 0\n1 1\n0 0\n".data := by
  decide

/-- C29, amended. On a device that accepts every write, a call of `ICreateFeature` on an
update-mode layer whose geometry kind is undetermined, for a feature with a geometry,
fixes the kind to that of the geometry. If the header is not yet complete, the first
write of the call is the marker line `#`, the marker text of that kind and a newline,
the sentinel `# FEATURE_DATA` is written after it in the same call, and only field
name and field type lines stand between them. If the header is already complete, the
call writes no marker line and no sentinel. The marker text is ` @GPOINT`,
` @GLINESTRING`, ` @GPOLYGON`, ` @GMULTIPOINT`, ` @GMULTILINESTRING` or
` @GMULTIPOLYGON`. -/
theorem C29_marker_when_header_incomplete {α : Type} [LinearOrder α] (env : Env α)
    (L : OGRGmtLayer α) (f : OGRFeature α) (g : OGRGeometry α) (hU : L.bUpdate = true)
    (hg : f.poGeom = some g) (hq : L.m_fp.quota = none)
    (hk : L.poFeatureDefn.geomType = wkbUnknown) :
    (ICreateFeature env L f).2.poFeatureDefn.geomType = g.getGeometryType ∧
    (L.bHeaderComplete = false →
      ∃ mid rest, writtenSince L (ICreateFeature env L f).2 =
        (PrintfSite.geomMarker, "#".data ++ geomMarker g.getGeometryType ++ "\n".data) :: mid ++
          (PrintfSite.featureData, "# FEATURE_DATA\n".data) :: rest ∧
        (∀ e ∈ mid, e.1 = .fieldNames ∨ e.1 = .fieldTypes) ∧
        countSite .geomMarker rest = 0 ∧ countSite .featureData rest = 0) ∧
    (L.bHeaderComplete = true →
      countSite .geomMarker (writtenSince L (ICreateFeature env L f).2) = 0 ∧
      countSite .featureData (writtenSince L (ICreateFeature env L f).2) = 0) ∧
    (geomMarker wkbPoint = " @GPOINT".data ∧ geomMarker wkbLineString = " @GLINESTRING".data ∧
      geomMarker wkbPolygon = " @GPOLYGON".data ∧
      geomMarker wkbMultiPoint = " @GMULTIPOINT".data ∧
      geomMarker wkbMultiLineString = " @GMULTILINESTRING".data ∧
      geomMarker wkbMultiPolygon = " @GMULTIPOLYGON".data) := by
  have t := ICreateFeature_traced env L f g hU hg hq
  have w := writtenSince_eq L _ _ t.2
  have hfeat : ∀ site : PrintfSite, site.isFeatureLine = false →
      countSite site (featureTrace env (completedDefn L.poFeatureDefn (some g)) f g) = 0 := by
    intro site hs
    have hgl : site.isGeometryLine = false := by
      cases site <;> first | rfl | cases hs
    have hgeo := countSite_geometryTrace env g true site hgl
    have h1 : site ≠ .featureAngle := by rintro rfl; cases hs
    have h2 : site ≠ .fieldData := by rintro rfl; cases hs
    simp only [featureTrace, countSite_append, hgeo]
    split <;> split <;> simp [countSite_cons, countSite_nil, Ne.symm h1, Ne.symm h2]
  refine ⟨?_, ?_, ?_, ⟨rfl, rfl, rfl, rfl, rfl, rfl⟩⟩
  · have := (ICreateFeature_wrote env L f g hU hg hq).2.1.poFeatureDefn
    rw [this]
    simp [completedDefn, hk]
  · intro hH
    rw [w]
    simp only [hH, Bool.false_eq_true, if_false, headerTrace, hk]
    refine ⟨if L.poFeatureDefn.fields.length > 0 then
        [(.fieldNames, "# @N".data ++
            List.intercalate "|".data (L.poFeatureDefn.fields.map (fun fd => fd.name)) ++
            "\n".data),
         (.fieldTypes, "# @T".data ++
            List.intercalate "|".data
              (L.poFeatureDefn.fields.map (fun fd => fieldTypeWord fd.type)) ++ "\n".data)]
        else [],
      featureTrace env (completedDefn L.poFeatureDefn (some g)) f g, ?_, ?_,
      hfeat _ rfl, hfeat _ rfl⟩
    · simp
    · intro e he
      split at he
      · simp only [List.mem_cons, List.mem_singleton, List.not_mem_nil, or_false] at he
        rcases he with he | he
        · left; rw [he]
        · right; rw [he]
      · cases he
  · intro hH
    rw [w]
    simp only [hH, if_true, List.nil_append]
    exact ⟨hfeat _ rfl, hfeat _ rfl⟩

set_option maxRecDepth 100000 in
/-- C29, amended, at a polygon feature written first to a new layer in update mode: the
kind becomes polygon and the file begins with the marker line. -/
theorem C29_marker_when_header_incomplete_witness :
    (openLayer "" true).bUpdate = true ∧ (openLayer "" true).m_fp.quota = none ∧
    (openLayer "" true).poFeatureDefn.geomType = wkbUnknown ∧
    (ICreateFeature intEnv (openLayer "" true)
      (mkFeature (.polygon ⟨[mkLine [(0, 0), (1, 1), (0, 0)]]⟩) [])).2.poFeatureDefn.geomType =
      (OGRGeometry.polygon ⟨[mkLine [(0, 0), (1, 1), (0, 0)]]⟩).getGeometryType ∧
    (ICreateFeature intEnv (openLayer "" true)
      (mkFeature (.polygon ⟨[mkLine [(0, 0), (1, 1), (0, 0)]]⟩) [])).2.m_fp.data =
      "# @GPOLYGON\n# FEATURE_DATA\n>\n# @P\n0 0\n1 1\n0 0\n".data :=
  ⟨by decide, by decide, by decide,
    (C29_marker_when_header_incomplete intEnv (openLayer "" true)
      (mkFeature (.polygon ⟨[mkLine [(0, 0), (1, 1), (0, 0)]]⟩) [])
      (.polygon ⟨[mkLine [(0, 0), (1, 1), (0, 0)]]⟩) (by decide) rfl (by decide)
      (by decide)).1, by decide⟩

/-! ## Failure of a vertex write -/

theorem VSIFPrintfL_cases (fp : VSILFILE) (site : PrintfSite) (s : Str) :
    ((VSIFPrintfL fp site s).1 = s.length ∧
      (VSIFPrintfL fp site s).2.written = fp.written ++ [(site, s)]) ∨
    ((VSIFPrintfL fp site s).1 = 0 ∧ (VSIFPrintfL fp site s).2 = fp) := by
  unfold VSIFPrintfL
  cases hq : fp.quota with
  | none => left; exact ⟨rfl, rfl⟩
  | some q =>
    dsimp only
    by_cases h : s.length ≤ q
    · left; rw [if_pos h]; exact ⟨rfl, rfl⟩
    · right; rw [if_neg h]; exact ⟨rfl, rfl⟩

theorem emit_grows {α : Type} (L : OGRGmtLayer α) (site : PrintfSite) (s : Str)
    (hs : site ≠ .vertexLine) :
    ∃ new, (emit L site s).m_fp.written = L.m_fp.written ++ new ∧
      countSite .vertexLine new = 0 := by
  rcases VSIFPrintfL_cases L.m_fp site s with h | h
  · refine ⟨[(site, s)], h.2, ?_⟩
    simp [countSite_cons, countSite_nil, hs]
  · refine ⟨[], ?_, rfl⟩
    show (VSIFPrintfL L.m_fp site s).2.written = _
    rw [h.2]; simp

theorem WriteOutcome.after {α : Type} [LinearOrder α] {env : Env α} {L L1 : OGRGmtLayer α}
    {r : OGRErr × OGRGmtLayer α} {vs : List (Vertex α)} (new0 : List (PrintfSite × Str))
    (h0 : L1.m_fp.written = L.m_fp.written ++ new0) (c0 : countSite .vertexLine new0 = 0)
    (h : WriteOutcome env L1 r vs) : WriteOutcome env L r vs := by
  rcases h with ⟨a, new, b, c⟩ | ⟨a, Lf, nDim, v, pre, b1, b2, b3, b4, b5, b6⟩
  · left
    refine ⟨a, new0 ++ new, ?_, ?_⟩
    · rw [b, h0, List.append_assoc]
    · rw [countSite_append, c0, c]; omega
  · right
    refine ⟨a, Lf, nDim, v, new0 ++ pre, b1, b2, b3, b4, ?_, ?_⟩
    · rw [b5, h0, List.append_assoc]
    · rw [countSite_append, c0]; omega

theorem WriteOutcome.outcomeThen {α : Type} [LinearOrder α] {env : Env α} {L : OGRGmtLayer α}
    {r1 r2 : OGRErr × OGRGmtLayer α} {vs1 vs2 : List (Vertex α)}
    (h1 : WriteOutcome env L r1 vs1) (h2 : WriteOutcome env r1.2 r2 vs2)
    (e : r1.1 = OGRERR_NONE) : WriteOutcome env L r2 (vs1 ++ vs2) := by
  rcases h1 with ⟨_, new1, b, c⟩ | ⟨a, _⟩
  · rcases h2 with ⟨a2, new2, b2, c2⟩ | ⟨a2, Lf, nDim, v, pre, d1, d2, d3, d4, d5, d6⟩
    · left
      refine ⟨a2, new1 ++ new2, ?_, ?_⟩
      · rw [b2, b, List.append_assoc]
      · rw [countSite_append, c, c2, List.length_append]
    · right
      refine ⟨a2, Lf, nDim, v, new1 ++ pre, List.mem_append_right _ d1, d2, d3, d4, ?_, ?_⟩
      · rw [d5, b, List.append_assoc]
      · rw [countSite_append, c, List.length_append]; omega
  · rw [e] at a; cases a

theorem WriteOutcome.failed {α : Type} [LinearOrder α] {env : Env α} {L : OGRGmtLayer α}
    {r : OGRErr × OGRGmtLayer α} {vs1 : List (Vertex α)} (vs2 : List (Vertex α))
    (h1 : WriteOutcome env L r vs1) (e : r.1 ≠ OGRERR_NONE) :
    WriteOutcome env L r (vs1 ++ vs2) := by
  rcases h1 with ⟨a, _⟩ | ⟨a, Lf, nDim, v, pre, d1, d2, d3, d4, d5, d6⟩
  · exact absurd a e
  · right
    refine ⟨a, Lf, nDim, v, pre, List.mem_append_left _ d1, d2, d3, d4, d5, ?_⟩
    rw [List.length_append]; omega

theorem writeVertex_cases {α : Type} [LinearOrder α] (env : Env α) (nDim : Nat)
    (L : OGRGmtLayer α) (v : Vertex α) :
    (¬ (writeVertex env nDim L v).1 < 1 ∧
      (writeVertex env nDim L v).2.m_fp.written =
        L.m_fp.written ++ [(.vertexLine, vertexText env nDim v ++ "\n".data)]) ∨
    ((writeVertex env nDim L v).1 < 1 ∧ (writeVertex env nDim L v).2.m_fp = L.m_fp) := by
  rcases VSIFPrintfL_cases L.m_fp .vertexLine (vertexText env nDim v ++ "\n".data) with h | h
  · left
    refine ⟨?_, h.2⟩
    show ¬ (VSIFPrintfL L.m_fp .vertexLine (vertexText env nDim v ++ "\n".data)).1 < 1
    rw [h.1]; simp
  · right
    refine ⟨?_, h.2⟩
    show (VSIFPrintfL L.m_fp .vertexLine (vertexText env nDim v ++ "\n".data)).1 < 1
    rw [h.1]; decide

theorem writeVertices_outcome {α : Type} [LinearOrder α] (env : Env α) (nDim : Nat)
    (pts : List (Vertex α)) :
    ∀ L : OGRGmtLayer α, WriteOutcome env L (writeVertices env nDim L pts) pts := by
  induction pts with
  | nil =>
    intro L
    left
    exact ⟨rfl, [], by simp [writeVertices], rfl⟩
  | cons v vs ih =>
    intro L
    rcases writeVertex_cases env nDim L v with ⟨h, w⟩ | ⟨h, w⟩
    · have e : writeVertices env nDim L (v :: vs) =
          writeVertices env nDim (writeVertex env nDim L v).2 vs := by
        simp only [writeVertices]; rw [if_neg h]
      rw [e]
      have h1 : WriteOutcome env L (OGRERR_NONE, (writeVertex env nDim L v).2) [v] := by
        left
        exact ⟨rfl, _, w, by simp [countSite_cons, countSite_nil]⟩
      exact h1.outcomeThen (ih _) rfl
    · have e : writeVertices env nDim L (v :: vs) =
          (OGRERR_FAILURE, (writeVertex env nDim L v).2) := by
        simp only [writeVertices]; rw [if_pos h]
      rw [e]
      right
      exact ⟨rfl, L, nDim, v, [], List.mem_cons_self _ _, h, rfl, w, by simp,
        by simp [countSite_nil]⟩

theorem writeLeaf_outcome {α : Type} [LinearOrder α] (env : Env α) (L : OGRGmtLayer α)
    (bPoint : Bool) (pts : List (Vertex α)) (nDim : Nat) (bHaveAngle : Bool) :
    WriteOutcome env L (writeLeaf env L bPoint pts nDim bHaveAngle) pts := by
  unfold writeLeaf
  dsimp only
  split
  · obtain ⟨new, a, b⟩ := emit_grows L .leafAngle ">\n".data (by decide)
    exact (writeVertices_outcome env nDim pts _).after new a b
  · exact writeVertices_outcome env nDim pts L

theorem beforeChild_grows {α : Type} (bPolygon : Bool) (L : OGRGmtLayer α) (iGeom : Nat)
    (bHaveAngle : Bool) :
    ∃ new, (beforeChild bPolygon L iGeom bHaveAngle).m_fp.written = L.m_fp.written ++ new ∧
      countSite .vertexLine new = 0 := by
  unfold beforeChild
  have hA : ∃ newA, (if (!bHaveAngle) = true then emit L .ringAngle ">\n".data else L).m_fp.written
      = L.m_fp.written ++ newA ∧ countSite .vertexLine newA = 0 := by
    split
    · exact emit_grows L .ringAngle ">\n".data (by decide)
    · exact ⟨[], by simp, rfl⟩
  obtain ⟨newA, a1, a2⟩ := hA
  split
  · dsimp only
    split
    · obtain ⟨n2, b1, b2⟩ := emit_grows
        (if (!bHaveAngle) = true then emit L .ringAngle ">\n".data else L) .ringOuter
        "# @P\n".data (by decide)
      exact ⟨newA ++ n2, by rw [b1, a1, List.append_assoc], by rw [countSite_append, a2, b2]⟩
    · obtain ⟨n2, b1, b2⟩ := emit_grows
        (if (!bHaveAngle) = true then emit L .ringAngle ">\n".data else L) .ringHole
        "# @H\n".data (by decide)
      exact ⟨newA ++ n2, by rw [b1, a1, List.append_assoc], by rw [countSite_append, a2, b2]⟩
  · exact ⟨[], by simp, rfl⟩

theorem writeChildren_stopped {α χ : Type}
    (writeChild : OGRGmtLayer α → χ → Bool → OGRErr × OGRGmtLayer α) (bPolygon : Bool)
    (L : OGRGmtLayer α) (cs : List χ) (iGeom : Nat) (bHaveAngle : Bool) (eErr : OGRErr)
    (h : eErr ≠ OGRERR_NONE) :
    writeChildren writeChild bPolygon L cs iGeom bHaveAngle eErr = (eErr, L) := by
  cases cs with
  | nil => rfl
  | cons c cs =>
    have : (eErr == OGRERR_NONE) = false := by simpa using h
    simp only [writeChildren, this, Bool.false_eq_true, if_false]

theorem writeChildren_outcome {α χ : Type} [LinearOrder α] (env : Env α)
    (writeChild : OGRGmtLayer α → χ → Bool → OGRErr × OGRGmtLayer α) (verts : χ → List (Vertex α))
    (hchild : ∀ L c b, WriteOutcome env L (writeChild L c b) (verts c)) (bPolygon : Bool)
    (cs : List χ) :
    ∀ (L : OGRGmtLayer α) (iGeom : Nat) (bHaveAngle : Bool),
      WriteOutcome env L (writeChildren writeChild bPolygon L cs iGeom bHaveAngle OGRERR_NONE)
        (cs.map verts).flatten := by
  induction cs with
  | nil =>
    intro L iGeom bHaveAngle
    left
    exact ⟨rfl, [], by simp [writeChildren], rfl⟩
  | cons c cs ih =>
    intro L iGeom bHaveAngle
    obtain ⟨new, a, b⟩ := beforeChild_grows bPolygon L iGeom bHaveAngle
    have hc := (hchild (beforeChild bPolygon L iGeom bHaveAngle) c
      (if bPolygon then true else bHaveAngle)).after new a b
    have e : writeChildren writeChild bPolygon L (c :: cs) iGeom bHaveAngle OGRERR_NONE =
        writeChildren writeChild bPolygon
          (writeChild (beforeChild bPolygon L iGeom bHaveAngle) c
            (if bPolygon then true else bHaveAngle)).2 cs (iGeom + 1) false
          (writeChild (beforeChild bPolygon L iGeom bHaveAngle) c
            (if bPolygon then true else bHaveAngle)).1 := by
      simp [writeChildren]
    rw [e, List.map_cons, List.flatten_cons]
    by_cases hr : (writeChild (beforeChild bPolygon L iGeom bHaveAngle) c
        (if bPolygon then true else bHaveAngle)).1 = OGRERR_NONE
    · rw [hr]
      exact hc.outcomeThen (ih _ _ _) hr
    · rw [writeChildren_stopped _ _ _ _ _ _ _ hr]
      exact hc.failed _ hr

theorem writeLineString_outcome {α : Type} [LinearOrder α] (env : Env α) (L : OGRGmtLayer α)
    (l : OGRLineString α) (b : Bool) :
    WriteOutcome env L (writeLineString env L l b) l.pts :=
  writeLeaf_outcome env L false l.pts _ b

theorem writePoint_outcome {α : Type} [LinearOrder α] (env : Env α) (L : OGRGmtLayer α)
    (p : OGRPoint α) (b : Bool) :
    WriteOutcome env L (writePoint env L p b) p.coord.toList :=
  writeLeaf_outcome env L true p.coord.toList _ b

theorem writePolygon_outcome {α : Type} [LinearOrder α] (env : Env α) (L : OGRGmtLayer α)
    (p : OGRPolygon α) (b : Bool) :
    WriteOutcome env L (writePolygon env L p b) (p.rings.map (fun r => r.pts)).flatten := by
  unfold writePolygon
  split
  · exact writeChildren_outcome env _ (fun r : OGRLineString α => r.pts)
      (writeLineString_outcome env) true _ L 0 b
  · rename_i h
    have : p.rings = [] := by
      cases hr : p.rings with
      | nil => rfl
      | cons a as => rw [hr] at h; simp at h
    rw [this]
    exact writeLeaf_outcome env L false [] 2 b

theorem WriteGeometry_outcome {α : Type} [LinearOrder α] (env : Env α) (L : OGRGmtLayer α)
    (g : OGRGeometry α) (b : Bool) :
    WriteOutcome env L (WriteGeometry env L g b) g.vertices := by
  cases g with
  | point p => exact writePoint_outcome env L p b
  | lineString l => exact writeLineString_outcome env L l b
  | polygon p => exact writePolygon_outcome env L p b
  | multiPoint ps =>
    simp only [WriteGeometry, OGRGeometry.vertices]
    split
    · exact writeChildren_outcome env _ (fun p : OGRPoint α => p.coord.toList)
        (writePoint_outcome env)
        false _ L 0 b
    · rename_i h
      have : ps = [] := by
        cases ps with
        | nil => rfl
        | cons a as => simp at h
      rw [this]
      exact writeLeaf_outcome env L false [] 2 b
  | multiLineString ls =>
    simp only [WriteGeometry, OGRGeometry.vertices]
    split
    · exact writeChildren_outcome env _ (fun l : OGRLineString α => l.pts)
        (writeLineString_outcome env)
        false _ L 0 b
    · rename_i h
      have : ls = [] := by
        cases ls with
        | nil => rfl
        | cons a as => simp at h
      rw [this]
      exact writeLeaf_outcome env L false [] 2 b
  | multiPolygon ps =>
    simp only [WriteGeometry, OGRGeometry.vertices]
    split
    · exact writeChildren_outcome env _
        (fun p : OGRPolygon α => (p.rings.map (fun r => r.pts)).flatten)
        (writePolygon_outcome env) false _ L 0 b
    · rename_i h
      have : ps = [] := by
        cases ps with
        | nil => rfl
        | cons a as => simp at h
      rw [this]
      exact writeLeaf_outcome env L false [] 2 b

theorem CompleteHeader_grows {α : Type} (L : OGRGmtLayer α) (g : Option (OGRGeometry α)) :
    ∃ new, (CompleteHeader L g).2.m_fp.written = L.m_fp.written ++ new ∧
      countSite .vertexLine new = 0 := by
  have h1 : ∃ n1, (completeGeomType L g).m_fp.written = L.m_fp.written ++ n1 ∧
      countSite .vertexLine n1 = 0 := by
    unfold completeGeomType
    cases g with
    | none => exact ⟨[], by simp, rfl⟩
    | some g0 =>
      dsimp only
      split
      · exact emit_grows _ .geomMarker _ (by decide)
      · exact ⟨[], by simp, rfl⟩
  obtain ⟨n1, a1, b1⟩ := h1
  have h2 : ∃ n2, (completeFields (completeGeomType L g)).m_fp.written =
      (completeGeomType L g).m_fp.written ++ n2 ∧ countSite .vertexLine n2 = 0 := by
    unfold completeFields
    dsimp only
    split
    · obtain ⟨m1, c1, d1⟩ := emit_grows (completeGeomType L g) .fieldNames
        ("# @N".data ++ List.intercalate "|".data
          ((completeGeomType L g).poFeatureDefn.fields.map (fun fd => fd.name)) ++ "\n".data)
        (by decide)
      obtain ⟨m2, c2, d2⟩ := emit_grows (emit (completeGeomType L g) .fieldNames
        ("# @N".data ++ List.intercalate "|".data
          ((completeGeomType L g).poFeatureDefn.fields.map (fun fd => fd.name)) ++ "\n".data))
        .fieldTypes ("# @T".data ++ List.intercalate "|".data
          ((completeGeomType L g).poFeatureDefn.fields.map (fun fd => fieldTypeWord fd.type)) ++
          "\n".data) (by decide)
      exact ⟨m1 ++ m2, by rw [c2, c1, List.append_assoc], by rw [countSite_append, d1, d2]⟩
    · exact ⟨[], by simp, rfl⟩
  obtain ⟨n2, a2, b2⟩ := h2
  obtain ⟨n3, a3, b3⟩ := emit_grows (completeFields (completeGeomType L g)) .featureData
    "# FEATURE_DATA\n".data (by decide)
  refine ⟨n1 ++ (n2 ++ n3), ?_, ?_⟩
  · show (emit (completeFields (completeGeomType L g)) .featureData
      "# FEATURE_DATA\n".data).m_fp.written = _
    rw [a3, a2, a1, List.append_assoc, List.append_assoc]
  · rw [countSite_append, countSite_append, b1, b2, b3]

theorem writeFeature_geometry {α : Type} [LinearOrder α] (env : Env α) (L : OGRGmtLayer α)
    (f : OGRFeature α) (g : OGRGeometry α) :
    ∃ L3 pre, writeFeature env L f g = WriteGeometry env L3 g true ∧
      L3.m_fp.written = L.m_fp.written ++ pre ∧ countSite .vertexLine pre = 0 := by
  have h1 : ∃ L1 : OGRGmtLayer α, L1.m_fp = L.m_fp ∧
      writeFeature env L f g = WriteGeometry env
        (if (if L1.poFeatureDefn.geomType != wkbPoint then emit L1 .featureAngle ">\n".data
              else L1).poFeatureDefn.fields.length > 0 then
          emit (if L1.poFeatureDefn.geomType != wkbPoint then emit L1 .featureAngle ">\n".data
              else L1) .fieldData
            ("# @D".data ++ encodeFields (if L1.poFeatureDefn.geomType != wkbPoint then
              emit L1 .featureAngle ">\n".data else L1).poFeatureDefn f ++ "\n".data)
        else (if L1.poFeatureDefn.geomType != wkbPoint then emit L1 .featureAngle ">\n".data
              else L1)) g true := by
    refine ⟨if L.poFeatureDefn.geomType == wkbUnknown then
      { L with poFeatureDefn := { L.poFeatureDefn with geomType := g.getGeometryType } }
      else L, ?_, rfl⟩
    split <;> rfl
  obtain ⟨L1, e1, e⟩ := h1
  have h2 : ∃ n2, (if L1.poFeatureDefn.geomType != wkbPoint then
      emit L1 .featureAngle ">\n".data else L1).m_fp.written = L.m_fp.written ++ n2 ∧
      countSite .vertexLine n2 = 0 := by
    split
    · obtain ⟨n, a, b⟩ := emit_grows L1 .featureAngle ">\n".data (by decide)
      exact ⟨n, by rw [a, e1], b⟩
    · exact ⟨[], by rw [e1]; simp, rfl⟩
  obtain ⟨n2, a2, b2⟩ := h2
  generalize (if L1.poFeatureDefn.geomType != wkbPoint then
      emit L1 .featureAngle ">\n".data else L1) = L2 at e a2
  by_cases hn : L2.poFeatureDefn.fields.length > 0
  · rw [if_pos hn] at e
    obtain ⟨n, a, b⟩ := emit_grows L2 .fieldData
      ("# @D".data ++ encodeFields L2.poFeatureDefn f ++ "\n".data) (by decide)
    exact ⟨_, n2 ++ n, e, by rw [a, a2, List.append_assoc], by rw [countSite_append, b2, b]⟩
  · rw [if_neg hn] at e
    exact ⟨_, n2, e, a2, b2⟩

theorem ICreateFeature_geometry {α : Type} [LinearOrder α] (env : Env α) (L : OGRGmtLayer α)
    (f : OGRFeature α) (g : OGRGeometry α) (hU : L.bUpdate = true) (hg : f.poGeom = some g) :
    ∃ L3 pre, ICreateFeature env L f = WriteGeometry env L3 g true ∧
      L3.m_fp.written = L.m_fp.written ++ pre ∧ countSite .vertexLine pre = 0 := by
  by_cases hH : L.bHeaderComplete = true
  · have e : ICreateFeature env L f = writeFeature env L f g := by
      simp [ICreateFeature, hU, hH, hg]
    rw [e]
    exact writeFeature_geometry env L f g
  · have hH' : L.bHeaderComplete = false := by simpa using hH
    have e : ICreateFeature env L f = writeFeature env (CompleteHeader L (some g)).2 f g := by
      simp [ICreateFeature, hU, hH', CompleteHeader_fst, hg]
    rw [e]
    obtain ⟨n1, a1, b1⟩ := CompleteHeader_grows L (some g)
    obtain ⟨L3, pre, a, b, c⟩ := writeFeature_geometry env (CompleteHeader L (some g)).2 f g
    exact ⟨L3, n1 ++ pre, a, by rw [b, a1, List.append_assoc], by rw [countSite_append, b1, c]⟩

/-- C30. `WriteGeometry` either succeeds, having written one vertex line for each vertex
of the geometry, or returns `OGRERR_FAILURE` after a failed write of a vertex line: the
layer it leaves is the one that failed write left, whose file is as it was just before
that write, so nothing of the geometry is written after the failed write, and the
writes made before it, all successful, are kept. `ICreateFeature` on an update-mode
layer, for a feature with that geometry, returns what its call of `WriteGeometry`
returns, and so has the same two outcomes. -/
theorem C30_vertex_write_failure {α : Type} [LinearOrder α] (env : Env α) (L : OGRGmtLayer α)
    (g : OGRGeometry α) (bHaveAngle : Bool) :
    WriteOutcome env L (WriteGeometry env L g bHaveAngle) g.vertices ∧
    ∀ f : OGRFeature α, L.bUpdate = true → f.poGeom = some g →
      (∃ L3, ICreateFeature env L f = WriteGeometry env L3 g true) ∧
      WriteOutcome env L (ICreateFeature env L f) g.vertices := by
  refine ⟨WriteGeometry_outcome env L g bHaveAngle, ?_⟩
  intro f hU hg
  obtain ⟨L3, pre, a, b, c⟩ := ICreateFeature_geometry env L f g hU hg
  refine ⟨⟨L3, a⟩, ?_⟩
  rw [a]
  exact (WriteGeometry_outcome env L3 g true).after pre b c

set_option maxRecDepth 100000 in
/-- C30, at a line string of three vertices written to a new layer whose device accepts
36 bytes: the second vertex line does not fit, the call fails, and the file holds the
header, the `>` line and the first vertex line. -/
theorem C30_vertex_write_failure_witness :
    nearlyFull.bUpdate = true ∧
    (ICreateFeature intEnv nearlyFull
      (mkFeature (.lineString (mkLine [(0, 0), (1, 1), (2, 2)])) [])).1 = OGRERR_FAILURE ∧
    (ICreateFeature intEnv nearlyFull
      (mkFeature (.lineString (mkLine [(0, 0), (1, 1), (2, 2)])) [])).2.m_fp.data =
      "# @GLINESTRING\n# FEATURE_DATA\n>\n0 0\n".data ∧
    WriteOutcome intEnv nearlyFull (ICreateFeature intEnv nearlyFull
      (mkFeature (.lineString (mkLine [(0, 0), (1, 1), (2, 2)])) []))
      (OGRGeometry.lineString (mkLine [(0, 0), (1, 1), (2, 2)])).vertices :=
  ⟨by decide, by decide, by decide,
    ((C30_vertex_write_failure intEnv nearlyFull
      (.lineString (mkLine [(0, 0), (1, 1), (2, 2)])) true).2
      (mkFeature (.lineString (mkLine [(0, 0), (1, 1), (2, 2)])) []) (by decide) rfl).2⟩

/-! ## The `>` lines of a feature -/

theorem flatMap_blockText_cons (b : List Str × List Str) (bs : List (List Str × List Str)) :
    (b :: bs).flatMap blockText = ">".data :: b.1 ++ b.2 ++ bs.flatMap blockText := by
  simp [List.flatMap_cons, blockText]

theorem childrenLines_holes {α : Type} (env : Env α) (rs : List (OGRLineString α)) :
    ∀ i : Nat, childrenLines (lineStringLines env) true rs (i + 1) false =
      (rs.map (fun r => (["# @H".data], vertexLines env (coordDim r.is3D) r.pts))).flatMap
        blockText := by
  induction rs with
  | nil => intro i; rfl
  | cons r rs ih =>
    intro i
    rw [List.map_cons, flatMap_blockText_cons, ← ih (i + 1)]
    simp [childrenLines, beforeChildLines, lineStringLines, leafLines]

theorem polygonLines_false {α : Type} (env : Env α) (p : OGRPolygon α) :
    polygonLines env p false = (polygonBlocks env p).flatMap blockText := by
  obtain ⟨rings⟩ := p
  cases rings with
  | nil => rfl
  | cons r0 rs =>
    simp only [polygonLines, polygonBlocks, List.length_cons, Nat.succ_pos, gt_iff_lt, if_true,
      Nat.zero_lt_succ]
    rw [flatMap_blockText_cons, ← childrenLines_holes env rs 0]
    simp [childrenLines, beforeChildLines, lineStringLines, leafLines]

theorem polygonLines_true {α : Type} (env : Env α) (p : OGRPolygon α) :
    ">".data :: polygonLines env p true = (polygonBlocks env p).flatMap blockText := by
  obtain ⟨rings⟩ := p
  cases rings with
  | nil => rfl
  | cons r0 rs =>
    simp only [polygonLines, polygonBlocks, List.length_cons, Nat.succ_pos, gt_iff_lt, if_true,
      Nat.zero_lt_succ]
    rw [flatMap_blockText_cons, ← childrenLines_holes env rs 0]
    simp [childrenLines, beforeChildLines, lineStringLines, leafLines]

theorem childrenLines_points {α : Type} (env : Env α) (ps : List (OGRPoint α)) :
    ∀ (i : Nat) (b : Bool), childrenLines (pointLines env) false ps i b =
      (ps.map (fun p => vertexLines env (coordDim p.is3D) p.coord.toList)).flatten := by
  induction ps with
  | nil => intro i b; rfl
  | cons p ps ih =>
    intro i b
    simp [childrenLines, beforeChildLines, pointLines, leafLines, ih]

theorem childrenLines_lineStrings {α : Type} (env : Env α) (ls : List (OGRLineString α)) :
    ∀ i : Nat, childrenLines (lineStringLines env) false ls i false =
      (ls.map (fun l => (([] : List Str), vertexLines env (coordDim l.is3D) l.pts))).flatMap
        blockText := by
  induction ls with
  | nil => intro i; rfl
  | cons l ls ih =>
    intro i
    rw [List.map_cons, flatMap_blockText_cons, ← ih (i + 1)]
    simp [childrenLines, beforeChildLines, lineStringLines, leafLines]

theorem childrenLines_polygons {α : Type} (env : Env α) (ps : List (OGRPolygon α)) :
    ∀ i : Nat, childrenLines (polygonLines env) false ps i false =
      ((ps.map (polygonBlocks env)).flatten).flatMap blockText := by
  induction ps with
  | nil => intro i; rfl
  | cons p ps ih =>
    intro i
    simp only [childrenLines, beforeChildLines, Bool.false_eq_true, if_false, List.nil_append,
      List.map_cons, List.flatten_cons, List.flatMap_append, polygonLines_false, ih]

/-- The lines of a geometry written after a `>` line are the lines of its blocks. -/
theorem geometryLines_blocks {α : Type} (env : Env α) (g : OGRGeometry α) :
    ">".data :: geometryLines env g true = (geometryBlocks env g).flatMap blockText := by
  cases g with
  | point p => simp [geometryLines, geometryBlocks, pointLines, leafLines, blockText]
  | lineString l => simp [geometryLines, geometryBlocks, lineStringLines, leafLines, blockText]
  | polygon p => exact polygonLines_true env p
  | multiPoint ps =>
    cases ps with
    | nil => rfl
    | cons p ps =>
      simp only [geometryLines, geometryBlocks, List.length_cons, gt_iff_lt, Nat.zero_lt_succ,
        if_true, childrenLines_points]
      simp [blockText]
  | multiLineString ls =>
    cases ls with
    | nil => rfl
    | cons l ls =>
      simp only [geometryLines, geometryBlocks, List.length_cons, gt_iff_lt, Nat.zero_lt_succ,
        if_true]
      rw [List.map_cons, flatMap_blockText_cons, ← childrenLines_lineStrings env ls 1]
      simp [childrenLines, beforeChildLines, lineStringLines, leafLines]
  | multiPolygon ps =>
    cases ps with
    | nil => rfl
    | cons p ps =>
      simp only [geometryLines, geometryBlocks, List.length_cons, gt_iff_lt, Nat.zero_lt_succ,
        if_true]
      rw [List.map_cons, List.flatten_cons, List.flatMap_append, ← polygonLines_true,
        ← childrenLines_polygons env ps 1]
      simp [childrenLines, beforeChildLines]

theorem polygonBlocks_ne_nil {α : Type} (env : Env α) (p : OGRPolygon α) :
    polygonBlocks env p ≠ [] := by
  obtain ⟨rings⟩ := p
  cases rings <;> simp [polygonBlocks]

theorem polygonBlocks_comments {α : Type} (env : Env α) (p : OGRPolygon α) :
    ∀ b ∈ polygonBlocks env p, ∀ c ∈ b.1, c = "# @P".data ∨ c = "# @H".data := by
  obtain ⟨rings⟩ := p
  intro b hb c hc
  cases rings with
  | nil =>
    simp only [polygonBlocks, List.mem_singleton] at hb
    rw [hb] at hc; cases hc
  | cons r0 rs =>
    simp only [polygonBlocks, List.mem_cons, List.mem_map] at hb
    rcases hb with hb | ⟨r, _, hb⟩
    · rw [hb] at hc
      left; simpa using hc
    · rw [← hb] at hc
      right; simpa using hc

theorem geometryBlocks_ne_nil {α : Type} (env : Env α) (g : OGRGeometry α) :
    geometryBlocks env g ≠ [] := by
  cases g with
  | point p => simp [geometryBlocks]
  | lineString l => simp [geometryBlocks]
  | polygon p => exact polygonBlocks_ne_nil env p
  | multiPoint ps => simp [geometryBlocks]
  | multiLineString ls => cases ls <;> simp [geometryBlocks]
  | multiPolygon ps =>
    cases ps with
    | nil => simp [geometryBlocks]
    | cons p ps =>
      simp only [geometryBlocks, List.map_cons, List.flatten_cons]
      intro h
      exact polygonBlocks_ne_nil env p (List.append_eq_nil.mp h).1

theorem geometryBlocks_comments {α : Type} (env : Env α) (g : OGRGeometry α) :
    ∀ b ∈ geometryBlocks env g, ∀ c ∈ b.1, c = "# @P".data ∨ c = "# @H".data := by
  intro b hb c hc
  cases g with
  | point p =>
    simp only [geometryBlocks, List.mem_singleton] at hb
    rw [hb] at hc; cases hc
  | lineString l =>
    simp only [geometryBlocks, List.mem_singleton] at hb
    rw [hb] at hc; cases hc
  | polygon p => exact polygonBlocks_comments env p b hb c hc
  | multiPoint ps =>
    simp only [geometryBlocks, List.mem_singleton] at hb
    rw [hb] at hc; cases hc
  | multiLineString ls =>
    cases ls with
    | nil =>
      simp only [geometryBlocks, List.mem_singleton] at hb
      rw [hb] at hc; cases hc
    | cons l ls =>
      simp only [geometryBlocks, List.mem_map] at hb
      obtain ⟨l0, _, hb⟩ := hb
      rw [← hb] at hc; cases hc
  | multiPolygon ps =>
    cases ps with
    | nil =>
      simp only [geometryBlocks, List.mem_singleton] at hb
      rw [hb] at hc; cases hc
    | cons p ps =>
      simp only [geometryBlocks, List.mem_flatten, List.mem_map] at hb
      obtain ⟨l, ⟨p0, _, hl⟩, hb⟩ := hb
      rw [← hl] at hb
      exact polygonBlocks_comments env p0 b hb c hc

/-- The lines of a feature on a layer whose kind is not point are the lines of its
blocks. -/
theorem featureLines_blocks {α : Type} (env : Env α) (defn : OGRFeatureDefn)
    (f : OGRFeature α) (g : OGRGeometry α) (hk : defn.geomType ≠ wkbPoint) :
    featureLines env defn f g = (featureBlocks env defn f g).flatMap blockText := by
  have hk' : (defn.geomType != wkbPoint) = true := by simpa using hk
  have h := geometryLines_blocks env g
  unfold featureBlocks
  cases hb : geometryBlocks env g with
  | nil => exact absurd hb (geometryBlocks_ne_nil env g)
  | cons b bs =>
    rw [hb, flatMap_blockText_cons] at h
    simp only [featureLines, hk', if_true]
    rw [flatMap_blockText_cons]
    have h2 : geometryLines env g true = b.1 ++ b.2 ++ bs.flatMap blockText := by
      have := List.tail_eq_of_cons_eq h
      simpa using this
    rw [h2]
    simp [List.append_assoc]

theorem featureBlocks_completedDefn {α : Type} (env : Env α) (defn : OGRFeatureDefn)
    (g0 : Option (OGRGeometry α)) (f : OGRFeature α) (g : OGRGeometry α) :
    featureBlocks env (completedDefn defn g0) f g = featureBlocks env defn f g := by
  simp only [featureBlocks, encodeFields, completedDefn_fields]

/-! ## A polygon written and read back -/

set_option maxRecDepth 100000 in
/-- C1. What the code does with a multipoint feature: written to a new layer, the
feature of the two points `1 2` and `3 4` gives a file of kind MULTIPOINT with one `>`
line and two vertex lines; the file opened again, the first call of
`GetNextRawFeature` returns a feature whose multipoint has no point, and the second
call returns no feature. -/
theorem C1_multipoint_not_restored :
    multiPointWritten.1 = OGRERR_NONE ∧
    multiPointWritten.2.m_fp.data = "# @GMULTIPOINT\n# FEATURE_DATA\n>\n1 2\n3 4\n".data ∧
    (reopen multiPointWritten.2).poFeatureDefn.geomType = wkbMultiPoint ∧
    (readCalls intEnv 2 (reopen multiPointWritten.2)).map
        (fun r => r.1.map (fun o => o.map (fun f => f.poGeom))) =
      some [some (some (.multiPoint [])), none] := by
  decide

/-! ## The CRS name taken from the native CRS -/

/-- C40. What the code does with a native CRS text that lists several CRS: with
`EPSG:4326 EPSG:32611` and no `SRS` override, `osCRS` becomes `EPSG:432`, the text
before the first space less its last character, because `osCRS.resize(nDivider - 1)`
cuts one character before the divider; likewise `AUTO:42001 EPSG:4326` gives
`AUTO:4200` and `ogc:CRS84 EPSG:4326` gives `ogc:CRS8`. -/
theorem C40_native_crs_cut_short :
    findSpace "EPSG:4326 EPSG:32611".data = some 9 ∧
    ExtractGridInfo_osCRS [] (some "EPSG:4326 EPSG:32611".data) none true
        ⟨false, some "EPSG".data, some "4326".data⟩ = some "EPSG:432".data ∧
    ExtractGridInfo_osCRS [] (some "AUTO:42001 EPSG:4326".data) none true ⟨true, none, none⟩ =
      some "AUTO:4200".data ∧
    ExtractGridInfo_osCRS [] (some "ogc:CRS84 EPSG:4326".data) none true ⟨true, none, none⟩ =
      some "ogc:CRS8".data := by
  decide

/-! ## A feature without geometry and the header -/

set_option maxRecDepth 100000 in
/-- C36 fails when the header is not yet complete: on a new layer in update mode
`CreateField` succeeds; after a call of `ICreateFeature` with a feature without
geometry, which is refused, the file holds the sentinel line, the two flags are set,
and the same `CreateField` fails. -/
theorem C36_counterexample :
    (openLayer "" true).bUpdate = true ∧ (openLayer "" true).bHeaderComplete = false ∧
    (openLayer "" true).bRegionComplete = false ∧
    (CreateField (openLayer "" true) ⟨"name".data, OFTString⟩ false).1 = OGRERR_NONE ∧
    (ICreateFeature intEnv (openLayer "" true) ⟨-1, none, none, []⟩).1 = OGRERR_FAILURE ∧
    afterNoGeometry.m_fp.data = "# FEATURE_DATA\n".data ∧
    afterNoGeometry.bHeaderComplete = true ∧ afterNoGeometry.bRegionComplete = true ∧
    (CreateField afterNoGeometry ⟨"name".data, OFTString⟩ false).1 = OGRERR_FAILURE := by
  decide

/-- C36, amended. On an update-mode layer a call of `ICreateFeature` with a feature
without geometry returns failure. If the header is complete, the layer, its file
included, is left as it was. If the header is not complete, the call completes it as
`CompleteHeader` does without a geometry: on a device that accepts every write it
writes the field name and field type lines, if there are fields, and the sentinel, and
no geometry marker; it sets the header-complete and region-complete flags and leaves
the schema and the geometry kind as they were; every later `CreateField` fails. -/
theorem C36_rejected_call_completes_header {α : Type} [LinearOrder α] (env : Env α)
    (L : OGRGmtLayer α) (f : OGRFeature α) (hU : L.bUpdate = true) (hg : f.poGeom = none) :
    (ICreateFeature env L f).1 = OGRERR_FAILURE ∧
    (L.bHeaderComplete = true → (ICreateFeature env L f).2 = L) ∧
    (L.bHeaderComplete = false →
      (ICreateFeature env L f).2 = (CompleteHeader L none).2 ∧
      (ICreateFeature env L f).2.bHeaderComplete = true ∧
      (ICreateFeature env L f).2.bRegionComplete = true ∧
      (ICreateFeature env L f).2.poFeatureDefn = L.poFeatureDefn ∧
      (L.m_fp.quota = none →
        writtenSince L (ICreateFeature env L f).2 =
          (if L.poFeatureDefn.fields.length > 0 then
            [(PrintfSite.fieldNames, "# @N".data ++ List.intercalate "|".data
                (L.poFeatureDefn.fields.map (fun fd => fd.name)) ++ "\n".data),
             (PrintfSite.fieldTypes, "# @T".data ++ List.intercalate "|".data
                (L.poFeatureDefn.fields.map (fun fd => fieldTypeWord fd.type)) ++ "\n".data)]
           else []) ++ [(PrintfSite.featureData, "# FEATURE_DATA\n".data)]) ∧
      ∀ (poField : OGRFieldDefn) (bApproxOK : Bool),
        CreateField (ICreateFeature env L f).2 poField bApproxOK =
          (OGRERR_FAILURE, (ICreateFeature env L f).2)) := by
  refine ⟨?_, ?_, ?_⟩
  · by_cases hH : L.bHeaderComplete = true
    · simp [ICreateFeature, hU, hH, hg]
    · have hH' : L.bHeaderComplete = false := by simpa using hH
      simp [ICreateFeature, hU, hH', hg, CompleteHeader_fst]
  · intro hH
    simp [ICreateFeature, hU, hH, hg]
  intro hH
  have e : ICreateFeature env L f = (OGRERR_FAILURE, (CompleteHeader L none).2) := by
    simp [ICreateFeature, hU, hH, hg, CompleteHeader_fst]
  obtain ⟨_, s2, s3, s4, _, _, s7, _⟩ := CompleteHeader_spec L (none : Option (OGRGeometry α))
  rw [e]
  refine ⟨rfl, s2, s3, s7, ?_, ?_⟩
  · intro hq
    have t := CompleteHeader_traced L (none : Option (OGRGeometry α)) hq
    rw [writtenSince_eq L _ _ t.2]
    simp [headerTrace]
  · intro poField b
    have hu : (CompleteHeader L (none : Option (OGRGeometry α))).2.bUpdate = true := by
      rw [s4]; exact hU
    simp [CreateField, hu, s2]

set_option maxRecDepth 100000 in
/-- C36, amended, at a new layer with one field: the refused call writes the three
header lines. -/
theorem C36_rejected_call_completes_header_witness :
    (CreateField (openLayer "" true) ⟨"name".data, OFTString⟩ false).2.bUpdate = true ∧
    (⟨-1, none, none, [some "x".data]⟩ : OGRFeature Int).poGeom = none ∧
    (ICreateFeature intEnv (CreateField (openLayer "" true) ⟨"name".data, OFTString⟩ false).2
      ⟨-1, none, none, [some "x".data]⟩).1 = OGRERR_FAILURE ∧
    (ICreateFeature intEnv (CreateField (openLayer "" true) ⟨"name".data, OFTString⟩ false).2
      ⟨-1, none, none, [some "x".data]⟩).2.m_fp.data =
      "# @Nname\n# @Tstring\n# FEATURE_DATA\n".data :=
  ⟨by decide, rfl,
    (C36_rejected_call_completes_header intEnv
      (CreateField (openLayer "" true) ⟨"name".data, OFTString⟩ false).2
      ⟨-1, none, none, [some "x".data]⟩ (by decide) rfl).1, by decide⟩

/-! ## The end of the features -/

theorem onSeparator_break {α : Type} (s s1 : Assembly α)
    (h : onSeparator s = some (true, s1)) : s1.poGeom ≠ none := by
  obtain ⟨b, s2, e, _, _, _, _, hiff, _⟩ := onSeparator_spec s
  rw [e] at h
  simp only [Option.some.injEq, Prod.mk.injEq] at h
  obtain ⟨hb, hs⟩ := h
  subst hb hs
  intro hn
  have h0 := hiff.mpr hn
  unfold onSeparator at e
  rw [h0] at e
  dsimp only at e
  split at e <;> simp at e

theorem loopBody_break {α : Type} (env : Env α) (s s1 : Assembly α)
    (h : loopBody env s = some (true, s1)) : s1.poGeom ≠ none := by
  unfold loopBody at h
  split at h
  · exact onSeparator_break s s1 h
  · split at h <;> simp at h

/-- When the loop of `GetNextRawFeature` is left without a geometry, it is left at an
empty current line. -/
theorem assembleLoop_none {α : Type} (env : Env α) (fuel : Nat) :
    ∀ s s1 : Assembly α, assembleLoop env fuel s = some s1 → s1.poGeom = none →
      s1.layer.osLine = [] := by
  induction fuel with
  | zero => intro s s1 h; simp [assembleLoop] at h
  | succ n ih =>
    intro s s1 h hn
    simp only [assembleLoop] at h
    by_cases h0 : s.layer.osLine.length = 0
    · simp only [h0, beq_self_eq_true, if_true, Option.some.injEq] at h
      subst h
      exact List.length_eq_zero.mp h0
    · have hb : (s.layer.osLine.length == 0) = false := by simpa using h0
      simp only [hb, Bool.false_eq_true, if_false] at h
      cases hl : loopBody env s with
      | none => rw [hl] at h; simp at h
      | some r =>
        obtain ⟨b, s2⟩ := r
        rw [hl] at h
        cases b with
        | true =>
          simp only [Option.some.injEq] at h
          subst h
          exact absurd hn (loopBody_break env s s2 hl)
        | false =>
          dsimp only at h
          split at h
          · rename_i p hp
            simp only [Option.some.injEq] at h
            subst h
            rw [show ({ s2 with layer := (ReadLine s2.layer).2 } : Assembly α).poGeom =
              s2.poGeom from rfl, hp] at hn
            cases hn
          · exact ih _ _ h hn

theorem GetNextRawFeature_empty {α : Type} (env : Env α) (L : OGRGmtLayer α)
    (h : L.osLine = []) : GetNextRawFeature env L = some (none, L) := by
  unfold GetNextRawFeature
  rw [assembleLoop_empty env (L.m_fp.data.length + 1) ⟨L, [], none⟩ h]

theorem readCalls_empty {α : Type} (env : Env α) (L : OGRGmtLayer α) (h : L.osLine = []) :
    ∀ n, readCalls env n L = some (List.replicate n none, L) := by
  intro n
  induction n with
  | zero => rfl
  | succ n ih =>
    simp only [readCalls, GetNextRawFeature_empty env L h, ih, List.replicate_succ]

/-- C33. `GetNextRawFeature` always returns, and it returns none exactly when its loop
is left at an empty current line (a blank line or the end of the file) with no
geometry accumulated; the layer it then leaves is the one the loop was left with, no
further line being read. A call made when the current line is empty returns none and
leaves the layer as it is. So after a call has returned none, every later call returns
none and leaves the layer as it is, also after a `ResetReading` made when no feature
has been read, which changes nothing. -/
theorem C33_none_at_empty_line {α : Type} (env : Env α) (L : OGRGmtLayer α) :
    (∃ s r L1, assembleLoop env (L.m_fp.data.length + 2) ⟨L, [], none⟩ = some s ∧
      GetNextRawFeature env L = some (r, L1) ∧
      (r = none ↔ s.layer.osLine = [] ∧ s.poGeom = none) ∧
      (r = none → L1 = s.layer ∧ L1.osLine = [] ∧
        (∀ n, readCalls env n L1 = some (List.replicate n none, L1)) ∧
        (L1.iNextFID = 0 → ResetReading L1 = L1 ∧
          ∀ n, readCalls env n (ResetReading L1) = some (List.replicate n none, L1)))) ∧
    (L.osLine = [] → GetNextRawFeature env L = some (none, L)) := by
  refine ⟨?_, GetNextRawFeature_empty env L⟩
  obtain ⟨s, hs, _⟩ := assembleLoop_total env (L.m_fp.data.length + 2) ⟨L, [], none⟩
    (Or.inl (by unfold bytesLeft; dsimp only; omega))
  cases hg : s.poGeom with
  | none =>
    have he := assembleLoop_none env _ _ _ hs hg
    have e : GetNextRawFeature env L = some (none, s.layer) := by
      unfold GetNextRawFeature
      rw [hs]
      dsimp only
      rw [hg]
    refine ⟨s, none, s.layer, hs, e, ⟨fun _ => ⟨he, hg⟩, fun _ => rfl⟩, fun _ => ?_⟩
    refine ⟨rfl, he, readCalls_empty env _ he, fun h0 => ?_⟩
    have hr : ResetReading s.layer = s.layer := by
      simp [ResetReading, h0]
    rw [hr]
    exact ⟨rfl, readCalls_empty env _ he⟩
  | some g =>
    have e := GetNextRawFeature_of_loop env L s.layer s.osFieldData g
      (by rw [hs]; cases s; simp only at hg; rw [hg])
    refine ⟨s, _, _, hs, e, ⟨fun h => (by cases h), fun h => ?_⟩, fun h => (by cases h)⟩
    rw [hg] at h
    cases h.2

set_option maxRecDepth 100000 in
/-- C33, at a point file in which a blank line is followed by a vertex line: after the
first feature the calls return none, and the vertex line `3 4` is never read. -/
theorem C33_none_at_empty_line_witness :
    (firstFeatureRead "# @GPOINT\n# FEATURE_DATA\n1 2\n\n3 4\n").poGeom =
      some (.point (mkPoint 1 2)) ∧
    (afterFirstRead "# @GPOINT\n# FEATURE_DATA\n1 2\n\n3 4\n").osLine = [] ∧
    GetNextRawFeature intEnv (afterFirstRead "# @GPOINT\n# FEATURE_DATA\n1 2\n\n3 4\n") =
      some (none, afterFirstRead "# @GPOINT\n# FEATURE_DATA\n1 2\n\n3 4\n") ∧
    readCalls intEnv 3 (afterFirstRead "# @GPOINT\n# FEATURE_DATA\n1 2\n\n3 4\n") =
      some ([none, none, none], afterFirstRead "# @GPOINT\n# FEATURE_DATA\n1 2\n\n3 4\n") :=
  ⟨by decide, by decide,
    (C33_none_at_empty_line intEnv
      (afterFirstRead "# @GPOINT\n# FEATURE_DATA\n1 2\n\n3 4\n")).2 (by decide),
    by decide⟩

/-! ## What `ScanAheadForHole` finds -/

theorem isHoleComment_comment {l : Str} (h : isHoleComment l = true) : charAt l 0 = '#' := by
  simp only [isHoleComment, Bool.and_eq_true, beq_iff_eq] at h
  exact h.1

theorem dropWhile_head_not {β : Type} (p : β → Bool) (ls : List β) (h : β) (rest : List β)
    (hd : ls.dropWhile p = h :: rest) : ¬ p h = true := by
  induction ls with
  | nil => simp at hd
  | cons l ls ih =>
    by_cases hp : p l = true
    · rw [List.dropWhile_cons_of_pos hp] at hd; exact ih hd
    · rw [List.dropWhile_cons_of_neg hp] at hd
      simp only [List.cons.injEq] at hd
      rw [← hd.1]; exact hp

/-- C35. `ScanAheadForHole` always returns. It returns true exactly when, among the
lines not yet read, the leading run of lines that begin with `#` holds a line whose
keyed values are present with `H` as the key of the first. When it returns false, the
file handle, its position included, and the current line are as before the call. When
it returns true, the lines not yet read were comment lines without such a first key,
then the first line `h` that has it, then the lines `rest`: the current line is `h`,
its keyed values are in `papszKeyedValues`, and the lines not yet read are `rest`. -/
theorem C35_scan_ahead_finds_first_hole {α : Type} (L : OGRGmtLayer α) :
    ∃ b L1, ScanAheadForHole L = some (b, L1) ∧
      (b = true ↔ ∃ l ∈ commentRun (unreadLines L), isHoleComment l = true) ∧
      (b = false → L1.m_fp = L.m_fp ∧ L1.m_fp.pos = L.m_fp.pos ∧ L1.osLine = L.osLine) ∧
      (b = true → ∃ cs h rest, unreadLines L = cs ++ h :: rest ∧
        (∀ c ∈ cs, charAt c 0 = '#' ∧ isHoleComment c = false) ∧
        isHoleComment h = true ∧ L1.osLine = h ∧
        L1.papszKeyedValues = lineKeyedValues h ∧ unreadLines L1 = rest) := by
  obtain ⟨b, L1, e1, _, _, _, _, e6, _⟩ := ScanAheadForHole_spec L
  have hat : AtLines L.m_fp (unreadLines L) := rfl
  have hsplit : unreadLines L =
      (unreadLines L).takeWhile (fun l => charAt l 0 == '#' && !isHoleComment l) ++
      (unreadLines L).dropWhile (fun l => charAt l 0 == '#' && !isHoleComment l) :=
    (List.takeWhile_append_dropWhile _ _).symm
  have hsk : skippedByHoleScan
      ((unreadLines L).takeWhile (fun l => charAt l 0 == '#' && !isHoleComment l)) := by
    intro c hc
    have := List.mem_takeWhile_imp hc
    simp only [Bool.and_eq_true, beq_iff_eq, Bool.not_eq_true'] at this
    exact this
  have hhead : ∀ h rest1,
      (unreadLines L).dropWhile (fun l => charAt l 0 == '#' && !isHoleComment l) = h :: rest1 →
      charAt h 0 ≠ '#' ∨ isHoleComment h = true := by
    intro h rest1 hd
    have h0 := dropWhile_head_not (fun l => charAt l 0 == '#' && !isHoleComment l)
      (unreadLines L) h rest1 hd
    simp only [Bool.and_eq_true, beq_iff_eq, Bool.not_eq_true', not_and,
      Bool.not_eq_false] at h0
    by_cases hc : charAt h 0 = '#'
    · exact Or.inr (h0 hc)
    · exact Or.inl hc
  generalize hcs : (unreadLines L).takeWhile
    (fun l => charAt l 0 == '#' && !isHoleComment l) = cs at hsplit hsk
  generalize hrs : (unreadLines L).dropWhile
    (fun l => charAt l 0 == '#' && !isHoleComment l) = rs at hsplit hhead
  have hlen := hat.length_le
  rw [hsplit] at hat hlen
  have hfuel : cs.length + 1 ≤ L.m_fp.data.length + 1 := by
    simp only [List.length_append] at hlen
    omega
  obtain ⟨s1, s2⟩ := scanHoleLoop_lines cs rs (L.m_fp.data.length + 1) L hfuel hat hsk
  have hall : ∀ c ∈ cs, (fun l : Str => charAt l 0 == '#') c = true := by
    intro c hc
    simp only [beq_iff_eq]
    exact (hsk c hc).1
  have hrun : commentRun (unreadLines L) = cs ++ commentRun rs := by
    unfold commentRun
    rw [hsplit, List.takeWhile_append_of_pos hall]
  -- the two cases
  by_cases hhole : ∃ h rest1, rs = h :: rest1 ∧ isHoleComment h = true
  · obtain ⟨h, rest1, hr, hh⟩ := hhole
    obtain ⟨L2, f1, f2⟩ := s1 h rest1 hr hh
    have e2 : ScanAheadForHole L = some (true, L2) := by
      simp only [ScanAheadForHole, f1]
    rw [e2] at e1
    simp only [Option.some.injEq, Prod.mk.injEq] at e1
    obtain ⟨hb, hL⟩ := e1
    subst hb hL
    refine ⟨true, L2, e2, ⟨fun _ => ⟨h, ?_, hh⟩, fun _ => rfl⟩, fun hf => (by cases hf), fun _ => ?_⟩
    · rw [hrun, hr]
      unfold commentRun
      have hc := isHoleComment_comment hh
      simp [hc]
    · exact ⟨cs, h, rest1, by rw [hsplit, hr], hsk, hh, f2.1.1, f2.1.2.1 (isHoleComment_comment hh),
        f2.1.2.2⟩
  · have hno : noCommentAhead rs := by
      unfold noCommentAhead
      cases hr : rs with
      | nil => simp [charAt]
      | cons h rest1 =>
        rcases hhead h rest1 hr with hc | hc
        · simpa using hc
        · exact absurd ⟨h, rest1, hr, hc⟩ hhole
    obtain ⟨L2, f1⟩ := s2 hno
    have hb : b = false := by
      simp only [ScanAheadForHole, f1] at e1
      cases b with
      | false => rfl
      | true => simp at e1
    subst hb
    refine ⟨false, L1, e1, ⟨fun hf => (by cases hf), fun hex => ?_⟩,
      fun _ => ⟨(e6 rfl).1, by rw [(e6 rfl).1], (e6 rfl).2⟩, fun hf => (by cases hf)⟩
    exfalso
    obtain ⟨l, hl, hh⟩ := hex
    have hrs0 : commentRun rs = [] := by
      unfold commentRun
      cases hr : rs with
      | nil => rfl
      | cons h rest1 =>
        have h0 : charAt ((h :: rest1).headD []) 0 ≠ '#' := by rw [← hr]; exact hno
        have h1 : (charAt h 0 == '#') = false := by simpa using h0
        simp [List.takeWhile_cons, h1]
    rw [hrun, hrs0, List.append_nil] at hl
    have := (hsk l hl).2
    rw [hh] at this
    cases this

/-! ## The keyed-value scan stays inside the line -/

theorem scanValueEnd_bounds (osLine : Str) :
    ∀ (fuel i : Nat) (q : Bool), i ≤ osLine.length →
      i ≤ scanValueEnd osLine fuel i q ∧ scanValueEnd osLine fuel i q ≤ osLine.length := by
  intro fuel
  induction fuel with
  | zero => intro i q h; exact ⟨le_refl _, h⟩
  | succ n ih =>
    intro i q h
    simp only [scanValueEnd]
    split
    · rename_i hlt
      split
      · exact ⟨le_refl _, h⟩
      · split
        · rename_i hq
          simp only [Bool.and_eq_true, decide_eq_true_eq] at hq
          have := ih (i + 1 + 1) q (by omega)
          exact ⟨by omega, this.2⟩
        · split
          · have := ih (i + 1) (!q) (by omega)
            exact ⟨by omega, this.2⟩
          · have := ih (i + 1) q (by omega)
            exact ⟨by omega, this.2⟩
    · exact ⟨le_refl _, h⟩

theorem scanValueEndChecked_eq (osLine : Str) :
    ∀ (fuel i : Nat) (q : Bool), i ≤ osLine.length → osLine.length ≤ fuel + i →
      scanValueEndChecked osLine fuel i q = some (scanValueEnd osLine fuel i q) := by
  intro fuel
  induction fuel with
  | zero =>
    intro i q h1 h2
    simp only [scanValueEndChecked, scanValueEnd]
    rw [if_neg (by omega)]
  | succ n ih =>
    intro i q h1 h2
    simp only [scanValueEndChecked, scanValueEnd]
    by_cases hlt : i < osLine.length
    · simp only [hlt, if_true, readAt]
      split
      · rfl
      · split
        · rename_i hq
          simp only [Bool.and_eq_true, decide_eq_true_eq] at hq
          exact ih (i + 1 + 1) q (by omega) (by omega)
        · split
          · exact ih (i + 1) (!q) (by omega) (by omega)
          · exact ih (i + 1) q (by omega) (by omega)
    · simp only [hlt, if_false]

theorem scanKeyedValuesChecked_eq (osLine : Str) :
    ∀ (fuel i : Nat), osLine.length ≤ fuel + i →
      scanKeyedValuesChecked osLine fuel i = some (scanKeyedValues osLine fuel i) := by
  intro fuel
  induction fuel with
  | zero =>
    intro i h
    simp only [scanKeyedValuesChecked, scanKeyedValues]
    rw [if_neg (by omega)]
  | succ n ih =>
    intro i h
    simp only [scanKeyedValuesChecked, scanKeyedValues]
    by_cases hlt : i < osLine.length
    · simp only [hlt, if_true, readAt]
      by_cases hat : (charAt osLine i == '@' && decide (i + 2 ≤ osLine.length)) = true
      · simp only [hat, if_true]
        have h2 : i + 2 ≤ osLine.length := by
          simp only [Bool.and_eq_true, decide_eq_true_eq] at hat
          exact hat.2
        obtain ⟨b1, b2⟩ := scanValueEnd_bounds osLine osLine.length (i + 2) false h2
        rw [scanValueEndChecked_eq osLine osLine.length (i + 2) false h2 (by omega)]
        dsimp only
        have hc : (decide (scanValueEnd osLine osLine.length (i + 2) false < i + 2) ||
            decide (osLine.length < scanValueEnd osLine osLine.length (i + 2) false)) = false := by
          simp only [Bool.or_eq_false_iff, decide_eq_false_iff_not]
          omega
        rw [if_neg (by rw [hc]; decide)]
        simp only [substrChecked]
        rw [if_pos h2, if_pos (by omega)]
        dsimp only
        rw [ih _ (by omega)]
        rfl
      · simp only [hat, Bool.false_eq_true, if_false]
        exact ih (i + 1) (by omega)
    · simp only [hlt, if_false]

theorem scanKeyedValues_entries (osLine : Str) :
    ∀ (fuel i : Nat), ∀ e ∈ scanKeyedValues osLine fuel i, e ≠ [] := by
  intro fuel
  induction fuel with
  | zero => intro i e he; simp [scanKeyedValues] at he
  | succ n ih =>
    intro i e he
    simp only [scanKeyedValues] at he
    split at he
    · split at he
      · rename_i hlt hat
        simp only [Bool.and_eq_true, decide_eq_true_eq] at hat
        simp only [List.mem_cons] at he
        rcases he with he | he
        · rw [he]
          have hd : 0 < ((osLine.drop (i + 1)).take 1).length := by
            simp only [List.length_take, List.length_drop]
            omega
          intro hn
          have := congrArg List.length hn
          simp only [List.length_append, List.length_nil] at this
          omega
        · exact ih _ e he
      · exact ih _ e he
    · cases he

/-- C39. For every line the keyed-value scan of `ReadLine`, run with the bounds the
code gives it, ends and makes no access out of range: the scan in which every read of
a character must be below the length of the line, every `substr` must start within the
line and every value must end between its start and the end of the line, never fails
and yields what the plain scan yields; the end of a value scanned from an index within
the line lies between that index and the length of the line. After `ReadLine` the
keyed values are absent or hold at least one entry, and every entry holds at least one
character, so the first character of the first entry exists. -/
theorem C39_keyed_value_scan_in_range {α : Type} (osLine : Str) (L : OGRGmtLayer α) :
    lineKeyedValuesChecked osLine = some (lineKeyedValues osLine) ∧
    scanKeyedValuesChecked osLine osLine.length 0 =
      some (scanKeyedValues osLine osLine.length 0) ∧
    (∀ (i : Nat) (q : Bool), i ≤ osLine.length →
      scanValueEndChecked osLine osLine.length i q =
        some (scanValueEnd osLine osLine.length i q) ∧
      i ≤ scanValueEnd osLine osLine.length i q ∧
      scanValueEnd osLine osLine.length i q ≤ osLine.length) ∧
    (∀ kv, lineKeyedValues osLine = some kv → kv ≠ [] ∧ (∀ e ∈ kv, e ≠ []) ∧
      ∃ c cs rest, kv = (c :: cs) :: rest) ∧
    (∀ kv, (ReadLine L).2.papszKeyedValues = some kv → kv ≠ [] ∧ (∀ e ∈ kv, e ≠ []) ∧
      ∃ c cs rest, kv = (c :: cs) :: rest) := by
  have hkv : ∀ (l : Str) kv, lineKeyedValues l = some kv → kv ≠ [] ∧ (∀ e ∈ kv, e ≠ []) ∧
      ∃ c cs rest, kv = (c :: cs) :: rest := by
    intro l kv h
    unfold lineKeyedValues at h
    split at h
    · cases h
    · unfold StealList at h
      split at h
      · cases h
      · rename_i hne
        simp only [Option.some.injEq] at h
        have hall := scanKeyedValues_entries l l.length 0
        rw [h] at hall hne
        refine ⟨by intro e; rw [e] at hne; exact hne rfl, hall, ?_⟩
        cases kv with
        | nil => exact absurd rfl hne
        | cons e rest =>
          cases e with
          | nil => exact absurd rfl (hall [] (by simp))
          | cons c cs => exact ⟨c, cs, rest, rfl⟩
  refine ⟨?_, scanKeyedValuesChecked_eq osLine osLine.length 0 (by omega), ?_, hkv osLine, ?_⟩
  · unfold lineKeyedValuesChecked lineKeyedValues
    split
    · rfl
    · rw [scanKeyedValuesChecked_eq osLine osLine.length 0 (by omega)]
      rfl
  · intro i q h
    exact ⟨scanValueEndChecked_eq osLine osLine.length i q h (by omega),
      scanValueEnd_bounds osLine osLine.length i q h⟩
  · intro kv h
    rw [(ReadLine_frame L).2.2.1] at h
    exact hkv _ kv h

/-! ## The members of a multi line string -/

theorem memberLines_cons (b : Str × List Str) (bs : List (Str × List Str)) :
    memberLines (b :: bs) = b.1 :: (b.2 ++ memberLines bs) := by
  simp [memberLines]

theorem memberSteps_cons (b : Str × List Str) (bs : List (Str × List Str)) :
    memberSteps (b :: bs) = b.2.length + 1 + memberSteps bs := by
  simp [memberSteps]

theorem memberSteps_le (bs : List (Str × List Str)) :
    memberSteps bs ≤ (memberLines bs).length := by
  induction bs with
  | nil => simp [memberSteps]
  | cons b bs ih =>
    rw [memberSteps_cons, memberLines_cons]
    simp only [List.length_cons, List.length_append]
    omega

theorem isFeatureComment_of_not_comment {l : Str} (h : charAt l 0 ≠ '#') :
    isFeatureComment l = false := by
  have : (charAt l 0 == '#') = false := by simpa using h
  simp [isFeatureComment, this]

/-- The line after a `>` line that begins a member is not an attribute line: it is a
vertex line, the next `>` line, or the first of the lines that follow the members. -/
theorem next_not_feature {α : Type} (env : Env α) (vs : List Str) (bs : List (Str × List Str))
    (fin : List Str) (hvs : ∀ v ∈ vs, isVertexLine env v = true)
    (hbs : ∀ b ∈ bs, charAt b.1 0 = '>')
    (hfin : isFeatureComment (fin.headD []) = false) :
    isFeatureComment ((vs ++ (memberLines bs ++ fin)).headD []) = false := by
  cases vs with
  | cons v vs =>
    exact isFeatureComment_of_not_comment (isVertexLine_iff env v (hvs v (by simp))).2.2.1
  | nil =>
    cases bs with
    | nil => simpa [memberLines] using hfin
    | cons b bs =>
      rw [memberLines_cons]
      apply isFeatureComment_of_not_comment
      show charAt b.1 0 ≠ '#'
      rw [hbs b (by simp)]
      decide

/-- The line strings of a multi line string after the first, read by the loop of
`GetNextRawFeature`: each `>` line begins a line string, which receives the vertex
lines after it. -/
theorem run_members {α : Type} (env : Env α) (n : Nat) (fin : List Str)
    (hfin : isFeatureComment (fin.headD []) = false) :
    ∀ (bs : List (Str × List Str)) (L : OGRGmtLayer α) (fd : Str)
      (lsDone : List (OGRLineString α)) (lLast : OGRLineString α),
      Cur L ((memberLines bs ++ fin).headD []) (memberLines bs ++ fin).tail →
      (∀ b ∈ bs, charAt b.1 0 = '>' ∧ ∀ v ∈ b.2, isVertexLine env v = true) →
      ∃ L1, assembleLoop env (memberSteps bs + n)
            ⟨L, fd, some (.multiLineString (lsDone ++ [lLast]))⟩ =
          assembleLoop env n ⟨L1, fd, some (.multiLineString
            (lsDone ++ [lLast] ++ bs.map (fun b => ringOfLines env b.2)))⟩ ∧
        Moved L L1 (fin.headD []) fin.tail := by
  intro bs
  induction bs with
  | nil =>
    intro L fd lsDone lLast hcur _
    refine ⟨L, ?_, Moved.same hcur⟩
    simp [memberSteps]
  | cons b bs ih =>
    intro L fd lsDone lLast hcur hall
    rw [memberLines_cons] at hcur
    have hb := hall b (by simp)
    have hc0 : Cur L b.1 (b.2 ++ (memberLines bs ++ fin)) := by
      simpa using hcur
    have hnf := next_not_feature env b.2 bs fin hb.2
      (fun x hx => (hall x (by simp [hx])).1) hfin
    obtain ⟨L1, e1, m1⟩ := step_sep_multiline_new env (b.2.length + (memberSteps bs + n)) L fd
      (lsDone ++ [lLast]) b.1 (b.2 ++ (memberLines bs ++ fin)) hc0 hb.1 hnf
    obtain ⟨L2, e2, m2⟩ := run_vertices env (memberSteps bs + n) (memberLines bs ++ fin) b.2 L1
      fd (.multiLineString ((lsDone ++ [lLast]) ++ [OGRLineString.empty])) m1.1 hb.2 rfl
    have eg : b.2.foldl (storeLine env)
        (.multiLineString ((lsDone ++ [lLast]) ++ [OGRLineString.empty])) =
        .multiLineString ((lsDone ++ [lLast]) ++ [ringOfLines env b.2]) :=
      foldl_storeLine_multiLineString env b.2 (lsDone ++ [lLast]) OGRLineString.empty
    rw [eg] at e2
    obtain ⟨L3, e3, m3⟩ := ih L2 fd (lsDone ++ [lLast]) (ringOfLines env b.2) m2.1
      (fun x hx => hall x (by simp [hx]))
    refine ⟨L3, ?_, (m1.andThen m2).andThen m3⟩
    rw [memberSteps_cons, show b.2.length + 1 + memberSteps bs + n =
      b.2.length + (memberSteps bs + n) + 1 by omega, e1, e2, e3]
    simp [List.append_assoc]

/-- A multi line string read by `GetNextRawFeature` in a layer of kind multi line string
whose reader stands at the first of these lines: comment and `>` lines, the vertex
lines of the first line string, the `>` lines and vertex lines of the later ones, and
the lines that end the feature. -/
theorem GetNextRawFeature_multiline {α : Type} (env : Env α) (L : OGRGmtLayer α)
    (pre : List Str) (v0 : Str) (vs0 : List Str) (bs : List (Str × List Str))
    (fin : List Str) (hk : L.poFeatureDefn.geomType = wkbMultiLineString)
    (hcur : Cur L ((pre ++ (v0 :: (vs0 ++ (memberLines bs ++ fin)))).headD [])
      (pre ++ (v0 :: (vs0 ++ (memberLines bs ++ fin)))).tail)
    (hpre : ∀ c ∈ pre, charAt c 0 = '#' ∨ charAt c 0 = '>')
    (hv0 : ∀ v ∈ v0 :: vs0, isVertexLine env v = true)
    (hbs : ∀ b ∈ bs, charAt b.1 0 = '>' ∧ ∀ v ∈ b.2, isVertexLine env v = true)
    (hfin : endsMultiLine fin) :
    ∃ f L1, GetNextRawFeature env L = some (some f, L1) ∧
      f.poGeom = some (.multiLineString
        (ringOfLines env (v0 :: vs0) :: bs.map (fun b => ringOfLines env b.2))) ∧
      f.nFID = (L.iNextFID : Int) ∧ Cur L1 (fin.headD []) fin.tail := by
  have hfin0 : isFeatureComment (fin.headD []) = false := by
    rcases hfin with h0 | ⟨sep, rest, hf, hs, _⟩
    · rw [h0]; rfl
    · rw [hf]
      apply isFeatureComment_of_not_comment
      show charAt sep 0 ≠ '#'
      rw [hs]; decide
  have hlen := hcur.2.2.length_le
  have hsl := memberSteps_le bs
  obtain ⟨m, hm⟩ : ∃ m, L.m_fp.data.length + 2 =
      pre.length + (1 + (vs0.length + (memberSteps bs + (m + 1)))) := by
    refine ⟨L.m_fp.data.length + 2 - (pre.length + (1 + (vs0.length + (memberSteps bs + 1)))), ?_⟩
    have : (pre ++ (v0 :: (vs0 ++ (memberLines bs ++ fin)))).tail.length + 1 =
        (pre ++ (v0 :: (vs0 ++ (memberLines bs ++ fin)))).length := by
      cases pre <;> simp
    simp only [List.length_append, List.length_cons] at this
    omega
  have hkU : L.poFeatureDefn.geomType ≠ wkbUnknown := by rw [hk]; decide
  obtain ⟨La, ea, ma⟩ := run_before_geometry env (1 + (vs0.length + (memberSteps bs + (m + 1))))
    (v0 :: (vs0 ++ (memberLines bs ++ fin))) pre L [] hcur hpre hkU
  have hka : La.poFeatureDefn.geomType = wkbMultiLineString := by rw [ma.2.2]; exact hk
  obtain ⟨Lb, eb, mb⟩ := step_vertex_first env (vs0.length + (memberSteps bs + (m + 1)))
    La (pre.foldl fieldDataAfter []) v0 (vs0 ++ (memberLines bs ++ fin)) ma.1
    (hv0 v0 (by simp)) (by rw [hka]; rfl)
  rw [hka] at eb
  obtain ⟨Lc, ec, mc⟩ := run_vertices env (memberSteps bs + (m + 1)) (memberLines bs ++ fin) vs0 Lb
    (pre.foldl fieldDataAfter []) (storeLine env (newGeometry wkbMultiLineString) v0) mb.1
    (fun v hv => hv0 v (by simp [hv])) rfl
  have eg1 : vs0.foldl (storeLine env) (storeLine env (newGeometry wkbMultiLineString) v0) =
      .multiLineString ([] ++ [ringOfLines env (v0 :: vs0)]) := by
    have := foldl_storeLine_multiLineString env (v0 :: vs0) [] (OGRLineString.empty (α := α))
    simpa [ringOfLines, newGeometry] using this
  rw [eg1] at ec
  obtain ⟨Ld, ed, md⟩ := run_members env (m + 1) fin hfin0 bs Lc (pre.foldl fieldDataAfter []) []
    (ringOfLines env (v0 :: vs0)) mc.1 hbs
  have hrun : assembleLoop env (L.m_fp.data.length + 2) ⟨L, [], none⟩ =
      assembleLoop env (m + 1) ⟨Ld, pre.foldl fieldDataAfter [],
        some (.multiLineString
          (ringOfLines env (v0 :: vs0) :: bs.map (fun b => ringOfLines env b.2)))⟩ := by
    rw [hm, ea]
    rw [show 1 + (vs0.length + (memberSteps bs + (m + 1))) =
      vs0.length + (memberSteps bs + (m + 1)) + 1 by omega, eb, ec, ed]
    simp
  have mAll : Moved L Ld (fin.headD []) fin.tail := ((ma.andThen mb).andThen mc).andThen md
  have hend : ∃ Lg, assembleLoop env (m + 1) ⟨Ld, pre.foldl fieldDataAfter [],
        some (.multiLineString
          (ringOfLines env (v0 :: vs0) :: bs.map (fun b => ringOfLines env b.2)))⟩ =
      some ⟨Lg, pre.foldl fieldDataAfter [],
        some (.multiLineString
          (ringOfLines env (v0 :: vs0) :: bs.map (fun b => ringOfLines env b.2)))⟩ ∧
      Moved L Lg (fin.headD []) fin.tail := by
    rcases hfin with h0 | ⟨sep2, rest2, hf, h1, h2⟩
    · refine ⟨Ld, assembleLoop_empty env m _ ?_, mAll⟩
      show Ld.osLine = []
      rw [md.1.1, h0]
    · subst hf
      have c0 : Cur Ld sep2 rest2 := md.1
      obtain ⟨Lg, eg, mg⟩ := step_sep_multiline_end env m Ld (pre.foldl fieldDataAfter [])
        (ringOfLines env (v0 :: vs0) :: bs.map (fun b => ringOfLines env b.2)) sep2 rest2 c0 h1 h2
      exact ⟨Lg, eg, mAll.andThen mg⟩
  obtain ⟨Lg, eg, mg⟩ := hend
  have hall := GetNextRawFeature_of_loop env L Lg _ _ (hrun.trans eg)
  refine ⟨_, _, hall, rfl, ?_, ?_⟩
  · show ((Lg.iNextFID : Nat) : Int) = _
    rw [mg.2.1.iNextFID]
  · exact ⟨mg.1.1, mg.1.2.1, mg.1.2.2⟩

/-- C31: in a layer of kind multi line string, on a `>` line with a multi line string in
hand, `onSeparator` looks ahead with `NextIsFeature`: when the next line is not an
attribute line a new empty line string is appended, which the vertex lines after it
fill, and when it is one the loop is left with the geometry as it is. Hence a feature
whose lines are comment and `>` lines, a first block of vertex lines, further blocks
each begun by a `>` line, and then the `>` line and attribute line of the next feature
(or a blank line or the end of the file), is read as one multi line string that has a
member for every block, in the order of the file, each holding the vertices of its
block; the reader is left at the first line after the blocks. -/
theorem C31_multiline_members {α : Type} (env : Env α) (L : OGRGmtLayer α)
    (pre : List Str) (v0 : Str) (vs0 : List Str) (bs : List (Str × List Str))
    (fin : List Str) (hk : L.poFeatureDefn.geomType = wkbMultiLineString)
    (hcur : Cur L ((pre ++ (v0 :: (vs0 ++ (memberLines bs ++ fin)))).headD [])
      (pre ++ (v0 :: (vs0 ++ (memberLines bs ++ fin)))).tail)
    (hpre : ∀ c ∈ pre, charAt c 0 = '#' ∨ charAt c 0 = '>')
    (hv0 : ∀ v ∈ v0 :: vs0, isVertexLine env v = true)
    (hbs : ∀ b ∈ bs, charAt b.1 0 = '>' ∧ ∀ v ∈ b.2, isVertexLine env v = true)
    (hfin : endsMultiLine fin) :
    (∀ (s : Assembly α) (ls : List (OGRLineString α)),
      s.poGeom = some (.multiLineString ls) →
      ((NextIsFeature s.layer).1 = false →
        onSeparator s = some (false, { s with
          layer := (NextIsFeature s.layer).2
          poGeom := some (.multiLineString (ls ++ [OGRLineString.empty])) })) ∧
      ((NextIsFeature s.layer).1 = true →
        onSeparator s = some (true, { s with layer := (NextIsFeature s.layer).2 }))) ∧
    ∃ f L1, GetNextRawFeature env L = some (some f, L1) ∧
      f.poGeom = some (.multiLineString
        (ringOfLines env (v0 :: vs0) :: bs.map (fun b => ringOfLines env b.2))) ∧
      (ringOfLines env (v0 :: vs0) :: bs.map (fun b => ringOfLines env b.2)).length =
        bs.length + 1 ∧
      f.nFID = (L.iNextFID : Int) ∧ Cur L1 (fin.headD []) fin.tail := by
  refine ⟨?_, ?_⟩
  · intro s ls hs
    constructor
    · intro h
      simp [onSeparator, hs, h]
    · intro h
      simp [onSeparator, hs, h]
  · have key := fun h => GetNextRawFeature_multiline env L pre v0 vs0 bs fin hk h
    obtain ⟨f, L1, h1, h2, h3, h4⟩ := key hcur hpre hv0 hbs hfin
    exact ⟨f, L1, h1, h2, by simp, h3, h4⟩

set_option maxRecDepth 100000 in
theorem C31_multiline_members_witness :
    (openLayer threeMembersText false).poFeatureDefn.geomType = wkbMultiLineString ∧
    ((∀ (s : Assembly Int) (ls : List (OGRLineString Int)),
      s.poGeom = some (.multiLineString ls) →
      ((NextIsFeature s.layer).1 = false →
        onSeparator s = some (false, { s with
          layer := (NextIsFeature s.layer).2
          poGeom := some (.multiLineString (ls ++ [OGRLineString.empty])) })) ∧
      ((NextIsFeature s.layer).1 = true →
        onSeparator s = some (true, { s with layer := (NextIsFeature s.layer).2 }))) ∧
    ∃ f L1, GetNextRawFeature intEnv (openLayer threeMembersText false) = some (some f, L1) ∧
      f.poGeom = some (.multiLineString
        (ringOfLines intEnv ("0 0".data :: ["1 1".data]) ::
          [(">".data, ["2 2".data, "3 3".data]), (">".data, ["4 4".data, "5 5".data])].map
            (fun b => ringOfLines intEnv b.2))) ∧
      (ringOfLines intEnv ("0 0".data :: ["1 1".data]) ::
          [(">".data, ["2 2".data, "3 3".data]), (">".data, ["4 4".data, "5 5".data])].map
            (fun b => ringOfLines intEnv b.2)).length = 2 + 1 ∧
      f.nFID = ((openLayer threeMembersText false).iNextFID : Int) ∧
      Cur L1 ([">".data, "# @Db".data, "6 6".data, "7 7".data].headD [])
        [">".data, "# @Db".data, "6 6".data, "7 7".data].tail) ∧
    (ringOfLines intEnv ("0 0".data :: ["1 1".data]) ::
        [(">".data, ["2 2".data, "3 3".data]), (">".data, ["4 4".data, "5 5".data])].map
          (fun b => ringOfLines intEnv b.2)) =
      [mkLine [(0, 0), (1, 1)], mkLine [(2, 2), (3, 3)], mkLine [(4, 4), (5, 5)]] :=
  ⟨by decide,
    C31_multiline_members intEnv (openLayer threeMembersText false)
      [">".data, "# @Da".data] "0 0".data ["1 1".data]
      [(">".data, ["2 2".data, "3 3".data]), (">".data, ["4 4".data, "5 5".data])]
      [">".data, "# @Db".data, "6 6".data, "7 7".data]
      (by decide) ⟨by decide, by decide, by show fileLines _ = _; decide⟩
      (by decide) (by decide) (by decide)
      (Or.inr ⟨">".data, ["# @Db".data, "6 6".data, "7 7".data], rfl, by decide, by decide⟩),
    by decide⟩

/-! ## Reading with an undetermined geometry kind -/

/-- A `>` line met before any geometry exists, in a layer whose geometry kind is
undetermined: the kind becomes line string and the reader moves to the next line. -/
theorem step_separator_unknown {α : Type} (env : Env α) (n : Nat) (L : OGRGmtLayer α) (fd : Str)
    (cur : Str) (rest : List Str)
    (hcur : Cur L cur rest) (hc : charAt cur 0 = '>')
    (hk : L.poFeatureDefn.geomType = wkbUnknown) :
    ∃ L1, assembleLoop env (n + 1) ⟨L, fd, none⟩ = assembleLoop env n ⟨L1, fd, none⟩ ∧
      Moved (asLineStrings L) L1 (rest.headD []) rest.tail := by
  have hne : L.osLine ≠ [] := by
    rw [hcur.1]; exact charAt_ne_nil hc (by decide)
  have hb : loopBody env ⟨L, fd, none⟩ = some (false, ⟨asLineStrings L, fd, none⟩) := by
    have h1 : (charAt cur 0 == '>') = true := by rw [hc]; decide
    have h2 : (L.poFeatureDefn.geomType == wkbUnknown) = true := by rw [hk]; decide
    simp only [loopBody, hcur.1, h1, if_true, onSeparator, h2, asLineStrings]
  have hcur1 : Cur (asLineStrings L) cur rest := hcur
  refine ⟨(ReadLine (asLineStrings L)).2, ?_, ReadLine_Moved (asLineStrings L) cur rest hcur1⟩
  rw [assembleLoop_succ env n _ hne, hb]

/-- The loop of `GetNextRawFeature` in a layer of undetermined kind, standing at comment
lines followed by a vertex line: it passes the comment lines, makes a point of the
vertex line and stops after it. -/
theorem assembleLoop_point_unknown {α : Type} (env : Env α) (v : Str) (rest : List Str)
    (hv : isVertexLine env v = true) :
    ∀ (cs : List Str) (fuel : Nat) (L : OGRGmtLayer α) (fd : Str), cs.length + 1 ≤ fuel →
      L.poFeatureDefn.geomType = wkbUnknown →
      Cur L ((cs ++ v :: rest).headD []) (cs ++ v :: rest).tail →
      (∀ c ∈ cs, charAt c 0 = '#') →
      ∃ L1, assembleLoop env fuel ⟨L, fd, none⟩ =
          some ⟨L1, cs.foldl fieldDataAfter fd, some (pointOfLine env v)⟩ ∧
        Moved L L1 (rest.headD []) rest.tail := by
  obtain ⟨vne, v2, v3, v4⟩ := isVertexLine_iff env v hv
  intro cs
  induction cs with
  | nil =>
    intro fuel L fd hf hk hcur _
    obtain ⟨n, rfl⟩ : ∃ n, fuel = n + 1 := ⟨fuel - 1, by omega⟩
    obtain ⟨L1, e, m⟩ := step_vertex env n L fd none v rest hcur vne v2 v3 v4
    rw [hk] at e
    have hu : geometryAfterVertex env wkbUnknown none (scannedValues env v) =
        geometryAfterVertex env wkbPoint none (scannedValues env v) := rfl
    rw [hu, (pointOfLine_eq env v v4).1] at e
    have hp : (pointOfLine env v).isPoint = true := by
      rw [← (pointOfLine_eq env v v4).1]; exact (pointOfLine_eq env v v4).2
    rw [if_pos hp] at e
    exact ⟨L1, e, m⟩
  | cons c cs ih =>
    intro fuel L fd hf hk hcur hall
    obtain ⟨n, rfl⟩ : ∃ n, fuel = n + 1 := ⟨fuel - 1, by omega⟩
    have hc : charAt c 0 = '#' := hall c (by simp)
    obtain ⟨L1, e, m⟩ := step_comment env n L fd none c (cs ++ v :: rest) hcur hc
      (fun g0 h => by cases h)
    obtain ⟨L2, e2, m2⟩ := ih n L1 (fieldDataAfter fd c) (by simp at hf; omega)
      (by rw [m.2.2]; exact hk) m.1 (fun x hx => hall x (by simp [hx]))
    exact ⟨L2, by rw [e, e2]; rfl, m.andThen m2⟩

/-- A file of undetermined kind read from a vertex line on (after comment lines): the
feature is the point of that line and the kind stays undetermined. -/
theorem GetNextRawFeature_point_unknown {α : Type} (env : Env α) (L : OGRGmtLayer α)
    (cs : List Str) (v : Str) (rest : List Str) (hk : L.poFeatureDefn.geomType = wkbUnknown)
    (hcur : Cur L ((cs ++ v :: rest).headD []) (cs ++ v :: rest).tail)
    (hcs : ∀ c ∈ cs, charAt c 0 = '#') (hv : isVertexLine env v = true) :
    ∃ L1, GetNextRawFeature env L =
        some (some ⟨(L.iNextFID : Int), some (pointOfLine env v), L.m_poSRS,
          fieldsOfData L.poFeatureDefn.fields.length (fieldDataOf cs)⟩, L1) ∧
      Cur L1 (rest.headD []) rest.tail ∧ L1.poFeatureDefn = L.poFeatureDefn ∧
      L1.iNextFID = L.iNextFID + 1 := by
  have hlen : cs.length + 1 ≤ L.m_fp.data.length + 2 := by
    have h1 := hcur.2.2.length_le
    have h2 : (cs ++ v :: rest).tail.length = cs.length + rest.length := by
      cases cs <;> simp
      omega
    omega
  obtain ⟨L1, e, m⟩ := assembleLoop_point_unknown env v rest hv cs (L.m_fp.data.length + 2) L []
    hlen hk hcur hcs
  have hall := GetNextRawFeature_of_loop env L L1 _ _ e
  rw [m.2.2, m.2.1.iNextFID, m.2.1.m_poSRS] at hall
  exact ⟨_, hall, m.1, rfl, rfl⟩

/-- A file of undetermined kind read from a `>` line on: the kind becomes line string
and the vertex lines that follow (after comment lines), up to a `>` line, a blank line
or the end of the file, make one line string. -/
theorem GetNextRawFeature_line_unknown {α : Type} (env : Env α) (L : OGRGmtLayer α)
    (sep : Str) (cs : List Str) (v0 : Str) (vs fin : List Str)
    (hk : L.poFeatureDefn.geomType = wkbUnknown)
    (hcur : Cur L sep (cs ++ (v0 :: (vs ++ fin))))
    (hs : charAt sep 0 = '>') (hcs : ∀ c ∈ cs, charAt c 0 = '#')
    (hvs : ∀ v ∈ v0 :: vs, isVertexLine env v = true)
    (hfin : fin.headD [] = [] ∨ charAt (fin.headD []) 0 = '>') :
    ∃ L1, GetNextRawFeature env L =
        some (some ⟨(L.iNextFID : Int), some (.lineString (ringOfLines env (v0 :: vs))),
          L.m_poSRS, fieldsOfData L.poFeatureDefn.fields.length (fieldDataOf cs)⟩, L1) ∧
      Cur L1 (fin.headD []) fin.tail ∧ L1.poFeatureDefn = (asLineStrings L).poFeatureDefn ∧
      L1.iNextFID = L.iNextFID + 1 := by
  have hlen := hcur.2.2.length_le
  obtain ⟨m, hm⟩ : ∃ m, L.m_fp.data.length + 2 = cs.length + (1 + (vs.length + (m + 1))) + 1 := by
    refine ⟨L.m_fp.data.length + 2 - (cs.length + (1 + (vs.length + 1)) + 1), ?_⟩
    simp only [List.length_append, List.length_cons] at hlen
    omega
  obtain ⟨La, ea, ma⟩ := step_separator_unknown env (cs.length + (1 + (vs.length + (m + 1)))) L []
    sep (cs ++ (v0 :: (vs ++ fin))) hcur hs hk
  obtain ⟨Lb, eb, mb⟩ := run_comments env (1 + (vs.length + (m + 1))) none
    (fun g0 h => by cases h) (v0 :: (vs ++ fin)) cs La [] ma.1 hcs
  have hkb : Lb.poFeatureDefn.geomType = wkbLineString := by rw [mb.2.2, ma.2.2]; rfl
  obtain ⟨Lc, ec, mc⟩ := step_vertex_first env (vs.length + (m + 1)) Lb (cs.foldl fieldDataAfter [])
    v0 (vs ++ fin) mb.1 (hvs v0 (by simp)) (by rw [hkb]; rfl)
  rw [hkb] at ec
  obtain ⟨Ld, ed, md⟩ := run_vertices env (m + 1) fin vs Lc (cs.foldl fieldDataAfter [])
    (storeLine env (newGeometry wkbLineString) v0) mc.1 (fun v hv => hvs v (by simp [hv])) rfl
  have eg1 : vs.foldl (storeLine env) (storeLine env (newGeometry wkbLineString) v0) =
      .lineString (ringOfLines env (v0 :: vs)) := by
    have := foldl_storeLine_lineString env (v0 :: vs) (OGRLineString.empty (α := α))
    simpa [ringOfLines, newGeometry] using this
  rw [eg1] at ed
  have mAll : Moved (asLineStrings L) Ld (fin.headD []) fin.tail :=
    ((ma.andThen mb).andThen mc).andThen md
  have hend : assembleLoop env (m + 1) ⟨Ld, cs.foldl fieldDataAfter [],
        some (.lineString (ringOfLines env (v0 :: vs)))⟩ =
      some ⟨Ld, cs.foldl fieldDataAfter [], some (.lineString (ringOfLines env (v0 :: vs)))⟩ := by
    rcases hfin with h0 | h1
    · exact assembleLoop_empty env m _ (by show Ld.osLine = []; rw [md.1.1, h0])
    · exact step_sep_line_end env m Ld _ _ (fin.headD []) md.1.1 h1
  have hrun : assembleLoop env (L.m_fp.data.length + 2) ⟨L, [], none⟩ =
      some ⟨Ld, cs.foldl fieldDataAfter [], some (.lineString (ringOfLines env (v0 :: vs)))⟩ := by
    rw [hm, ea, eb, show 1 + (vs.length + (m + 1)) = vs.length + (m + 1) + 1 by omega, ec, ed, hend]
  have hall := GetNextRawFeature_of_loop env L Ld _ _ hrun
  have e1 : Ld.iNextFID = L.iNextFID := mAll.2.1.iNextFID
  have e2 : Ld.m_poSRS = L.m_poSRS := mAll.2.1.m_poSRS
  have e3 : Ld.poFeatureDefn.fields.length = L.poFeatureDefn.fields.length := by
    rw [mAll.2.2]; rfl
  rw [e1, e2, e3] at hall
  exact ⟨_, hall, ⟨mAll.1.1, mAll.1.2.1, mAll.1.2.2⟩, mAll.2.2, rfl⟩

/-- C32: in a layer whose geometry kind is undetermined, a first body line that is a `>`
line sets the kind to line string, and the vertex lines after it (comment lines may come
between), up to the next `>` line, a blank line or the end of the file, are returned as
one line string feature holding them in order; a first body line that is a vertex line
(comment lines may come before it) is returned as a point feature made of that line
alone, and the kind stays undetermined. -/
theorem C32_undetermined_kind {α : Type} (env : Env α) (L : OGRGmtLayer α)
    (hk : L.poFeatureDefn.geomType = wkbUnknown) :
    (∀ (sep : Str) (cs : List Str) (v0 : Str) (vs fin : List Str),
      Cur L sep (cs ++ (v0 :: (vs ++ fin))) → charAt sep 0 = '>' →
      (∀ c ∈ cs, charAt c 0 = '#') → (∀ v ∈ v0 :: vs, isVertexLine env v = true) →
      (fin.headD [] = [] ∨ charAt (fin.headD []) 0 = '>') →
      ∃ L1, GetNextRawFeature env L =
          some (some ⟨(L.iNextFID : Int), some (.lineString (ringOfLines env (v0 :: vs))),
            L.m_poSRS, fieldsOfData L.poFeatureDefn.fields.length (fieldDataOf cs)⟩, L1) ∧
        Cur L1 (fin.headD []) fin.tail ∧
        L1.poFeatureDefn = { L.poFeatureDefn with geomType := wkbLineString }) ∧
    (∀ (cs : List Str) (v : Str) (rest : List Str),
      Cur L ((cs ++ v :: rest).headD []) (cs ++ v :: rest).tail →
      (∀ c ∈ cs, charAt c 0 = '#') → isVertexLine env v = true →
      ∃ L1, GetNextRawFeature env L =
          some (some ⟨(L.iNextFID : Int), some (pointOfLine env v), L.m_poSRS,
            fieldsOfData L.poFeatureDefn.fields.length (fieldDataOf cs)⟩, L1) ∧
        Cur L1 (rest.headD []) rest.tail ∧ L1.poFeatureDefn = L.poFeatureDefn ∧
        L1.poFeatureDefn.geomType = wkbUnknown) := by
  constructor
  · intro sep cs v0 vs fin hcur hs hcs hvs hfin
    obtain ⟨L1, h1, h2, h3, _⟩ :=
      GetNextRawFeature_line_unknown env L sep cs v0 vs fin hk hcur hs hcs hvs hfin
    exact ⟨L1, h1, h2, h3⟩
  · intro cs v rest hcur hcs hv
    obtain ⟨L1, h1, h2, h3, _⟩ := GetNextRawFeature_point_unknown env L cs v rest hk hcur hcs hv
    exact ⟨L1, h1, h2, h3, by rw [h3]; exact hk⟩

set_option maxRecDepth 100000 in
theorem C32_undetermined_kind_witness :
    (openLayer separatorFirstText false).poFeatureDefn.geomType = wkbUnknown ∧
    ((∀ (sep : Str) (cs : List Str) (v0 : Str) (vs fin : List Str),
      Cur (openLayer separatorFirstText false) sep (cs ++ (v0 :: (vs ++ fin))) →
      charAt sep 0 = '>' →
      (∀ c ∈ cs, charAt c 0 = '#') → (∀ v ∈ v0 :: vs, isVertexLine intEnv v = true) →
      (fin.headD [] = [] ∨ charAt (fin.headD []) 0 = '>') →
      ∃ L1, GetNextRawFeature intEnv (openLayer separatorFirstText false) =
          some (some ⟨((openLayer separatorFirstText false).iNextFID : Int),
            some (.lineString (ringOfLines intEnv (v0 :: vs))),
            (openLayer separatorFirstText false).m_poSRS,
            fieldsOfData (openLayer separatorFirstText false).poFeatureDefn.fields.length
              (fieldDataOf cs)⟩, L1) ∧
        Cur L1 (fin.headD []) fin.tail ∧
        L1.poFeatureDefn =
          { (openLayer separatorFirstText false).poFeatureDefn with
            geomType := wkbLineString }) ∧
    (∀ (cs : List Str) (v : Str) (rest : List Str),
      Cur (openLayer separatorFirstText false) ((cs ++ v :: rest).headD [])
        (cs ++ v :: rest).tail →
      (∀ c ∈ cs, charAt c 0 = '#') → isVertexLine intEnv v = true →
      ∃ L1, GetNextRawFeature intEnv (openLayer separatorFirstText false) =
          some (some ⟨((openLayer separatorFirstText false).iNextFID : Int),
            some (pointOfLine intEnv v), (openLayer separatorFirstText false).m_poSRS,
            fieldsOfData (openLayer separatorFirstText false).poFeatureDefn.fields.length
              (fieldDataOf cs)⟩, L1) ∧
        Cur L1 (rest.headD []) rest.tail ∧
        L1.poFeatureDefn = (openLayer separatorFirstText false).poFeatureDefn ∧
        L1.poFeatureDefn.geomType = wkbUnknown)) ∧
    (GetNextRawFeature intEnv (openLayer separatorFirstText false)).map
        (fun r => (r.1.map (fun f => f.poGeom), r.2.poFeatureDefn.geomType, r.2.osLine)) =
      some (some (some (.lineString (mkLine [(1, 2), (3, 4)]))), wkbLineString, ">".data) ∧
    (GetNextRawFeature intEnv (openLayer vertexFirstText false)).map
        (fun r => (r.1.map (fun f => f.poGeom), r.2.poFeatureDefn.geomType, r.2.osLine)) =
      some (some (some (.point (mkPoint 1 2))), wkbUnknown, ">".data) :=
  ⟨by decide, C32_undetermined_kind intEnv (openLayer separatorFirstText false) (by decide),
    by decide, by decide⟩

/-! ## The keyed values after a lookahead are never read -/

/-- `ReadLine` does not read the keyed values of the line at hand: it replaces them. -/
theorem ReadLine_keyed {α : Type} (L : OGRGmtLayer α) (kv : Option (List Str)) :
    ReadLine { L with papszKeyedValues := kv } = ReadLine L := rfl

theorem ReadLine_congr_keyed {α : Type} {L L1 : OGRGmtLayer α}
    (h : withoutKeyedValues L = withoutKeyedValues L1) : ReadLine L = ReadLine L1 := by
  have h1 : ReadLine L = ReadLine (withoutKeyedValues L) := rfl
  have h2 : ReadLine L1 = ReadLine (withoutKeyedValues L1) := rfl
  rw [h1, h2, h]

theorem NextIsFeature_keyed {α : Type} (L : OGRGmtLayer α) (kv : Option (List Str)) :
    NextIsFeature { L with papszKeyedValues := kv } = NextIsFeature L := rfl

theorem scanHoleLoop_keyed {α : Type} (fuel : Nat) (L : OGRGmtLayer α)
    (kv : Option (List Str)) :
    scanHoleLoop fuel { L with papszKeyedValues := kv } = scanHoleLoop fuel L := by
  cases fuel with
  | zero => rfl
  | succ n => rfl

theorem ScanAheadForHoleRestoring_erase {α : Type} (L : OGRGmtLayer α) :
    (ScanAheadForHoleRestoring L).map (fun r => (r.1, withoutKeyedValues r.2)) =
      (ScanAheadForHole L).map (fun r => (r.1, withoutKeyedValues r.2)) := by
  unfold ScanAheadForHoleRestoring
  rcases h : ScanAheadForHole L with _ | ⟨b, L1⟩
  · rfl
  · cases b <;> rfl

theorem onSeparatorRestoring_erase {α : Type} (s : Assembly α) :
    (onSeparatorRestoring s).map (fun r => (r.1, r.2.withoutKeyedValues)) =
      (onSeparator s).map (fun r => (r.1, r.2.withoutKeyedValues)) := by
  unfold onSeparatorRestoring onSeparator ScanAheadForHoleRestoring
  rcases hg : s.poGeom with _ | g
  · rfl
  · cases g with
    | point p => rfl
    | lineString l => rfl
    | multiPoint ps => rfl
    | polygon p =>
      dsimp only
      rcases h : ScanAheadForHole s.layer with _ | ⟨b, L1⟩
      · rfl
      · cases b <;> rfl
    | multiPolygon ps =>
      dsimp only
      rcases h : ScanAheadForHole s.layer with _ | ⟨b, L1⟩
      · rfl
      · cases b
        · dsimp only [NextIsFeatureRestoring]
          rw [NextIsFeature_keyed]
          cases (NextIsFeature L1).1 <;> rfl
        · rfl
    | multiLineString ls =>
      dsimp only [NextIsFeatureRestoring]
      cases (NextIsFeature s.layer).1 <;> rfl

theorem loopBodyRestoring_erase {α : Type} (env : Env α) (s : Assembly α) :
    (loopBodyRestoring env s).map (fun r => (r.1, r.2.withoutKeyedValues)) =
      (loopBody env s).map (fun r => (r.1, r.2.withoutKeyedValues)) := by
  unfold loopBodyRestoring loopBody
  split
  · exact onSeparatorRestoring_erase s
  · rfl

/-- What one pass of the loop yields in the variant and in the code: both fail, or both
yield the same flag and states that agree up to the keyed values. -/
theorem loopBodyRestoring_cases {α : Type} (env : Env α) (s : Assembly α) :
    (loopBodyRestoring env s = none ∧ loopBody env s = none) ∨
    ∃ b s1 s2, loopBodyRestoring env s = some (b, s1) ∧ loopBody env s = some (b, s2) ∧
      s1.withoutKeyedValues = s2.withoutKeyedValues := by
  have h := loopBodyRestoring_erase env s
  rcases h1 : loopBodyRestoring env s with _ | ⟨b1, s1⟩ <;>
    rcases h2 : loopBody env s with _ | ⟨b2, s2⟩ <;> rw [h1, h2] at h
  · exact Or.inl ⟨rfl, rfl⟩
  · cases h
  · cases h
  · simp only [Option.map_some', Option.some.injEq, Prod.mk.injEq] at h
    obtain ⟨hb, hs⟩ := h
    subst hb
    exact Or.inr ⟨b1, s1, s2, rfl, rfl, hs⟩

theorem Assembly.withoutKeyedValues_inj {α : Type} {s1 s2 : Assembly α}
    (h : s1.withoutKeyedValues = s2.withoutKeyedValues) :
    s1.osFieldData = s2.osFieldData ∧ s1.poGeom = s2.poGeom ∧
      Gmt.withoutKeyedValues s1.layer = Gmt.withoutKeyedValues s2.layer := by
  have h1 := congrArg Assembly.osFieldData h
  have h2 := congrArg Assembly.poGeom h
  have h3 := congrArg Assembly.layer h
  exact ⟨h1, h2, h3⟩

/-- After the `ReadLine` that ends a pass of the loop, states that agreed up to the keyed
values are equal. -/
theorem afterReadLine_eq {α : Type} {s1 s2 : Assembly α}
    (h : s1.withoutKeyedValues = s2.withoutKeyedValues) :
    ({ s1 with layer := (ReadLine s1.layer).2 } : Assembly α) =
      { s2 with layer := (ReadLine s2.layer).2 } := by
  obtain ⟨h1, h2, h3⟩ := Assembly.withoutKeyedValues_inj h
  rw [ReadLine_congr_keyed h3]
  cases s1; cases s2
  simp only at h1 h2
  subst h1 h2
  rfl

theorem assembleLoopRestoring_erase {α : Type} (env : Env α) :
    ∀ (fuel : Nat) (s : Assembly α),
      (assembleLoopRestoring env fuel s).map Assembly.withoutKeyedValues =
        (assembleLoop env fuel s).map Assembly.withoutKeyedValues := by
  intro fuel
  induction fuel with
  | zero => intro s; rfl
  | succ n ih =>
    intro s
    unfold assembleLoopRestoring assembleLoop
    by_cases he : (s.layer.osLine.length == 0) = true
    · rw [if_pos he, if_pos he]
    · rw [if_neg he, if_neg he]
      rcases loopBodyRestoring_cases env s with ⟨h1, h2⟩ | ⟨b, s1, s2, h1, h2, hs⟩
      · rw [h1, h2]
      · rw [h1, h2]
        cases b
        · dsimp only
          have hg : s1.poGeom = s2.poGeom := (Assembly.withoutKeyedValues_inj hs).2.1
          have hr := afterReadLine_eq hs
          rw [hr, hg]
          rcases hg2 : s2.poGeom with _ | g
          · exact ih _
          · cases g <;> first | rfl | exact ih _
        · dsimp only
          simp only [Option.map_some', hs]

/-- The variant of `GetNextRawFeature` whose lookahead restores the keyed values yields
the same feature as the code and a layer that differs at most in its keyed values. -/
theorem GetNextRawFeatureRestoring_erase {α : Type} (env : Env α) (L : OGRGmtLayer α) :
    (GetNextRawFeatureRestoring env L).map (fun r => (r.1, withoutKeyedValues r.2)) =
      (GetNextRawFeature env L).map (fun r => (r.1, withoutKeyedValues r.2)) := by
  have h := assembleLoopRestoring_erase env (L.m_fp.data.length + 2) ⟨L, [], none⟩
  unfold GetNextRawFeatureRestoring GetNextRawFeature
  rcases h1 : assembleLoopRestoring env (L.m_fp.data.length + 2) ⟨L, [], none⟩ with _ | s1
  · rcases h2 : assembleLoop env (L.m_fp.data.length + 2) ⟨L, [], none⟩ with _ | s2
    · rfl
    · rw [h1, h2] at h
      cases h
  · rcases h2 : assembleLoop env (L.m_fp.data.length + 2) ⟨L, [], none⟩ with _ | s2
    · rw [h1, h2] at h
      cases h
    · rw [h1, h2] at h
      simp only [Option.map_some', Option.some.injEq] at h
      obtain ⟨hf, hg, hl⟩ := Assembly.withoutKeyedValues_inj h
      have e1 : s1.layer.poFeatureDefn = s2.layer.poFeatureDefn := by
        have h0 := congrArg OGRGmtLayer.poFeatureDefn hl
        exact h0
      have e2 : s1.layer.iNextFID = s2.layer.iNextFID := by
        have h0 := congrArg OGRGmtLayer.iNextFID hl
        exact h0
      have e3 : s1.layer.m_poSRS = s2.layer.m_poSRS := by
        have h0 := congrArg OGRGmtLayer.m_poSRS hl
        exact h0
      have e4 : s1.layer.m_nFeaturesRead = s2.layer.m_nFeaturesRead := by
        have h0 := congrArg OGRGmtLayer.m_nFeaturesRead hl
        exact h0
      dsimp only
      rw [hg]
      rcases s2.poGeom with _ | g
      · simp only [Option.map_some', hl]
      · simp only [Option.map_some', Option.some.injEq, Prod.mk.injEq]
        refine ⟨by rw [hf, e1, e2, e3], ?_⟩
        have := hl
        simp only [withoutKeyedValues] at this ⊢
        cases hs1 : s1.layer; cases hs2 : s2.layer
        rw [hs1, hs2] at this e2 e4
        simp only [OGRGmtLayer.mk.injEq] at this ⊢
        simp only at e2 e4
        simp [this, e2, e4]

/-- C34: `GetNextRawFeature` returns the same feature as the variant in which
`NextIsFeature`, and `ScanAheadForHole` when it returns false, also restore the keyed
values, and leaves the layer in the same state but for the keyed values: the same file
position, the same current line, the same feature definition and counters. The reason
is that `ReadLine` never reads the keyed values it finds but replaces them, that the
lookahead is run only at a `>` line, and that every pass of the loop that goes on ends
with a `ReadLine`. -/
theorem C34_lookahead_keyed_values_unobserved {α : Type} (env : Env α) (L : OGRGmtLayer α) :
    (GetNextRawFeature env L).map (fun r => (r.1, withoutKeyedValues r.2)) =
      (GetNextRawFeatureRestoring env L).map (fun r => (r.1, withoutKeyedValues r.2)) ∧
    (GetNextRawFeature env L).map (fun r => (r.1, r.2.m_fp, r.2.osLine)) =
      (GetNextRawFeatureRestoring env L).map (fun r => (r.1, r.2.m_fp, r.2.osLine)) ∧
    (∀ kv, ReadLine { L with papszKeyedValues := kv } = ReadLine L) ∧
    (∀ (s : Assembly α), charAt s.layer.osLine 0 ≠ '>' →
      loopBodyRestoring env s = loopBody env s) := by
  have h := GetNextRawFeatureRestoring_erase env L
  refine ⟨h.symm, ?_, fun kv => rfl, ?_⟩
  · have h2 := congrArg (Option.map (fun r : Option (OGRFeature α) × OGRGmtLayer α =>
      (r.1, r.2.m_fp, r.2.osLine))) h
    simp only [Option.map_map] at h2
    exact h2.symm
  · intro s hs
    have : (charAt s.layer.osLine 0 == '>') = false := by simpa using hs
    simp [loopBodyRestoring, loopBody, this]

/-! ## The field names and types written to the header and read back -/

theorem intercalate_cons_cons (sep a b : Str) (l : List Str) :
    List.intercalate sep (a :: b :: l) = a ++ (sep ++ List.intercalate sep (b :: l)) := by
  simp [List.intercalate, List.intersperse]

theorem intercalate_singleton (sep a : Str) : List.intercalate sep [a] = a := by
  simp [List.intercalate, List.intersperse]

/-- The characters of a text that is passed over by the tokenizer outside quotes are
added to the token at hand. -/
theorem tokenizeLoop_plain (n : Str) (h : ∀ c ∈ n, c ≠ '|' ∧ c ≠ '"') :
    ∀ (rest tok : Str),
      tokenizeLoop "|".data true true (n ++ rest) false false tok =
        tokenizeLoop "|".data true true rest false false (tok ++ n) := by
  induction n with
  | nil => intro rest tok; simp
  | cons c cs ih =>
    intro rest tok
    have hc := h c (by simp)
    have h1 : strchr "|".data c = false := by
      simp [strchr]
      exact fun e => hc.1 e
    have h2 : (c == '"') = false := by simpa using hc.2
    rw [List.cons_append, tokenizeLoop]
    simp only [Bool.false_eq_true, if_false, Bool.not_false, Bool.true_and, h1, h2,
      Bool.false_and]
    rw [ih (fun x hx => h x (by simp [hx]))]
    simp

theorem intercalate_ne_nil (sep a : Str) (l : List Str) (h : a ≠ []) :
    List.intercalate sep (a :: l) ≠ [] := by
  cases l with
  | nil => rw [intercalate_singleton]; exact h
  | cons b l =>
    rw [intercalate_cons_cons]
    intro e
    exact h (List.append_eq_nil.mp e).1

theorem tokenizeLoop_intercalate :
    ∀ (ns : List Str) (n : Str), (∀ x ∈ n :: ns, x ≠ [] ∧ ∀ c ∈ x, c ≠ '|' ∧ c ≠ '"') →
      tokenizeLoop "|".data true true (List.intercalate "|".data (n :: ns)) false false [] =
        n :: ns := by
  intro ns
  induction ns with
  | nil =>
    intro n h
    rw [intercalate_singleton]
    have := tokenizeLoop_plain n (h n (by simp)).2 [] []
    rw [List.append_nil] at this
    rw [this]
    simp [tokenizeLoop]
  | cons m ns ih =>
    intro n h
    rw [intercalate_cons_cons, tokenizeLoop_plain n (h n (by simp)).2]
    have hm := h m (by simp)
    have hne := intercalate_ne_nil "|".data m ns hm.1
    have hi := ih m (fun x hx => h x (by simp at hx ⊢; tauto))
    show tokenizeLoop "|".data true true ('|' :: List.intercalate "|".data (m :: ns)) false false
      ([] ++ n) = _
    rw [tokenizeLoop]
    have h1 : strchr "|".data '|' = true := by decide
    have h3 : (List.intercalate "|".data (m :: ns)).isEmpty = false := by
      cases hx : List.intercalate "|".data (m :: ns) with
      | nil => exact absurd hx hne
      | cons _ _ => rfl
    simp only [Bool.false_eq_true, if_false, Bool.not_false, Bool.true_and, h1, if_true,
      Bool.or_true, h3, hi]
    simp

theorem getLast?_intercalate (sep : Str) :
    ∀ (ns : List Str) (n : Str), (∀ x ∈ n :: ns, x ≠ []) →
      ∃ x ∈ n :: ns, (List.intercalate sep (n :: ns)).getLast? = x.getLast? := by
  intro ns
  induction ns with
  | nil =>
    intro n _
    exact ⟨n, by simp, by rw [intercalate_singleton]⟩
  | cons m ns ih =>
    intro n h
    obtain ⟨x, hx, e⟩ := ih m (fun x hx => h x (by simp at hx ⊢; tauto))
    refine ⟨x, by simp at hx ⊢; tauto, ?_⟩
    rw [intercalate_cons_cons, ← List.append_assoc,
      List.getLast?_append_of_ne_nil _ (intercalate_ne_nil sep m ns (h m (by simp))), e]

/-- The tokenizer splits the names joined by `|` into the names again, when none of them
is empty and none holds a `|` or a double quote. -/
theorem tokenize_intercalate (ns : List Str)
    (h : ∀ x ∈ ns, x ≠ [] ∧ ∀ c ∈ x, c ≠ '|' ∧ c ≠ '"') :
    CSLTokenizeStringComplex (List.intercalate "|".data ns) "|".data true true = ns := by
  cases ns with
  | nil => rfl
  | cons n ns =>
    have hne := intercalate_ne_nil "|".data n ns (h n (by simp)).1
    have h3 : (List.intercalate "|".data (n :: ns)).isEmpty = false := by
      cases hx : List.intercalate "|".data (n :: ns) with
      | nil => exact absurd hx hne
      | cons _ _ => rfl
    obtain ⟨x, hx, e⟩ := getLast?_intercalate "|".data ns n (fun x hx => (h x hx).1)
    unfold CSLTokenizeStringComplex
    dsimp only
    have t := tokenizeLoop_intercalate ns n h
    have hd : "|".data = ['|'] := rfl
    rw [hd] at h3 t e
    rw [h3]
    simp only [Bool.false_eq_true, if_false]
    rw [t, e]
    apply if_neg
    intro hh
    cases hl : x.getLast? with
    | none => rw [hl] at hh; simp at hh
    | some c =>
      rw [hl] at hh
      have hc : c ∈ x := List.mem_of_getLast?_eq_some hl
      have := ((h x hx).2 c hc).1
      simp [strchr] at hh
      exact this hh

theorem valueLength_plain (v : Str) (h : ∀ c ∈ v, isspace c = false ∧ c ≠ '"') :
    valueLength v false = v.length := by
  induction v with
  | nil => rfl
  | cons c cs ih =>
    have hc := h c (by simp)
    have h2 : (c == '"') = false := by simpa using hc.2
    rw [valueLength_cons]
    simp only [Bool.not_false, Bool.true_and, hc.1, Bool.false_eq_true, if_false, Bool.false_and,
      h2]
    rw [ih (fun x hx => h x (by simp [hx]))]
    simp only [List.length_cons]
    omega

theorem unescapeBuf_plain (v : Str) (h : ∀ c ∈ v, c ≠ '\\') : unescapeBuf v = v := by
  induction v with
  | nil => rfl
  | cons c cs ih =>
    have hc := h c (by simp)
    have : unescapeBuf (c :: cs) = c :: unescapeBuf cs := by
      conv_lhs => unfold unescapeBuf
      split
      · rename_i e; cases e
      · rename_i e; cases e; exact absurd rfl hc
      · rename_i e; cases e; exact absurd rfl hc
      · rename_i e
        cases e
        rfl
    rw [this, ih (fun x hx => h x (by simp [hx]))]

theorem cstr_plain (v : Str) (h : ∀ c ∈ v, c ≠ Char.ofNat 0) : cstr v = v := by
  unfold cstr
  rw [List.takeWhile_eq_self_iff]
  intro c hc
  simpa using h c hc

theorem CPLUnescapeString_plain (v : Str) (h : ∀ c ∈ v, c ≠ '\\' ∧ c ≠ Char.ofNat 0) :
    CPLUnescapeString v = v := by
  unfold CPLUnescapeString
  rw [unescapeBuf_plain v (fun c hc => (h c hc).1), cstr_plain v (fun c hc => (h c hc).2)]

theorem keyedEntries_nil (fuel : Nat) : keyedEntries fuel [] = [] := by
  cases fuel <;> rfl

/-- The keyed values `ReadLine` finds in a line `# @` followed by a key and a value that
holds no white space, double quote, backslash or NUL: the one entry of key and value. -/
theorem lineKeyedValues_single (k : Char) (v : Str)
    (h : ∀ c ∈ v, isspace c = false ∧ c ≠ '"' ∧ c ≠ '\\' ∧ c ≠ Char.ofNat 0) :
    (lineKeyedValues ('#' :: ' ' :: '@' :: k :: v)).getD [] = [k :: v] := by
  rw [lineKeyedValues_eq]
  have hl : valueLength v false = v.length :=
    valueLength_plain v (fun c hc => ⟨(h c hc).1, (h c hc).2.1⟩)
  have hu : CPLUnescapeString v = v :=
    CPLUnescapeString_plain v (fun c hc => ⟨(h c hc).2.2.1, (h c hc).2.2.2⟩)
  have hcont : ('#' :: ' ' :: '@' :: k :: v).contains '@' = true := by simp
  have hcond : ¬ ((charAt ('#' :: ' ' :: '@' :: k :: v) 0 != '#' ||
      !('#' :: ' ' :: '@' :: k :: v).contains '@') = true) := by
    rw [hcont]
    simp [charAt]
  unfold keyedValuesOfLine
  rw [if_neg hcond]
  show keyedEntries (v.length + 1 + 1 + 1 + 1) ('#' :: ' ' :: '@' :: k :: v) = _
  rw [keyedEntries, if_neg (by decide), keyedEntries, if_neg (by decide), keyedEntries,
    if_pos (by decide), hl, List.take_length, hu]
  rw [List.drop_of_length_le (by omega), keyedEntries_nil]

theorem applyKeyedValue_other (h : HeaderVars) (kv : Str) (hN : charAt kv 0 ≠ 'N')
    (hT : charAt kv 0 ≠ 'T') :
    (applyKeyedValue h kv).osFieldNames = h.osFieldNames ∧
      (applyKeyedValue h kv).osFieldTypes = h.osFieldTypes := by
  have h1 : (charAt kv 0 == 'N') = false := by simpa using hN
  have h2 : (charAt kv 0 == 'T') = false := by simpa using hT
  unfold applyKeyedValue
  simp only [h1, h2, Bool.false_eq_true, if_false]
  constructor <;> (repeat' split) <;> rfl

theorem foldl_applyKeyedValue_other (kvs : List Str)
    (hk : ∀ kv ∈ kvs, charAt kv 0 ≠ 'N' ∧ charAt kv 0 ≠ 'T') :
    ∀ h : HeaderVars, (kvs.foldl applyKeyedValue h).osFieldNames = h.osFieldNames ∧
      (kvs.foldl applyKeyedValue h).osFieldTypes = h.osFieldTypes := by
  induction kvs with
  | nil => intro h; exact ⟨rfl, rfl⟩
  | cons kv kvs ih =>
    intro h
    have h1 := applyKeyedValue_other h kv (hk kv (by simp)).1 (hk kv (by simp)).2
    have h2 := ih (fun x hx => hk x (by simp [hx])) (applyKeyedValue h kv)
    rw [List.foldl_cons]
    exact ⟨h2.1.trans h1.1, h2.2.trans h1.2⟩

theorem applyKeyedValue_names (h : HeaderVars) (v : Str) :
    applyKeyedValue h ('N' :: v) = { h with osFieldNames := v } := by
  simp [applyKeyedValue, charAt]

theorem applyKeyedValue_types (h : HeaderVars) (v : Str) :
    applyKeyedValue h ('T' :: v) = { h with osFieldTypes := v } := by
  simp [applyKeyedValue, charAt]

/-- The line that announces the geometry kind: it is a header line without a newline,
and its keyed values have neither key `N` nor key `T`. -/
theorem geomMarker_line (t : OGRwkbGeometryType) :
    inHeaderRun ("#".data ++ geomMarker t) = true ∧ '\n' ∉ "#".data ++ geomMarker t ∧
    Char.ofNat 0 ∉ "#".data ++ geomMarker t ∧
    ∀ kv ∈ (lineKeyedValues ("#".data ++ geomMarker t)).getD [],
      charAt kv 0 ≠ 'N' ∧ charAt kv 0 ≠ 'T' := by
  cases t <;> decide

theorem takeWhile_append_stop {β : Type} (p : β → Bool) (xs : List β) (y : β) (ys : List β)
    (h : ∀ x ∈ xs, p x = true) (hy : p y = false) :
    (xs ++ y :: ys).takeWhile p = xs := by
  induction xs with
  | nil => simp [List.takeWhile, hy]
  | cons x xs ih =>
    rw [List.cons_append, List.takeWhile_cons, h x (by simp), if_pos rfl,
      ih (fun z hz => h z (by simp [hz]))]

theorem mem_intercalate (sep : Str) (c : Char) :
    ∀ l : List Str, c ∈ List.intercalate sep l → c ∈ sep ∨ ∃ x ∈ l, c ∈ x := by
  intro l
  induction l with
  | nil => intro h; simp [List.intercalate] at h
  | cons a l ih =>
    intro h
    cases l with
    | nil =>
      rw [intercalate_singleton] at h
      exact Or.inr ⟨a, by simp, h⟩
    | cons b l =>
      rw [intercalate_cons_cons] at h
      rcases List.mem_append.mp h with h1 | h1
      · exact Or.inr ⟨a, by simp, h1⟩
      · rcases List.mem_append.mp h1 with h2 | h2
        · exact Or.inl h2
        · rcases ih h2 with h3 | ⟨x, hx, h3⟩
          · exact Or.inl h3
          · exact Or.inr ⟨x, by simp at hx ⊢; tauto, h3⟩

/-- A text that contains `FEATURE_DATA` contains the letter `F`. -/
theorem strstr_sentinel_mem (s : Str) (h : strstr s "FEATURE_DATA".data = true) : 'F' ∈ s := by
  induction s with
  | nil => simp [strstr] at h
  | cons c cs ih =>
    unfold strstr at h
    rcases Bool.or_eq_true_iff.mp h with h1 | h1
    · have : c = 'F' := by
        have h2 : STARTS_WITH (c :: cs) ('F' :: "EATURE_DATA".data) = true := h1
        unfold STARTS_WITH at h2
        simp only [Bool.and_eq_true, beq_iff_eq] at h2
        exact h2.1
      simp [this]
    · exact List.mem_cons_of_mem _ (ih h1)

theorem fieldTypeWord_chars (t : OGRFieldType) :
    ∀ c ∈ fieldTypeWord t, isspace c = false ∧ c ≠ '"' ∧ c ≠ '\\' ∧ c ≠ Char.ofNat 0 ∧
      c ≠ '|' ∧ c ≠ 'F' ∧ c ≠ '\n' := by
  cases t <;> decide

theorem fieldTypeWord_ne_nil (t : OGRFieldType) : fieldTypeWord t ≠ [] := by
  cases t <;> decide

theorem isPlainName_chars (n : Str) (h : isPlainName n = true) :
    n ≠ [] ∧ ∀ c ∈ n, isspace c = false ∧ c ≠ '"' ∧ c ≠ '\\' ∧ c ≠ Char.ofNat 0 ∧ c ≠ '|' := by
  simp only [isPlainName, Bool.and_eq_true, Bool.not_eq_true', List.all_eq_true, bne_iff_ne,
    ne_eq] at h
  refine ⟨?_, ?_⟩
  · intro e; rw [e] at h; simp at h
  · intro c hc
    have := h.2 c hc
    tauto

theorem headerField_type_word (t : OGRFieldType) (h : t.hasWord = true) :
    (if EQUAL (fieldTypeWord t) "integer".data then OFTInteger
      else if EQUAL (fieldTypeWord t) "double".data then OFTReal
      else if EQUAL (fieldTypeWord t) "datetime".data then OFTDateTime
      else OFTString) = t := by
  cases t <;> first | rfl | cases h

/-- The fields the constructor builds from the names and the type words of a schema,
taken as the two lists of tokens, are the fields of the schema. -/
theorem headerField_fields (fields : List OGRFieldDefn)
    (ht : ∀ fd ∈ fields, fd.type.hasWord = true) :
    (List.range fields.length).map
        (headerField (fields.map (fun fd => fd.name))
          (fields.map (fun fd => fieldTypeWord fd.type))) = fields := by
  apply List.ext_getElem
  · simp
  · intro i h1 h2
    simp only [List.length_map, List.length_range] at h1
    simp only [List.getElem_map, List.getElem_range, headerField, List.length_map, h1, if_true]
    have e1 : (fields.map (fun fd => fd.name)).getD i [] = fields[i].name := by
      simp [List.getD, List.getElem?_eq_getElem h1]
    have e2 : (fields.map (fun fd => fieldTypeWord fd.type)).getD i [] =
        fieldTypeWord fields[i].type := by
      simp [List.getD, List.getElem?_eq_getElem h1]
    rw [e1, e2, headerField_type_word _ (ht _ (List.getElem_mem h1))]

/-- The strings the constructor collects from the header lines `CompleteHeader` writes:
the field names and the field types are those written, when the names are plain and the
names line does not contain the sentinel. -/
theorem headerVarsOfFile_headerLines {α : Type} (defn : OGRFeatureDefn)
    (g : Option (OGRGeometry α))
    (hn : ∀ fd ∈ defn.fields, isPlainName fd.name = true)
    (hs : strstr (fieldNamesLine defn.fields) "FEATURE_DATA".data = false) :
    headerFields (headerVarsOfFile (unlines (headerLines defn g))).osFieldNames
        (headerVarsOfFile (unlines (headerLines defn g))).osFieldTypes =
      headerFields (List.intercalate "|".data (defn.fields.map (fun fd => fd.name)))
        (List.intercalate "|".data (defn.fields.map (fun fd => fieldTypeWord fd.type))) := by
  obtain ⟨ml, hml, hlines⟩ : ∃ ml : List Str,
      (∀ l ∈ ml, inHeaderRun l = true ∧ '\n' ∉ l ∧ Char.ofNat 0 ∉ l ∧
        ∀ kv ∈ (lineKeyedValues l).getD [], charAt kv 0 ≠ 'N' ∧ charAt kv 0 ≠ 'T') ∧
      headerLines defn g = ml ++
        (if defn.fields.length > 0 then
          [fieldNamesLine defn.fields,
           "# @T".data ++ List.intercalate "|".data
             (defn.fields.map (fun fd => fieldTypeWord fd.type))]
         else []) ++ ["# FEATURE_DATA".data] := by
    cases g with
    | none => exact ⟨[], (fun l hl => by cases hl), rfl⟩
    | some g0 =>
      by_cases hk : (defn.geomType == wkbUnknown) = true
      · refine ⟨["#".data ++ geomMarker g0.getGeometryType], ?_, ?_⟩
        · intro l hl
          rw [List.mem_singleton] at hl
          rw [hl]
          exact geomMarker_line _
        · simp only [headerLines, hk, if_true, fieldNamesLine]
      · refine ⟨[], (fun l hl => by cases hl), ?_⟩
        simp only [headerLines, hk, Bool.false_eq_true, if_false, fieldNamesLine]
  have hml_vars : ∀ h : HeaderVars,
      (headerVarsFrom h ml).osFieldNames = h.osFieldNames ∧
      (headerVarsFrom h ml).osFieldTypes = h.osFieldTypes := by
    clear hlines
    induction ml with
    | nil => intro h; exact ⟨rfl, rfl⟩
    | cons l ls ih =>
      intro h
      have h1 := foldl_applyKeyedValue_other _ (hml l (by simp)).2.2.2 h
      have h2 := ih (fun x hx => hml x (by simp [hx]))
        (((lineKeyedValues l).getD []).foldl applyKeyedValue h)
      exact ⟨h2.1.trans h1.1, h2.2.trans h1.2⟩
  have hsent : inHeaderRun "# FEATURE_DATA".data = false := by decide
  have hsentn : '\n' ∉ "# FEATURE_DATA".data := by decide
  have hsent0 : Char.ofNat 0 ∉ "# FEATURE_DATA".data := by decide
  by_cases hf : defn.fields.length > 0
  · rw [if_pos hf] at hlines
    -- the two lines of names and of types
    have hnames : ∀ c ∈ List.intercalate "|".data (defn.fields.map (fun fd => fd.name)),
        isspace c = false ∧ c ≠ '"' ∧ c ≠ '\\' ∧ c ≠ Char.ofNat 0 := by
      intro c hc
      rcases mem_intercalate _ c _ hc with h1 | ⟨x, hx, h1⟩
      · have : c = '|' := by simpa using h1
        rw [this]; decide
      · obtain ⟨fd, hfd, rfl⟩ := List.mem_map.mp hx
        have := (isPlainName_chars fd.name (hn fd hfd)).2 c h1
        tauto
    have htypes : ∀ c ∈ List.intercalate "|".data
        (defn.fields.map (fun fd => fieldTypeWord fd.type)),
        isspace c = false ∧ c ≠ '"' ∧ c ≠ '\\' ∧ c ≠ Char.ofNat 0 ∧ c ≠ 'F' := by
      intro c hc
      rcases mem_intercalate _ c _ hc with h1 | ⟨x, hx, h1⟩
      · have : c = '|' := by simpa using h1
        rw [this]; decide
      · obtain ⟨fd, _, rfl⟩ := List.mem_map.mp hx
        have := fieldTypeWord_chars fd.type c h1
        tauto
    have hN : inHeaderRun (fieldNamesLine defn.fields) = true := by
      simp only [inHeaderRun, hs, Bool.not_false, Bool.and_true]
      rfl
    have hT : inHeaderRun ("# @T".data ++ List.intercalate "|".data
        (defn.fields.map (fun fd => fieldTypeWord fd.type))) = true := by
      have : strstr ("# @T".data ++ List.intercalate "|".data
          (defn.fields.map (fun fd => fieldTypeWord fd.type))) "FEATURE_DATA".data = false := by
        cases hh : strstr ("# @T".data ++ List.intercalate "|".data
          (defn.fields.map (fun fd => fieldTypeWord fd.type))) "FEATURE_DATA".data with
        | false => rfl
        | true =>
          have hm := strstr_sentinel_mem _ hh
          rcases List.mem_append.mp hm with h1 | h1
          · revert h1; decide
          · exact absurd rfl (htypes _ h1).2.2.2.2
      simp only [inHeaderRun, this, Bool.not_false, Bool.and_true]
      rfl
    have hNn : '\n' ∉ fieldNamesLine defn.fields := by
      intro hm
      rcases List.mem_append.mp hm with h1 | h1
      · revert h1; decide
      · have := (hnames _ h1).1
        revert this; decide
    have hTn : '\n' ∉ "# @T".data ++ List.intercalate "|".data
        (defn.fields.map (fun fd => fieldTypeWord fd.type)) := by
      intro hm
      rcases List.mem_append.mp hm with h1 | h1
      · revert h1; decide
      · have := (htypes _ h1).1
        revert this; decide
    have hN0 : Char.ofNat 0 ∉ fieldNamesLine defn.fields := by
      intro hm
      rcases List.mem_append.mp hm with h1 | h1
      · revert h1; decide
      · exact (hnames _ h1).2.2.2 rfl
    have hT0 : Char.ofNat 0 ∉ "# @T".data ++ List.intercalate "|".data
        (defn.fields.map (fun fd => fieldTypeWord fd.type)) := by
      intro hm
      rcases List.mem_append.mp hm with h1 | h1
      · revert h1; decide
      · exact (htypes _ h1).2.2.2.1 rfl
    have hfl : fileLines (unlines (headerLines defn g)) = headerLines defn g := by
      apply fileLines_unlines
      intro l hl
      rw [hlines] at hl
      simp only [List.mem_append, List.mem_cons, List.mem_singleton, List.not_mem_nil,
        or_false] at hl
      rcases hl with (h1 | h1 | h1) | h1
      · exact ⟨(hml l h1).2.1, (hml l h1).2.2.1⟩
      · rw [h1]; exact ⟨hNn, hN0⟩
      · rw [h1]; exact ⟨hTn, hT0⟩
      · rw [h1]; exact ⟨hsentn, hsent0⟩
    have hrun : headerRun (headerLines defn g) =
        ml ++ [fieldNamesLine defn.fields,
          "# @T".data ++ List.intercalate "|".data
            (defn.fields.map (fun fd => fieldTypeWord fd.type))] := by
      rw [hlines]
      apply takeWhile_append_stop _ _ _ _ _ hsent
      intro x hx
      simp only [List.mem_append, List.mem_cons, List.mem_singleton, List.not_mem_nil,
        or_false] at hx
      rcases hx with h1 | h1 | h1
      · exact (hml x h1).1
      · rw [h1]; exact hN
      · rw [h1]; exact hT
    have kN := lineKeyedValues_single 'N'
      (List.intercalate "|".data (defn.fields.map (fun fd => fd.name))) hnames
    have kT := lineKeyedValues_single 'T'
      (List.intercalate "|".data (defn.fields.map (fun fd => fieldTypeWord fd.type)))
      (fun c hc => by have := htypes c hc; tauto)
    have eN : fieldNamesLine defn.fields =
        '#' :: ' ' :: '@' :: 'N' ::
          List.intercalate "|".data (defn.fields.map (fun fd => fd.name)) := rfl
    have eT : "# @T".data ++ List.intercalate "|".data
          (defn.fields.map (fun fd => fieldTypeWord fd.type)) =
        '#' :: ' ' :: '@' :: 'T' ::
          List.intercalate "|".data (defn.fields.map (fun fd => fieldTypeWord fd.type)) := rfl
    have hvars : headerVarsOfFile (unlines (headerLines defn g)) =
        { headerVarsFrom ⟨[], [], [], [], [], [], []⟩ ml with
          osFieldNames := List.intercalate "|".data (defn.fields.map (fun fd => fd.name))
          osFieldTypes :=
            List.intercalate "|".data (defn.fields.map (fun fd => fieldTypeWord fd.type)) } := by
      unfold headerVarsOfFile
      rw [hfl, hrun]
      unfold headerVarsFrom
      rw [List.foldl_append]
      simp only [List.foldl_cons, List.foldl_nil]
      rw [eN, eT, kN, kT]
      simp only [List.foldl_cons, List.foldl_nil, applyKeyedValue_names, applyKeyedValue_types]
    rw [hvars]
  · rw [if_neg hf] at hlines
    have hnil : defn.fields = [] := by
      cases hx : defn.fields with
      | nil => rfl
      | cons a l => rw [hx] at hf; simp at hf
    have hfl : fileLines (unlines (headerLines defn g)) = headerLines defn g := by
      apply fileLines_unlines
      intro l hl
      rw [hlines] at hl
      simp only [List.mem_append, List.mem_singleton, List.not_mem_nil, or_false] at hl
      rcases hl with h1 | h1
      · exact ⟨(hml l h1).2.1, (hml l h1).2.2.1⟩
      · rw [h1]; exact ⟨hsentn, hsent0⟩
    have hrun : headerRun (headerLines defn g) = ml := by
      rw [hlines, List.append_nil]
      exact takeWhile_append_stop _ _ _ _ (fun x hx => (hml x hx).1) hsent
    have hv := hml_vars ⟨[], [], [], [], [], [], []⟩
    unfold headerVarsOfFile
    rw [hfl, hrun, hv.1, hv.2, hnil]
    rfl

/-- The schema written by `CompleteHeader` to a new file and read again by the
constructor, for plain names and types that have a word: the same fields. -/
theorem CompleteHeader_fields_read_back {α : Type} (env : Env α) (L : OGRGmtLayer α)
    (g : Option (OGRGeometry α)) (pszFilename : Str) (poSRS : Option OGRSpatialReference)
    (bUpdateIn : Bool)
    (hname : STARTS_WITH pszFilename "/vsistdout".data = false)
    (hq : L.m_fp.quota = none) (hd : L.m_fp.data = []) (hp : L.m_fp.pos = 0)
    (ht : ∀ fd ∈ L.poFeatureDefn.fields, fd.type.hasWord = true)
    (hn : ∀ fd ∈ L.poFeatureDefn.fields, isPlainName fd.name = true)
    (hs : strstr (fieldNamesLine L.poFeatureDefn.fields) "FEATURE_DATA".data = false) :
    ∃ L1, OGRGmtLayer.new env pszFilename (some ⟨(CompleteHeader L g).2.m_fp.data, 0, none, []⟩)
        poSRS bUpdateIn = some L1 ∧
      L1.poFeatureDefn.fields = L.poFeatureDefn.fields := by
  have w := CompleteHeader_wrote L g hq
  have hdata : (CompleteHeader L g).2.m_fp.data = unlines (headerLines L.poFeatureDefn g) := by
    have := w.data (by show L.m_fp.pos = L.m_fp.data.length; rw [hp, hd]; rfl)
    rw [this]
    show L.m_fp.data ++ _ = _
    rw [hd, List.nil_append]
  obtain ⟨L1, h1, _, h3, _⟩ := new_lines env pszFilename
    ⟨(CompleteHeader L g).2.m_fp.data, 0, none, []⟩ poSRS bUpdateIn hname
  refine ⟨L1, h1, ?_⟩
  rw [h3]
  show headerFields (headerVarsOfFile (CompleteHeader L g).2.m_fp.data).osFieldNames
    (headerVarsOfFile (CompleteHeader L g).2.m_fp.data).osFieldTypes = _
  rw [hdata, headerVarsOfFile_headerLines L.poFeatureDefn g hn hs, headerFields_spec,
    tokenize_intercalate, tokenize_intercalate]
  · simp only [List.length_map, max_self]
    exact headerField_fields _ ht
  · intro x hx
    obtain ⟨fd, _, rfl⟩ := List.mem_map.mp hx
    refine ⟨fieldTypeWord_ne_nil _, fun c hc => ?_⟩
    have := fieldTypeWord_chars fd.type c hc
    tauto
  · intro x hx
    obtain ⟨fd, hfd, rfl⟩ := List.mem_map.mp hx
    have := isPlainName_chars fd.name (hn fd hfd)
    refine ⟨this.1, fun c hc => ?_⟩
    have := this.2 c hc
    tauto

set_option maxRecDepth 100000 in
/-- C37, counterexample: a schema with the single string field `my field`. The header
written holds the name as it is, and the constructor reads the schema back with the
field name `my`. -/
theorem C37_counterexample :
    (CreateField (openLayer "" true) ⟨"my field".data, OFTString⟩ false).2.poFeatureDefn.fields =
      [⟨"my field".data, OFTString⟩] ∧
    spacedNameWritten.m_fp.data = "# @Nmy field\n# @Tstring\n# FEATURE_DATA\n".data ∧
    (reopen spacedNameWritten).poFeatureDefn.fields = [⟨"my".data, OFTString⟩] := by
  decide

/-- C37, amended: for a schema whose field types are integer, double, string or datetime
and whose field names are not empty and hold no white space, `|`, double quote,
backslash or NUL, the names line not containing `FEATURE_DATA`, the header lines that
`CompleteHeader` writes to a new file are read back by the constructor into a schema
with the same number of fields, the same names in the same order and the same types. -/
theorem C37_plain_names_read_back {α : Type} (env : Env α) (L : OGRGmtLayer α)
    (g : Option (OGRGeometry α)) (pszFilename : Str) (poSRS : Option OGRSpatialReference)
    (bUpdateIn : Bool)
    (hname : STARTS_WITH pszFilename "/vsistdout".data = false)
    (hq : L.m_fp.quota = none) (hd : L.m_fp.data = []) (hp : L.m_fp.pos = 0)
    (ht : ∀ fd ∈ L.poFeatureDefn.fields, fd.type.hasWord = true)
    (hn : ∀ fd ∈ L.poFeatureDefn.fields, isPlainName fd.name = true)
    (hs : strstr (fieldNamesLine L.poFeatureDefn.fields) "FEATURE_DATA".data = false) :
    ∃ L1, OGRGmtLayer.new env pszFilename (some ⟨(CompleteHeader L g).2.m_fp.data, 0, none, []⟩)
        poSRS bUpdateIn = some L1 ∧
      L1.poFeatureDefn.fields.length = L.poFeatureDefn.fields.length ∧
      L1.poFeatureDefn.fields.map (fun fd => fd.name) =
        L.poFeatureDefn.fields.map (fun fd => fd.name) ∧
      L1.poFeatureDefn.fields.map (fun fd => fd.type) =
        L.poFeatureDefn.fields.map (fun fd => fd.type) ∧
      L1.poFeatureDefn.fields = L.poFeatureDefn.fields := by
  obtain ⟨L1, h1, h2⟩ :=
    CompleteHeader_fields_read_back env L g pszFilename poSRS bUpdateIn hname hq hd hp ht hn hs
  exact ⟨L1, h1, by rw [h2], by rw [h2], by rw [h2], h2⟩

set_option maxRecDepth 100000 in
theorem C37_plain_names_read_back_witness :
    STARTS_WITH "a.gmt".data "/vsistdout".data = false ∧
    fourFields.m_fp.quota = none ∧ fourFields.m_fp.data = [] ∧ fourFields.m_fp.pos = 0 ∧
    (∀ fd ∈ fourFields.poFeatureDefn.fields, fd.type.hasWord = true) ∧
    (∀ fd ∈ fourFields.poFeatureDefn.fields, isPlainName fd.name = true) ∧
    strstr (fieldNamesLine fourFields.poFeatureDefn.fields) "FEATURE_DATA".data = false ∧
    (∃ L1, OGRGmtLayer.new intEnv "a.gmt".data
        (some ⟨(CompleteHeader fourFields (some (.point (mkPoint 1 2)))).2.m_fp.data, 0, none, []⟩)
        none false = some L1 ∧
      L1.poFeatureDefn.fields.length = fourFields.poFeatureDefn.fields.length ∧
      L1.poFeatureDefn.fields.map (fun fd => fd.name) =
        fourFields.poFeatureDefn.fields.map (fun fd => fd.name) ∧
      L1.poFeatureDefn.fields.map (fun fd => fd.type) =
        fourFields.poFeatureDefn.fields.map (fun fd => fd.type) ∧
      L1.poFeatureDefn.fields = fourFields.poFeatureDefn.fields) ∧
    (CompleteHeader fourFields (some (.point (mkPoint 1 2)))).2.m_fp.data =
      ("# @GPOINT\n# @Nid|height|name|seen@\n# @Tinteger|double|string|datetime\n" ++
        "# FEATURE_DATA\n").data :=
  ⟨by decide, by decide, by decide, by decide, by decide, by decide, by decide,
    C37_plain_names_read_back intEnv fourFields (some (.point (mkPoint 1 2))) "a.gmt".data none
      false (by decide) (by decide) (by decide) (by decide) (by decide) (by decide) (by decide),
    by decide⟩

theorem headerVarsFrom_foldl (hdr : List Str) :
    ∀ h : HeaderVars, headerVarsFrom h hdr =
      (hdr.flatMap (fun l => (lineKeyedValues l).getD [])).foldl applyKeyedValue h := by
  induction hdr with
  | nil => intro h; rfl
  | cons l ls ih =>
    intro h
    rw [List.flatMap_cons, List.foldl_append, ← ih]
    rfl

/-- What one keyed value does to the strings of the header: key `N`, `T`, `G` or `R`
replaces the names, types, geometry kind or region by the value; key `J` with second
character `w`, `e` or `p` and at least one character after it replaces the WKT, EPSG
or PROJ string by its argument; anything else is left as it is. -/
theorem applyKeyedValue_vars (h : HeaderVars) (kv : Str) :
    (applyKeyedValue h kv).osFieldNames =
      (if charAt kv 0 == 'N' then kv.drop 1 else h.osFieldNames) ∧
    (applyKeyedValue h kv).osFieldTypes =
      (if charAt kv 0 == 'T' then kv.drop 1 else h.osFieldTypes) ∧
    (applyKeyedValue h kv).osGeometryType =
      (if charAt kv 0 == 'G' then kv.drop 1 else h.osGeometryType) ∧
    (applyKeyedValue h kv).osRegion =
      (if charAt kv 0 == 'R' then kv.drop 1 else h.osRegion) ∧
    (applyKeyedValue h kv).osWKT =
      (if charAt kv 0 == 'J' && charAt kv 1 == 'w' && charAt kv 2 != Char.ofNat 0 then
        srsArgument kv else h.osWKT) ∧
    (applyKeyedValue h kv).osEPSG =
      (if charAt kv 0 == 'J' && charAt kv 1 == 'e' && charAt kv 2 != Char.ofNat 0 then
        srsArgument kv else h.osEPSG) ∧
    (applyKeyedValue h kv).osProj4 =
      (if charAt kv 0 == 'J' && charAt kv 1 == 'p' && charAt kv 2 != Char.ofNat 0 then
        srsArgument kv else h.osProj4) := by
  unfold applyKeyedValue srsArgument
  by_cases hN : charAt kv 0 = 'N'
  · simp [hN]
  · by_cases hT : charAt kv 0 = 'T'
    · simp [hT]
    · by_cases hG : charAt kv 0 = 'G'
      · simp [hG]
      · by_cases hR : charAt kv 0 = 'R'
        · simp [hR]
        · by_cases hJ : charAt kv 0 = 'J'
          · by_cases h2 : charAt kv 2 = Char.ofNat 0
            · simp [hJ, h2]
            · by_cases hw : charAt kv 1 = 'w'
              · simp [hJ, h2, hw]
              · by_cases he : charAt kv 1 = 'e'
                · simp [hJ, h2, he]
                · by_cases hp : charAt kv 1 = 'p'
                  · simp [hJ, h2, hp]
                  · simp [hJ, h2, hw, he, hp]
          · simp [hN, hT, hG, hR, hJ]

/-- The strings the constructor holds after a list of keyed values: each is the value
of the last keyed value that fills it, or what it was when there is none. -/
theorem foldl_applyKeyedValue_vars (kvs : List Str) :
    ∀ h : HeaderVars,
      (kvs.foldl applyKeyedValue h).osFieldNames = (lastValueOf 'N' kvs).getD h.osFieldNames ∧
      (kvs.foldl applyKeyedValue h).osFieldTypes = (lastValueOf 'T' kvs).getD h.osFieldTypes ∧
      (kvs.foldl applyKeyedValue h).osGeometryType =
        (lastValueOf 'G' kvs).getD h.osGeometryType ∧
      (kvs.foldl applyKeyedValue h).osRegion = (lastValueOf 'R' kvs).getD h.osRegion ∧
      (kvs.foldl applyKeyedValue h).osWKT = (lastSRSOf 'w' kvs).getD h.osWKT ∧
      (kvs.foldl applyKeyedValue h).osEPSG = (lastSRSOf 'e' kvs).getD h.osEPSG ∧
      (kvs.foldl applyKeyedValue h).osProj4 = (lastSRSOf 'p' kvs).getD h.osProj4 := by
  induction kvs with
  | nil => intro h; exact ⟨rfl, rfl, rfl, rfl, rfl, rfl, rfl⟩
  | cons kv kvs ih =>
    intro h
    obtain ⟨a1, a2, a3, a4, a5, a6, a7⟩ := applyKeyedValue_vars h kv
    obtain ⟨b1, b2, b3, b4, b5, b6, b7⟩ := ih (applyKeyedValue h kv)
    rw [List.foldl_cons, b1, b2, b3, b4, b5, b6, b7, a1, a2, a3, a4, a5, a6, a7]
    simp only [lastValueOf, lastSRSOf]
    refine ⟨?_, ?_, ?_, ?_, ?_, ?_, ?_⟩
    · cases lastValueOf 'N' kvs <;> cases (charAt kv 0 == 'N') <;> rfl
    · cases lastValueOf 'T' kvs <;> cases (charAt kv 0 == 'T') <;> rfl
    · cases lastValueOf 'G' kvs <;> cases (charAt kv 0 == 'G') <;> rfl
    · cases lastValueOf 'R' kvs <;> cases (charAt kv 0 == 'R') <;> rfl
    · cases lastSRSOf 'w' kvs <;>
        cases (charAt kv 0 == 'J' && charAt kv 1 == 'w' && charAt kv 2 != Char.ofNat 0) <;> rfl
    · cases lastSRSOf 'e' kvs <;>
        cases (charAt kv 0 == 'J' && charAt kv 1 == 'e' && charAt kv 2 != Char.ofNat 0) <;> rfl
    · cases lastSRSOf 'p' kvs <;>
        cases (charAt kv 0 == 'J' && charAt kv 1 == 'p' && charAt kv 2 != Char.ofNat 0) <;> rfl

/-- The strings the constructor collects from a file are the values of the last keyed
values of its header that fill them, and empty where the header has none. -/
theorem headerVarsOfFile_keys (data : Str) :
    (headerVarsOfFile data).osFieldNames = (lastValueOf 'N' (headerKeyedValues data)).getD [] ∧
    (headerVarsOfFile data).osFieldTypes = (lastValueOf 'T' (headerKeyedValues data)).getD [] ∧
    (headerVarsOfFile data).osGeometryType =
      (lastValueOf 'G' (headerKeyedValues data)).getD [] ∧
    (headerVarsOfFile data).osRegion = (lastValueOf 'R' (headerKeyedValues data)).getD [] ∧
    (headerVarsOfFile data).osWKT = (lastSRSOf 'w' (headerKeyedValues data)).getD [] ∧
    (headerVarsOfFile data).osEPSG = (lastSRSOf 'e' (headerKeyedValues data)).getD [] ∧
    (headerVarsOfFile data).osProj4 = (lastSRSOf 'p' (headerKeyedValues data)).getD [] := by
  unfold headerVarsOfFile headerKeyedValues
  rw [headerVarsFrom_foldl]
  exact foldl_applyKeyedValue_vars _ _

/-! ## The extent and the coordinate system declared in the header -/

/-- C6. The constructor always yields a layer for a file that is not `/vsistdout`. When
the header holds a keyed value `R`, the keyed values being those of the leading run of
header lines in the order read, and the value of the last of them splits on `/` into
exactly four tokens, the region string of the constructor is that value, the layer
holds the numbers of the four tokens as MinX, MaxX, MinY and MaxY with the region
marked complete, and `IGetExtent` returns this envelope of the layer, without the
generic feature scan. -/
theorem C6_extent_from_header {α : Type} (env : Env α) (pszFilename : Str) (fp : VSILFILE)
    (poSRS : Option OGRSpatialReference) (bUpdateIn : Bool)
    (hname : STARTS_WITH pszFilename "/vsistdout".data = false) :
    ∃ L, OGRGmtLayer.new env pszFilename (some fp) poSRS bUpdateIn = some L ∧
      ∀ v ta tb tc td, lastValueOf 'R' (headerKeyedValues fp.data) = some v →
        CSLTokenizeStringComplex v "/".data false false = [ta, tb, tc, td] →
        (headerVarsOfFile fp.data).osRegion = v ∧
        L.sRegion =
          some ⟨env.CPLAtofM ta, env.CPLAtofM tb, env.CPLAtofM tc, env.CPLAtofM td⟩ ∧
        L.bRegionComplete = true ∧
        IGetExtent L =
          .own ⟨env.CPLAtofM ta, env.CPLAtofM tb, env.CPLAtofM tc, env.CPLAtofM td⟩ := by
  obtain ⟨L, e, _, _, a3, a4, _⟩ := new_lines env pszFilename fp poSRS bUpdateIn hname
  refine ⟨L, e, ?_⟩
  intro v ta tb tc td hv ht
  have hr : (headerVarsOfFile fp.data).osRegion = v := by
    rw [(headerVarsOfFile_keys fp.data).2.2.2.1, hv]
    rfl
  have hne : v.length > 0 := by
    cases hx : v with
    | nil => rw [hx, tokenize_nil] at ht; cases ht
    | cons c cs => simp
  rw [hr] at a3 a4
  have h3 : L.sRegion =
      some ⟨env.CPLAtofM ta, env.CPLAtofM tb, env.CPLAtofM tc, env.CPLAtofM td⟩ := by
    rw [a3]
    simp [headerRegion, hne, ht]
  have h4 : L.bRegionComplete = true := by
    rw [a4]
    simp [headerRegion, hne]
  refine ⟨hr, h3, h4, ?_⟩
  simp [IGetExtent, h3, h4]

set_option maxRecDepth 100000 in
/-- C6, at the header `@R0/10/0/10`: the extent is `(0, 10, 0, 10)`; and at a header
with two `R` keys the last one is taken. -/
theorem C6_extent_from_header_witness :
    STARTS_WITH "a.gmt".data "/vsistdout".data = false ∧
    (∃ L, OGRGmtLayer.new intEnv "a.gmt".data
        (some (openFile "# @VGMT1.0 @GPOINT\n# @R0/10/0/10\n# FEATURE_DATA\n3 4\n")) none false =
        some L ∧
      ∀ v ta tb tc td,
        lastValueOf 'R' (headerKeyedValues
          (openFile "# @VGMT1.0 @GPOINT\n# @R0/10/0/10\n# FEATURE_DATA\n3 4\n").data) = some v →
        CSLTokenizeStringComplex v "/".data false false = [ta, tb, tc, td] →
        (headerVarsOfFile
          (openFile "# @VGMT1.0 @GPOINT\n# @R0/10/0/10\n# FEATURE_DATA\n3 4\n").data).osRegion =
          v ∧
        L.sRegion = some ⟨intEnv.CPLAtofM ta, intEnv.CPLAtofM tb, intEnv.CPLAtofM tc,
          intEnv.CPLAtofM td⟩ ∧
        L.bRegionComplete = true ∧
        IGetExtent L = .own ⟨intEnv.CPLAtofM ta, intEnv.CPLAtofM tb, intEnv.CPLAtofM tc,
          intEnv.CPLAtofM td⟩) ∧
    lastValueOf 'R' (headerKeyedValues
      (openFile "# @VGMT1.0 @GPOINT\n# @R0/10/0/10\n# FEATURE_DATA\n3 4\n").data) =
      some "0/10/0/10".data ∧
    CSLTokenizeStringComplex "0/10/0/10".data "/".data false false =
      ["0".data, "10".data, "0".data, "10".data] ∧
    IGetExtent (openLayer "# @VGMT1.0 @GPOINT\n# @R0/10/0/10\n# FEATURE_DATA\n3 4\n" false) =
      .own ⟨0, 10, 0, 10⟩ ∧
    IGetExtent (openLayer "# @R1/2/3/4 @GPOINT\n# @R0/10/0/10\n# FEATURE_DATA\n3 4\n" false) =
      .own ⟨0, 10, 0, 10⟩ :=
  ⟨by decide, C6_extent_from_header intEnv "a.gmt".data _ none false (by decide), by decide,
    by decide, by decide, by decide⟩

/-- C17. The constructor always yields a valid layer for a file that is not
`/vsistdout`. Its WKT, EPSG and PROJ strings are the arguments of the last keyed values
`Jw`, `Je` and `Jp` of the header that hold at least one character after the two key
characters (the keyed values being those of the leading run of header lines in the
order read, an argument in double quotes being taken without them and unescaped), and
empty where there is none. The coordinate system comes from the first non-empty of the
three, in this order: the definition imported from that string when its being imported
succeeds, none when it fails, whatever the strings of lower priority are; and none
when all three are empty. -/
theorem C17_srs_precedence {α : Type} (env : Env α) (pszFilename : Str) (fp : VSILFILE)
    (poSRS : Option OGRSpatialReference) (bUpdateIn : Bool)
    (hname : STARTS_WITH pszFilename "/vsistdout".data = false) :
    ∃ L, OGRGmtLayer.new env pszFilename (some fp) poSRS bUpdateIn = some L ∧
      L.bValidFile = true ∧
      (headerVarsOfFile fp.data).osWKT = (lastSRSOf 'w' (headerKeyedValues fp.data)).getD [] ∧
      (headerVarsOfFile fp.data).osEPSG = (lastSRSOf 'e' (headerKeyedValues fp.data)).getD [] ∧
      (headerVarsOfFile fp.data).osProj4 = (lastSRSOf 'p' (headerKeyedValues fp.data)).getD [] ∧
      (∀ w, (lastSRSOf 'w' (headerKeyedValues fp.data)).getD [] = w → w ≠ [] →
        L.m_poSRS = if env.importFromWkt w then some (.fromWkt w) else none) ∧
      (∀ e, (lastSRSOf 'w' (headerKeyedValues fp.data)).getD [] = [] →
        (lastSRSOf 'e' (headerKeyedValues fp.data)).getD [] = e → e ≠ [] →
        L.m_poSRS =
          if env.importFromEPSG (atoi e) then some (.fromEPSG (atoi e)) else none) ∧
      (∀ p, (lastSRSOf 'w' (headerKeyedValues fp.data)).getD [] = [] →
        (lastSRSOf 'e' (headerKeyedValues fp.data)).getD [] = [] →
        (lastSRSOf 'p' (headerKeyedValues fp.data)).getD [] = p → p ≠ [] →
        L.m_poSRS = if env.importFromProj4 p then some (.fromProj4 p) else none) ∧
      ((lastSRSOf 'w' (headerKeyedValues fp.data)).getD [] = [] →
        (lastSRSOf 'e' (headerKeyedValues fp.data)).getD [] = [] →
        (lastSRSOf 'p' (headerKeyedValues fp.data)).getD [] = [] → L.m_poSRS = none) := by
  obtain ⟨L1, h, _, e2, _⟩ := new_eq_applyHeader env pszFilename fp poSRS bUpdateIn hname
  obtain ⟨L, e, _, _, _, _, a5, _⟩ := new_lines env pszFilename fp poSRS bUpdateIn hname
  have hv : L.bValidFile = true := by
    rw [e2] at e
    simp only [Option.some.injEq] at e
    rw [← e]
    rfl
  obtain ⟨_, _, _, _, kw, ke, kp⟩ := headerVarsOfFile_keys fp.data
  have hpos : ∀ s : Str, s ≠ [] → s.length > 0 := fun s hs => List.length_pos.mpr hs
  refine ⟨L, e, hv, kw, ke, kp, ?_, ?_, ?_, ?_⟩
  · intro w hw hne
    rw [a5]
    simp only [headerSRS, kw, hw, hpos _ hne, if_true]
  · intro x hw he hne
    rw [a5]
    simp only [headerSRS, kw, ke, hw, he, hpos _ hne, if_true, List.length_nil, gt_iff_lt,
      lt_self_iff_false, if_false]
  · intro x hw he hp hne
    rw [a5]
    simp only [headerSRS, kw, ke, kp, hw, he, hp, hpos _ hne, if_true, List.length_nil,
      gt_iff_lt, lt_self_iff_false, if_false]
  · intro hw he hp
    rw [a5]
    simp only [headerSRS, kw, ke, kp, hw, he, hp, List.length_nil, gt_iff_lt,
      lt_self_iff_false, if_false]

set_option maxRecDepth 100000 in
/-- C17, at a header that gives an EPSG code and then a WKT text: the WKT text is the
one imported; at a header that gives an EPSG code and a PROJ text, the EPSG code. -/
theorem C17_srs_precedence_witness :
    STARTS_WITH "a.gmt".data "/vsistdout".data = false ∧
    (∃ L, OGRGmtLayer.new intEnv "a.gmt".data
        (some (openFile "# @GPOINT @Je4326\n# @Jw\"LOCAL_CS[\\\"x\\\"]\"\n# FEATURE_DATA\n")) none
        false = some L ∧
      L.bValidFile = true ∧
      (headerVarsOfFile
        (openFile "# @GPOINT @Je4326\n# @Jw\"LOCAL_CS[\\\"x\\\"]\"\n# FEATURE_DATA\n").data).osWKT =
        (lastSRSOf 'w' (headerKeyedValues
          (openFile "# @GPOINT @Je4326\n# @Jw\"LOCAL_CS[\\\"x\\\"]\"\n# FEATURE_DATA\n").data)).getD
          [] ∧
      (headerVarsOfFile
        (openFile "# @GPOINT @Je4326\n# @Jw\"LOCAL_CS[\\\"x\\\"]\"\n# FEATURE_DATA\n").data).osEPSG =
        (lastSRSOf 'e' (headerKeyedValues
          (openFile "# @GPOINT @Je4326\n# @Jw\"LOCAL_CS[\\\"x\\\"]\"\n# FEATURE_DATA\n").data)).getD
          [] ∧
      (headerVarsOfFile
        (openFile "# @GPOINT @Je4326\n# @Jw\"LOCAL_CS[\\\"x\\\"]\"\n# FEATURE_DATA\n").data).osProj4 =
        (lastSRSOf 'p' (headerKeyedValues
          (openFile "# @GPOINT @Je4326\n# @Jw\"LOCAL_CS[\\\"x\\\"]\"\n# FEATURE_DATA\n").data)).getD
          [] ∧
      (∀ w, (lastSRSOf 'w' (headerKeyedValues
          (openFile "# @GPOINT @Je4326\n# @Jw\"LOCAL_CS[\\\"x\\\"]\"\n# FEATURE_DATA\n").data)).getD
          [] = w → w ≠ [] →
        L.m_poSRS = if intEnv.importFromWkt w then some (.fromWkt w) else none) ∧
      (∀ e, (lastSRSOf 'w' (headerKeyedValues
          (openFile "# @GPOINT @Je4326\n# @Jw\"LOCAL_CS[\\\"x\\\"]\"\n# FEATURE_DATA\n").data)).getD
          [] = [] →
        (lastSRSOf 'e' (headerKeyedValues
          (openFile "# @GPOINT @Je4326\n# @Jw\"LOCAL_CS[\\\"x\\\"]\"\n# FEATURE_DATA\n").data)).getD
          [] = e → e ≠ [] →
        L.m_poSRS =
          if intEnv.importFromEPSG (atoi e) then some (.fromEPSG (atoi e)) else none) ∧
      (∀ p, (lastSRSOf 'w' (headerKeyedValues
          (openFile "# @GPOINT @Je4326\n# @Jw\"LOCAL_CS[\\\"x\\\"]\"\n# FEATURE_DATA\n").data)).getD
          [] = [] →
        (lastSRSOf 'e' (headerKeyedValues
          (openFile "# @GPOINT @Je4326\n# @Jw\"LOCAL_CS[\\\"x\\\"]\"\n# FEATURE_DATA\n").data)).getD
          [] = [] →
        (lastSRSOf 'p' (headerKeyedValues
          (openFile "# @GPOINT @Je4326\n# @Jw\"LOCAL_CS[\\\"x\\\"]\"\n# FEATURE_DATA\n").data)).getD
          [] = p → p ≠ [] →
        L.m_poSRS = if intEnv.importFromProj4 p then some (.fromProj4 p) else none) ∧
      ((lastSRSOf 'w' (headerKeyedValues
          (openFile "# @GPOINT @Je4326\n# @Jw\"LOCAL_CS[\\\"x\\\"]\"\n# FEATURE_DATA\n").data)).getD
          [] = [] →
        (lastSRSOf 'e' (headerKeyedValues
          (openFile "# @GPOINT @Je4326\n# @Jw\"LOCAL_CS[\\\"x\\\"]\"\n# FEATURE_DATA\n").data)).getD
          [] = [] →
        (lastSRSOf 'p' (headerKeyedValues
          (openFile "# @GPOINT @Je4326\n# @Jw\"LOCAL_CS[\\\"x\\\"]\"\n# FEATURE_DATA\n").data)).getD
          [] = [] → L.m_poSRS = none)) ∧
    lastSRSOf 'w' (headerKeyedValues
      (openFile "# @GPOINT @Je4326\n# @Jw\"LOCAL_CS[\\\"x\\\"]\"\n# FEATURE_DATA\n").data) =
      some "LOCAL_CS[\"x\"]".data ∧
    lastSRSOf 'e' (headerKeyedValues
      (openFile "# @GPOINT @Je4326\n# @Jw\"LOCAL_CS[\\\"x\\\"]\"\n# FEATURE_DATA\n").data) =
      some "4326".data ∧
    (openLayer "# @GPOINT @Je4326\n# @Jw\"LOCAL_CS[\\\"x\\\"]\"\n# FEATURE_DATA\n" false).m_poSRS =
      some (.fromWkt "LOCAL_CS[\"x\"]".data) ∧
    (openLayer "# @GPOINT @Jp+proj=longlat @Je4326\n# FEATURE_DATA\n" false).m_poSRS =
      some (.fromEPSG 4326) ∧
    (openLayer "# @GPOINT @Jp+proj=longlat\n# FEATURE_DATA\n" false).m_poSRS =
      some (.fromProj4 "+proj=longlat".data) :=
  ⟨by decide, C17_srs_precedence intEnv "a.gmt".data _ none false (by decide), by decide,
    by decide, by decide, by decide, by decide⟩

/-! ## The header flag after construction, and the extent after writes -/

/-- The loop over the header lines sets `bHeaderComplete` exactly when the leading run
of header lines ends at a sentinel line, and keeps it otherwise. -/
theorem headerLoop_complete {α : Type} (hdr rest : List Str) :
    ∀ (fuel : Nat) (L : OGRGmtLayer α) (h : HeaderVars) (nStartOfLine : Nat),
      hdr.length + 1 ≤ fuel → AtLines L.m_fp (hdr ++ rest) →
      (∀ l ∈ hdr, inHeaderRun l = true) → inHeaderRun (rest.headD []) = false →
      ∃ L1 h1, headerLoop fuel L h nStartOfLine = some (L1, h1) ∧
        L1.bHeaderComplete = (isSentinel (rest.headD []) || L.bHeaderComplete) := by
  induction hdr with
  | nil =>
    intro fuel L h n0 hf hat _ hr
    obtain ⟨n, rfl⟩ : ∃ n, fuel = n + 1 := ⟨fuel - 1, by omega⟩
    obtain ⟨⟨c1, c2, c3⟩, c4, c5, c6⟩ := ReadLine_Cur L rest hat
    have hl : (ReadLine L).2.osLine = rest.headD [] := c1
    by_cases hs : isSentinel (rest.headD []) = true
    · have hs' := hs
      simp only [isSentinel, Bool.and_eq_true, beq_iff_eq] at hs'
      have hne : rest ≠ [] := by
        intro e
        rw [e] at hs'
        exact absurd hs'.1 (by decide)
      have h6 : (ReadLine L).1 = true := by
        rw [c6]
        cases rest with
        | nil => exact absurd rfl hne
        | cons a b => rfl
      have hc : ((ReadLine L).1 && charAt (ReadLine L).2.osLine 0 == '#') = true := by
        rw [h6, hl, hs'.1]; rfl
      have hstr : strstr (ReadLine L).2.osLine "FEATURE_DATA".data = true := by
        rw [hl]; exact hs'.2
      refine ⟨(ReadLine { (ReadLine L).2 with bHeaderComplete := true }).2, h, ?_, ?_⟩
      · simp only [headerLoop]
        rw [if_pos hc, if_pos hstr]
      · have hat2 : AtLines ({ (ReadLine L).2 with bHeaderComplete := true } : OGRGmtLayer α).m_fp
            rest.tail := c3
        have hk := (ReadLine_Cur { (ReadLine L).2 with bHeaderComplete := true }
          rest.tail hat2).2.1.bHeaderComplete
        rw [hk, hs]
        rfl
    · have hs0 : isSentinel (rest.headD []) = false := by simpa using hs
      have hc : ((ReadLine L).1 && charAt (ReadLine L).2.osLine 0 == '#') = false := by
        rw [hl]
        by_cases h1 : charAt (rest.headD []) 0 = '#'
        · exfalso
          simp only [inHeaderRun, h1, beq_self_eq_true, Bool.true_and, Bool.not_eq_false'] at hr
          simp only [isSentinel, h1, beq_self_eq_true, Bool.true_and] at hs0
          rw [hr] at hs0
          cases hs0
        · have : (charAt (rest.headD []) 0 == '#') = false := by simpa using h1
          rw [this, Bool.and_false]
      refine ⟨(ReadLine L).2, h, ?_, ?_⟩
      · simp only [headerLoop]
        rw [if_neg (by rw [hc]; decide)]
      · rw [c4.bHeaderComplete, hs0]
        rfl
  | cons l hdr ih =>
    intro fuel L h n0 hf hat hall hr
    obtain ⟨n, rfl⟩ : ∃ n, fuel = n + 1 := ⟨fuel - 1, by omega⟩
    obtain ⟨⟨c1, c2, c3⟩, c4, c5, c6⟩ := ReadLine_Cur L (l :: hdr ++ rest) hat
    have hl : (ReadLine L).2.osLine = l := c1
    have hin := hall l (by simp)
    simp only [inHeaderRun, Bool.and_eq_true, beq_iff_eq, Bool.not_eq_true'] at hin
    have hc : ((ReadLine L).1 && charAt (ReadLine L).2.osLine 0 == '#') = true := by
      rw [c6, hl, hin.1]; rfl
    have c3' : AtLines (ReadLine L).2.m_fp (hdr ++ rest) := c3
    have hall' : ∀ x ∈ hdr, inHeaderRun x = true := fun x hx => hall x (by simp [hx])
    have hstr : ¬ strstr (ReadLine L).2.osLine "FEATURE_DATA".data = true := by
      rw [hl, hin.2]; decide
    have step : ∀ (L1 : OGRGmtLayer α) (h2 : HeaderVars) (n2 : Nat),
        L1.m_fp = (ReadLine L).2.m_fp →
        L1.bHeaderComplete = L.bHeaderComplete →
        ∃ L2 h1, headerLoop n L1 h2 n2 = some (L2, h1) ∧
          L2.bHeaderComplete = (isSentinel (rest.headD []) || L.bHeaderComplete) := by
      intro L1 h2 n2 e1 e2
      obtain ⟨L2, h1, a, b⟩ :=
        ih n L1 h2 n2 (by simp at hf; omega) (by rw [e1]; exact c3') hall' hr
      exact ⟨L2, h1, a, by rw [b, e2]⟩
    simp only [headerLoop]
    rw [if_pos hc, if_neg hstr]
    by_cases hreg : STARTS_WITH_CI (ReadLine L).2.osLine "# REGION_STUB ".data = true
    · simp only [if_pos hreg]
      exact step _ _ _ rfl c4.bHeaderComplete
    · simp only [if_neg hreg]
      exact step _ _ _ rfl c4.bHeaderComplete

/-- After construction on a file that is not `/vsistdout` the header counts as
complete when the layer is read-only or the leading run of header lines ends at a
sentinel line. -/
theorem new_headerComplete {α : Type} (env : Env α) (pszFilename : Str) (fp : VSILFILE)
    (poSRS : Option OGRSpatialReference) (bUpdateIn : Bool)
    (hname : STARTS_WITH pszFilename "/vsistdout".data = false) :
    ∃ L, OGRGmtLayer.new env pszFilename (some fp) poSRS bUpdateIn = some L ∧
      L.bHeaderComplete = (headerHasSentinel fp.data || !bUpdateIn) := by
  have hat : AtLines ({ initialLayer env pszFilename fp bUpdateIn with
      m_fp := VSIFSeekL fp 0 } : OGRGmtLayer α).m_fp
      (headerRun (fileLines fp.data) ++ (fileLines fp.data).dropWhile inHeaderRun) := by
    rw [headerRun_append]
    show fileLines (fp.data.drop 0) = _
    rfl
  have hlen : (headerRun (fileLines fp.data)).length + 1 ≤ fp.data.length + 1 := by
    have h1 : (headerRun (fileLines fp.data)).length ≤ (fileLines fp.data).length :=
      (List.takeWhile_sublist _).length_le
    have h2 := fileLines_length fp.data
    omega
  obtain ⟨L1, h1, e, b⟩ := headerLoop_complete (headerRun (fileLines fp.data))
    ((fileLines fp.data).dropWhile inHeaderRun) (fp.data.length + 1)
    { initialLayer env pszFilename fp bUpdateIn with m_fp := VSIFSeekL fp 0 }
    ⟨[], [], [], [], [], [], []⟩ 0 hlen hat
    (fun l hl => (List.mem_takeWhile_imp hl)) (dropWhile_head _)
  have e' : readHeader (initialLayer env pszFilename fp bUpdateIn) = some (L1, h1) := e
  refine ⟨applyHeader env L1 h1, by simp [OGRGmtLayer.new, hname, e'], ?_⟩
  show L1.bHeaderComplete = _
  rw [b]
  rfl

/-- Successful calls of `ICreateFeature` on a layer whose header is complete leave the
mark on the region as it was. -/
theorem createFeatures_regionMark {α : Type} [LinearOrder α] (env : Env α)
    (fs : List (OGRFeature α)) :
    ∀ (L L1 : OGRGmtLayer α), createFeatures env L fs = some L1 →
      L.bHeaderComplete = true → L1.bRegionComplete = L.bRegionComplete := by
  induction fs with
  | nil =>
    intro L L1 h _
    simp only [createFeatures, Option.some.injEq] at h
    rw [← h]
  | cons f fs ih =>
    intro L L1 h hH
    simp only [createFeatures] at h
    by_cases hc : (ICreateFeature env L f).1 = OGRERR_NONE
    · rw [hc] at h
      simp only [beq_self_eq_true, if_true] at h
      obtain ⟨_, a2, _⟩ := ICreateFeature_ok env L f hc
      rw [ih _ _ h a2]
      by_cases hU : L.bUpdate = true
      · cases hg : f.poGeom with
        | none => simp [ICreateFeature, hU, hH, hg]
        | some g =>
          have e : ICreateFeature env L f = writeFeature env L f g := by
            simp [ICreateFeature, hU, hH, hg]
          rw [e]
          exact (writeFeature_frame env L f g).2.2.2.1
      · simp [ICreateFeature, hU]
    · have : ((ICreateFeature env L f).1 == OGRERR_NONE) = false := by simpa using hc
      rw [this] at h
      simp at h

/-- C7, as amended. An update-mode layer is constructed on a file, not `/vsistdout`,
whose header declares no region: the value of its last keyed value `R` is empty or
there is none. Then the layer holds no envelope, the region is not marked complete,
and the header counts as complete exactly when the leading run of header lines ends
at a line with `FEATURE_DATA`. After any sequence of successful `ICreateFeature` calls
that wrote at least one vertex the envelope the layer maintains is the bounding box
of all the vertices written: its four numbers are the least and the greatest `x` and
`y` among them. `IGetExtent` returns that envelope when the header was not complete
at construction, the first call having written the header; when it was complete,
`IGetExtent` does not answer from the envelope and calls the generic scan of the
features. Moreover any call of `ICreateFeature`, on any layer whose envelope is
initialised, leaves an envelope that contains the former one. -/
theorem C7_extent_is_bounding_box {α : Type} [LinearOrder α] (env : Env α)
    (pszFilename : Str) (fp : VSILFILE) (poSRS : Option OGRSpatialReference)
    (hname : STARTS_WITH pszFilename "/vsistdout".data = false)
    (hno : (lastValueOf 'R' (headerKeyedValues fp.data)).getD [] = []) :
    (∃ L, OGRGmtLayer.new env pszFilename (some fp) poSRS true = some L ∧
      L.bUpdate = true ∧ L.sRegion = none ∧ L.bRegionComplete = false ∧
      L.bHeaderComplete = headerHasSentinel fp.data ∧
      ∀ (feats : List (OGRFeature α)) (L1 : OGRGmtLayer α),
        createFeatures env L feats = some L1 →
        (feats.map OGRFeature.vertices).flatten ≠ [] →
        ∃ ext, L1.sRegion = some ext ∧
          IsBoundingBox ext (feats.map OGRFeature.vertices).flatten ∧
          (headerHasSentinel fp.data = false → IGetExtent L1 = .own ext) ∧
          (headerHasSentinel fp.data = true → IGetExtent L1 = .generic)) ∧
    (∀ (M : OGRGmtLayer α) (poFeature : OGRFeature α) (e : OGREnvelope α),
      M.sRegion = some e →
      ∃ e1, (ICreateFeature env M poFeature).2.sRegion = some e1 ∧ e1.Contains e) := by
  constructor
  · obtain ⟨L, e, _, _, a3, a4, _, _, a7, _⟩ := new_lines env pszFilename fp poSRS true hname
    obtain ⟨L', e', b⟩ := new_headerComplete env pszFilename fp poSRS true hname
    rw [e] at e'
    simp only [Option.some.injEq] at e'
    subst e'
    have hr : (headerVarsOfFile fp.data).osRegion = [] := by
      rw [(headerVarsOfFile_keys fp.data).2.2.2.1, hno]
    have hreg : headerRegion env (headerVarsOfFile fp.data).osRegion = (none, false) := by
      rw [hr]
      rfl
    rw [hreg] at a3 a4
    have hR : L.sRegion = none := by rw [a3]; rfl
    have hC : L.bRegionComplete = false := a4
    have hH : L.bHeaderComplete = headerHasSentinel fp.data := by
      rw [b]
      simp
    refine ⟨L, e, a7, hR, hC, hH, ?_⟩
    intro feats L1 hw hv
    obtain ⟨a, b1⟩ := createFeatures_ok env feats L L1 hw
    have hne : feats ≠ [] := by
      intro h
      rw [h] at hv
      exact hv rfl
    obtain ⟨ext, h1, h2⟩ := mergeVertices_none_bounds _ hv
    have hs : L1.sRegion = some ext := by rw [a, hR, h1]
    refine ⟨ext, hs, h2, ?_, ?_⟩
    · intro hsent
      rw [hsent] at hH
      simp [IGetExtent, b1 (Or.inl hH) hne, hs]
    · intro hsent
      rw [hsent] at hH
      have hm := createFeatures_regionMark env feats L L1 hw hH
      rw [hC] at hm
      simp [IGetExtent, hm]
  · intro M poFeature e hM
    obtain ⟨vs, hvs⟩ := ICreateFeature_sRegion env M poFeature
    obtain ⟨e1, h1, h2⟩ := mergeVertices_contains vs e
    exact ⟨e1, by rw [hvs, hM, h1], h2⟩

set_option maxRecDepth 100000 in
/-- C7, at two polygons written to a new, empty file: the extent is their bounding box
`(-3, 10, 0, 8)`, and a further feature leaves an envelope containing it. -/
theorem C7_extent_is_bounding_box_witness :
    STARTS_WITH "a.gmt".data "/vsistdout".data = false ∧
    (lastValueOf 'R' (headerKeyedValues (openFile "").data)).getD [] = [] ∧
    headerHasSentinel (openFile "").data = false ∧
    createFeatures intEnv (openLayer "" true) twoPolygons = some twoPolygonsWritten ∧
    (twoPolygons.map OGRFeature.vertices).flatten ≠ [] ∧
    twoPolygonsWritten.sRegion = some ⟨-3, 10, 0, 8⟩ ∧
    IGetExtent twoPolygonsWritten = .own ⟨-3, 10, 0, 8⟩ ∧
    ((∃ L, OGRGmtLayer.new intEnv "a.gmt".data (some (openFile "")) none true = some L ∧
      L.bUpdate = true ∧ L.sRegion = none ∧ L.bRegionComplete = false ∧
      L.bHeaderComplete = headerHasSentinel (openFile "").data ∧
      ∀ (feats : List (OGRFeature Int)) (L1 : OGRGmtLayer Int),
        createFeatures intEnv L feats = some L1 →
        (feats.map OGRFeature.vertices).flatten ≠ [] →
        ∃ ext, L1.sRegion = some ext ∧
          IsBoundingBox ext (feats.map OGRFeature.vertices).flatten ∧
          (headerHasSentinel (openFile "").data = false → IGetExtent L1 = .own ext) ∧
          (headerHasSentinel (openFile "").data = true → IGetExtent L1 = .generic)) ∧
    (∀ (M : OGRGmtLayer Int) (poFeature : OGRFeature Int) (e : OGREnvelope Int),
      M.sRegion = some e →
      ∃ e1, (ICreateFeature intEnv M poFeature).2.sRegion = some e1 ∧ e1.Contains e)) :=
  ⟨by decide, by decide, by decide, by decide, by decide, by decide, by decide,
    C7_extent_is_bounding_box intEnv "a.gmt".data (openFile "") none (by decide) (by decide)⟩

set_option maxRecDepth 100000 in
/-- C7 fails as stated: an update-mode layer is constructed on a file whose header is
complete, with the line `FEATURE_DATA`, and declares no region; the point `(1, 2)` is
written with success and the layer maintains the box `(1, 1, 2, 2)`, but the region is
not marked complete and `IGetExtent` does not return the box: it calls the generic
scan of the features. -/
theorem C7_counterexample :
    (openLayer noRegionText true).bUpdate = true ∧
    (openLayer noRegionText true).sRegion = none ∧
    (openLayer noRegionText true).bRegionComplete = false ∧
    (openLayer noRegionText true).bHeaderComplete = true ∧
    (openLayer noRegionText true).m_fp.written = [] ∧
    createFeatures intEnv (openLayer noRegionText true) [mkFeature (.point (mkPoint 1 2)) []] =
      some noRegionWritten ∧
    noRegionWritten.m_fp.data = "# @VGMT1.0 @GPOINT\n# FEATURE_DATA\n1 2\n".data ∧
    noRegionWritten.sRegion = some ⟨1, 1, 2, 2⟩ ∧
    noRegionWritten.bRegionComplete = false ∧
    IGetExtent noRegionWritten = .generic ∧
    IGetExtent noRegionWritten ≠ .own ⟨1, 1, 2, 2⟩ := by
  decide

/-! ## The lines of a feature as blocks, on a layer of any kind -/

/-- C26, as amended. On a device that accepts every write, with the cursor at the end
of the file, `ICreateFeature` on an update-mode layer, for a feature with a geometry,
succeeds and appends to the file the header lines, if the header was incomplete, and
then the lines of the feature. The geometry has at least one block, a block being the
vertex lines of one line string or ring, of a point, or of all the points of a
multipoint, with the comment `# @P` or `# @H` before those of a ring. When the kind of
the layer, once fixed from the feature if it was undetermined, is not point, the lines
of the feature are those of its blocks: for each block a `>` line, then its
comment lines, each of them the `# @D` line of the feature, `# @P` or `# @H`, then its
vertex lines; the blocks after the first are those of the geometry, so that the `# @D`
line can only stand in the first. When the kind of the layer is point, the lines of the
feature are the `# @D` line, if the schema has fields, and then the lines of the blocks
of the geometry without the `>` line of the first block: no `>` line precedes the first
block, and every later block keeps its own. -/
theorem C26_feature_blocks {α : Type} [LinearOrder α] (env : Env α)
    (L : OGRGmtLayer α) (f : OGRFeature α) (g : OGRGeometry α) (hU : L.bUpdate = true)
    (hg : f.poGeom = some g) (hq : L.m_fp.quota = none)
    (hend : L.m_fp.pos = L.m_fp.data.length) :
    (ICreateFeature env L f).1 = OGRERR_NONE ∧
    (ICreateFeature env L f).2.m_fp.data =
      L.m_fp.data ++ unlines ((if L.bHeaderComplete then [] else
        headerLines L.poFeatureDefn (some g)) ++
        featureLines env (completedDefn L.poFeatureDefn (some g)) f g) ∧
    geometryBlocks env g ≠ [] ∧
    (∀ b ∈ geometryBlocks env g, ∀ c ∈ b.1, c = "# @P".data ∨ c = "# @H".data) ∧
    ((completedDefn L.poFeatureDefn (some g)).geomType ≠ wkbPoint →
      featureLines env (completedDefn L.poFeatureDefn (some g)) f g =
        (featureBlocks env L.poFeatureDefn f g).flatMap blockText ∧
      featureBlocks env L.poFeatureDefn f g ≠ [] ∧
      (∀ b ∈ featureBlocks env L.poFeatureDefn f g, ∀ c ∈ b.1,
        c = "# @D".data ++ encodeFields L.poFeatureDefn f ∨ c = "# @P".data ∨
          c = "# @H".data) ∧
      (featureBlocks env L.poFeatureDefn f g).map Prod.snd =
        (geometryBlocks env g).map Prod.snd ∧
      (featureBlocks env L.poFeatureDefn f g).tail = (geometryBlocks env g).tail) ∧
    ((completedDefn L.poFeatureDefn (some g)).geomType = wkbPoint →
      featureLines env (completedDefn L.poFeatureDefn (some g)) f g =
        (if L.poFeatureDefn.fields.length > 0 then
            ["# @D".data ++ encodeFields L.poFeatureDefn f] else []) ++
          ((geometryBlocks env g).flatMap blockText).tail) := by
  obtain ⟨w0, w1, _⟩ := ICreateFeature_wrote env L f g hU hg hq
  have w := w1.data hend
  refine ⟨w0, w, geometryBlocks_ne_nil env g, geometryBlocks_comments env g, ?_, ?_⟩
  · intro hk
    refine ⟨?_, ?_, ?_, ?_, ?_⟩
    · rw [featureLines_blocks env _ f g hk, featureBlocks_completedDefn]
    · unfold featureBlocks
      cases hb : geometryBlocks env g with
      | nil => exact absurd hb (geometryBlocks_ne_nil env g)
      | cons b bs => simp
    · intro b hb c hc
      have hgc := geometryBlocks_comments env g
      unfold featureBlocks at hb
      cases hgb : geometryBlocks env g with
      | nil => rw [hgb] at hb; cases hb
      | cons b0 bs =>
        rw [hgb] at hb hgc
        simp only [List.mem_cons] at hb
        rcases hb with hb | hb
        · rw [hb] at hc
          simp only [List.mem_append] at hc
          rcases hc with hc | hc
          · split at hc
            · simp only [List.mem_singleton] at hc
              exact Or.inl hc
            · cases hc
          · exact Or.inr (hgc b0 (List.mem_cons_self _ _) c hc)
        · exact Or.inr (hgc b (List.mem_cons_of_mem _ hb) c hc)
    · unfold featureBlocks
      cases hb : geometryBlocks env g with
      | nil => rfl
      | cons b bs => simp
    · unfold featureBlocks
      cases hb : geometryBlocks env g with
      | nil => rfl
      | cons b bs => rfl
  · intro hk
    have hk' : ((completedDefn L.poFeatureDefn (some g)).geomType != wkbPoint) = false := by
      rw [hk]; rfl
    rw [← geometryLines_blocks env g]
    simp only [featureLines, hk', encodeFields, completedDefn_fields, List.tail_cons]
    simp

set_option maxRecDepth 100000 in
/-- C26, as amended, at a polygon with a hole written first to a new layer with two
string fields: two blocks, the `# @D` line and `# @P` in the first, `# @H` in the
second; and at a multi line string whose first member is empty written to a layer of
kind point: the line string of the second member keeps its `>` line. -/
theorem C26_feature_blocks_witness :
    twoStringFields.bUpdate = true ∧ twoStringFields.m_fp.quota = none ∧
    twoStringFields.m_fp.pos = twoStringFields.m_fp.data.length ∧
    (completedDefn twoStringFields.poFeatureDefn (some (OGRGeometry.polygon
      ⟨[mkLine [(0, 0), (9, 0), (0, 0)], mkLine [(1, 1), (2, 1), (1, 1)]]⟩))).geomType ≠
      wkbPoint ∧
    (featureBlocks intEnv twoStringFields.poFeatureDefn
      (mkFeature (.polygon ⟨[mkLine [(0, 0), (9, 0), (0, 0)],
        mkLine [(1, 1), (2, 1), (1, 1)]]⟩) ["a", "b"])
      (.polygon ⟨[mkLine [(0, 0), (9, 0), (0, 0)], mkLine [(1, 1), (2, 1), (1, 1)]]⟩)).map
        Prod.snd =
      (geometryBlocks intEnv (.polygon ⟨[mkLine [(0, 0), (9, 0), (0, 0)],
        mkLine [(1, 1), (2, 1), (1, 1)]]⟩)).map Prod.snd ∧
    featureBlocks intEnv twoStringFields.poFeatureDefn
      (mkFeature (.polygon ⟨[mkLine [(0, 0), (9, 0), (0, 0)],
        mkLine [(1, 1), (2, 1), (1, 1)]]⟩) ["a", "b"])
      (.polygon ⟨[mkLine [(0, 0), (9, 0), (0, 0)], mkLine [(1, 1), (2, 1), (1, 1)]]⟩) =
      [(["# @Da|b".data, "# @P".data], ["0 0".data, "9 0".data, "0 0".data]),
       (["# @H".data], ["1 1".data, "2 1".data, "1 1".data])] ∧
    (ICreateFeature intEnv twoStringFields
      (mkFeature (.polygon ⟨[mkLine [(0, 0), (9, 0), (0, 0)],
        mkLine [(1, 1), (2, 1), (1, 1)]]⟩) ["a", "b"])).2.m_fp.data =
      ("# @GPOLYGON\n# @Ns|t\n# @Tstring|string\n# FEATURE_DATA\n" ++
        ">\n# @Da|b\n# @P\n0 0\n9 0\n0 0\n>\n# @H\n1 1\n2 1\n1 1\n").data ∧
    onePointWritten.poFeatureDefn.geomType = wkbPoint ∧
    geometryBlocks intEnv (.multiLineString [mkLine [], mkLine [(3, 4), (5, 6)]]) =
      [([], []), ([], ["3 4".data, "5 6".data])] ∧
    featureLines intEnv onePointWritten.poFeatureDefn
      (mkFeature (.multiLineString [mkLine [], mkLine [(3, 4), (5, 6)]]) [])
      (.multiLineString [mkLine [], mkLine [(3, 4), (5, 6)]]) =
      [">".data, "3 4".data, "5 6".data] ∧
    (ICreateFeature intEnv onePointWritten
      (mkFeature (.multiLineString [mkLine [], mkLine [(3, 4), (5, 6)]]) [])).2.m_fp.data =
      "# @GPOINT\n# FEATURE_DATA\n1 2\n>\n3 4\n5 6\n".data :=
  ⟨by decide, by decide, by decide, by decide,
    ((C26_feature_blocks intEnv twoStringFields
      (mkFeature (.polygon ⟨[mkLine [(0, 0), (9, 0), (0, 0)],
        mkLine [(1, 1), (2, 1), (1, 1)]]⟩) ["a", "b"])
      (.polygon ⟨[mkLine [(0, 0), (9, 0), (0, 0)], mkLine [(1, 1), (2, 1), (1, 1)]]⟩)
      (by decide) rfl (by decide) (by decide)).2.2.2.2.1 (by decide)).2.2.2.1,
    by decide, by decide, by decide, by decide, by decide, by decide⟩

set_option maxRecDepth 100000 in
/-- C26 fails on a layer of kind point and for a multipoint. A line string written to a
layer whose kind is point yields its two vertex lines and no `>` line. A multipoint of
two points written to a new layer yields, after the header, one `>` line and the two
vertex lines, so that a vertex line stands between the `>` line and the second point. -/
theorem C26_counterexample :
    onePointWritten.bUpdate = true ∧ onePointWritten.poFeatureDefn.geomType = wkbPoint ∧
    (ICreateFeature intEnv onePointWritten
      (mkFeature (.lineString (mkLine [(0, 0), (1, 1)])) [])).1 = OGRERR_NONE ∧
    writtenSince onePointWritten (ICreateFeature intEnv onePointWritten
      (mkFeature (.lineString (mkLine [(0, 0), (1, 1)])) [])).2 =
      [(.vertexLine, "0 0\n".data), (.vertexLine, "1 1\n".data)] ∧
    (ICreateFeature intEnv (openLayer "" true)
      (mkFeature (.multiPoint [mkPoint 1 2, mkPoint 3 4]) [])).1 = OGRERR_NONE ∧
    writtenSince (openLayer "" true) (ICreateFeature intEnv (openLayer "" true)
      (mkFeature (.multiPoint [mkPoint 1 2, mkPoint 3 4]) [])).2 =
      [(.geomMarker, "# @GMULTIPOINT\n".data), (.featureData, "# FEATURE_DATA\n".data),
       (.featureAngle, ">\n".data), (.vertexLine, "1 2\n".data),
       (.vertexLine, "3 4\n".data)] := by
  decide


/-! ## Reading again after `ResetReading`, whatever the header says of the kind -/

/-- The loop over the header lines leaves the device as it was and the cursor within the
file. -/
theorem headerLoop_handle {α : Type} :
    ∀ (fuel : Nat) (L : OGRGmtLayer α) (h : HeaderVars) (n : Nat) (L1 : OGRGmtLayer α)
      (h1 : HeaderVars), headerLoop fuel L h n = some (L1, h1) →
      L1.m_fp.quota = L.m_fp.quota ∧
      L1.m_fp.pos ≤ max L.m_fp.pos L.m_fp.data.length := by
  intro fuel
  induction fuel with
  | zero =>
    intro L h n L1 h1 e
    simp [headerLoop] at e
  | succ k ih =>
    intro L h n L1 h1 e
    obtain ⟨f1, _, _, _, f5, _, _⟩ := ReadLine_frame L
    simp only [headerLoop] at e
    by_cases hc : ((ReadLine L).1 && charAt (ReadLine L).2.osLine 0 == '#') = true
    · rw [if_pos hc] at e
      by_cases hs : strstr (ReadLine L).2.osLine "FEATURE_DATA".data = true
      · rw [if_pos hs] at e
        simp only [Option.some.injEq, Prod.mk.injEq] at e
        have key : ∀ Y : OGRGmtLayer α, Y.m_fp = (ReadLine L).2.m_fp →
            (ReadLine Y).2.m_fp.quota = L.m_fp.quota ∧
              (ReadLine Y).2.m_fp.pos ≤ max L.m_fp.pos L.m_fp.data.length := by
          intro Y hY
          obtain ⟨g1, _, _, _, g5, _, _⟩ := ReadLine_frame Y
          rw [hY] at g5
          rw [f1.data] at g5
          refine ⟨by rw [g1.quota, hY]; exact f1.quota, ?_⟩
          omega
        rw [← e.1]
        exact key _ rfl
      · rw [if_neg hs] at e
        have step : ∀ X : OGRGmtLayer α, X.m_fp = (ReadLine L).2.m_fp →
            ∀ hx nx, headerLoop k X hx nx = some (L1, h1) →
            L1.m_fp.quota = L.m_fp.quota ∧
              L1.m_fp.pos ≤ max L.m_fp.pos L.m_fp.data.length := by
          intro X ex hx nx e2
          obtain ⟨i1, i2⟩ := ih X hx nx L1 h1 e2
          rw [ex] at i1 i2
          rw [f1.data] at i2
          exact ⟨i1.trans f1.quota, by omega⟩
        split at e
        · exact step _ (by rfl) _ _ e
        · exact step _ (by rfl) _ _ e
    · rw [if_neg hc] at e
      simp only [Option.some.injEq, Prod.mk.injEq] at e
      rw [← e.1]
      exact ⟨f1.quota, f5⟩

/-- The layer the constructor yields in update mode for a file that holds nothing but
header lines without the sentinel: it writes to the device of the file, its cursor is at
the end of the file, its header is not complete and its kind is the one the last `G` key
of the header lines names. -/
theorem new_update_header_only {α : Type} (env : Env α) (pszFilename : Str)
    (poSRS : Option OGRSpatialReference) (hdr : List Str) (Lw : OGRGmtLayer α)
    (hname : STARTS_WITH pszFilename "/vsistdout".data = false)
    (hhdr : ∀ l ∈ hdr, inHeaderRun l = true ∧ '\n' ∉ l ∧ Char.ofNat 0 ∉ l)
    (hnew : OGRGmtLayer.new env pszFilename (some ⟨unlines hdr, 0, none, []⟩) poSRS true =
      some Lw) :
    Lw.bUpdate = true ∧ Lw.m_fp.quota = none ∧ Lw.m_fp.data = unlines (hdr ++ []) ∧
    Lw.m_fp.pos = Lw.m_fp.data.length ∧ Lw.bHeaderComplete = false ∧
    Lw.poFeatureDefn.geomType = headerGeomType ((lastValueOf 'G'
      (hdr.flatMap (fun l => (lineKeyedValues l).getD []))).getD []) wkbUnknown := by
  have hfl : fileLines (unlines hdr) = hdr :=
    fileLines_unlines hdr (fun l hl => ⟨(hhdr l hl).2.1, (hhdr l hl).2.2⟩)
  have hrun : headerRun hdr = hdr := by
    unfold headerRun
    rw [List.takeWhile_eq_self_iff]
    exact fun l hl => (hhdr l hl).1
  have hdrop : hdr.dropWhile inHeaderRun = [] := by
    rw [List.dropWhile_eq_nil_iff]
    exact fun l hl => (hhdr l hl).1
  have hbody : bodyLines hdr = [] := by
    unfold bodyLines
    rw [hdrop]
    rfl
  obtain ⟨L, e, hcur, a2, _, _, _, _, a7, a8⟩ := new_lines env pszFilename
    ⟨unlines hdr, 0, none, []⟩ poSRS true hname
  rw [hnew] at e
  simp only [Option.some.injEq] at e
  subst e
  obtain ⟨L', e', b⟩ := new_headerComplete env pszFilename ⟨unlines hdr, 0, none, []⟩ poSRS true
    hname
  rw [hnew] at e'
  simp only [Option.some.injEq] at e'
  subst e'
  have hdata : Lw.m_fp.data = unlines hdr := a8
  -- the handle after the header loop
  obtain ⟨L1, hv, e1, e2, _⟩ := new_eq_applyHeader env pszFilename
    ⟨unlines hdr, 0, none, []⟩ poSRS true hname
  rw [hnew] at e2
  simp only [Option.some.injEq] at e2
  have hfp : Lw.m_fp = L1.m_fp := by rw [e2]; rfl
  have e1' : headerLoop ((unlines hdr).length + 1)
      { initialLayer env pszFilename ⟨unlines hdr, 0, none, []⟩ true with
        m_fp := VSIFSeekL ⟨unlines hdr, 0, none, []⟩ 0 }
      ⟨[], [], [], [], [], [], []⟩ 0 = some (L1, hv) := e1
  obtain ⟨q1, q2⟩ := headerLoop_handle _ _ _ _ _ _ e1'
  have hq : Lw.m_fp.quota = none := by rw [hfp, q1]; rfl
  have hle : Lw.m_fp.pos ≤ Lw.m_fp.data.length := by
    rw [hdata, hfp]
    have : L1.m_fp.pos ≤ max 0 (unlines hdr).length := q2
    simpa using this
  have hat : AtLines Lw.m_fp (bodyLines (fileLines (unlines hdr))).tail := hcur.2.2
  rw [hfl, hbody] at hat
  have hge : Lw.m_fp.data.length ≤ Lw.m_fp.pos := by
    unfold AtLines fileLines at hat
    have hrec : fileRecords (Lw.m_fp.data.drop Lw.m_fp.pos) = [] := by
      simpa using hat
    cases hd : List.drop Lw.m_fp.pos Lw.m_fp.data with
    | nil =>
      have := congrArg List.length hd
      simp at this
      omega
    | cons c cs => rw [hd, fileRecords_cons] at hrec; cases hrec
  refine ⟨a7, hq, by rw [hdata, List.append_nil], by omega, ?_, ?_⟩
  · rw [b]
    have : headerHasSentinel (unlines hdr) = false := by
      unfold headerHasSentinel
      rw [hfl, hdrop]
      rfl
    show (headerHasSentinel (unlines hdr) || !true) = false
    rw [this]
    rfl
  · rw [a2]
    show headerGeomType (headerVarsOfFile (unlines hdr)).osGeometryType wkbUnknown = _
    rw [(headerVarsOfFile_keys (unlines hdr)).2.2.1]
    unfold headerKeyedValues
    rw [hfl, hrun]

end Gmt
